import Mathlib

/-!
# Overload disambiguation (`frontend/lib/resolution/disambiguation.cpp`)

A shallow embedding of the disambiguation engine.  Pointers that may be null
are `Option`s; a failed `CHPL_ASSERT` or a null dereference aborts the
resolution request and is the result `none`.  Vectors are lists, C `int`s are
`Int`s.  Everything the engine consumes from other parts of the compiler (the
conversion oracle, scope lookup, parsing queries) is a field of `Context`.
-/

set_option autoImplicit false

namespace Chpl

/-! ## Data model -/

/-- Identity of a uAST node (`ID`). -/
abbrev ID := Nat

/-- Interned string (`UniqueString`). -/
abbrev UniqueString := String

/-- The classes of `types::Type` that the disambiguator tells apart. -/
inductive TypeTag where
  | BoolType
  | EnumType
  | IntType
  | UintType
  | RealType
  | ImagType
  | ComplexType
  | AnyType
  | OtherType
  deriving DecidableEq, Repr

/-- A `types::Type`: its class, the bit width and default-width flag of a
primitive type, and an identity that tells apart two types of one class. -/
structure Ty where
  tag : TypeTag
  width : Int
  defaultWidth : Bool
  uid : Nat
  deriving DecidableEq, Repr

namespace Ty

def isBoolType (t : Ty) : Bool := t.tag == TypeTag.BoolType
def isEnumType (t : Ty) : Bool := t.tag == TypeTag.EnumType
def isIntType (t : Ty) : Bool := t.tag == TypeTag.IntType
def isUintType (t : Ty) : Bool := t.tag == TypeTag.UintType
def isRealType (t : Ty) : Bool := t.tag == TypeTag.RealType
def isImagType (t : Ty) : Bool := t.tag == TypeTag.ImagType
def isComplexType (t : Ty) : Bool := t.tag == TypeTag.ComplexType
def isAnyType (t : Ty) : Bool := t.tag == TypeTag.AnyType

/-- Whether `toPrimitiveType()` is not null: bool, int, uint, real, imag and complex
are the primitive types. -/
def isPrimitiveType (t : Ty) : Bool :=
  t.isBoolType || t.isIntType || t.isUintType || t.isRealType ||
  t.isImagType || t.isComplexType

end Ty

/-- The enum `QualifiedType::Kind`. -/
inductive Kind where
  | UNKNOWN
  | DEFAULT_INTENT
  | CONST_INTENT
  | VAR
  | CONST_VAR
  | CONST_REF
  | REF
  | IN
  | CONST_IN
  | OUT
  | INOUT
  | PARAM
  | TYPE
  | INDEX
  | FUNCTION
  | PARENLESS_FUNCTION
  | MODULE
  deriving DecidableEq, Repr

/-- A `QualifiedType`: kind, type pointer and param pointer (each pointer may
be null).  A param value is identified by an integer. -/
structure QualifiedType where
  kind : Kind
  type : Option Ty
  param : Option Int
  deriving DecidableEq, Repr

namespace QualifiedType

/-- The default-constructed `QualifiedType`. -/
def empty : QualifiedType := { kind := Kind.UNKNOWN, type := none, param := none }

def hasParamPtr (q : QualifiedType) : Bool := q.param.isSome
def isParam (q : QualifiedType) : Bool := q.kind == Kind.PARAM

end QualifiedType

/-- The class `CanPassResult`, the answer of the conversion oracle. -/
structure CanPassResult where
  passes : Bool
  promotes : Bool
  convertsWithParamNarrowing : Bool
  deriving DecidableEq, Repr

/-- The enum `Function::Kind`. -/
inductive FunctionKind where
  | PROC
  | ITER
  | OPERATOR
  | LAMBDA
  deriving DecidableEq, Repr

/-- The enum `Function::ReturnIntent`. -/
inductive ReturnIntent where
  | DEFAULT_RETURN_INTENT
  | OUT
  | CONST
  | CONST_REF
  | REF
  | PARAM
  | TYPE
  deriving DecidableEq, Repr

/-- The enum `Type::Genericity`. -/
inductive Genericity where
  | CONCRETE
  | GENERIC
  | GENERIC_WITH_DEFAULTS
  | MAYBE_GENERIC
  deriving DecidableEq, Repr

/-- What the disambiguator reads of an `UntypedFnSignature`. -/
structure UntypedFnSignature where
  name : UniqueString
  isMethod : Bool
  kind : FunctionKind
  deriving DecidableEq, Repr

/-- The signature a `TypedFnSignature` was instantiated from: its formal types
and whether it is itself an instantiation. -/
structure InitialSignature where
  formalTypes : List QualifiedType
  isInstantiation : Bool
  deriving DecidableEq, Repr

/-- What the disambiguator reads of a `TypedFnSignature`. -/
structure TypedFnSignature where
  id : ID
  untyped : UntypedFnSignature
  instantiatedFrom : Option InitialSignature
  deriving DecidableEq, Repr

/-- A `FormalActual`: one formal with the actual passed to it.  `formalName`
is the name of `formal()->toNamedDecl()`, if the formal is a named
declaration. -/
structure FormalActual where
  formalType : QualifiedType
  actualType : QualifiedType
  formalIdx : Nat
  formalInstantiated : Bool
  formalName : Option UniqueString
  deriving DecidableEq, Repr

/-- A `FormalActualMap`, read through `byActualIdx`: entry `k` is the
formal/actual pair of actual `k`, or null. -/
structure FormalActualMap where
  entries : List (Option FormalActual)
  deriving DecidableEq, Repr

/-- The method `FormalActualMap::byActualIdx`: null outside the range too. -/
def FormalActualMap.byActualIdx (m : FormalActualMap) (actualIdx : Nat) :
    Option FormalActual :=
  match m.entries[actualIdx]? with
  | some e => e
  | none => none

/-- What the disambiguator reads of a `CallInfo`. -/
structure CallInfo where
  name : UniqueString
  isMethodCall : Bool
  numActuals : Nat
  deriving DecidableEq, Repr

/-- A `Scope` with its chain of parent scopes, which ends at a scope without
a parent. -/
inductive Scope where
  | root (id : ID) (containsUseImport : Bool)
  | child (id : ID) (containsUseImport : Bool) (parent : Scope)
  deriving DecidableEq, Repr

namespace Scope

def id : Scope → ID
  | root i _ => i
  | child i _ _ => i

def containsUseImport : Scope → Bool
  | root _ b => b
  | child _ b _ => b

def parentScope : Scope → Option Scope
  | root _ _ => none
  | child _ _ p => some p

end Scope

/-- A `PoiScope` chain: the `inScope()` of each point of instantiation, from
the innermost (`inFnPoi()` is the tail). -/
abbrev PoiScope := List Scope

/-- The `LookupConfig` bits the disambiguator sets. -/
structure LookupConfig where
  lookupDecls : Bool
  lookupImportAndUse : Bool
  lookupMethods : Bool
  skipShadowScopes : Bool
  skipPrivateUseImport : Bool
  deriving DecidableEq, Repr

/-- Modelled from the spec: the `MostSpecificCandidate` record, declared
outside the given sources: the chosen function declaration with its
formal/actual map for the call. -/
structure MostSpecificCandidate where
  fn : TypedFnSignature
  formalActualMap : FormalActualMap
  deriving DecidableEq, Repr

/-- Modelled from the spec: the `MostSpecificCandidates` record, declared
outside the given sources, "a small record holding up to three slots
(value-returning winner, const-ref winner, ref winner) or a single
ambiguous/empty marker".  The result of `getOnly` is kept apart in `only`. -/
structure MostSpecificCandidates where
  only : Option MostSpecificCandidate
  bestRef : Option MostSpecificCandidate
  bestConstRef : Option MostSpecificCandidate
  bestValue : Option MostSpecificCandidate
  emptyDueToAmbiguity : Bool
  deriving DecidableEq, Repr

namespace MostSpecificCandidates

def getEmpty : MostSpecificCandidates :=
  { only := none, bestRef := none, bestConstRef := none, bestValue := none,
    emptyDueToAmbiguity := false }

def getOnly (c : MostSpecificCandidate) : MostSpecificCandidates :=
  { getEmpty with only := some c }

def getAmbiguous : MostSpecificCandidates :=
  { getEmpty with emptyDueToAmbiguity := true }

def setBestRef (r : MostSpecificCandidates) (c : MostSpecificCandidate) :
    MostSpecificCandidates := { r with bestRef := some c }

def setBestConstRef (r : MostSpecificCandidates) (c : MostSpecificCandidate) :
    MostSpecificCandidates := { r with bestConstRef := some c }

def setBestValue (r : MostSpecificCandidates) (c : MostSpecificCandidate) :
    MostSpecificCandidates := { r with bestValue := some c }

/-- The candidates held in any slot of the record. -/
def slots (r : MostSpecificCandidates) : List MostSpecificCandidate :=
  r.only.toList ++ r.bestRef.toList ++ r.bestConstRef.toList ++ r.bestValue.toList

end MostSpecificCandidates

/-- The compiler context: the queries and oracles the disambiguator calls
that live outside `disambiguation.cpp`. -/
structure Context where
  /-- Conversion oracle `canPass(context, actualType, formalType)`. -/
  canPass : QualifiedType → QualifiedType → CanPassResult
  /-- The query `lookupNameInScope(context, scope, {}, name, config)`. -/
  lookupNameInScope : Scope → UniqueString → LookupConfig → List (List ID)
  /-- The construction `FormalActualMap(fn, call)`. -/
  formalActualMap : TypedFnSignature → CallInfo → FormalActualMap
  /-- The query `parsing::idToFnReturnIntent`. -/
  idToFnReturnIntent : ID → ReturnIntent
  /-- The query `parsing::idIsFunctionWithWhere`. -/
  idIsFunctionWithWhere : ID → Bool
  /-- The query `parsing::idIsInInternalModule`. -/
  idIsInInternalModule : ID → Bool
  /-- The query `getTypeGenericity(context, qualifiedType)`. -/
  getTypeGenericity : QualifiedType → Genericity

/-- Modelled from the spec: `MostSpecificCandidate::fromTypedFnSignature(context,
fn, faMap)`, declared outside the given sources, pairs the function with its
formal/actual map. -/
def MostSpecificCandidate.fromTypedFnSignature (_context : Context)
    (fn : TypedFnSignature) (faMap : FormalActualMap) : MostSpecificCandidate :=
  { fn := fn, formalActualMap := faMap }

/-- Modelled from the spec: `MostSpecificCandidate::fromTypedFnSignature(context,
fn, call)`, declared outside the given sources, builds the formal/actual map
of `fn` for `call` ("built once per candidate per call") and pairs the
function with it. -/
def MostSpecificCandidate.fromTypedFnSignatureCall (context : Context)
    (fn : TypedFnSignature) (call : CallInfo) : MostSpecificCandidate :=
  MostSpecificCandidate.fromTypedFnSignature context fn (context.formalActualMap fn call)

/-- The `DisambiguationCandidate` struct. -/
structure DisambiguationCandidate where
  fn : TypedFnSignature
  forwardingTo : QualifiedType
  formalActualMap : FormalActualMap
  idx : Nat
  visibilityDistance : Int
  deriving DecidableEq, Repr

/-- The constructor of `DisambiguationCandidate`. -/
def DisambiguationCandidate.new (context : Context) (fn : TypedFnSignature)
    (forwardingTo : QualifiedType) (call : CallInfo) (idx : Nat) :
    DisambiguationCandidate :=
  { fn := fn, forwardingTo := forwardingTo,
    formalActualMap := context.formalActualMap fn call, idx := idx,
    visibilityDistance := -1 }

def DisambiguationCandidate.toMostSpecificCandidate (c : DisambiguationCandidate)
    (context : Context) : MostSpecificCandidate :=
  MostSpecificCandidate.fromTypedFnSignature context c.fn c.formalActualMap

/-- The `DisambiguationContext` struct. -/
structure DisambiguationContext where
  context : Context
  call : CallInfo
  callInScope : Scope
  callInPoiScope : PoiScope
  explain : Bool
  isMethodCall : Bool
  useOldVisibility : Bool

/-- The constructor of `DisambiguationContext`, with its two workarounds that
select the old visibility order. -/
def DisambiguationContext.new (context : Context) (call : CallInfo)
    (callInScope : Scope) (callInPoiScope : PoiScope) (explain : Bool) :
    DisambiguationContext :=
  { context := context, call := call, callInScope := callInScope,
    callInPoiScope := callInPoiScope, explain := explain,
    isMethodCall := call.isMethodCall,
    useOldVisibility :=
      context.idIsInInternalModule callInScope.id || call.name == "_getIterator" }

/-- The `DisambiguationState` struct. -/
structure DisambiguationState where
  fn1NonParamArgsPreferred : Bool := false
  fn2NonParamArgsPreferred : Bool := false
  fn1ParamArgsPreferred : Bool := false
  fn2ParamArgsPreferred : Bool := false
  fn1MoreSpecific : Bool := false
  fn2MoreSpecific : Bool := false
  fn1Promotes : Bool := false
  fn2Promotes : Bool := false
  fn1WeakPreferred : Bool := false
  fn2WeakPreferred : Bool := false
  fn1WeakerPreferred : Bool := false
  fn2WeakerPreferred : Bool := false
  fn1WeakestPreferred : Bool := false
  fn2WeakestPreferred : Bool := false
  deriving DecidableEq, Repr

/-- The vector type `CandidatesVec`. -/
abbrev CandidatesVec := List DisambiguationCandidate

/-- The enum `MoreVisibleResult`. -/
inductive MoreVisibleResult where
  | FOUND_F1_FIRST
  | FOUND_F2_FIRST
  | FOUND_BOTH
  | FOUND_NEITHER
  deriving DecidableEq, Repr

/-! ## Numeric classification helpers -/

/-- The enum `numeric_type_t`. -/
inductive numeric_type_t where
  | NUMERIC_TYPE_NON_NUMERIC
  | NUMERIC_TYPE_BOOL
  | NUMERIC_TYPE_ENUM
  | NUMERIC_TYPE_INT_UINT
  | NUMERIC_TYPE_REAL
  | NUMERIC_TYPE_IMAG
  | NUMERIC_TYPE_COMPLEX
  deriving DecidableEq, Repr

open numeric_type_t in
def classifyNumericType (t : Ty) : numeric_type_t :=
  if t.isBoolType then NUMERIC_TYPE_BOOL
  else if t.isEnumType then NUMERIC_TYPE_ENUM
  else if t.isIntType then NUMERIC_TYPE_INT_UINT
  else if t.isUintType then NUMERIC_TYPE_INT_UINT
  else if t.isRealType then NUMERIC_TYPE_REAL
  else if t.isImagType then NUMERIC_TYPE_IMAG
  else if t.isComplexType then NUMERIC_TYPE_COMPLEX
  else NUMERIC_TYPE_NON_NUMERIC

def isDefaultInt (t : Ty) : Bool := if t.isIntType then t.defaultWidth else false
def isDefaultUint (t : Ty) : Bool := if t.isUintType then t.defaultWidth else false
def isDefaultImag (t : Ty) : Bool := if t.isImagType then t.defaultWidth else false
def isDefaultReal (t : Ty) : Bool := if t.isRealType then t.defaultWidth else false
def isDefaultComplex (t : Ty) : Bool := if t.isComplexType then t.defaultWidth else false

def bitwidth (t : Ty) : Int := if t.isPrimitiveType then t.width else 0

/-- Returns -1 if the type is not numeric, 0 for a default numeric type and
the width otherwise; `none` when the type pointer is null. -/
def classifyNumericWidth (qt : QualifiedType) : Option Int :=
  match qt.type with
  | none => none
  | some t =>
    if isDefaultInt t || isDefaultUint t || isDefaultReal t || isDefaultImag t ||
        isDefaultComplex t then some 0
    else if t.isBoolType then some 0
    else if t.isIntType || t.isUintType || t.isRealType || t.isImagType then
      some (bitwidth t)
    else if t.isComplexType then some (Int.tdiv (bitwidth t) 2)
    else some (-1)

/-- Returns 0 if there is no preference, 1 if `f1Qt` is better and 2 if
`f2Qt` is better. -/
def prefersNumericCoercion (f1Qt f2Qt actualQt : QualifiedType) : Option Int :=
  match classifyNumericWidth actualQt, classifyNumericWidth f1Qt,
      classifyNumericWidth f2Qt, actualQt.type, f1Qt.type, f2Qt.type with
  | some acWidth, some f1Width, some f2Width, some actualType, some f1Type, some f2Type =>
    if acWidth < 0 ∨ f1Width < 0 ∨ f2Width < 0 then some 0
    else
      let acKind := classifyNumericType actualType
      let f1Kind := classifyNumericType f1Type
      let f2Kind := classifyNumericType f2Type
      if acKind = f1Kind ∧ acKind ≠ f2Kind then some 1
      else if acKind ≠ f1Kind ∧ acKind = f2Kind then some 2
      else if acWidth = f1Width ∧ acWidth ≠ f2Width then some 1
      else if acWidth ≠ f1Width ∧ acWidth = f2Width then some 2
      else some 0
  | _, _, _, _, _, _ => none

open numeric_type_t in
/-- Returns true if passing the actual to `f1Qt` is preferred over passing it
to `f2Qt`; `none` when a null type pointer is dereferenced. -/
def prefersConvToOtherNumeric (actualQt f1Qt f2Qt : QualifiedType) : Option Bool :=
  if actualQt.type ≠ f1Qt.type ∧ actualQt.type ≠ f2Qt.type then
    match actualQt.type, f1Qt.type, f2Qt.type with
    | some actualType, some f1Type, some f2Type =>
      let aT := classifyNumericType actualType
      let f1T := classifyNumericType f1Type
      let f2T := classifyNumericType f2Type
      let aBoolEnum : Bool := aT = NUMERIC_TYPE_BOOL ∨ aT = NUMERIC_TYPE_ENUM
      if aT = f1T ∧ aT ≠ f2T then some true
      else if aBoolEnum ∧ f1Type.isIntType ∧ f2Type.isUintType then some true
      else if aBoolEnum ∧ (isDefaultInt f1Type ∨ isDefaultUint f1Type) ∧
          f2T = NUMERIC_TYPE_INT_UINT ∧
          ¬ (isDefaultInt f2Type ∨ isDefaultUint f2Type) then some true
      else if (aBoolEnum ∨ aT = NUMERIC_TYPE_INT_UINT) ∧ isDefaultReal f1Type ∧
          (f2T = NUMERIC_TYPE_REAL ∨ f2T = NUMERIC_TYPE_COMPLEX) ∧
          ¬ isDefaultReal f2Type then some true
      else if (aBoolEnum ∨ aT = NUMERIC_TYPE_INT_UINT) ∧ isDefaultComplex f1Type ∧
          f2T = NUMERIC_TYPE_COMPLEX ∧ ¬ isDefaultComplex f2Type then some true
      else if (aT = NUMERIC_TYPE_REAL ∨ aT = NUMERIC_TYPE_IMAG) ∧
          f1T = NUMERIC_TYPE_COMPLEX ∧ f2T = NUMERIC_TYPE_COMPLEX ∧
          bitwidth actualType * 2 = bitwidth f1Type ∧
          bitwidth actualType * 2 ≠ bitwidth f2Type then some true
      else some false
    | _, _, _ => none
  else some false

/-- The body is a stub that reports "scalar type matching" as unimplemented
and hands the actual type back. -/
def computeActualScalarType (_context : Context) (actualType : QualifiedType) :
    QualifiedType :=
  actualType

def isNumericParamDefaultType (type : QualifiedType) : Bool :=
  match type.type with
  | some typePtr => if typePtr.isPrimitiveType then typePtr.defaultWidth else false
  | none => false

def moreSpecificCanDispatch (dctx : DisambiguationContext)
    (actualType formalType : QualifiedType) : Bool :=
  (dctx.context.canPass actualType formalType).passes

/-! ## Per-argument comparison -/

/-- Computes whether the formal promotes and whether it narrows a param, the
two out-parameters; `none` when the assertion `result.passes()` fails. -/
def testArgMapHelper (dctx : DisambiguationContext) (fa : FormalActual)
    (forwardingTo : QualifiedType) (_ds : DisambiguationState) (_fnNum : Nat) :
    Option (Bool × Bool) :=
  let actualType := if forwardingTo.type.isSome then forwardingTo else fa.actualType
  let result := dctx.context.canPass actualType fa.formalType
  if result.passes then some (result.promotes, result.convertsWithParamNarrowing)
  else none

/-- Is the formal an instantiation of the any-type?  `none` when the asserted
`initial->instantiatedFrom() == nullptr` fails or the formal index is outside
the initial signature. -/
def isFormalInstantiatedAny (candidate : DisambiguationCandidate) (fa : FormalActual) :
    Option Bool :=
  match candidate.fn.instantiatedFrom with
  | some initial =>
    if initial.isInstantiation then none
    else
      match initial.formalTypes[fa.formalIdx]? with
      | none => none
      | some qt =>
        match qt.type with
        | some t => some t.isAnyType
        | none => some false
  | none => some false

/-- The body is a stub: `return false`. -/
def isFormalPartiallyGeneric (_candidate : DisambiguationCandidate) (_fa : FormalActual) :
    Bool :=
  false

/-- Returns 1 if fn1 is preferred and 2 if fn2 is preferred.  The third
assertion reads `actualType()` of both entries, so the call aborts when either
is null; with both present, `fa1 == nullptr` is false and the assertion
`fa2 == nullptr` of the else branch fails. -/
def testOpArgMapping (_dctx : DisambiguationContext)
    (candidate1 candidate2 : DisambiguationCandidate) (actualIdx : Nat)
    (_ds : DisambiguationState) : Option Int :=
  let fa1 := candidate1.formalActualMap.byActualIdx actualIdx
  let fa2 := candidate2.formalActualMap.byActualIdx actualIdx
  if (candidate1.fn.untyped.kind == FunctionKind.OPERATOR) != fa1.isNone then none
  else if (candidate2.fn.untyped.kind == FunctionKind.OPERATOR) != fa2.isNone then none
  else
    match fa1, fa2 with
    | some a1, some a2 =>
      if a1.actualType ≠ a2.actualType then none
      else none
    | _, _ => none

/-- The decision chain of the int-returning `testArgMapping`, entered once
the formal types, the actual type, the instantiation flags and the promotion
and narrowing flags of the two formals have been computed. -/
def testArgMapping.verdict (dctx : DisambiguationContext)
    (f1Type f2Type actualType actualScalarT : QualifiedType)
    (f1Instantiated f2Instantiated f1InstantiatedFromAny f2InstantiatedFromAny
      f1PartiallyGeneric f2PartiallyGeneric f1Param f2Param actualParam
      formal1Promotes formal2Promotes formal1Narrows formal2Narrows : Bool) : Option Int :=
  if ¬ formal1Promotes ∧ formal2Promotes then some 1
  else if formal1Promotes ∧ ¬ formal2Promotes then some 2
  else if f1Type = f2Type ∧ ¬ f1Instantiated ∧ f2Instantiated then some 1
  else if f1Type = f2Type ∧ f1Instantiated ∧ ¬ f2Instantiated then some 2
  else if f1Type = f2Type ∧ ¬ f1InstantiatedFromAny ∧ f2InstantiatedFromAny then some 1
  else if f1Type = f2Type ∧ f1InstantiatedFromAny ∧ ¬ f2InstantiatedFromAny then some 2
  else if f1Type = f2Type ∧ f1PartiallyGeneric ∧ f2Instantiated ∧
      ¬ f2PartiallyGeneric then some 1
  else if f1Type = f2Type ∧ f1Instantiated ∧ ¬ f1PartiallyGeneric ∧
      f2PartiallyGeneric then some 2
  else if f1Param ∧ ¬ f2Param then some 1
  else if ¬ f1Param ∧ f2Param then some 2
  else if f1Type ≠ f2Type then
    if actualParam ∧ ¬ formal1Narrows ∧ formal2Narrows then some 1
    else if actualParam ∧ formal1Narrows ∧ ¬ formal2Narrows then some 2
    else
      match prefersNumericCoercion f1Type f2Type actualScalarT with
      | none => none
      | some p =>
      if p = 1 then some 1
      else if p = 2 then some 2
      else if actualType = f1Type ∧ actualType ≠ f2Type then some 1
      else if actualType = f2Type ∧ actualType ≠ f1Type then some 2
      else if actualScalarT = f1Type ∧ actualScalarT ≠ f2Type then some 1
      else if actualScalarT = f2Type ∧ actualScalarT ≠ f1Type then some 2
      else
        let fn1Dispatches := moreSpecificCanDispatch dctx f1Type f2Type
        let fn2Dispatches := moreSpecificCanDispatch dctx f2Type f1Type
        if fn1Dispatches ∧ ¬ fn2Dispatches then some 1
        else if ¬ fn1Dispatches ∧ fn2Dispatches then some 2
        else some (-1)
  else some 0

/-- The int-returning `testArgMapping`, used by the argument filter.  Returns
-1 if the two formals are incomparable, 0 if they have the same level of
preference, 1 if fn1 is preferred and 2 if fn2 is preferred; `none` when an
assertion fails or a null pointer is dereferenced. -/
def testArgMapping (dctx : DisambiguationContext)
    (candidate1 candidate2 : DisambiguationCandidate) (actualIdx : Nat)
    (ds : DisambiguationState) : Option Int :=
  match candidate1.formalActualMap.byActualIdx actualIdx,
      candidate2.formalActualMap.byActualIdx actualIdx with
  | some fa1, some fa2 =>
    let f1Type := fa1.formalType
    let f2Type := fa2.formalType
    let actualType := fa1.actualType
    if actualType ≠ fa2.actualType then none
    else if f1Type.kind = Kind.OUT ∨ f2Type.kind = Kind.OUT then some (-1)
    else
      let f1Param := f1Type.hasParamPtr
      let f2Param := f2Type.hasParamPtr
      let f1Instantiated := fa1.formalInstantiated
      let f2Instantiated := fa2.formalInstantiated
      match (if f1Instantiated then isFormalInstantiatedAny candidate1 fa1 else some false) with
      | none => none
      | some f1InstantiatedFromAny =>
      let f1PartiallyGeneric :=
        if f1Instantiated then isFormalPartiallyGeneric candidate1 fa1 else false
      match (if f2Instantiated then isFormalInstantiatedAny candidate2 fa2 else some false) with
      | none => none
      | some f2InstantiatedFromAny =>
      let f2PartiallyGeneric :=
        if f2Instantiated then isFormalPartiallyGeneric candidate2 fa2 else false
      let actualParam := actualType.isParam
      match testArgMapHelper dctx fa1 candidate1.forwardingTo ds 1 with
      | none => none
      | some formal1 =>
      match testArgMapHelper dctx fa2 candidate2.forwardingTo ds 2 with
      | none => none
      | some formal2 =>
      let formal1Promotes := formal1.1
      let formal1Narrows := formal1.2
      let formal2Promotes := formal2.1
      let formal2Narrows := formal2.2
      let actualScalarT :=
        if formal1Promotes ∨ formal2Promotes then
          computeActualScalarType dctx.context actualType
        else actualType
      testArgMapping.verdict dctx f1Type f2Type actualType actualScalarT
        f1Instantiated f2Instantiated f1InstantiatedFromAny f2InstantiatedFromAny
        f1PartiallyGeneric f2PartiallyGeneric f1Param f2Param actualParam
        formal1Promotes formal2Promotes formal1Narrows formal2Narrows
  | _, _ => testOpArgMapping dctx candidate1 candidate2 actualIdx ds

/-- The enum `arg_preference_t` of the state-updating `testArgMapping`. -/
inductive arg_preference_t where
  | NONE
  | WEAKEST
  | WEAKER
  | WEAK
  | STRONG
  deriving DecidableEq, Repr

/-- The tail of the state-updating `testArgMapping`: sets the flag of the
level of `prefer1`, or else of `prefer2`. -/
def recordPreference (ds : DisambiguationState) (prefer1 prefer2 : arg_preference_t) :
    DisambiguationState :=
  if prefer1 ≠ arg_preference_t.NONE then
    match prefer1 with
    | arg_preference_t.STRONG => { ds with fn1MoreSpecific := true }
    | arg_preference_t.WEAK => { ds with fn1WeakPreferred := true }
    | arg_preference_t.WEAKER => { ds with fn1WeakerPreferred := true }
    | arg_preference_t.WEAKEST => { ds with fn1WeakestPreferred := true }
    | arg_preference_t.NONE => ds
  else if prefer2 ≠ arg_preference_t.NONE then
    match prefer2 with
    | arg_preference_t.STRONG => { ds with fn2MoreSpecific := true }
    | arg_preference_t.WEAK => { ds with fn2WeakPreferred := true }
    | arg_preference_t.WEAKER => { ds with fn2WeakerPreferred := true }
    | arg_preference_t.WEAKEST => { ds with fn2WeakestPreferred := true }
    | arg_preference_t.NONE => ds
  else ds

open arg_preference_t in
/-- The decision chain of the state-updating `testArgMapping`: the values of
`prefer1` and `prefer2` at the end of the chain of `else if`s, computed from
the formal types, the actual type and the flags of the two formals; `none`
when a null type pointer is dereferenced. -/
def testArgMappingVoid.preference (dctx : DisambiguationContext)
    (f1Type f2Type actualType actualScalarT : QualifiedType)
    (f1Instantiated f2Instantiated f1InstantiatedFromAny f2InstantiatedFromAny
      f1PartiallyGeneric f2PartiallyGeneric f1Param f2Param actualParam
      paramWithDefaultSize formal1Promotes formal2Promotes formal1Narrows
      formal2Narrows : Bool) : Option (arg_preference_t × arg_preference_t) :=
  let scalarLevel :=
    if paramWithDefaultSize then WEAKEST else if actualParam then WEAKER else STRONG
  let convLevel := if paramWithDefaultSize then WEAKEST else WEAKER
  let dispatchLevel := if actualParam then WEAKEST else STRONG
  if f1Type = f2Type ∧ f1Param ∧ ¬ f2Param then some (STRONG, NONE)
  else if f1Type = f2Type ∧ ¬ f1Param ∧ f2Param then some (NONE, STRONG)
  else if ¬ formal1Promotes ∧ formal2Promotes then some (STRONG, NONE)
  else if formal1Promotes ∧ ¬ formal2Promotes then some (NONE, STRONG)
  else if f1Type = f2Type ∧ ¬ f1Instantiated ∧ f2Instantiated then some (STRONG, NONE)
  else if f1Type = f2Type ∧ f1Instantiated ∧ ¬ f2Instantiated then some (NONE, STRONG)
  else if ¬ f1InstantiatedFromAny ∧ f2InstantiatedFromAny then some (STRONG, NONE)
  else if f1InstantiatedFromAny ∧ ¬ f2InstantiatedFromAny then some (NONE, STRONG)
  else if f1Instantiated ∧ f2Instantiated ∧ f1PartiallyGeneric ∧
      ¬ f2PartiallyGeneric then some (STRONG, NONE)
  else if f1Instantiated ∧ f2Instantiated ∧ ¬ f1PartiallyGeneric ∧
      f2PartiallyGeneric then some (NONE, STRONG)
  else if f1Param ≠ f2Param ∧ f1Param then some (WEAK, NONE)
  else if f1Param ≠ f2Param ∧ f2Param then some (NONE, WEAK)
  else if ¬ paramWithDefaultSize ∧ formal2Narrows ∧ ¬ formal1Narrows then some (WEAK, NONE)
  else if ¬ paramWithDefaultSize ∧ formal1Narrows ∧ ¬ formal2Narrows then some (NONE, WEAK)
  else if ¬ actualParam ∧ actualType = f1Type ∧ actualType ≠ f2Type then some (STRONG, NONE)
  else if ¬ actualParam ∧ actualType = f2Type ∧ actualType ≠ f1Type then some (NONE, STRONG)
  else if actualScalarT = f1Type ∧ actualScalarT ≠ f2Type then some (scalarLevel, NONE)
  else if actualScalarT = f2Type ∧ actualScalarT ≠ f1Type then some (NONE, scalarLevel)
  else
    match prefersConvToOtherNumeric actualScalarT f1Type f2Type with
    | none => none
    | some true => some (convLevel, NONE)
    | some false =>
    match prefersConvToOtherNumeric actualScalarT f2Type f1Type with
    | none => none
    | some true => some (NONE, convLevel)
    | some false =>
    if f1Type ≠ f2Type ∧ moreSpecificCanDispatch dctx f1Type f2Type then
      some (dispatchLevel, NONE)
    else if f1Type ≠ f2Type ∧ moreSpecificCanDispatch dctx f2Type f1Type then
      some (NONE, dispatchLevel)
    else
      match f1Type.type with
      | none => none
      | some t1 =>
      match (if t1.isIntType then f2Type.type.map Ty.isUintType else some false) with
      | none => none
      | some true => some (dispatchLevel, NONE)
      | some false =>
      match f2Type.type with
      | none => none
      | some t2 =>
        if t2.isIntType ∧ t1.isUintType then some (NONE, dispatchLevel)
        else some (NONE, NONE)

/-- The state-updating (void) `testArgMapping`, used by `compareSpecificity`
with `ignoreWhere`: sets bits of `ds` according to whether argument
`actualIdx` is a better match in `candidate1` or in `candidate2`.  `none` when
an assertion fails or a null pointer is dereferenced. -/
def testArgMappingVoid (dctx : DisambiguationContext)
    (candidate1 candidate2 : DisambiguationCandidate) (actualIdx : Nat)
    (ds : DisambiguationState) : Option DisambiguationState :=
  match candidate1.formalActualMap.byActualIdx actualIdx,
      candidate2.formalActualMap.byActualIdx actualIdx with
  | some fa1, some fa2 =>
    let f1Type := fa1.formalType
    let f2Type := fa2.formalType
    let actualType := fa1.actualType
    if actualType ≠ fa2.actualType then none
    else if f1Type.kind = Kind.OUT ∨ f2Type.kind = Kind.OUT then some ds
    else if (dctx.call.name = "init" ∨ dctx.call.name = "init=") ∧
        fa1.formalName = some "this" ∧ fa2.formalName = some "this" ∧
        dctx.context.getTypeGenericity f1Type ≠ Genericity.CONCRETE ∧
        dctx.context.getTypeGenericity f2Type ≠ Genericity.CONCRETE then some ds
    else
      let f1Param := f1Type.hasParamPtr
      let f2Param := f2Type.hasParamPtr
      let f1Instantiated := fa1.formalInstantiated
      let f2Instantiated := fa2.formalInstantiated
      match (if f1Instantiated then isFormalInstantiatedAny candidate1 fa1 else some false) with
      | none => none
      | some f1InstantiatedFromAny =>
      let f1PartiallyGeneric :=
        if f1Instantiated then isFormalPartiallyGeneric candidate1 fa1 else false
      match (if f2Instantiated then isFormalInstantiatedAny candidate2 fa2 else some false) with
      | none => none
      | some f2InstantiatedFromAny =>
      let f2PartiallyGeneric :=
        if f2Instantiated then isFormalPartiallyGeneric candidate2 fa2 else false
      let actualParam := actualType.hasParamPtr
      let paramWithDefaultSize :=
        if actualType.hasParamPtr then isNumericParamDefaultType actualType else false
      match testArgMapHelper dctx fa1 candidate1.forwardingTo ds 1 with
      | none => none
      | some formal1 =>
      match testArgMapHelper dctx fa2 candidate2.forwardingTo ds 2 with
      | none => none
      | some formal2 =>
      let formal1Promotes := formal1.1
      let formal1Narrows := formal1.2
      let formal2Promotes := formal2.1
      let formal2Narrows := formal2.2
      let actualScalarT :=
        if formal1Promotes ∨ formal2Promotes then
          computeActualScalarType dctx.context actualType
        else actualType
      match testArgMappingVoid.preference dctx f1Type f2Type actualType actualScalarT
          f1Instantiated f2Instantiated f1InstantiatedFromAny f2InstantiatedFromAny
          f1PartiallyGeneric f2PartiallyGeneric f1Param f2Param actualParam
          paramWithDefaultSize formal1Promotes formal2Promotes formal1Narrows
          formal2Narrows with
      | none => none
      | some prefer => some (recordPreference ds prefer.1 prefer.2)
  | _, _ => none

/-! ## Visibility -/

def checkVisibilityInVec (_context : Context) (vec : List (List ID)) (fn1Id fn2Id : ID) :
    MoreVisibleResult :=
  let found1 := vec.any (fun borrowedIds => borrowedIds.any (fun id => id == fn1Id))
  let found2 := vec.any (fun borrowedIds => borrowedIds.any (fun id => id == fn2Id))
  if found1 || found2 then
    if found1 && found2 then MoreVisibleResult.FOUND_BOTH
    else if found1 then MoreVisibleResult.FOUND_F1_FIRST
    else MoreVisibleResult.FOUND_F2_FIRST
  else MoreVisibleResult.FOUND_NEITHER

def isDefinedInBlock (context : Context) (scope : Scope) (fn : TypedFnSignature) : Bool :=
  let onlyDecls : LookupConfig :=
    { lookupDecls := true, lookupImportAndUse := false, lookupMethods := true,
      skipShadowScopes := false, skipPrivateUseImport := false }
  let decls := context.lookupNameInScope scope fn.untyped.name onlyDecls
  decls.any (fun borrowedIds => borrowedIds.any (fun id => id == fn.id))

def isDefinedInUseImport (context : Context) (scope : Scope) (fn : TypedFnSignature)
    (allowPrivateUseImp forShadowScope : Bool) : Bool :=
  let cfg : LookupConfig :=
    { lookupDecls := false, lookupImportAndUse := true, lookupMethods := true,
      skipShadowScopes := !forShadowScope, skipPrivateUseImport := !allowPrivateUseImp }
  let decls := context.lookupNameInScope scope fn.untyped.name cfg
  decls.any (fun borrowedIds => borrowedIds.any (fun id => id == fn.id))

def INT_MAX : Int := 2147483647

def INT_MIN : Int := -2147483648

/-- The value of an arithmetic result stored in a C `int`: wrapped into the
32-bit two's-complement range. -/
def wrapInt (x : Int) : Int := (x + 2147483648) % 4294967296 - 2147483648

/-- Enclosing scope adds 2 distance, shadow scope adds 1 distance; returns -1
if the function is not found. -/
def computeVisibilityDistanceInternal (context : Context) :
    Scope → TypedFnSignature → Int → Int
  | scope, fn, distance =>
    let foundHere := isDefinedInBlock context scope fn ||
      isDefinedInUseImport context scope fn true false
    if foundHere then distance
    else
      let foundShadowHere := isDefinedInUseImport context scope fn true true
      if foundShadowHere then wrapInt (distance + 1)
      else
        match scope with
        | Scope.child _ _ parentScope =>
          computeVisibilityDistanceInternal context parentScope fn (wrapInt (distance + 2))
        | Scope.root _ _ => -1

/-- Returns -1 if the function is a method or if the function is not found. -/
def computeVisibilityDistance (context : Context) (scope : Scope) (fn : TypedFnSignature) :
    Int :=
  if fn.untyped.isMethod then -1
  else computeVisibilityDistanceInternal context scope fn 0

def computeIsMoreVisible (context : Context) (callName : UniqueString) :
    Scope → ID → ID → MoreVisibleResult
  | curScope, fn1Id, fn2Id =>
    let onlyDecls : LookupConfig :=
      { lookupDecls := true, lookupImportAndUse := false, lookupMethods := true,
        skipShadowScopes := false, skipPrivateUseImport := false }
    let cfgImportAndUse : LookupConfig :=
      { lookupDecls := false, lookupImportAndUse := true, lookupMethods := true,
        skipShadowScopes := false, skipPrivateUseImport := false }
    let decls := context.lookupNameInScope curScope callName onlyDecls
    let declVis := checkVisibilityInVec context decls fn1Id fn2Id
    if declVis ≠ MoreVisibleResult.FOUND_NEITHER then declVis
    else
      let importUseVis :=
        if curScope.containsUseImport then
          checkVisibilityInVec context
            (context.lookupNameInScope curScope callName cfgImportAndUse) fn1Id fn2Id
        else MoreVisibleResult.FOUND_NEITHER
      if importUseVis ≠ MoreVisibleResult.FOUND_NEITHER then importUseVis
      else
        match curScope with
        | Scope.child _ _ parentScope =>
          computeIsMoreVisible context callName parentScope fn1Id fn2Id
        | Scope.root _ _ => MoreVisibleResult.FOUND_NEITHER

/-- The loop of `moreVisibleQuery` over the point-of-instantiation chain. -/
def moreVisiblePoiLoop (context : Context) (callName : UniqueString) (fn1Id fn2Id : ID) :
    PoiScope → MoreVisibleResult → MoreVisibleResult
  | [], result => result
  | inScope :: inFnPoi, result =>
    if result ≠ MoreVisibleResult.FOUND_NEITHER then result
    else
      moreVisiblePoiLoop context callName fn1Id fn2Id inFnPoi
        (computeIsMoreVisible context callName inScope fn1Id fn2Id)

def moreVisibleQuery (context : Context) (callName : UniqueString) (callInScope : Scope)
    (callInPoiScope : PoiScope) (fn1Id fn2Id : ID) : MoreVisibleResult :=
  moreVisiblePoiLoop context callName fn1Id fn2Id callInPoiScope
    (computeIsMoreVisible context callName callInScope fn1Id fn2Id)

def moreVisible (dctx : DisambiguationContext)
    (candidate1 candidate2 : DisambiguationCandidate) : MoreVisibleResult :=
  if candidate1.fn.untyped.isMethod ∧ candidate2.fn.untyped.isMethod then
    MoreVisibleResult.FOUND_BOTH
  else
    moreVisibleQuery dctx.context dctx.call.name dctx.callInScope dctx.callInPoiScope
      candidate1.fn.id candidate2.fn.id

/-! ## Pairwise comparison of two candidates -/

/-- One iteration of the loop over the actuals in `compareSpecificity`
(i, j, forGenericInit overload); the state is `ds` and `nArgsIncomparable`. -/
def compareSpecificityForArgs.step (dctx : DisambiguationContext)
    (candidate1 candidate2 : DisambiguationCandidate)
    (st : DisambiguationState × Nat) (k : Nat) : Option (DisambiguationState × Nat) :=
  match candidate1.formalActualMap.byActualIdx k,
      candidate2.formalActualMap.byActualIdx k with
  | some fa1, some _ =>
    let actualParam := fa1.actualType.isParam
    match testArgMapping dctx candidate1 candidate2 k st.1 with
    | none => none
    | some p =>
      let nArgsIncomparable := if p = -1 then st.2 + 1 else st.2
      if actualParam then
        if p = 1 then some ({ st.1 with fn1ParamArgsPreferred := true }, nArgsIncomparable)
        else if p = 2 then some ({ st.1 with fn2ParamArgsPreferred := true }, nArgsIncomparable)
        else some (st.1, nArgsIncomparable)
      else
        if p = 1 then some ({ st.1 with fn1NonParamArgsPreferred := true }, nArgsIncomparable)
        else if p = 2 then
          some ({ st.1 with fn2NonParamArgsPreferred := true }, nArgsIncomparable)
        else some (st.1, nArgsIncomparable)
  | _, _ =>
    if candidate1.fn.untyped.kind = FunctionKind.OPERATOR ∧
        candidate2.fn.untyped.kind = FunctionKind.OPERATOR then some st
    else
      match testOpArgMapping dctx candidate1 candidate2 k st.1 with
      | none => none
      | some p =>
        if p = 1 then some ({ st.1 with fn1NonParamArgsPreferred := true }, st.2)
        else if p = 2 then some ({ st.1 with fn2NonParamArgsPreferred := true }, st.2)
        else some st

/-- The `compareSpecificity` overload of the argument filter.  Returns -1 if
the two functions are incomparable, 0 if they are equally specific, 1 if fn1
is more specific and 2 if fn2 is more specific. -/
def compareSpecificityForArgs (dctx : DisambiguationContext)
    (candidate1 candidate2 : DisambiguationCandidate) (_i _j : Nat)
    (forGenericInit : Bool) : Option Int :=
  let n := dctx.call.numActuals
  let start := if forGenericInit = false then 0 else 2
  match ((List.range n).drop start).foldlM
      (compareSpecificityForArgs.step dctx candidate1 candidate2)
      (({} : DisambiguationState), 0) with
  | none => none
  | some (ds, nArgsIncomparable) =>
    let prefer : Bool × Bool :=
      if ds.fn1NonParamArgsPreferred ≠ ds.fn2NonParamArgsPreferred then
        (ds.fn1NonParamArgsPreferred, ds.fn2NonParamArgsPreferred)
      else if ds.fn1ParamArgsPreferred ≠ ds.fn2ParamArgsPreferred then
        (ds.fn1ParamArgsPreferred, ds.fn2ParamArgsPreferred)
      else (false, false)
    if prefer.1 then some 1
    else if prefer.2 then some 2
    else if nArgsIncomparable > 0 ∨
        (ds.fn1NonParamArgsPreferred ∧ ds.fn2NonParamArgsPreferred) ∨
        (ds.fn1ParamArgsPreferred ∧ ds.fn2ParamArgsPreferred) then some (-1)
    else some 0

/-- The `compareSpecificity` overload with `ignoreWhere`.  Returns -1 if fn1
is more specific, 0 if the two are equally specific and 1 if fn2 is more
specific; `none` when the assertion `!(prefer1 && prefer2)` or an assertion of
the per-argument comparison fails. -/
def compareSpecificity (dctx : DisambiguationContext)
    (candidate1 candidate2 : DisambiguationCandidate) (ignoreWhere : Bool) : Option Int :=
  let n := dctx.call.numActuals
  match (List.range n).foldlM
      (fun ds k => testArgMappingVoid dctx candidate1 candidate2 k ds)
      ({} : DisambiguationState) with
  | none => none
  | some ds =>
    let prefer : Bool × Bool :=
      if ds.fn1Promotes ≠ ds.fn2Promotes then (!ds.fn1Promotes, !ds.fn2Promotes)
      else if ds.fn1MoreSpecific ≠ ds.fn2MoreSpecific then
        (ds.fn1MoreSpecific, ds.fn2MoreSpecific)
      else
        let moreVis := moreVisible dctx candidate1 candidate2
        if moreVis = MoreVisibleResult.FOUND_F1_FIRST then (true, false)
        else if moreVis = MoreVisibleResult.FOUND_F2_FIRST then (false, true)
        else if ds.fn1WeakPreferred ≠ ds.fn2WeakPreferred then
          (ds.fn1WeakPreferred, ds.fn2WeakPreferred)
        else if ds.fn1WeakerPreferred ≠ ds.fn2WeakerPreferred then
          (ds.fn1WeakerPreferred, ds.fn2WeakerPreferred)
        else if ds.fn1WeakestPreferred ≠ ds.fn2WeakestPreferred then
          (ds.fn1WeakestPreferred, ds.fn2WeakestPreferred)
        else if ¬ ignoreWhere then
          let fn1where := dctx.context.idIsFunctionWithWhere candidate1.fn.id
          let fn2where := dctx.context.idIsFunctionWithWhere candidate2.fn.id
          if fn1where ≠ fn2where then (fn1where, fn2where) else (false, false)
        else (false, false)
    if prefer.1 ∧ prefer.2 then none
    else if prefer.1 then some (-1)
    else if prefer.2 then some 1
    else some 0

/-! ## Finding the most specific candidate -/

/-- The inner loop `for j` of `findMostSpecificIgnoringReturn` for candidate
`i`, over the remaining indices; yields `notBest` and `singleMostSpecific`. -/
def findMostSpecificIgnoringReturn.innerLoop (cmp : Nat → Nat → Option Int) (i : Nat) :
    List Nat → (Nat → Bool) → Option ((Nat → Bool) × Bool)
  | [], notBest => some (notBest, true)
  | j :: js, notBest =>
    if i = j then findMostSpecificIgnoringReturn.innerLoop cmp i js notBest
    else
      match cmp i j with
      | none => none
      | some c =>
        if c < 0 then
          findMostSpecificIgnoringReturn.innerLoop cmp i js (Function.update notBest j true)
        else if c > 0 then some (Function.update notBest i true, false)
        else some (if notBest j then Function.update notBest i true else notBest, false)

/-- The outer loop `for i` of `findMostSpecificIgnoringReturn`, over the
remaining indices; yields the index returned from inside the loop, if any,
and `notBest`. -/
def findMostSpecificIgnoringReturn.outerLoop (cmp : Nat → Nat → Option Int) (n : Nat) :
    List Nat → (Nat → Bool) → Option (Option Nat × (Nat → Bool))
  | [], notBest => some (none, notBest)
  | i :: is, notBest =>
    if notBest i then findMostSpecificIgnoringReturn.outerLoop cmp n is notBest
    else
      match findMostSpecificIgnoringReturn.innerLoop cmp i (List.range n) notBest with
      | none => none
      | some (notBest1, singleMostSpecific) =>
        if singleMostSpecific then some (some i, notBest1)
        else findMostSpecificIgnoringReturn.outerLoop cmp n is notBest1

/-- The body of `findMostSpecificIgnoringReturn` for an arbitrary pairwise
comparison `cmp` of two candidates.  Yields the returned candidate (or null)
and `ambiguousBest`. -/
def findMostSpecificIgnoringReturnWith
    (cmp : DisambiguationCandidate → DisambiguationCandidate → Option Int)
    (candidates : CandidatesVec) (ambiguousBest : CandidatesVec) :
    Option (Option DisambiguationCandidate × CandidatesVec) :=
  let n := candidates.length
  match candidates with
  | [] => some (none, ambiguousBest)
  | [c] => some (some c, ambiguousBest)
  | _ =>
    let cmpIdx : Nat → Nat → Option Int := fun i j =>
      match candidates[i]?, candidates[j]? with
      | some candidate1, some candidate2 => cmp candidate1 candidate2
      | _, _ => none
    match findMostSpecificIgnoringReturn.outerLoop cmpIdx n (List.range n)
        (fun _ => false) with
    | none => none
    | some (some i, _) => some (candidates[i]?, ambiguousBest)
    | some (none, notBest) =>
      some (none,
        ambiguousBest ++
          ((List.range n).filter (fun i => notBest i == false)).filterMap
            (fun i => candidates[i]?))

/-- Find the most specific candidate, ignoring return intents; the
possibly-best candidates are appended to `ambiguousBest` when there is no
single most specific one. -/
def findMostSpecificIgnoringReturn (dctx : DisambiguationContext)
    (candidates : CandidatesVec) (ignoreWhere : Bool) (ambiguousBest : CandidatesVec) :
    Option (Option DisambiguationCandidate × CandidatesVec) :=
  findMostSpecificIgnoringReturnWith
    (fun candidate1 candidate2 => compareSpecificity dctx candidate1 candidate2 ignoreWhere)
    candidates ambiguousBest

/-! ## The discarding filters -/

/-- The first loop of `discardWorseVisibility`: stores the visibility distance
in each candidate that is not discarded and tracks `minDistance` and
`maxDistance`.  A read of `discarded` past its end gives `false`. -/
def discardWorseVisibility.scan (dctx : DisambiguationContext) :
    CandidatesVec → List Bool → Int → Int → CandidatesVec × Int × Int
  | [], _, minDistance, maxDistance => ([], minDistance, maxDistance)
  | candidate :: rest, discarded, minDistance, maxDistance =>
    if discarded.headD false then
      let r := discardWorseVisibility.scan dctx rest discarded.tail minDistance maxDistance
      (candidate :: r.1, r.2)
    else
      let distance :=
        computeVisibilityDistance dctx.context dctx.callInScope candidate.fn
      let minDistance1 :=
        if distance ≥ 0 ∧ distance < minDistance then distance else minDistance
      let maxDistance1 :=
        if distance ≥ 0 ∧ distance > maxDistance then distance else maxDistance
      let r := discardWorseVisibility.scan dctx rest discarded.tail minDistance1 maxDistance1
      ({ candidate with visibilityDistance := distance } :: r.1, r.2)

/-- The second loop of `discardWorseVisibility`. -/
def discardWorseVisibility.mark (minDistance : Int) : CandidatesVec → List Bool → List Bool
  | candidate :: rest, d :: discarded =>
    (if d then d
     else if candidate.visibilityDistance > 0 ∧ candidate.visibilityDistance > minDistance
     then true else d) :: discardWorseVisibility.mark minDistance rest discarded
  | _, discarded => discarded

/-- Discard candidates with further visibility distance than other
candidates.  Yields the candidates, with the distances stored in them, and
`discarded`. -/
def discardWorseVisibility (dctx : DisambiguationContext) (candidates : CandidatesVec)
    (discarded : List Bool) : CandidatesVec × List Bool :=
  let r := discardWorseVisibility.scan dctx candidates discarded INT_MAX INT_MIN
  let candidates1 := r.1
  let minDistance := r.2.1
  let maxDistance := r.2.2
  if minDistance < maxDistance then
    (candidates1, discardWorseVisibility.mark minDistance candidates1 discarded)
  else (candidates1, discarded)

/-- The inner loop `for j` of `discardWorseArgs` for candidate `i`. -/
def discardWorseArgs.innerLoop (cmp : Nat → Nat → Option Int) (discarded : List Bool)
    (i : Nat) : List Nat → (Nat → Bool) → Option (Nat → Bool)
  | [], notBest => some notBest
  | j :: js, notBest =>
    if i = j then discardWorseArgs.innerLoop cmp discarded i js notBest
    else if discarded.getD j false then discardWorseArgs.innerLoop cmp discarded i js notBest
    else
      match cmp i j with
      | none => none
      | some c =>
        if c = 1 then
          discardWorseArgs.innerLoop cmp discarded i js (Function.update notBest j true)
        else if c = 2 then some (Function.update notBest i true)
        else if c = 0 ∧ notBest j then some (Function.update notBest i true)
        else discardWorseArgs.innerLoop cmp discarded i js notBest

/-- The outer loop `for i` of `discardWorseArgs`. -/
def discardWorseArgs.outerLoop (cmp : Nat → Nat → Option Int) (discarded : List Bool)
    (n : Nat) : List Nat → (Nat → Bool) → Option (Nat → Bool)
  | [], notBest => some notBest
  | i :: is, notBest =>
    if discarded.getD i false then discardWorseArgs.outerLoop cmp discarded n is notBest
    else if notBest i then discardWorseArgs.outerLoop cmp discarded n is notBest
    else
      match discardWorseArgs.innerLoop cmp discarded i (List.range n) notBest with
      | none => none
      | some notBest1 => discardWorseArgs.outerLoop cmp discarded n is notBest1

/-- The last loop of `discardWorseArgs`: `discarded[i] = true` where
`notBest[i]`, from index `i` on. -/
def discardWorseArgs.mark (notBest : Nat → Bool) : Nat → List Bool → List Bool
  | _, [] => []
  | i, d :: discarded =>
    (if notBest i then true else d) :: discardWorseArgs.mark notBest (i + 1) discarded

/-- The body of `discardWorseArgs` over `n` candidates for an arbitrary
verdict `cmp i j` of the comparison of candidates `i` and `j`. -/
def discardWorseArgsWith (cmp : Nat → Nat → Option Int) (n : Nat) (discarded : List Bool) :
    Option (List Bool) :=
  match discardWorseArgs.outerLoop cmp discarded n (List.range n) (fun _ => false) with
  | none => none
  | some notBest => some (discardWorseArgs.mark notBest 0 discarded)

/-- Discard any candidate that has a worse argument mapping than another
candidate. -/
def discardWorseArgs (dctx : DisambiguationContext) (candidates : CandidatesVec)
    (discarded : List Bool) : Option (List Bool) :=
  discardWorseArgsWith
    (fun i j =>
      match candidates[i]?, candidates[j]? with
      | some candidate1, some candidate2 =>
        let forGenericInit : Bool :=
          candidate1.fn.untyped.isMethod &&
            (candidate1.fn.untyped.name == "init" || candidate1.fn.untyped.name == "init=")
        compareSpecificityForArgs dctx candidate1 candidate2 i j forGenericInit
      | _, _ => none)
    candidates.length discarded

/-- The body is `// TODO: fill me in`. -/
def discardWorseWhereClauses (_dctx : DisambiguationContext) (_candidates : CandidatesVec)
    (discarded : List Bool) : List Bool :=
  discarded

/-- The body is `// TODO: fill me in`. -/
def discardWorseConversions (_dctx : DisambiguationContext) (_candidates : CandidatesVec)
    (discarded : List Bool) : List Bool :=
  discarded

/-- If any candidate does not require promotion, eliminate candidates that do
require promotion.  The body is `// TODO: fill me in`. -/
def discardWorsePromoting (_dctx : DisambiguationContext) (_candidates : CandidatesVec)
    (discarded : List Bool) : List Bool :=
  discarded

/-- The filter pipeline.  Yields the candidates (with the visibility distances
stored in them) and `discarded`. -/
def disambiguateDiscarding (dctx : DisambiguationContext) (candidates : CandidatesVec)
    (ignoreWhere : Bool) (discarded : List Bool) : Option (CandidatesVec × List Bool) :=
  let r1 :=
    if ¬ dctx.useOldVisibility ∧ ¬ dctx.isMethodCall then
      discardWorseVisibility dctx candidates discarded
    else (candidates, discarded)
  let discarded2 := discardWorsePromoting dctx r1.1 r1.2
  match discardWorseArgs dctx r1.1 discarded2 with
  | none => none
  | some discarded3 =>
    let discarded4 := discardWorseConversions dctx r1.1 discarded3
    let discarded5 :=
      if ¬ ignoreWhere then discardWorseWhereClauses dctx r1.1 discarded4 else discarded4
    if dctx.useOldVisibility ∧ ¬ dctx.isMethodCall then
      some (discardWorseVisibility dctx r1.1 discarded5)
    else some (r1.1, discarded5)

/-! ## Return-intent overloads and the entry points -/

/-- Count the number of candidates with each return intent: yields `nRef`,
`nConstRef`, `nValue` and `nOther`, added to the incoming counts. -/
def countByReturnIntent (dctx : DisambiguationContext) :
    CandidatesVec → Nat × Nat × Nat × Nat → Nat × Nat × Nat × Nat
  | [], counts => counts
  | c :: vec, (nRef, nConstRef, nValue, nOther) =>
    match dctx.context.idToFnReturnIntent c.fn.id with
    | ReturnIntent.DEFAULT_RETURN_INTENT | ReturnIntent.OUT | ReturnIntent.CONST =>
      countByReturnIntent dctx vec (nRef, nConstRef, nValue + 1, nOther)
    | ReturnIntent.CONST_REF =>
      countByReturnIntent dctx vec (nRef, nConstRef + 1, nValue, nOther)
    | ReturnIntent.REF =>
      countByReturnIntent dctx vec (nRef + 1, nConstRef, nValue, nOther)
    | ReturnIntent.PARAM | ReturnIntent.TYPE =>
      countByReturnIntent dctx vec (nRef, nConstRef, nValue, nOther + 1)

/-- The loop of `gatherByReturnIntent`; `none` when one of its assertions
fails. -/
def gatherByReturnIntent.loop (context : Context) (dctx : DisambiguationContext) :
    CandidatesVec → MostSpecificCandidates → Option MostSpecificCandidates
  | [], ret => some ret
  | c :: vec, ret =>
    match dctx.context.idToFnReturnIntent c.fn.id with
    | ReturnIntent.DEFAULT_RETURN_INTENT | ReturnIntent.OUT | ReturnIntent.CONST =>
      if ret.bestValue.isSome then none
      else gatherByReturnIntent.loop context dctx vec
        (ret.setBestValue (c.toMostSpecificCandidate context))
    | ReturnIntent.CONST_REF =>
      if ret.bestConstRef.isSome then none
      else gatherByReturnIntent.loop context dctx vec
        (ret.setBestConstRef (c.toMostSpecificCandidate context))
    | ReturnIntent.REF =>
      if ret.bestRef.isSome then none
      else gatherByReturnIntent.loop context dctx vec
        (ret.setBestRef (c.toMostSpecificCandidate context))
    | ReturnIntent.PARAM | ReturnIntent.TYPE => none

/-- If there is at most one most specific candidate with each intent, return
it as a `MostSpecificCandidates`. -/
def gatherByReturnIntent (context : Context) (dctx : DisambiguationContext)
    (vec : CandidatesVec) : Option MostSpecificCandidates :=
  gatherByReturnIntent.loop context dctx vec MostSpecificCandidates.getEmpty

/-- Gather the candidates into vectors by return intent: yields
`refCandidates`, `constRefCandidates` and `valueCandidates`. -/
def gatherVecsByReturnIntent (dctx : DisambiguationContext) :
    CandidatesVec → CandidatesVec × CandidatesVec × CandidatesVec →
      CandidatesVec × CandidatesVec × CandidatesVec
  | [], vecs => vecs
  | c :: vec, (refCandidates, constRefCandidates, valueCandidates) =>
    match dctx.context.idToFnReturnIntent c.fn.id with
    | ReturnIntent.DEFAULT_RETURN_INTENT | ReturnIntent.OUT | ReturnIntent.CONST =>
      gatherVecsByReturnIntent dctx vec
        (refCandidates, constRefCandidates, valueCandidates ++ [c])
    | ReturnIntent.CONST_REF =>
      gatherVecsByReturnIntent dctx vec
        (refCandidates, constRefCandidates ++ [c], valueCandidates)
    | ReturnIntent.REF =>
      gatherVecsByReturnIntent dctx vec
        (refCandidates ++ [c], constRefCandidates, valueCandidates)
    | ReturnIntent.PARAM | ReturnIntent.TYPE =>
      gatherVecsByReturnIntent dctx vec (refCandidates, constRefCandidates, valueCandidates)

/-- Disambiguate each return-intent group individually. -/
def computeMostSpecificCandidatesWithVecs (context : Context) (dctx : DisambiguationContext)
    (vec : CandidatesVec) : Option MostSpecificCandidates :=
  let vecs := gatherVecsByReturnIntent dctx vec ([], [], [])
  let refCandidates := vecs.1
  let constRefCandidates := vecs.2.1
  let valueCandidates := vecs.2.2
  let ignoreWhere := false
  match findMostSpecificIgnoringReturn dctx refCandidates ignoreWhere [] with
  | none => none
  | some (bestRef, ambiguousBest1) =>
  let nRef := if bestRef.isSome then 1 else ambiguousBest1.length
  match findMostSpecificIgnoringReturn dctx constRefCandidates ignoreWhere [] with
  | none => none
  | some (bestCRef, ambiguousBest2) =>
  let nConstRef := if bestCRef.isSome then 1 else ambiguousBest2.length
  match findMostSpecificIgnoringReturn dctx valueCandidates ignoreWhere [] with
  | none => none
  | some (bestValue, ambiguousBest3) =>
  let nValue := if bestValue.isSome then 1 else ambiguousBest3.length
  if nRef > 1 ∨ nConstRef > 1 ∨ nValue > 1 then some MostSpecificCandidates.getAmbiguous
  else
    let ret0 := MostSpecificCandidates.getEmpty
    let ret1 :=
      match bestRef with
      | some b => ret0.setBestRef (b.toMostSpecificCandidate context)
      | none => ret0
    let ret2 :=
      match bestCRef with
      | some b => ret1.setBestConstRef (b.toMostSpecificCandidate context)
      | none => ret1
    let ret3 :=
      match bestValue with
      | some b => ret2.setBestValue (b.toMostSpecificCandidate context)
      | none => ret2
    some ret3

def computeMostSpecificCandidates (context : Context) (dctx : DisambiguationContext)
    (candidates : CandidatesVec) : Option MostSpecificCandidates :=
  match findMostSpecificIgnoringReturn dctx candidates true [] with
  | none => none
  | some (some best, _) =>
    some (MostSpecificCandidates.getOnly (best.toMostSpecificCandidate context))
  | some (none, ambiguousBest) =>
    if ambiguousBest.length = 0 then some MostSpecificCandidates.getEmpty
    else
      let counts := countByReturnIntent dctx ambiguousBest (0, 0, 0, 0)
      let nRef := counts.1
      let nConstRef := counts.2.1
      let nValue := counts.2.2.1
      let nOther := counts.2.2.2
      if nOther > 0 then
        match findMostSpecificIgnoringReturn dctx candidates false [] with
        | none => none
        | some (best, ambiguousBest1) =>
          if ambiguousBest1.length > 1 then some MostSpecificCandidates.getAmbiguous
          else
            match best with
            | some b =>
              some (MostSpecificCandidates.getOnly (b.toMostSpecificCandidate context))
            | none => none
      else if nRef ≤ 1 ∧ nConstRef ≤ 1 ∧ nValue ≤ 1 then
        gatherByReturnIntent context dctx ambiguousBest
      else computeMostSpecificCandidatesWithVecs context dctx ambiguousBest

/-- The construction of the candidates in `findMostSpecificCandidatesQuery`,
from index `i` on; `none` when `forwardingInfo` is not empty and has no
element `i`. -/
def findMostSpecificCandidatesQuery.candidates (context : Context)
    (forwardingInfo : List QualifiedType) (call : CallInfo) :
    List TypedFnSignature → Nat → Option CandidatesVec
  | [], _ => some []
  | fn :: lst, i =>
    match (if forwardingInfo.isEmpty then some QualifiedType.empty
      else forwardingInfo[i]?) with
    | none => none
    | some forwardingTo =>
      match findMostSpecificCandidatesQuery.candidates context forwardingInfo call lst
          (i + 1) with
      | none => none
      | some rest => some (DisambiguationCandidate.new context fn forwardingTo call i :: rest)

def findMostSpecificCandidatesQuery (context : Context) (lst : List TypedFnSignature)
    (forwardingInfo : List QualifiedType) (call : CallInfo) (callInScope : Scope)
    (callInPoiScope : PoiScope) : Option MostSpecificCandidates :=
  let explain := true
  let dctx := DisambiguationContext.new context call callInScope callInPoiScope explain
  match findMostSpecificCandidatesQuery.candidates context forwardingInfo call lst 0 with
  | none => none
  | some candidates =>
    let discarded := List.replicate candidates.length false
    match disambiguateDiscarding dctx candidates true discarded with
    | none => none
    | some (candidates1, _discarded) =>
      computeMostSpecificCandidates context dctx candidates1

/-- Entry point for disambiguation. -/
def findMostSpecificCandidates (context : Context) (lst : List TypedFnSignature)
    (forwardingInfo : List QualifiedType) (call : CallInfo) (callInScope : Scope)
    (callInPoiScope : PoiScope) : Option MostSpecificCandidates :=
  match lst with
  | [] => some MostSpecificCandidates.getEmpty
  | [fn] =>
    some (MostSpecificCandidates.getOnly
      (MostSpecificCandidate.fromTypedFnSignatureCall context fn call))
  | _ =>
    findMostSpecificCandidatesQuery context lst forwardingInfo call callInScope
      callInPoiScope

/-! ## Concrete inputs -/

namespace Sample

/-- The type `int` (default width). -/
def intTy : Ty := { tag := TypeTag.IntType, width := 64, defaultWidth := true, uid := 0 }

/-- The type `real` (default width). -/
def realTy : Ty := { tag := TypeTag.RealType, width := 64, defaultWidth := true, uid := 0 }

/-- A conversion oracle: a type passes to itself, and `int` passes to `real`
by implicit conversion; nothing promotes or narrows. -/
def canPassIntReal (actualType formalType : QualifiedType) : CanPassResult :=
  { passes := decide (actualType.type = formalType.type) ||
      (decide (actualType.type = some intTy) && decide (formalType.type = some realTy)),
    promotes := false,
    convertsWithParamNarrowing := false }

/-- The call scope (id 1) nested in the root scope (id 0). -/
def innerScope : Scope := Scope.child 1 false (Scope.root 0 false)

/-- The function `proc f(x: real)`, id 10, declared in the call scope. -/
def fnNearReal : TypedFnSignature :=
  { id := 10, untyped := { name := "f", isMethod := false, kind := FunctionKind.PROC },
    instantiatedFrom := none }

/-- The function `proc f(x: int)`, id 11, declared in the root scope. -/
def fnFarInt : TypedFnSignature :=
  { id := 11, untyped := { name := "f", isMethod := false, kind := FunctionKind.PROC },
    instantiatedFrom := none }

/-- The actual of the call `f(myInt)`: a variable of type `int`. -/
def intVarActual : QualifiedType := { kind := Kind.VAR, type := some intTy, param := none }

/-- The formal/actual map of a one-argument function whose formal has type
`formalTy`, called with `intVarActual`. -/
def oneFormalMap (formalTy : Ty) : FormalActualMap :=
  { entries := [some
      { formalType := { kind := Kind.CONST_IN, type := some formalTy, param := none },
        actualType := intVarActual, formalIdx := 0, formalInstantiated := false,
        formalName := some "x" }] }

/-- Two overloads of `f`: `f(x: real)` declared in the call scope and
`f(x: int)` declared in the enclosing root scope. -/
def shadowContext : Context :=
  { canPass := canPassIntReal,
    lookupNameInScope := fun scope _name config =>
      if config.lookupDecls then
        (if scope.id = 1 then [[10]] else if scope.id = 0 then [[11]] else [])
      else [],
    formalActualMap := fun fn _call =>
      if fn.id = 10 then oneFormalMap realTy else oneFormalMap intTy,
    idToFnReturnIntent := fun _ => ReturnIntent.DEFAULT_RETURN_INTENT,
    idIsFunctionWithWhere := fun _ => false,
    idIsInInternalModule := fun _ => false,
    getTypeGenericity := fun _ => Genericity.CONCRETE }

/-- The call `f(myInt)`. -/
def callF : CallInfo := { name := "f", isMethodCall := false, numActuals := 1 }

end Sample

namespace Sample

/-- Candidate 0 of the call `f(myInt)`: `f(x: real)`. -/
def candNearReal : DisambiguationCandidate :=
  DisambiguationCandidate.new shadowContext fnNearReal QualifiedType.empty callF 0

/-- Candidate 1 of the call `f(myInt)`: `f(x: int)`. -/
def candFarInt : DisambiguationCandidate :=
  DisambiguationCandidate.new shadowContext fnFarInt QualifiedType.empty callF 1

/-- A total antisymmetric comparison: the candidate with the smaller index is
the more specific one. -/
def cmpByIdx (a b : DisambiguationCandidate) : Int := (a.idx : Int) - (b.idx : Int)

end Sample

namespace Sample

/-- The type `bool`. -/
def boolTy : Ty := { tag := TypeTag.BoolType, width := 8, defaultWidth := true, uid := 0 }

/-- The type `int(8)`. -/
def int8Ty : Ty := { tag := TypeTag.IntType, width := 8, defaultWidth := false, uid := 0 }

/-- The type `uint` (default width). -/
def uintTy : Ty := { tag := TypeTag.UintType, width := 64, defaultWidth := true, uid := 0 }

/-- The formal/actual map of a one-argument function whose formal has type
`formalTy`, called with a non-param `bool` variable. -/
def boolFormalMap (formalTy : Ty) : FormalActualMap :=
  { entries := [some
      { formalType := { kind := Kind.CONST_IN, type := some formalTy, param := none },
        actualType := { kind := Kind.VAR, type := some boolTy, param := none },
        formalIdx := 0, formalInstantiated := false, formalName := some "x" }] }

/-- A context whose conversion oracle lets every actual pass without promotion
and without param narrowing (a `bool` converts implicitly to each integral
type), with one scope that declares the functions 20, `g(x: int(8))`, and 21,
`g(x: uint)`. -/
def boolContext : Context :=
  { canPass := fun _ _ =>
      { passes := true, promotes := false, convertsWithParamNarrowing := false },
    lookupNameInScope := fun _scope _name config =>
      if config.lookupDecls then [[20, 21]] else [],
    formalActualMap := fun fn _call =>
      if fn.id = 20 then boolFormalMap int8Ty else boolFormalMap uintTy,
    idToFnReturnIntent := fun _ => ReturnIntent.DEFAULT_RETURN_INTENT,
    idIsFunctionWithWhere := fun _ => false,
    idIsInInternalModule := fun _ => false,
    getTypeGenericity := fun _ => Genericity.CONCRETE }

/-- The call `g(myBool)`, `myBool` a non-param `bool` variable. -/
def callG : CallInfo := { name := "g", isMethodCall := false, numActuals := 1 }

/-- The context of the call `g(myBool)` in the root scope. -/
def boolDctx : DisambiguationContext :=
  DisambiguationContext.new boolContext callG (Scope.root 0 false) [] true

/-- The function `proc g(x: int(8))`, id 20. -/
def fnInt8 : TypedFnSignature :=
  { id := 20, untyped := { name := "g", isMethod := false, kind := FunctionKind.PROC },
    instantiatedFrom := none }

/-- The function `proc g(x: uint)`, id 21. -/
def fnUint : TypedFnSignature :=
  { id := 21, untyped := { name := "g", isMethod := false, kind := FunctionKind.PROC },
    instantiatedFrom := none }

/-- The candidate `proc g(x: int(8))`. -/
def candInt8 : DisambiguationCandidate :=
  DisambiguationCandidate.new boolContext fnInt8 QualifiedType.empty callG 0

/-- The candidate `proc g(x: uint)`. -/
def candUint : DisambiguationCandidate :=
  DisambiguationCandidate.new boolContext fnUint QualifiedType.empty callG 1

end Sample

/-! ## Vocabulary of the claims about the argument filter -/

/-- The verdict of a per-argument comparison seen from the other side: 1 (fn1
preferred) and 2 (fn2 preferred) change places, 0 and -1 stay. -/
def swapVerdict (p : Int) : Int := if p = 1 then 2 else if p = 2 then 1 else p

/-- The verdict of `compareSpecificity` (argument filter) induced by a
preorder on the candidate indices, `le i j` reading "candidate `j` is at
least as specific as candidate `i`": 1 if `i` is strictly more specific, 2 if
`j` is, 0 if they are equivalent and -1 if they are incomparable. -/
def preorderVerdict (le : Nat → Nat → Bool) (i j : Nat) : Int :=
  if le i j then (if le j i then 0 else 2) else (if le j i then 1 else -1)

/-- Candidate `k` of `n` is active: not discarded in the mask. -/
def isActive (n : Nat) (discarded : List Bool) (k : Nat) : Prop :=
  k < n ∧ discarded.getD k false = false

/-- Candidate `b` is strictly more specific than candidate `a`. -/
def strictlyBelow (le : Nat → Nat → Bool) (a b : Nat) : Prop :=
  le a b = true ∧ le b a = false

/-- Candidate `k` is strictly dominated by some active candidate. -/
def isDominated (le : Nat → Nat → Bool) (n : Nat) (discarded : List Bool) (k : Nat) : Prop :=
  ∃ j, isActive n discarded j ∧ strictlyBelow le k j

/-! ## Vocabulary of the claims about the visibility distance -/

/-- The scope reached from `scope` by `k` hops along `parentScope()`, if the
chain is that long. -/
def Scope.ancestor : Scope → Nat → Option Scope
  | s, 0 => some s
  | Scope.child _ _ p, k + 1 => p.ancestor k
  | Scope.root _ _, _ + 1 => none

/-- The function is found in the scope among its direct declarations or its
use/imports that do not use a shadow scope (`foundHere`). -/
def foundHere (context : Context) (scope : Scope) (fn : TypedFnSignature) : Bool :=
  isDefinedInBlock context scope fn || isDefinedInUseImport context scope fn true false

/-- The function is found in the scope by the use/import lookup that includes
shadow scopes (`foundShadowHere`). -/
def foundShadowHere (context : Context) (scope : Scope) (fn : TypedFnSignature) : Bool :=
  isDefinedInUseImport context scope fn true true

/-! ## Vocabulary of the claims about promotion -/

/-- The candidate requires promotion for some actual of the call: the
conversion oracle reports `promotes()` for the actual (or the forwarded
receiver) and the formal it is passed to, as `testArgMapHelper` computes
it. -/
def requiresPromotion (dctx : DisambiguationContext) (c : DisambiguationCandidate) : Bool :=
  (List.range dctx.call.numActuals).any (fun k =>
    match c.formalActualMap.byActualIdx k with
    | some fa =>
      (dctx.context.canPass
        (if c.forwardingTo.type.isSome then c.forwardingTo else fa.actualType)
        fa.formalType).promotes
    | none => false)

namespace Sample

/-- The array type `[1..3] int`. -/
def arrayTy : Ty := { tag := TypeTag.OtherType, width := 0, defaultWidth := false, uid := 1 }

/-- The actual of the call `h(A)`: an array variable. -/
def arrayActual : QualifiedType := { kind := Kind.VAR, type := some arrayTy, param := none }

/-- A context whose conversion oracle passes an array to an array formal
exactly and to an `int` formal by promotion, with one scope that declares the
functions 30 and 31. -/
def promotionContext : Context :=
  { canPass := fun _actualType formalType =>
      { passes := true, promotes := decide (formalType.type = some intTy),
        convertsWithParamNarrowing := false },
    lookupNameInScope := fun _scope _name config =>
      if config.lookupDecls then [[30, 31]] else [],
    formalActualMap := fun fn _call =>
      if fn.id = 30 then
        { entries := [some
            { formalType := { kind := Kind.OUT, type := some arrayTy, param := none },
              actualType := arrayActual, formalIdx := 0, formalInstantiated := false,
              formalName := some "x" }] }
      else
        { entries := [some
            { formalType := { kind := Kind.CONST_IN, type := some intTy, param := none },
              actualType := arrayActual, formalIdx := 0, formalInstantiated := false,
              formalName := some "x" }] },
    idToFnReturnIntent := fun _ => ReturnIntent.DEFAULT_RETURN_INTENT,
    idIsFunctionWithWhere := fun _ => false,
    idIsInInternalModule := fun _ => false,
    getTypeGenericity := fun _ => Genericity.CONCRETE }

/-- The call `h(A)`. -/
def callH : CallInfo := { name := "h", isMethodCall := false, numActuals := 1 }

/-- The context of the call `h(A)` in the root scope. -/
def promotionDctx : DisambiguationContext :=
  DisambiguationContext.new promotionContext callH (Scope.root 0 false) [] true

/-- The function `proc h(out x: [1..3] int)`, id 30. -/
def fnOutArray : TypedFnSignature :=
  { id := 30, untyped := { name := "h", isMethod := false, kind := FunctionKind.PROC },
    instantiatedFrom := none }

/-- The function `proc h(x: int)`, id 31: passing the array promotes. -/
def fnPromotedInt : TypedFnSignature :=
  { id := 31, untyped := { name := "h", isMethod := false, kind := FunctionKind.PROC },
    instantiatedFrom := none }

/-- Candidate 0 of the call `h(A)`. -/
def candOutArray : DisambiguationCandidate :=
  DisambiguationCandidate.new promotionContext fnOutArray QualifiedType.empty callH 0

/-- Candidate 1 of the call `h(A)`. -/
def candPromotedInt : DisambiguationCandidate :=
  DisambiguationCandidate.new promotionContext fnPromotedInt QualifiedType.empty callH 1

end Sample

/-! ## Vocabulary of the claims about the numeric coercion helpers -/

/-- The type is of one of the numeric categories bool, int/uint, real, imag
and complex, and its bit width is not negative. -/
def isSizedNumeric (t : Ty) : Prop :=
  classifyNumericType t ≠ numeric_type_t.NUMERIC_TYPE_NON_NUMERIC ∧
  classifyNumericType t ≠ numeric_type_t.NUMERIC_TYPE_ENUM ∧ 0 ≤ t.width

instance (t : Ty) : Decidable (isSizedNumeric t) := by
  unfold isSizedNumeric
  infer_instance

namespace Sample

/-- The type `real(w)`; `real(64)` is the default width. -/
def realOf (w : Int) : Ty :=
  { tag := TypeTag.RealType, width := w, defaultWidth := decide (w = 64), uid := 0 }

/-- The type `imag(w)`; `imag(64)` is the default width. -/
def imagOf (w : Int) : Ty :=
  { tag := TypeTag.ImagType, width := w, defaultWidth := decide (w = 64), uid := 0 }

/-- The type `complex(w)`; `complex(128)` is the default width. -/
def complexOf (w : Int) : Ty :=
  { tag := TypeTag.ComplexType, width := w, defaultWidth := decide (w = 128), uid := 0 }

/-- An enum type. -/
def colorTy : Ty := { tag := TypeTag.EnumType, width := 0, defaultWidth := false, uid := 7 }

end Sample

namespace Sample

/-- The record type `R`. -/
def recordTy : Ty := { tag := TypeTag.OtherType, width := 0, defaultWidth := false, uid := 2 }

/-- An actual of the call `x + y`: a variable of type `R`. -/
def recordActual : QualifiedType := { kind := Kind.VAR, type := some recordTy, param := none }

/-- The formal/actual pair of a formal of type `R` named `name` at position
`formalIdx`, passed a variable of type `R`. -/
def recordFormal (name : UniqueString) (formalIdx : Nat) : FormalActual :=
  { formalType := { kind := Kind.CONST_REF, type := some recordTy, param := none },
    actualType := recordActual, formalIdx := formalIdx, formalInstantiated := false,
    formalName := some name }

/-- A context for the call `x + y` on two variables of the record type `R`,
whose actual 0 is the receiver `x` and actual 1 is `y`.  Function 40 is the
operator function `operator +(rhs: R)`, which has no formal for the receiver
actual; function 41 is the method `proc R.+(rhs: R)`, whose formal `this`
takes the receiver.  Every actual passes without promotion. -/
def operatorContext : Context :=
  { canPass := fun _ _ =>
      { passes := true, promotes := false, convertsWithParamNarrowing := false },
    lookupNameInScope := fun _scope _name config =>
      if config.lookupDecls then [[40, 41]] else [],
    formalActualMap := fun fn _call =>
      if fn.id = 40 then { entries := [none, some (recordFormal "rhs" 0)] }
      else { entries := [some (recordFormal "this" 0), some (recordFormal "rhs" 1)] },
    idToFnReturnIntent := fun _ => ReturnIntent.DEFAULT_RETURN_INTENT,
    idIsFunctionWithWhere := fun _ => false,
    idIsInInternalModule := fun _ => false,
    getTypeGenericity := fun _ => Genericity.CONCRETE }

/-- The call `x + y`. -/
def callPlus : CallInfo := { name := "+", isMethodCall := false, numActuals := 2 }

/-- The context of the call `x + y` in the root scope. -/
def operatorDctx : DisambiguationContext :=
  DisambiguationContext.new operatorContext callPlus (Scope.root 0 false) [] true

/-- The operator function `operator +(rhs: R)`, id 40. -/
def fnOperatorPlus : TypedFnSignature :=
  { id := 40, untyped := { name := "+", isMethod := false, kind := FunctionKind.OPERATOR },
    instantiatedFrom := none }

/-- The method `proc R.+(rhs: R)`, id 41. -/
def fnMethodPlus : TypedFnSignature :=
  { id := 41, untyped := { name := "+", isMethod := true, kind := FunctionKind.PROC },
    instantiatedFrom := none }

/-- Candidate 0 of the call `x + y`: the operator function. -/
def candOperatorPlus : DisambiguationCandidate :=
  DisambiguationCandidate.new operatorContext fnOperatorPlus QualifiedType.empty callPlus 0

/-- Candidate 1 of the call `x + y`: the method. -/
def candMethodPlus : DisambiguationCandidate :=
  DisambiguationCandidate.new operatorContext fnMethodPlus QualifiedType.empty callPlus 1

end Sample

/-! ## Vocabulary of the claims about return-intent overloads -/

/-- The categories of return intent told apart by `countByReturnIntent`. -/
inductive IntentCategory where
  | VALUE
  | CONST_REF
  | REF
  | OTHER
  deriving DecidableEq, Repr

/-- The category of a return intent: the default intent, `out` and `const`
return a value; `param` and `type` are the other intents. -/
def returnIntentCategory : ReturnIntent → IntentCategory
  | ReturnIntent.DEFAULT_RETURN_INTENT => IntentCategory.VALUE
  | ReturnIntent.OUT => IntentCategory.VALUE
  | ReturnIntent.CONST => IntentCategory.VALUE
  | ReturnIntent.CONST_REF => IntentCategory.CONST_REF
  | ReturnIntent.REF => IntentCategory.REF
  | ReturnIntent.PARAM => IntentCategory.OTHER
  | ReturnIntent.TYPE => IntentCategory.OTHER

/-- The category of the return intent of a candidate. -/
def candidateCategory (dctx : DisambiguationContext) (c : DisambiguationCandidate) :
    IntentCategory :=
  returnIntentCategory (dctx.context.idToFnReturnIntent c.fn.id)

/-- The slot of a result that belongs to a category of return intent. -/
def MostSpecificCandidates.slot (r : MostSpecificCandidates) :
    IntentCategory → Option MostSpecificCandidate
  | IntentCategory.VALUE => r.bestValue
  | IntentCategory.CONST_REF => r.bestConstRef
  | IntentCategory.REF => r.bestRef
  | IntentCategory.OTHER => none

namespace Sample

/-- A context for the call `f()` made in the scope 1, nested in the root
scope 0.  Scope 1 declares the overloads 50 `proc f()`, 51
`proc f() const ref`, 52 `proc f() ref`, 53 `proc f() param` and 54
`proc f() where ...`; the root scope declares 56 `proc f() param`. -/
def accessorContext : Context :=
  { canPass := fun _ _ =>
      { passes := true, promotes := false, convertsWithParamNarrowing := false },
    lookupNameInScope := fun scope _name config =>
      if config.lookupDecls then
        (if scope.id = 1 then [[50, 51, 52, 53, 54]] else if scope.id = 0 then [[56]] else [])
      else [],
    formalActualMap := fun _fn _call => { entries := [] },
    idToFnReturnIntent := fun id =>
      if id = 51 then ReturnIntent.CONST_REF
      else if id = 52 then ReturnIntent.REF
      else if id = 53 ∨ id = 56 then ReturnIntent.PARAM
      else ReturnIntent.DEFAULT_RETURN_INTENT,
    idIsFunctionWithWhere := fun id => decide (id = 54),
    idIsInInternalModule := fun _ => false,
    getTypeGenericity := fun _ => Genericity.CONCRETE }

/-- The call `f()`. -/
def callAccessor : CallInfo := { name := "f", isMethodCall := false, numActuals := 0 }

/-- The context of the call `f()` made in scope 1. -/
def accessorDctx : DisambiguationContext :=
  DisambiguationContext.new accessorContext callAccessor innerScope [] true

/-- The overload of `f` with the given id. -/
def fnAccessor (id : ID) : TypedFnSignature :=
  { id := id, untyped := { name := "f", isMethod := false, kind := FunctionKind.PROC },
    instantiatedFrom := none }

/-- The candidate for the overload of `f` with the given id, at position
`idx` of the candidate list. -/
def candAccessor (id : ID) (idx : Nat) : DisambiguationCandidate :=
  DisambiguationCandidate.new accessorContext (fnAccessor id) QualifiedType.empty
    callAccessor idx

end Sample

/-! ## Vocabulary of the claims about the pairwise comparison -/

/-- The state `ds` that the loop of `compareSpecificity` (ignoreWhere
overload) over the actuals reaches: the per-argument preferences of the two
candidates; `none` when a per-argument comparison aborts. -/
def argPreferences (dctx : DisambiguationContext)
    (candidate1 candidate2 : DisambiguationCandidate) : Option DisambiguationState :=
  (List.range dctx.call.numActuals).foldlM
    (fun ds k => testArgMappingVoid dctx candidate1 candidate2 k ds)
    ({} : DisambiguationState)

/-- The decision of `compareSpecificity` (ignoreWhere overload) after its loop
over the actuals, from the state `ds`, the answer of `moreVisible` and the
where-clause flags of the two functions. -/
def compareSpecificity.verdict (ds : DisambiguationState) (moreVis : MoreVisibleResult)
    (ignoreWhere fn1where fn2where : Bool) : Option Int :=
  let prefer : Bool × Bool :=
    if ds.fn1Promotes ≠ ds.fn2Promotes then (!ds.fn1Promotes, !ds.fn2Promotes)
    else if ds.fn1MoreSpecific ≠ ds.fn2MoreSpecific then
      (ds.fn1MoreSpecific, ds.fn2MoreSpecific)
    else
      if moreVis = MoreVisibleResult.FOUND_F1_FIRST then (true, false)
      else if moreVis = MoreVisibleResult.FOUND_F2_FIRST then (false, true)
      else if ds.fn1WeakPreferred ≠ ds.fn2WeakPreferred then
        (ds.fn1WeakPreferred, ds.fn2WeakPreferred)
      else if ds.fn1WeakerPreferred ≠ ds.fn2WeakerPreferred then
        (ds.fn1WeakerPreferred, ds.fn2WeakerPreferred)
      else if ds.fn1WeakestPreferred ≠ ds.fn2WeakestPreferred then
        (ds.fn1WeakestPreferred, ds.fn2WeakestPreferred)
      else if ¬ ignoreWhere then
        if fn1where ≠ fn2where then (fn1where, fn2where) else (false, false)
      else (false, false)
  if prefer.1 ∧ prefer.2 then none
  else if prefer.1 then some (-1)
  else if prefer.2 then some 1
  else some 0

namespace Sample

/-- The context of the call `f(myInt)` made in scope 1, where `f(x: real)` is
declared, nested in the root scope, where `f(x: int)` is declared. -/
def shadowDctx : DisambiguationContext :=
  DisambiguationContext.new shadowContext callF innerScope [] true

end Sample

namespace Sample

/-- A conversion oracle for the numeric overloads: an actual passes to a
formal of its own type, a param passes to every numeric formal, and `int(8)`
passes to `int`; nothing promotes, and a param passed to `int(8)` is narrowed
unless it is of that type. -/
def widthCanPass (actualType formalType : QualifiedType) : CanPassResult :=
  { passes := decide (actualType.type = formalType.type) || actualType.param.isSome ||
      (decide (actualType.type = some int8Ty) && decide (formalType.type = some intTy)),
    promotes := false,
    convertsWithParamNarrowing := actualType.param.isSome &&
      decide (formalType.type = some int8Ty) && !decide (actualType.type = some int8Ty) }

/-- A context for a one-argument call of `f` with the given actual.  The
overload 70, whose formal has type `formal70`, is found in every scope; the
overload 71, whose formal has type `formal71`, is found in every scope but
scope 1, so that for a call made in scope 1, nested in the root scope,
overload 70 is the more visible one. -/
def widthContext (actual : QualifiedType) (formal70 formal71 : Ty) : Context :=
  { canPass := widthCanPass,
    lookupNameInScope := fun scope _name config =>
      if config.lookupDecls then (if scope.id = 1 then [[70]] else [[70, 71]]) else [],
    formalActualMap := fun fn _call =>
      { entries := [some
          { formalType :=
              { kind := Kind.CONST_IN,
                type := some (if fn.id = 70 then formal70 else formal71), param := none },
            actualType := actual, formalIdx := 0, formalInstantiated := false,
            formalName := some "x" }] },
    idToFnReturnIntent := fun _ => ReturnIntent.DEFAULT_RETURN_INTENT,
    idIsFunctionWithWhere := fun _ => false,
    idIsInInternalModule := fun _ => false,
    getTypeGenericity := fun _ => Genericity.CONCRETE }

/-- The overload of `f` with the given id. -/
def fnWidth (id : ID) : TypedFnSignature :=
  { id := id, untyped := { name := "f", isMethod := false, kind := FunctionKind.PROC },
    instantiatedFrom := none }

/-- The param actual of the call `f(5)`: the literal 5, of type `int`. -/
def literalFive : QualifiedType :=
  { kind := Kind.PARAM, type := some intTy, param := some 5 }

/-- The context of the call `f(5)` with the overloads `f(x: int)`, id 70, and
`f(x: int(8))`, id 71. -/
def literalDctx : DisambiguationContext :=
  DisambiguationContext.new (widthContext literalFive intTy int8Ty) callF (Scope.root 0 false)
    [] true

/-- The candidate with the given id for the call `f(5)`, at position `idx`. -/
def candLiteral (id : ID) (idx : Nat) : DisambiguationCandidate :=
  DisambiguationCandidate.new (widthContext literalFive intTy int8Ty) (fnWidth id)
    QualifiedType.empty callF idx

end Sample

/-! ## Vocabulary of the claims about whole calls -/

/-- Two candidates are for the same function, forwarding and formal/actual
map: they differ at most in their index and visibility distance, which the
comparisons never read. -/
def sameCandidate (a b : DisambiguationCandidate) : Prop :=
  b.fn = a.fn ∧ b.forwardingTo = a.forwardingTo ∧ b.formalActualMap = a.formalActualMap

namespace Sample

/-- The actual of the call `f(myInt8)`: a variable of type `int(8)`. -/
def int8VarActual : QualifiedType := { kind := Kind.VAR, type := some int8Ty, param := none }

/-- The formal/actual pair of a formal `x` of the given type, passed the given
actual. -/
def widthFormal (formalTy : Ty) (actual : QualifiedType) : FormalActual :=
  { formalType := { kind := Kind.CONST_IN, type := some formalTy, param := none },
    actualType := actual, formalIdx := 0, formalInstantiated := false,
    formalName := some "x" }

end Sample

/-- The answer of `moreVisible` seen from the other side: "found the first
function first" and "found the second function first" change places. -/
def MoreVisibleResult.swap : MoreVisibleResult → MoreVisibleResult
  | MoreVisibleResult.FOUND_F1_FIRST => MoreVisibleResult.FOUND_F2_FIRST
  | MoreVisibleResult.FOUND_F2_FIRST => MoreVisibleResult.FOUND_F1_FIRST
  | MoreVisibleResult.FOUND_BOTH => MoreVisibleResult.FOUND_BOTH
  | MoreVisibleResult.FOUND_NEITHER => MoreVisibleResult.FOUND_NEITHER

namespace Sample

/-- The param actual of the call `f(1)`: the literal 1, of type `int`. -/
def literalOne : QualifiedType :=
  { kind := Kind.PARAM, type := some intTy, param := some 1 }

end Sample

/-! ## Vocabulary of the claims about the filter pipeline -/

/-- The mask `after` narrows the mask `before`: it has the same length and
every index discarded in `before` is discarded in `after`. -/
def narrowsMask (before after : List Bool) : Prop :=
  after.length = before.length ∧ ∀ i : Nat, before[i]? = some true → after[i]? = some true

/-- The vector `after` holds the candidates of `before` in the same order: each
entry is the entry of `before` at the same position, in which at most the
cached field `visibilityDistance` has been written. -/
def sameCandidatesVec (before after : CandidatesVec) : Prop :=
  List.Forall₂ (fun c c1 => c1 = { c with visibilityDistance := c1.visibilityDistance })
    before after

/-! ## The visibility search of the production compiler

The functions of `compiler/resolution/visibleFunctions.cpp`.  The search walks
the blocks of the program; a block is identified by its address, the other
attributes of a block that the search reads are fields of `Program`. -/

namespace Compiler

/-- Identity of a `BlockStmt`. -/
abbrev BlockStmt := Nat

/-- Outcome of a run of one of the recursive searches with a bound on the
depth of the recursion: the call returns with state `s`, an `INT_ASSERT` or
`INT_FATAL` ends the run (or a null pointer is dereferenced), or the recursion
goes deeper than the bound. -/
inductive Outcome (σ : Type) where
  | returned (s : σ)
  | aborted
  | depthExceeded
  deriving DecidableEq, Repr

/-- Sequencing of two steps of a run. -/
def Outcome.bind {σ τ : Type} (o : Outcome σ) (f : σ → Outcome τ) : Outcome τ :=
  match o with
  | Outcome.returned s => f s
  | Outcome.aborted => Outcome.aborted
  | Outcome.depthExceeded => Outcome.depthExceeded

/-- What the search reads of a `ModuleSymbol`: its block and
`hasFlag(FLAG_PRIVATE)`. -/
structure ModuleSymbol where
  block : BlockStmt
  flagPrivate : Bool
  deriving DecidableEq, Repr

/-- What the search and the index read of a `FnSymbol`. -/
structure FnSymbol where
  id : Nat
  name : String
  /-- The flag `FLAG_INVISIBLE_FN`. -/
  flagInvisibleFn : Bool
  /-- The flag `FLAG_PRIVATE`. -/
  flagPrivate : Bool
  /-- The flag `FLAG_AUTO_II`. -/
  flagAutoII : Bool
  inTree : Bool
  /-- The test `isArgSymbol(fn->defPoint->parentSymbol)`. -/
  defPointInArgSymbol : Bool
  /-- The block `getVisibilityScope(fn->defPoint)`. -/
  defPointScope : BlockStmt
  instantiationPoint : Option BlockStmt
  deriving DecidableEq, Repr

/-- The symbol of a `SymExpr`: a module, or something else (such as an
enum). -/
inductive Symbol where
  | moduleSymbol (mod : ModuleSymbol)
  | otherSymbol
  deriving DecidableEq, Repr

/-- What the search reads of a `UseStmt` or of an `ImportStmt`: `src` is the
symbol of `toSymExpr(src)`, `none` when `src` is not a `SymExpr`. -/
structure VisibilityStmt where
  src : Option Symbol
  isPrivate : Bool
  skipSymbolSearch : String → Bool
  isARenamedSym : String → Bool
  getRenamedSym : String → String

/-- An entry of the `useList` of a block. -/
inductive UseListExpr where
  | useStmt (use : VisibilityStmt)
  | importStmt (imp : VisibilityStmt)
  | other

/-- What the search reads of the `CallExpr`. -/
structure CallExpr where
  id : Nat
  isResolved : Bool
  numActuals : Nat
  /-- The test `isSymExpr(call->get(1)) &&
  toSymExpr(call->get(1))->symbol() == gMethodToken`. -/
  firstActualIsMethodToken : Bool
  /-- The block `getVisibilityScope(call)`; `none` when the walk ends with
  `INT_FATAL`. -/
  visibilityScope : Option BlockStmt
  deriving DecidableEq, Repr

/-- The arguments of `findVisibleFunctions`. -/
structure CallInfo where
  call : CallExpr
  scope : Option BlockStmt
  name : String

/-- The program: the globals `rootModule`, `theProgram`, `standardModule` and
`gFnSymbols`, the interned names entered into `typeHelperNames`, and the
attributes of blocks, functions and modules that the search reads. -/
structure Program where
  rootModule : ModuleSymbol
  theProgram : ModuleSymbol
  standardModule : ModuleSymbol
  gFnSymbols : List FnSymbol
  /-- The test `block->parentExpr != NULL`. -/
  hasParentExpr : BlockStmt → Bool
  /-- The test `block->parentSymbol != NULL`. -/
  hasParentSymbol : BlockStmt → Bool
  getModule : BlockStmt → Option ModuleSymbol
  getFunction : BlockStmt → Option FnSymbol
  /-- The condition of the `INT_ASSERT` on `block->parentSymbol`: it is the
  function of the block, an `ArgSymbol` or a `ShadowVarSymbol`. -/
  parentSymbolIsFnArgOrShadowVar : BlockStmt → Bool
  useList : BlockStmt → Option (List UseListExpr)
  /-- The block `getVisibilityScope(block)`; `none` when the walk ends with
  `INT_FATAL`. -/
  getVisibilityScope : BlockStmt → Option BlockStmt
  /-- The answer of `fn->isVisible(call)`. -/
  fnIsVisible : FnSymbol → CallExpr → Bool
  /-- The answer of `mod->isVisible(call)`. -/
  modIsVisible : ModuleSymbol → CallExpr → Bool
  astrSassign : String
  astrSeq : String
  astrSne : String
  astrSgt : String
  astrSgte : String
  astrSlt : String
  astrSlte : String
  astrSswap : String
  astr_cast : String
  astr_defaultOf : String
  astrNew : String

/-- The class `VisibleFunctionBlock`: a missing name gives `none`. -/
structure VisibleFunctionBlock where
  visibleFunctions : String → Option (List FnSymbol)

/-- The static globals of `visibleFunctions.cpp`. -/
structure Globals where
  visibleFunctionMap : BlockStmt → Option VisibleFunctionBlock
  nVisibleFunctions : Nat
  scopeIsVisForMethods : List ((BlockStmt × BlockStmt) × Bool)
  typeHelperNames : List String
  builtTypeHelperNames : Bool

/-- The globals when the compiler starts. -/
def Globals.initial : Globals :=
  { visibleFunctionMap := fun _ => none, nVisibleFunctions := 0, scopeIsVisForMethods := [],
    typeHelperNames := [], builtTypeHelperNames := false }

/-- One iteration of the loop of `buildVisibleFunctionMap`. -/
def buildVisibleFunctionMap.step (prog : Program)
    (visibleFunctionMap : BlockStmt → Option VisibleFunctionBlock) (fn : FnSymbol) :
    BlockStmt → Option VisibleFunctionBlock :=
  if ¬ fn.flagInvisibleFn ∧ fn.inTree ∧ ¬ fn.defPointInArgSymbol then
    let block := if fn.flagAutoII then prog.theProgram.block else fn.defPointScope
    let vfb : VisibleFunctionBlock :=
      match visibleFunctionMap block with
      | none => { visibleFunctions := fun _ => none }
      | some vfb => vfb
    let fns : List FnSymbol :=
      match vfb.visibleFunctions fn.name with
      | none => []
      | some fns => fns
    Function.update visibleFunctionMap block
      (some { visibleFunctions := Function.update vfb.visibleFunctions fn.name (some (fns ++ [fn])) })
  else visibleFunctionMap

/-- Enters the functions of `gFnSymbols` from index `nVisibleFunctions` on in
the index and records the number of functions. -/
def buildVisibleFunctionMap (prog : Program) (g : Globals) : Globals :=
  { g with
    visibleFunctionMap :=
      (prog.gFnSymbols.drop g.nVisibleFunctions).foldl (buildVisibleFunctionMap.step prog)
        g.visibleFunctionMap,
    nVisibleFunctions := prog.gFnSymbols.length }

/-- The functions that the index holds for `name` in `block`: the two nested
`get`s of the searches, either of which may find nothing. -/
def visibleFunctionsIn (visibleFunctionMap : BlockStmt → Option VisibleFunctionBlock)
    (block : BlockStmt) (name : String) : List FnSymbol :=
  match visibleFunctionMap block with
  | none => []
  | some vfb =>
    match vfb.visibleFunctions name with
    | none => []
    | some fns => fns

/-- The value of `instantiationPt` that the searches compute for `block`
before they look at its functions: the instantiation point of the function
whose body `block` is.  `none` when the `INT_ASSERT` fails or the
instantiation point is not in the tree (`INT_FATAL`). -/
def instantiationPt (prog : Program) (block : BlockStmt) : Option (Option BlockStmt) :=
  if prog.hasParentExpr block then some none
  else if (match prog.getModule block with
      | some inMod => decide (block = inMod.block)
      | none => false) then some none
  else
    match prog.getFunction block with
    | none => some none
    | some inFn =>
      if ¬ prog.parentSymbolIsFnArgOrShadowVar block then none
      else
        match inFn.instantiationPoint with
        | none => some none
        | some inFnInstantiationPoint =>
          if ¬ prog.hasParentSymbol inFnInstantiationPoint then none
          else some (some inFnInstantiationPoint)

/-- The value of `next` with which the searches recurse in the enclosing
block of a block that is not the root block: `getVisibilityScope(block)`, or
the block of the standard module when that scope lies in another module than
`block`, other than the program and the root module. -/
def nextScope (prog : Program) (block : BlockStmt) : Option BlockStmt :=
  match prog.getVisibilityScope block with
  | none => none
  | some next =>
    let blockMod := prog.getModule block
    let nextMod := prog.getModule next
    if blockMod ≠ nextMod ∧ nextMod ≠ some prog.theProgram ∧
        nextMod ≠ some prog.rootModule then
      some prog.standardModule.block
    else some next

/-- The loop `for_actuals(expr, block->useList)` with body `step`; a null
`useList` is given as `none`. -/
def for_actuals {σ : Type} (step : σ → UseListExpr → Outcome σ) :
    List UseListExpr → σ → Outcome σ
  | [], st => Outcome.returned st
  | expr :: rest, st => (step st expr).bind (for_actuals step rest)

/-- The state of `getVisibleMethods`: the set `visited`, the vector
`visibleFns` and the global cache `scopeIsVisForMethods`. -/
structure MethodSearchState where
  visited : List BlockStmt
  visibleFns : List FnSymbol
  scopeIsVisForMethods : List ((BlockStmt × BlockStmt) × Bool)
  deriving DecidableEq, Repr

/-- The value of `se` in the loop over the use list in `getVisibleMethods`:
`toSymExpr` of the `src` of the use or import statement; `none` for another
expression (`INT_FATAL`). -/
def getVisibleMethods.se : UseListExpr → Option (Option Symbol)
  | UseListExpr.useStmt use => some use.src
  | UseListExpr.importStmt imp => some imp.src
  | UseListExpr.other => none

/-- The body of the loop over the use list in `getVisibleMethods`; `recur` is
the recursive call on a block. -/
def getVisibleMethods.useStep (prog : Program) (call : CallExpr)
    (recur : BlockStmt → MethodSearchState → Outcome MethodSearchState)
    (st : MethodSearchState) (expr : UseListExpr) : Outcome MethodSearchState :=
  match getVisibleMethods.se expr with
  | none => Outcome.aborted
  | some none => Outcome.aborted
  | some (some Symbol.otherSymbol) => Outcome.returned st
  | some (some (Symbol.moduleSymbol mod)) =>
    if mod.flagPrivate then
      match call.visibilityScope with
      | none => Outcome.aborted
      | some scope =>
        match st.scopeIsVisForMethods.lookup (scope, mod.block) with
        | none =>
          let isVisible := prog.modIsVisible mod call
          let st1 : MethodSearchState :=
            { st with
              scopeIsVisForMethods := ((scope, mod.block), isVisible) :: st.scopeIsVisForMethods }
          if isVisible then recur mod.block st1 else Outcome.returned st1
        | some isVisible => if isVisible then recur mod.block st else Outcome.returned st
    else recur mod.block st

/-- The recursive `getVisibleMethods`, with a bound on the depth of the
recursion. -/
def getVisibleMethods (prog : Program)
    (visibleFunctionMap : BlockStmt → Option VisibleFunctionBlock) (name : String)
    (call : CallExpr) : Nat → BlockStmt → MethodSearchState → Outcome MethodSearchState
  | 0, _, _ => Outcome.depthExceeded
  | depth + 1, block, st =>
    if block ∈ st.visited then Outcome.returned st
    else
      match instantiationPt prog block with
      | none => Outcome.aborted
      | some instantiationPt =>
        let st1 : MethodSearchState :=
          { st with
            visited := block :: st.visited,
            visibleFns := st.visibleFns ++ visibleFunctionsIn visibleFunctionMap block name }
        (for_actuals
          (getVisibleMethods.useStep prog call
            (getVisibleMethods prog visibleFunctionMap name call depth))
          ((prog.useList block).getD []) st1).bind fun st2 =>
        if block ≠ prog.rootModule.block then
          match nextScope prog block with
          | none => Outcome.aborted
          | some next =>
            (getVisibleMethods prog visibleFunctionMap name call depth next st2).bind fun st3 =>
            match instantiationPt with
            | none => Outcome.returned st3
            | some pt => getVisibleMethods prog visibleFunctionMap name call depth pt st3
        else Outcome.returned st2

/-- The state of `getVisibleFunctions`: the set `visited` and the vector
`visibleFns`. -/
structure SearchState where
  visited : List BlockStmt
  visibleFns : List FnSymbol
  deriving DecidableEq, Repr

/-- The loop of `getVisibleFunctions` over the functions of one block:
public functions are added, private ones according to `isVisible(call)` of the
first private function met. -/
def getVisibleFunctions.addFns (prog : Program) (call : CallExpr) :
    List FnSymbol → Bool → Bool → List FnSymbol → List FnSymbol
  | [], _, _, visibleFns => visibleFns
  | fn :: fns, privacyChecked, privateOkay, visibleFns =>
    if fn.flagPrivate then
      if ¬ privacyChecked then
        if prog.fnIsVisible fn call = true then
          getVisibleFunctions.addFns prog call fns true true (visibleFns ++ [fn])
        else getVisibleFunctions.addFns prog call fns true privateOkay visibleFns
      else if privateOkay then
        getVisibleFunctions.addFns prog call fns privacyChecked privateOkay (visibleFns ++ [fn])
      else getVisibleFunctions.addFns prog call fns privacyChecked privateOkay visibleFns
    else getVisibleFunctions.addFns prog call fns privacyChecked privateOkay (visibleFns ++ [fn])

/-- The part of the loop over the use list in `getVisibleFunctions` inside
the test on `isPrivate`, for a `use` (`isImport` false) or an import
statement; `recur` is the recursive call with a name, a block, the state and
`inUseChain`. -/
def getVisibleFunctions.traverse (prog : Program) (call : CallExpr)
    (recur : String → BlockStmt → SearchState → Bool → Outcome SearchState)
    (name : String) ( isImport : Bool) (stmt : VisibilityStmt) (st : SearchState) :
    Outcome SearchState :=
  if stmt.skipSymbolSearch name = false then
    match stmt.src with
    | none => Outcome.aborted
    | some Symbol.otherSymbol => if isImport then Outcome.aborted else Outcome.returned st
    | some (Symbol.moduleSymbol mod) =>
      if prog.modIsVisible mod call = true then
        if stmt.isARenamedSym name = true then
          recur (stmt.getRenamedSym name) mod.block st true
        else recur name mod.block st true
      else Outcome.returned st
  else Outcome.returned st

/-- The body of the loop over the use list in `getVisibleFunctions`, for a
block seen for the first time (`revisit` false: a statement is traversed when
`!inUseChain || !isPrivate`) and for a block seen again from outside a use
chain (`revisit` true: only private statements are traversed). -/
def getVisibleFunctions.useStep (prog : Program) (call : CallExpr)
    (recur : String → BlockStmt → SearchState → Bool → Outcome SearchState)
    (name : String) (inUseChain revisit : Bool) (st : SearchState) (expr : UseListExpr) :
    Outcome SearchState :=
  match expr with
  | UseListExpr.useStmt use =>
    if (if revisit then use.isPrivate = true else (¬ inUseChain ∨ ¬ use.isPrivate)) then
      getVisibleFunctions.traverse prog call recur name false use st
    else Outcome.returned st
  | UseListExpr.importStmt imp =>
    if (if revisit then imp.isPrivate = true else (¬ inUseChain ∨ ¬ imp.isPrivate)) then
      getVisibleFunctions.traverse prog call recur name true imp st
    else Outcome.returned st
  | UseListExpr.other => Outcome.aborted

/-- The recursive `getVisibleFunctions`, with a bound on the depth of the
recursion. -/
def getVisibleFunctions (prog : Program)
    (visibleFunctionMap : BlockStmt → Option VisibleFunctionBlock) (call : CallExpr) :
    Nat → String → BlockStmt → SearchState → Bool → Outcome SearchState
  | 0, _, _, _, _ => Outcome.depthExceeded
  | depth + 1, name, block, st, inUseChain =>
    if block ∉ st.visited then
      match instantiationPt prog block with
      | none => Outcome.aborted
      | some instantiationPt =>
        let st1 : SearchState :=
          { visited := block :: st.visited,
            visibleFns :=
              getVisibleFunctions.addFns prog call
                (visibleFunctionsIn visibleFunctionMap block name) false false st.visibleFns }
        (for_actuals
          (getVisibleFunctions.useStep prog call
            (getVisibleFunctions prog visibleFunctionMap call depth) name inUseChain false)
          ((prog.useList block).getD []) st1).bind fun st2 =>
        if block ≠ prog.rootModule.block then
          match nextScope prog block with
          | none => Outcome.aborted
          | some next =>
            (getVisibleFunctions prog visibleFunctionMap call depth name next st2
              inUseChain).bind fun st3 =>
            match instantiationPt with
            | none => Outcome.returned st3
            | some pt =>
              getVisibleFunctions prog visibleFunctionMap call depth name pt st3 inUseChain
        else Outcome.returned st2
    else if ¬ inUseChain then
      match instantiationPt prog block with
      | none => Outcome.aborted
      | some instantiationPt =>
        (for_actuals
          (getVisibleFunctions.useStep prog call
            (getVisibleFunctions prog visibleFunctionMap call depth) name inUseChain true)
          ((prog.useList block).getD []) st).bind fun st2 =>
        (if block ≠ prog.rootModule.block then
          match nextScope prog block with
          | none => Outcome.aborted
          | some next =>
            getVisibleFunctions prog visibleFunctionMap call depth name next st2 inUseChain
        else Outcome.returned st2).bind fun st3 =>
        match instantiationPt with
        | none => Outcome.returned st3
        | some pt =>
          getVisibleFunctions prog visibleFunctionMap call depth name pt st3 inUseChain
    else Outcome.returned st

/-- The `getVisibleMethods` overload that takes the call only: starts the
search in the scope of the call with an empty set `visited`. -/
def getVisibleMethodsForCall (prog : Program)
    (visibleFunctionMap : BlockStmt → Option VisibleFunctionBlock) (name : String)
    (call : CallExpr) (depth : Nat) (visibleFns : List FnSymbol)
    (scopeIsVisForMethods : List ((BlockStmt × BlockStmt) × Bool)) :
    Outcome MethodSearchState :=
  match call.visibilityScope with
  | none => Outcome.aborted
  | some block =>
    getVisibleMethods prog visibleFunctionMap name call depth block
      { visited := [], visibleFns := visibleFns, scopeIsVisForMethods := scopeIsVisForMethods }

/-- The `getVisibleFunctions` overload that takes the call only: starts the
search in the scope of the call with an empty set `visited`, outside a use
chain. -/
def getVisibleFunctionsForCall (prog : Program)
    (visibleFunctionMap : BlockStmt → Option VisibleFunctionBlock) (call : CallExpr)
    (depth : Nat) (name : String) (visibleFns : List FnSymbol) : Outcome SearchState :=
  match call.visibilityScope with
  | none => Outcome.aborted
  | some block =>
    getVisibleFunctions prog visibleFunctionMap call depth name block
      { visited := [], visibleFns := visibleFns } false

/-- The names entered into `typeHelperNames` on the first call of
`findVisibleFunctions`. -/
def typeHelperNamesOf (prog : Program) : List String :=
  [prog.astrSassign, prog.astrSeq, prog.astrSne, prog.astrSgt, prog.astrSgte, prog.astrSlt,
   prog.astrSlte, prog.astrSswap, prog.astr_cast, prog.astr_defaultOf, prog.astrNew,
   "chpl__initCopy", "chpl__autoCopy", "chpl__autoDestroy"]

/-- The update step of `findVisibleFunctions`: the index is brought up to
date when the number of functions differs from the recorded one. -/
def findVisibleFunctions.update (prog : Program) (g : Globals) : Globals :=
  if prog.gFnSymbols.length ≠ g.nVisibleFunctions then buildVisibleFunctionMap prog g else g

/-- The function `findVisibleFunctions`: yields `visibleFns` and the
globals; the searches run with a bound on the depth of the recursion. -/
def findVisibleFunctions (prog : Program) (depth : Nat) (info : CallInfo)
    (visibleFns : List FnSymbol) (g : Globals) : Outcome (List FnSymbol × Globals) :=
  let call := info.call
  let g1 : Globals :=
    if ¬ g.builtTypeHelperNames then
      { g with
        typeHelperNames := g.typeHelperNames ++ typeHelperNamesOf prog,
        builtTypeHelperNames := true }
    else g
  let g2 := findVisibleFunctions.update prog g1
  if call.isResolved ≠ false then Outcome.aborted
  else
    match info.scope with
    | some block =>
      Outcome.returned
        (visibleFns ++ visibleFunctionsIn g2.visibleFunctionMap block info.name, g2)
    | none =>
      if call.numActuals ≥ 2 ∧ call.firstActualIsMethodToken then
        (getVisibleMethodsForCall prog g2.visibleFunctionMap info.name call depth visibleFns
          g2.scopeIsVisForMethods).bind fun st =>
        Outcome.returned
          (st.visibleFns, { g2 with scopeIsVisForMethods := st.scopeIsVisForMethods })
      else if info.name ∈ g2.typeHelperNames then
        (getVisibleMethodsForCall prog g2.visibleFunctionMap info.name call depth visibleFns
          g2.scopeIsVisForMethods).bind fun st =>
        Outcome.returned
          (st.visibleFns, { g2 with scopeIsVisForMethods := st.scopeIsVisForMethods })
      else
        (getVisibleFunctionsForCall prog g2.visibleFunctionMap call depth info.name
          visibleFns).bind fun st =>
        Outcome.returned (st.visibleFns, g2)

/-! ## Vocabulary of the claims about the visibility search -/

/-- One recursive call that `getVisibleFunctions` can make: from the call on
`block` for `name` with the flag `inUseChain` to the call on the enclosing
block `next`, on the instantiation point, or on the block of a module named
by a use or import statement of `block` that is traversed: one that does not
skip the name, names a module visible from the call, and is not private
unless `inUseChain` is false. -/
inductive SearchStep (prog : Program) (call : CallExpr) :
    String × BlockStmt × Bool → String × BlockStmt × Bool → Prop where
  | enclosing (name : String) (block : BlockStmt) (inUseChain : Bool) (next : BlockStmt) :
      block ≠ prog.rootModule.block → nextScope prog block = some next →
      SearchStep prog call (name, block, inUseChain) (name, next, inUseChain)
  | instantiation (name : String) (block : BlockStmt) (inUseChain : Bool) (pt : BlockStmt) :
      instantiationPt prog block = some (some pt) →
      SearchStep prog call (name, block, inUseChain) (name, pt, inUseChain)
  | useOrImport (name : String) (block : BlockStmt) (inUseChain : Bool)
      (stmt : VisibilityStmt) (mod : ModuleSymbol) :
      (UseListExpr.useStmt stmt ∈ (prog.useList block).getD [] ∨
        UseListExpr.importStmt stmt ∈ (prog.useList block).getD []) →
      (inUseChain = false ∨ stmt.isPrivate = false) →
      stmt.skipSymbolSearch name = false →
      stmt.src = some (Symbol.moduleSymbol mod) →
      prog.modIsVisible mod call = true →
      SearchStep prog call (name, block, inUseChain)
        (if stmt.isARenamedSym name = true then stmt.getRenamedSym name else name,
          mod.block, true)

/-- The functions that a first visit of block `e.2` for the name `e.1` adds
to the result. -/
def blockContribution (prog : Program)
    (visibleFunctionMap : BlockStmt → Option VisibleFunctionBlock) (call : CallExpr)
    (e : String × BlockStmt) : List FnSymbol :=
  getVisibleFunctions.addFns prog call (visibleFunctionsIn visibleFunctionMap e.2 e.1)
    false false []

/-- The state `after` comes from the state `before` by first visits of the
blocks of `trace`, in this order, each for the name paired with it: each
block of `trace` is entered in `visited` and contributes its functions once,
no block occurs twice and none was visited in `before`. -/
def grownBy (contrib : String × BlockStmt → List FnSymbol) (before after : SearchState)
    (trace : List (String × BlockStmt)) : Prop :=
  after.visited = (trace.map Prod.snd).reverse ++ before.visited ∧
  after.visibleFns = before.visibleFns ++ trace.flatMap contrib ∧
  (trace.map Prod.snd).Nodup ∧
  ∀ e ∈ trace, e.2 ∉ before.visited

/-- The relation between the states before and after a run: the state grows
by first visits of blocks, each reached by steps of the search from `start`. -/
def growsFrom (prog : Program) (visibleFunctionMap : BlockStmt → Option VisibleFunctionBlock)
    (call : CallExpr) (start : String × BlockStmt × Bool) (before after : SearchState) : Prop :=
  ∃ trace : List (String × BlockStmt),
    grownBy (blockContribution prog visibleFunctionMap call) before after trace ∧
    ∀ e ∈ trace, ∃ u, Relation.ReflTransGen (SearchStep prog call) start (e.1, e.2, u)

/-- What a recursive call on a block yields, as far as the bookkeeping goes:
the state grows by first visits and the block is visited afterwards. -/
def callGrows (prog : Program) (visibleFunctionMap : BlockStmt → Option VisibleFunctionBlock)
    (call : CallExpr) (start : String × BlockStmt × Bool)
    (recur : String → BlockStmt → SearchState → Bool → Outcome SearchState) : Prop :=
  ∀ (name : String) (block : BlockStmt) (s s1 : SearchState) (u : Bool),
    Relation.ReflTransGen (SearchStep prog call) start (name, block, u) →
    recur name block s u = Outcome.returned s1 →
    growsFrom prog visibleFunctionMap call start s s1 ∧ block ∈ s1.visited

/-- No use or import statement of the program renames a symbol to `name`. -/
def notRenamed (prog : Program) (name : String) : Prop :=
  ∀ (block : BlockStmt) (stmt : VisibilityStmt),
    (UseListExpr.useStmt stmt ∈ (prog.useList block).getD [] ∨
      UseListExpr.importStmt stmt ∈ (prog.useList block).getD []) →
    stmt.isARenamedSym name = false

/-- The step of the search from a block other than the root block to the
block `next` in which it recurses as the enclosing block. -/
def enclosingStep (prog : Program) (block next : BlockStmt) : Prop :=
  block ≠ prog.rootModule.block ∧ nextScope prog block = some next

/-- The steps of the search that keep `inUseChain`: from a block other than
the root block to the enclosing block or to the instantiation point. -/
def walkStep (prog : Program) (block next : BlockStmt) : Prop :=
  block ≠ prog.rootModule.block ∧
    (nextScope prog block = some next ∨ instantiationPt prog block = some (some next))

/-- The number of blocks below `n` that are not in `visited`. -/
def unvisited (n : Nat) (visited : List BlockStmt) : Nat :=
  ((Finset.range n).filter (fun b => b ∉ visited)).card

/-- What a walk covers at a block `c`: the block is visited, and so is the
block of every module that a private use or import statement of `c` names
without skipping the name, when the module is visible from the call. -/
def coveredAt (prog : Program) (call : CallExpr) (name : String) (visited : List BlockStmt)
    (c : BlockStmt) : Prop :=
  c ∈ visited ∧
  ∀ (stmt : VisibilityStmt) (mod : ModuleSymbol),
    (UseListExpr.useStmt stmt ∈ (prog.useList c).getD [] ∨
      UseListExpr.importStmt stmt ∈ (prog.useList c).getD []) →
    stmt.isPrivate = true → stmt.skipSymbolSearch name = false →
    stmt.src = some (Symbol.moduleSymbol mod) → prog.modIsVisible mod call = true →
    mod.block ∈ visited

/-- A bound `n` on the blocks of the program: the blocks that the searches
reach from a block below `n` are below `n`. -/
structure ClosedGraph (prog : Program) (n : Nat) : Prop where
  next_lt : ∀ (b nx : BlockStmt), b < n → b ≠ prog.rootModule.block →
    nextScope prog b = some nx → nx < n
  inst_lt : ∀ (b pt : BlockStmt), b < n → instantiationPt prog b = some (some pt) → pt < n
  use_lt : ∀ (b : BlockStmt) (stmt : VisibilityStmt) (mod : ModuleSymbol), b < n →
    (UseListExpr.useStmt stmt ∈ (prog.useList b).getD [] ∨
      UseListExpr.importStmt stmt ∈ (prog.useList b).getD []) →
    stmt.src = some (Symbol.moduleSymbol mod) → mod.block < n

/-- A closed graph with a rank of the blocks below `r`: the enclosing block
and the instantiation point in which the search recurses have a smaller rank
than the block. -/
structure RankedGraph (prog : Program) (n r : Nat) (rank : BlockStmt → Nat)
    extends ClosedGraph prog n : Prop where
  next_rank : ∀ (b nx : BlockStmt), b < n → b ≠ prog.rootModule.block →
    nextScope prog b = some nx → rank nx < rank b
  inst_rank : ∀ (b pt : BlockStmt), b < n → instantiationPt prog b = some (some pt) →
    rank pt < rank b
  rank_lt : ∀ b : BlockStmt, b < n → rank b < r

/-- The blocks below `n` pass the assertions of the search: every block has
an enclosing scope and passes the checks on its instantiation point, and
every entry of a use list is a use statement of a symbol or an import
statement of a module. -/
structure WellFormedGraph (prog : Program) (n : Nat) : Prop where
  next_some : ∀ b : BlockStmt, b < n → b ≠ prog.rootModule.block → nextScope prog b ≠ none
  inst_some : ∀ b : BlockStmt, b < n → instantiationPt prog b ≠ none
  use_ok : ∀ (b : BlockStmt) (e : UseListExpr), b < n → e ∈ (prog.useList b).getD [] →
    (∃ use sym, e = UseListExpr.useStmt use ∧ use.src = some sym) ∨
    (∃ imp mod, e = UseListExpr.importStmt imp ∧ imp.src = some (Symbol.moduleSymbol mod))

/-- Whether an entry of a use list is a private use or import statement. -/
def UseListExpr.isPrivate : UseListExpr → Bool
  | UseListExpr.useStmt use => use.isPrivate
  | UseListExpr.importStmt imp => imp.isPrivate
  | UseListExpr.other => false

/-- The program without its private use and import statements. -/
def Program.withoutPrivateStmts (prog : Program) : Program :=
  { prog with
    useList := fun block =>
      (prog.useList block).map (List.filter (fun e => !e.isPrivate)) }

/-- One recursive call that `getVisibleMethods` makes from the first visit of
a block: on the enclosing block, on the instantiation point, or on the block
of a module named by a use or import statement, whatever the privacy and the
limitations of the statement, when the module is not flagged private or is
visible from the call. -/
inductive MethodStep (prog : Program) (call : CallExpr) : BlockStmt → BlockStmt → Prop where
  | enclosing (block next : BlockStmt) :
      block ≠ prog.rootModule.block → nextScope prog block = some next →
      MethodStep prog call block next
  | instantiation (block pt : BlockStmt) :
      block ≠ prog.rootModule.block → instantiationPt prog block = some (some pt) →
      MethodStep prog call block pt
  | useOrImport (block : BlockStmt) (stmt : VisibilityStmt) (mod : ModuleSymbol) :
      (UseListExpr.useStmt stmt ∈ (prog.useList block).getD [] ∨
        UseListExpr.importStmt stmt ∈ (prog.useList block).getD []) →
      stmt.src = some (Symbol.moduleSymbol mod) →
      (mod.flagPrivate = false ∨ prog.modIsVisible mod call = true) →
      MethodStep prog call block mod.block

/-- The cache `scopeIsVisForMethods` holds, for the scope of the call, the
answers of `isVisible(call)`. -/
def cacheAgrees (prog : Program) (call : CallExpr)
    (cache : List ((BlockStmt × BlockStmt) × Bool)) : Prop :=
  ∀ (scope : BlockStmt) (mod : ModuleSymbol) (v : Bool), call.visibilityScope = some scope →
    cache.lookup (scope, mod.block) = some v → v = prog.modIsVisible mod call

/-- The answer of `isVisible(call)` for a module depends on the block of the
module only (a block is the block of one module). -/
def visibilityByBlock (prog : Program) (call : CallExpr) : Prop :=
  ∀ m m1 : ModuleSymbol, m.block = m1.block → prog.modIsVisible m call = prog.modIsVisible m1 call

/-- The state `after` of `getVisibleMethods` comes from the state `before` by
first visits of `blocks`, in this order: each is entered in `visited` and
contributes its functions of `name` once, no block occurs twice and none was
visited in `before`. -/
def methodsGrownBy (visibleFunctionMap : BlockStmt → Option VisibleFunctionBlock)
    (name : String) (before after : MethodSearchState) (blocks : List BlockStmt) : Prop :=
  after.visited = blocks.reverse ++ before.visited ∧
  after.visibleFns =
    before.visibleFns ++ blocks.flatMap (fun b => visibleFunctionsIn visibleFunctionMap b name) ∧
  blocks.Nodup ∧
  ∀ b ∈ blocks, b ∉ before.visited

/-- The relation between the states before and after a run of
`getVisibleMethods`: the state grows by first visits of blocks, every block to
which a newly visited block has a step is visited, and the cache agrees with
`isVisible`. -/
def methodsGrow (prog : Program) (visibleFunctionMap : BlockStmt → Option VisibleFunctionBlock)
    (name : String) (call : CallExpr) (before after : MethodSearchState) : Prop :=
  cacheAgrees prog call after.scopeIsVisForMethods ∧
  ∃ blocks : List BlockStmt, methodsGrownBy visibleFunctionMap name before after blocks ∧
    ∀ b ∈ blocks, ∀ c, MethodStep prog call b c → c ∈ after.visited

/-- What a recursive call of `getVisibleMethods` on a block yields, from a
state whose cache agrees with `isVisible`. -/
def methodCallGrows (prog : Program)
    (visibleFunctionMap : BlockStmt → Option VisibleFunctionBlock)
    (name : String) (call : CallExpr)
    (recur : BlockStmt → MethodSearchState → Outcome MethodSearchState) : Prop :=
  ∀ (block : BlockStmt) (s s1 : MethodSearchState),
    cacheAgrees prog call s.scopeIsVisForMethods →
    recur block s = Outcome.returned s1 →
    methodsGrow prog visibleFunctionMap name call s s1 ∧ block ∈ s1.visited

/-- The test of `buildVisibleFunctionMap` on a function: not flagged
invisible, in the tree and not defined inside an argument symbol. -/
def eligible (fn : FnSymbol) : Bool :=
  !fn.flagInvisibleFn && fn.inTree && !fn.defPointInArgSymbol

/-- The block under which `buildVisibleFunctionMap` enters a function. -/
def indexBlock (prog : Program) (fn : FnSymbol) : BlockStmt :=
  if fn.flagAutoII then prog.theProgram.block else fn.defPointScope

/-- The program with `fns` as its list `gFnSymbols`. -/
def Program.withFnSymbols (prog : Program) (fns : List FnSymbol) : Program :=
  { prog with gFnSymbols := fns }

/-- The globals with an empty index and the count 0. -/
def Globals.cleared (g : Globals) : Globals :=
  { g with visibleFunctionMap := fun _ => none, nVisibleFunctions := 0 }

/-- The outcome of a run with `f` applied to the state with which it
returns. -/
def Outcome.map {σ τ : Type} (f : σ → τ) (o : Outcome σ) : Outcome τ :=
  o.bind fun s => Outcome.returned (f s)

/-! ## A sample program -/

namespace Sample

/-- A function named `name` declared in the block `scope`, public, in the
tree, without instantiation point. -/
def fnIn (id : Nat) (name : String) (scope : BlockStmt) : FnSymbol :=
  { id := id, name := name, flagInvisibleFn := false, flagPrivate := false,
    flagAutoII := false, inTree := true, defPointInArgSymbol := false,
    defPointScope := scope, instantiationPoint := none }

/-- The module whose block is `block`, not private. -/
def moduleOf (block : BlockStmt) : ModuleSymbol := { block := block, flagPrivate := false }

/-- The private module `Hidden`, nested in `Outer`. -/
def hiddenModule : ModuleSymbol := { block := 14, flagPrivate := true }

/-- The instantiation `g` of a generic function of module `M`, instantiated
by a call at the top level of module `Q` (block 6). -/
def fnG : FnSymbol := { fnIn 20 "g" 3 with instantiationPoint := some 6 }

/-- The instantiation `g2` of a generic function of module `G`, instantiated
by a call at the top level of module `Q` (block 6). -/
def fnG2 : FnSymbol := { fnIn 21 "g2" 11 with instantiationPoint := some 6 }

/-- A statement `use M;` or `import M;` without limitation, of the module
`mod`. -/
def plainUse (mod : ModuleSymbol) ( isPrivate : Bool) : VisibilityStmt :=
  { src := some (Symbol.moduleSymbol mod), isPrivate := isPrivate,
    skipSymbolSearch := fun _ => false, isARenamedSym := fun _ => false,
    getRenamedSym := fun name => name }

/-- The statement `use N2 only foo as bar;`, private. -/
def renamingUse : VisibilityStmt :=
  { src := some (Symbol.moduleSymbol (moduleOf 13)), isPrivate := true,
    skipSymbolSearch := fun name => name != "bar", isARenamedSym := fun name => name == "bar",
    getRenamedSym := fun _ => "foo" }

/-- The functions of the program.  Function 6 is private and not visible from
the calls considered; 30, 31 and 32 are not eligible for the index; 33 is
flagged `FLAG_AUTO_II`. -/
def functions : List FnSymbol :=
  [fnIn 1 "f" 3, fnIn 2 "f" 5, fnIn 3 "f" 7, fnIn 4 "f" 8, fnIn 5 "f" 6,
   { fnIn 6 "f" 5 with flagPrivate := true }, fnIn 7 "f" 0, fnIn 8 "f" 9,
   fnIn 9 "foo" 13, fnIn 10 "bar" 6, fnIn 11 "f" 14, fnG, fnG2,
   { fnIn 30 "f" 3 with flagInvisibleFn := true }, { fnIn 31 "f" 3 with inTree := false },
   { fnIn 32 "f" 3 with defPointInArgSymbol := true },
   { fnIn 33 "these" 3 with flagAutoII := true }]

/-- A program of fifteen blocks.  Block 0 is the block of the root module,
1 of the program module, 2 of the standard module.  The top-level modules
`M` (3), `N` (5), `Q` (6), `P` (7), `Priv` (8), `Outer` (9), `G` (11) and
`N2` (13) are declared in the program module.  Block 4 is the body of `g`,
declared in `M`; block 12 is the body of `g2`, declared in `G`; block 10 is
the module `Inner` and block 14 the private module `Hidden`, both nested in
`Outer`.  `M` has `private use N;`, `N` has `public use P; private use Priv;
public use Hidden;`, `P` has `public import N;`, `Outer` has `private use P;`,
the body of `g2` has `use N2 only foo as bar;` and `N2` has `public use Q;`.
`Hidden` is not visible from the calls considered. -/
def program : Program :=
  { rootModule := moduleOf 0, theProgram := moduleOf 1, standardModule := moduleOf 2,
    gFnSymbols := functions,
    hasParentExpr := fun _ => false,
    hasParentSymbol := fun _ => true,
    getModule := fun block =>
      if block = 4 then some (moduleOf 3)
      else if block = 12 then some (moduleOf 11)
      else if block = 14 then some hiddenModule
      else some (moduleOf block),
    getFunction := fun block =>
      if block = 4 then some fnG else if block = 12 then some fnG2 else none,
    parentSymbolIsFnArgOrShadowVar := fun _ => true,
    useList := fun block =>
      if block = 3 then some [UseListExpr.useStmt (plainUse (moduleOf 5) true)]
      else if block = 5 then
        some [UseListExpr.useStmt (plainUse (moduleOf 7) false),
          UseListExpr.useStmt (plainUse (moduleOf 8) true),
          UseListExpr.useStmt (plainUse hiddenModule false)]
      else if block = 7 then some [UseListExpr.importStmt (plainUse (moduleOf 5) false)]
      else if block = 9 then some [UseListExpr.useStmt (plainUse (moduleOf 7) true)]
      else if block = 12 then some [UseListExpr.useStmt renamingUse]
      else if block = 13 then some [UseListExpr.useStmt (plainUse (moduleOf 6) false)]
      else none,
    getVisibilityScope := fun block =>
      if block = 0 then none
      else if block = 1 then some 0
      else if block = 4 then some 3
      else if block = 12 then some 11
      else if block = 10 then some 9
      else if block = 14 then some 9
      else some 1,
    fnIsVisible := fun fn _ => fn.id != 6,
    modIsVisible := fun mod _ => mod.block != 14,
    astrSassign := "=", astrSeq := "==", astrSne := "!=", astrSgt := ">", astrSgte := ">=",
    astrSlt := "<", astrSlte := "<=", astrSswap := "<=>", astr_cast := "_cast",
    astr_defaultOf := "_defaultOf", astrNew := "_new" }

/-- The index of the functions of the program, built from the empty index. -/
def index : BlockStmt → Option VisibleFunctionBlock :=
  (buildVisibleFunctionMap program Globals.initial).visibleFunctionMap

/-- A call in the block `scope`, not a method call. -/
def callIn (scope : BlockStmt) : CallExpr :=
  { id := 100 + scope, isResolved := false, numActuals := 0,
    firstActualIsMethodToken := false, visibilityScope := some scope }

/-- A method call in the block `scope`: its first actual is the method
token. -/
def methodCallIn (scope : BlockStmt) : CallExpr :=
  { id := 200 + scope, isResolved := false, numActuals := 2,
    firstActualIsMethodToken := true, visibilityScope := some scope }

/-- The ranks of the blocks: the enclosing block and the instantiation point
of a block have a smaller rank than the block. -/
def rank (block : BlockStmt) : Nat :=
  if block = 0 then 0 else if block = 1 then 1
  else if block = 4 ∨ block = 10 ∨ block = 12 ∨ block = 14 then 3 else 2

/-- A program of two blocks: the block 0 of the root module and the body 1 of
a function `h` declared in it, whose instantiation point is recorded as its
own body. -/
def loopProgram : Program :=
  { program with
    gFnSymbols := [],
    getModule := fun _ => some (moduleOf 0),
    getFunction := fun block =>
      if block = 1 then some { fnIn 40 "h" 0 with instantiationPoint := some 1 } else none,
    useList := fun _ => none,
    getVisibilityScope := fun block => if block = 0 then none else some 0 }

end Sample

end Compiler

/-! ## Concrete inputs: a call inside an instantiated generic function -/

namespace Sample

/-- The scope of the call `f(x)` in the body of a generic function (id 1,
nested in the scope 0 of its module). -/
def genericBodyScope : Scope := Scope.child 1 false (Scope.root 0 false)

/-- The chain of points of instantiation of the call: the innermost in scope 5
(nested in scope 4), the next in scope 7 (nested in scope 6). -/
def poiChain : PoiScope :=
  [Scope.child 5 false (Scope.root 4 false), Scope.child 7 true (Scope.root 6 false)]

/-- The declarations of `f`: function 31 in scope 4, function 30 through the
use statement of scope 7, and function 32 in scope 0, the module of the
generic function. -/
def poiContext : Context :=
  { canPass := canPassIntReal,
    lookupNameInScope := fun scope _name config =>
      if config.lookupDecls then
        (if scope.id = 4 then [[31]] else if scope.id = 0 then [[32]] else [])
      else if config.lookupImportAndUse then
        (if scope.id = 7 then [[30]] else [])
      else [],
    formalActualMap := fun _fn _call => oneFormalMap intTy,
    idToFnReturnIntent := fun _ => ReturnIntent.DEFAULT_RETURN_INTENT,
    idIsFunctionWithWhere := fun _ => false,
    idIsInInternalModule := fun _ => false,
    getTypeGenericity := fun _ => Genericity.CONCRETE }

end Sample

/-! ## Concrete inputs: an enum actual -/

namespace Sample

/-- The type `int(16)`. -/
def int16Ty : Ty := { tag := TypeTag.IntType, width := 16, defaultWidth := false, uid := 0 }

/-- The actual of the call `g(myColor)`: a variable of the enum type. -/
def colorVarActual : QualifiedType :=
  { kind := Kind.VAR, type := some colorTy, param := none }

/-- The function `proc g(x: int(16))`, id 22. -/
def fnInt16 : TypedFnSignature :=
  { id := 22, untyped := { name := "g", isMethod := false, kind := FunctionKind.PROC },
    instantiatedFrom := none }

/-- The candidate `proc g(x: int(16))` of the call `g(myColor)`. -/
def candColorInt16 : DisambiguationCandidate :=
  { fn := fnInt16, forwardingTo := QualifiedType.empty,
    formalActualMap := { entries := [some (widthFormal int16Ty colorVarActual)] },
    idx := 0, visibilityDistance := -1 }

/-- The candidate `proc g(x: uint)` of the call `g(myColor)`. -/
def candColorUint : DisambiguationCandidate :=
  { fn := fnUint, forwardingTo := QualifiedType.empty,
    formalActualMap := { entries := [some (widthFormal uintTy colorVarActual)] },
    idx := 1, visibilityDistance := -1 }

end Sample

/-! ## Concrete inputs: three overloads that neither order nor tie -/

namespace Sample

/-- The formal/actual pair of the formal number `idx` of the given type,
passed a non-param `int` variable. -/
def intVarFormal (formalTy : Ty) (idx : Nat) : FormalActual :=
  { formalType := { kind := Kind.CONST_IN, type := some formalTy, param := none },
    actualType := intVarActual, formalIdx := idx, formalInstantiated := false,
    formalName := none }

/-- The formal/actual map of a function of three formals of the given types,
called with three non-param `int` variables. -/
def threeFormalMap (t0 t1 t2 : Ty) : FormalActualMap :=
  { entries := [some (intVarFormal t0 0), some (intVarFormal t1 1),
      some (intVarFormal t2 2)] }

/-- Three overloads declared in one scope: function 60 is
`proc f(a: real, b: real, c: int)`, function 61 is
`proc f(a: int, b: real, c: int) param` and function 62 is
`proc f(a: real, b: int, c: real)`; none has a where clause. -/
def tripleContext : Context :=
  { canPass := canPassIntReal,
    lookupNameInScope := fun _scope _name config =>
      if config.lookupDecls then [[60, 61, 62]] else [],
    formalActualMap := fun fn _call =>
      if fn.id = 60 then threeFormalMap realTy realTy intTy
      else if fn.id = 61 then threeFormalMap intTy realTy intTy
      else threeFormalMap realTy intTy realTy,
    idToFnReturnIntent := fun id =>
      if id = 61 then ReturnIntent.PARAM else ReturnIntent.DEFAULT_RETURN_INTENT,
    idIsFunctionWithWhere := fun _ => false,
    idIsInInternalModule := fun _ => false,
    getTypeGenericity := fun _ => Genericity.CONCRETE }

/-- The call `f(x, y, z)` on three non-param `int` variables. -/
def callF3 : CallInfo := { name := "f", isMethodCall := false, numActuals := 3 }

/-- The context of the call `f(x, y, z)` in the root scope. -/
def tripleDctx : DisambiguationContext :=
  DisambiguationContext.new tripleContext callF3 (Scope.root 0 false) [] true

/-- The function number `id` of the three overloads. -/
def fnTriple (id : ID) : TypedFnSignature :=
  { id := id, untyped := { name := "f", isMethod := false, kind := FunctionKind.PROC },
    instantiatedFrom := none }

/-- The candidate for the function number `id` of the three overloads. -/
def candTriple (id : ID) (idx : Nat) : DisambiguationCandidate :=
  DisambiguationCandidate.new tripleContext (fnTriple id) QualifiedType.empty callF3 idx

end Sample

namespace Compiler

/-! ## Vocabulary of the claim about the check of private functions -/

/-- The answer of `isVisible(call)` for the first private function of the
list, false when the list has no private function. -/
def firstPrivateVisible (prog : Program) (call : CallExpr) (fns : List FnSymbol) : Bool :=
  match fns.find? (fun fn => fn.flagPrivate) with
  | some fn => prog.fnIsVisible fn call
  | none => false

namespace Sample

/-- A private function `f` declared in block 5. -/
def privateFn (id : Nat) : FnSymbol := { fnIn id "f" 5 with flagPrivate := true }

/-- A program in which `isVisible(call)` differs between two private
functions of one block: it holds for function 40 and not for function 41. -/
def unevenProgram : Program := { program with fnIsVisible := fun fn _ => fn.id != 41 }

end Sample

end Compiler

/-! ## Vocabulary of the claim about out-intent formals -/

/-- Both candidates have a formal for actual `k`, and one of the two formals
has out intent. -/
def hasOutFormal (candidate1 candidate2 : DisambiguationCandidate) (k : Nat) : Bool :=
  match candidate1.formalActualMap.byActualIdx k, candidate2.formalActualMap.byActualIdx k with
  | some fa1, some fa2 =>
    decide (fa1.formalType.kind = Kind.OUT ∨ fa2.formalType.kind = Kind.OUT)
  | _, _ => false

/-- The `compareSpecificity` overload of the argument filter with its loop
run over the given actual indices instead of `start .. n - 1`. -/
def compareSpecificityForArgs.over (dctx : DisambiguationContext)
    (candidate1 candidate2 : DisambiguationCandidate) (indices : List Nat) : Option Int :=
  match indices.foldlM (compareSpecificityForArgs.step dctx candidate1 candidate2)
      (({} : DisambiguationState), 0) with
  | none => none
  | some (ds, nArgsIncomparable) =>
    let prefer : Bool × Bool :=
      if ds.fn1NonParamArgsPreferred ≠ ds.fn2NonParamArgsPreferred then
        (ds.fn1NonParamArgsPreferred, ds.fn2NonParamArgsPreferred)
      else if ds.fn1ParamArgsPreferred ≠ ds.fn2ParamArgsPreferred then
        (ds.fn1ParamArgsPreferred, ds.fn2ParamArgsPreferred)
      else (false, false)
    if prefer.1 then some 1
    else if prefer.2 then some 2
    else if nArgsIncomparable > 0 ∨
        (ds.fn1NonParamArgsPreferred ∧ ds.fn2NonParamArgsPreferred) ∨
        (ds.fn1ParamArgsPreferred ∧ ds.fn2ParamArgsPreferred) then some (-1)
    else some 0

/-- The actual indices of the loop of `compareSpecificity` (argument
filter). -/
def compareSpecificityForArgs.indices (dctx : DisambiguationContext)
    (forGenericInit : Bool) : List Nat :=
  (List.range dctx.call.numActuals).drop (if forGenericInit = false then 0 else 2)

/-- The verdict of `compareSpecificity` (argument filter) computed with every
actual index at which either formal has out intent left out of the loop. -/
def compareSpecificityForArgs.withoutOut (dctx : DisambiguationContext)
    (candidate1 candidate2 : DisambiguationCandidate) (forGenericInit : Bool) : Option Int :=
  compareSpecificityForArgs.over dctx candidate1 candidate2
    ((compareSpecificityForArgs.indices dctx forGenericInit).filter
      (fun k => !hasOutFormal candidate1 candidate2 k))

/-- The comparison that `discardWorseArgs` makes of the candidates `i` and
`j` of the vector. -/
def discardWorseArgs.cmp (dctx : DisambiguationContext) (candidates : CandidatesVec)
    (i j : Nat) : Option Int :=
  match candidates[i]?, candidates[j]? with
  | some candidate1, some candidate2 =>
    let forGenericInit : Bool :=
      candidate1.fn.untyped.isMethod &&
        (candidate1.fn.untyped.name == "init" || candidate1.fn.untyped.name == "init=")
    compareSpecificityForArgs dctx candidate1 candidate2 i j forGenericInit
  | _, _ => none

/-- The comparison of the candidates `i` and `j` of the vector with the
out-intent indices left out. -/
def discardWorseArgs.cmpWithoutOut (dctx : DisambiguationContext)
    (candidates : CandidatesVec) (i j : Nat) : Option Int :=
  match candidates[i]?, candidates[j]? with
  | some candidate1, some candidate2 =>
    let forGenericInit : Bool :=
      candidate1.fn.untyped.isMethod &&
        (candidate1.fn.untyped.name == "init" || candidate1.fn.untyped.name == "init=")
    compareSpecificityForArgs.withoutOut dctx candidate1 candidate2 forGenericInit
  | _, _ => none

/-- The verdicts `cmp i j` on `n` candidates follow the relation `le`: each
comparison returns, with 1 exactly when `i` is strictly more specific, 2
exactly when `j` is, and 0 only when the two are equivalent. -/
def verdictsFollow (cmp : Nat → Nat → Option Int) (le : Nat → Nat → Bool) (n : Nat) : Prop :=
  ∀ i j, i < n → j < n → i ≠ j →
    ∃ v, cmp i j = some v ∧ (v = 1 ↔ strictlyBelow le j i) ∧ (v = 2 ↔ strictlyBelow le i j) ∧
      (v = 0 → le i j = true ∧ le j i = true)

/-! ## Return-type inference: the frames of return reachability

The part of `resolution/return-type-inference.cpp` that tracks, while the
body of a function is traversed, whether control has returned: the stack
`returnFrames` of `ReturnTypeInferrer` and the functions that push, pop and
mark its frames.  The types of the returned expressions are read from the
resolution results, which the model does not hold: `returnedTypes` records
for each noted return the expression whose type is noted. -/

namespace Inference

/-- The classes of AST nodes that the inferrer tells apart (`asttags::AstTag`):
those with an overload of `enter` of their own, blocks, catch clauses, loops
(one tag for all loop classes, which `isLoop()` takes together), and the
other classes, numbered. -/
inductive AstTag where
  | Conditional
  | Try
  | Return
  | Yield
  | Function
  | Block
  | Catch
  | Loop
  | Other (n : Nat)
  deriving DecidableEq, Repr

/-- The classes of AST nodes for which the inferrer has only the overload
`enter(const AstNode*)`. -/
inductive PlainTag where
  | Block
  | Catch
  | Loop
  | Other (n : Nat)
  deriving DecidableEq, Repr

/-- The tag of a node without an overload of its own. -/
def PlainTag.toAstTag : PlainTag → AstTag
  | PlainTag.Block => AstTag.Block
  | PlainTag.Catch => AstTag.Catch
  | PlainTag.Loop => AstTag.Loop
  | PlainTag.Other n => AstTag.Other n

/-- Modelled from the spec: a node of the "queryable AST with stable node
identities", whose classes are declared outside the files at hand: its
identity and, by class, what the inferrer reads of it: the condition, the
then block and the else block (which may be null) of a conditional, the
statements and the handlers of a try, the value (which may be null) of a
return or yield, and the children of any other node. -/
inductive AstNode where
  | Conditional (id : ID) (condition : AstNode) (thenBlock : AstNode)
      (elseBlock : Option AstNode)
  | Try (id : ID) (stmts : List AstNode) (handlers : List AstNode)
  | Return (id : ID) (value : Option AstNode)
  | Yield (id : ID) (value : Option AstNode)
  | Function (id : ID) (children : List AstNode)
  | plain (id : ID) (tag : PlainTag) (children : List AstNode)

namespace AstNode

def id : AstNode → ID
  | Conditional i _ _ _ => i
  | Try i _ _ => i
  | Return i _ => i
  | Yield i _ => i
  | Function i _ => i
  | plain i _ _ => i

def tag : AstNode → AstTag
  | Conditional _ _ _ _ => AstTag.Conditional
  | Try _ _ _ => AstTag.Try
  | Return _ _ => AstTag.Return
  | Yield _ _ => AstTag.Yield
  | Function _ _ => AstTag.Function
  | plain _ t _ => t.toAstTag

def isConditional (n : AstNode) : Bool := n.tag == AstTag.Conditional

def isTry (n : AstNode) : Bool := n.tag == AstTag.Try

def isLoop (n : AstNode) : Bool := n.tag == AstTag.Loop

/-- Equality of two pointers to nodes: the nodes have one identity. -/
def samePointer (a b : AstNode) : Bool := a.id == b.id

end AstNode

/-- The struct `ReturnInferenceSubFrame`, over the type `F` of the frames:
the AST node whose frame should be saved into this sub-frame (may be null),
the frame associated with it (null until saved) and whether the sub-frame is
skipped when the sub-results are combined. -/
structure ReturnInferenceSubFrame (F : Type) where
  astNode : Option AstNode
  frame : Option F
  skip : Bool

/-- The struct `ReturnInferenceFrame`. -/
structure ReturnInferenceFrame where
  scopeAst : AstNode
  returnsOrThrows : Bool
  subFrames : List (ReturnInferenceSubFrame ReturnInferenceFrame)

/-- The constructor `ReturnInferenceSubFrame(node)`. -/
def ReturnInferenceSubFrame.new (node : Option AstNode) :
    ReturnInferenceSubFrame ReturnInferenceFrame :=
  { astNode := node, frame := none, skip := false }

/-- The constructor `ReturnInferenceFrame(node)`. -/
def ReturnInferenceFrame.new (node : AstNode) : ReturnInferenceFrame :=
  { scopeAst := node, returnsOrThrows := false, subFrames := [] }

/-- What the inferrer reads from outside the file: the function
`createsScope(tag)` of the scope queries, and of the resolution results
whether the type of the expression with a given identity is the param `true`
(`rv.byAst(condition).type().isParamTrue()`) or the param `false`. -/
structure RV where
  createsScope : AstTag → Bool
  isParamTrue : ID → Bool
  isParamFalse : ID → Bool

/-- The struct `ReturnTypeInferrer`: the vector `returnFrames`, its back
first, and for each element of `returnedTypes` the returned expression whose
type it is (null for the void type of a return without value). -/
structure ReturnTypeInferrer where
  returnFrames : List ReturnInferenceFrame
  returnedTypes : List (Option ID)

namespace ReturnTypeInferrer

/-- The frame that `enterScope` pushes for `node`: a conditional gets the
sub-frames of its then block and its else block, a try one sub-frame for each
handler. -/
def enterScope.newFrame (node : AstNode) : ReturnInferenceFrame :=
  match node with
  | AstNode.Conditional _ _ thenBlock elseBlock =>
    { ReturnInferenceFrame.new node with
      subFrames :=
        [ReturnInferenceSubFrame.new (some thenBlock), ReturnInferenceSubFrame.new elseBlock] }
  | AstNode.Try _ _ handlers =>
    { ReturnInferenceFrame.new node with
      subFrames := handlers.map (fun clause => ReturnInferenceSubFrame.new (some clause)) }
  | _ => ReturnInferenceFrame.new node

def enterScope (rv : RV) (node : AstNode) (s : ReturnTypeInferrer) : ReturnTypeInferrer :=
  if !rv.createsScope node.tag then s
  else { s with returnFrames := enterScope.newFrame node :: s.returnFrames }

/-- The loop of `exitScope` over the sub-frames of the popped frame: the
value of `allReturnOrThrow`. -/
def exitScope.allReturnOrThrow :
    List (ReturnInferenceSubFrame ReturnInferenceFrame) → Bool
  | [] => true
  | subFrame :: rest =>
    if subFrame.skip then exitScope.allReturnOrThrow rest
    else
      match subFrame.frame with
      | none => false
      | some frame =>
        if !frame.returnsOrThrows then false else exitScope.allReturnOrThrow rest

/-- The value of the local `parentReturnsOrThrows` of `exitScope` once the
information of the sub-frames is integrated. -/
def exitScope.parentReturnsOrThrows (poppingFrame : ReturnInferenceFrame) : Bool :=
  let parentReturnsOrThrows :=
    if poppingFrame.scopeAst.isLoop then false else poppingFrame.returnsOrThrows
  if poppingFrame.subFrames.length > 0 then
    let allReturnOrThrow := exitScope.allReturnOrThrow poppingFrame.subFrames
    if poppingFrame.scopeAst.isTry then parentReturnsOrThrows && allReturnOrThrow
    else allReturnOrThrow
  else parentReturnsOrThrows

/-- The loop of `exitScope` over the sub-frames of the parent frame: a
sub-frame for `node` takes the popped frame, which is moved from (null after
the first move).  Yields the sub-frames, the popped frame and
`storedAsSubFrame`. -/
def exitScope.store (node : AstNode) :
    List (ReturnInferenceSubFrame ReturnInferenceFrame) → Option ReturnInferenceFrame →
      Bool →
      List (ReturnInferenceSubFrame ReturnInferenceFrame) × Option ReturnInferenceFrame × Bool
  | [], poppingFrame, storedAsSubFrame => ([], poppingFrame, storedAsSubFrame)
  | subFrame :: rest, poppingFrame, storedAsSubFrame =>
    if (match subFrame.astNode with
        | some astNode => astNode.samePointer node
        | none => false) then
      let r := exitScope.store node rest none true
      ({ subFrame with frame := poppingFrame } :: r.1, r.2)
    else
      let r := exitScope.store node rest poppingFrame storedAsSubFrame
      (subFrame :: r.1, r.2)

/-- Pops the frame of `node`; `none` when an assertion fails. -/
def exitScope (rv : RV) (node : AstNode) (s : ReturnTypeInferrer) :
    Option ReturnTypeInferrer :=
  if !rv.createsScope node.tag then some s
  else
    match s.returnFrames with
    | [] => none
    | poppingFrame :: returnFrames =>
      if !poppingFrame.scopeAst.samePointer node then none
      else
        let parentReturnsOrThrows := exitScope.parentReturnsOrThrows poppingFrame
        match returnFrames with
        | [] => some { s with returnFrames := [] }
        | parentFrame :: rest =>
          let r := exitScope.store node parentFrame.subFrames (some poppingFrame) false
          let storedAsSubFrame := r.2.2
          let parentFrame1 := { parentFrame with subFrames := r.1 }
          let parentFrame2 :=
            if !storedAsSubFrame then
              { parentFrame1 with
                returnsOrThrows := parentFrame1.returnsOrThrows || parentReturnsOrThrows }
            else parentFrame1
          some { s with returnFrames := parentFrame2 :: rest }

/-- Marks the top frame as returning; yields the old value, false without a
frame. -/
def markReturnOrThrow (s : ReturnTypeInferrer) : Bool × ReturnTypeInferrer :=
  match s.returnFrames with
  | [] => (false, s)
  | topFrame :: rest =>
    (topFrame.returnsOrThrows,
      { s with returnFrames := { topFrame with returnsOrThrows := true } :: rest })

/-- The assignment `currentThenFrame().skip = true` (`idx` 0) or
`currentElseFrame().skip = true` (`idx` 1); `none` when an assertion of the
accessor fails or the top frame has no such sub-frame. -/
def setSkip (idx : Nat) (s : ReturnTypeInferrer) : Option ReturnTypeInferrer :=
  match s.returnFrames with
  | [] => none
  | topFrame :: rest =>
    if !topFrame.scopeAst.isConditional then none
    else
      match topFrame.subFrames[idx]? with
      | none => none
      | some subFrame =>
        some { s with
          returnFrames :=
            { topFrame with subFrames := topFrame.subFrames.set idx { subFrame with skip := true } }
              :: rest }

/-- The overload `enter(const Conditional*)`: `traverseThen` and
`traverseElse` stand for `then->traverse(rv)` and `else_->traverse(rv)`, the
latter only called for an else block that is not null.  Yields the answer of
`enter` and the state. -/
def enterConditional (rv : RV) (cond : AstNode) (condition : AstNode)
    (elseBlock : Option AstNode)
    (traverseThen traverseElse : ReturnTypeInferrer → Option ReturnTypeInferrer)
    (s : ReturnTypeInferrer) : Option (Bool × ReturnTypeInferrer) :=
  let s1 := enterScope rv cond s
  if rv.isParamTrue condition.id then
    match traverseThen s1 with
    | none => none
    | some s2 => (setSkip 1 s2).map (fun s3 => (false, s3))
  else if rv.isParamFalse condition.id then
    match (if elseBlock.isSome then traverseElse s1 else some s1) with
    | none => none
    | some s2 => (setSkip 0 s2).map (fun s3 => (false, s3))
  else some (true, s1)

/-- The overload `exit(const Conditional*)`. -/
def exitConditional (rv : RV) (cond : AstNode) (s : ReturnTypeInferrer) :
    Option ReturnTypeInferrer :=
  exitScope rv cond s

/-- The overload `enter(const Return*)`: a return met after the frame has
been marked is ignored, otherwise the type of its value, or the void type, is
noted. -/
def enterReturn (value : Option AstNode) (s : ReturnTypeInferrer) :
    Bool × ReturnTypeInferrer :=
  let r := markReturnOrThrow s
  if r.1 then (false, r.2)
  else (false, { r.2 with returnedTypes := r.2.returnedTypes ++ [value.map AstNode.id] })

/-- The overload `enter(const Yield*)`: as for a return, but the value is
read without a test; `none` when it is null. -/
def enterYield (value : Option AstNode) (s : ReturnTypeInferrer) :
    Option (Bool × ReturnTypeInferrer) :=
  let r := markReturnOrThrow s
  if r.1 then some (false, r.2)
  else
    match value with
    | none => none
    | some expr =>
      some (false, { r.2 with returnedTypes := r.2.returnedTypes ++ [some expr.id] })

/-- The overload `enter(const Function*)`: nested functions are not
entered. -/
def enterFunction (s : ReturnTypeInferrer) : Bool × ReturnTypeInferrer := (false, s)

/-- The overload `enter(const AstNode*)`. -/
def enterAstNode (rv : RV) (ast : AstNode) (s : ReturnTypeInferrer) :
    Bool × ReturnTypeInferrer :=
  (true, enterScope rv ast s)

/-- The overload `exit(const AstNode*)`. -/
def exitAstNode (rv : RV) (ast : AstNode) (s : ReturnTypeInferrer) :
    Option ReturnTypeInferrer :=
  exitScope rv ast s

mutual

/-- Modelled from the spec: the traversal `AstNode::traverse(visitor)` of the
queryable AST, declared outside the files at hand: `enter` of the overload
for the class of the node, then, when it answered true, the children in
order, then `exit`.  The children of a conditional are the condition, the
then block and the else block; those of a try its statements and then its
handlers. -/
def traverse (rv : RV) : AstNode → ReturnTypeInferrer → Option ReturnTypeInferrer
  | AstNode.Conditional id condition thenBlock elseBlock, s =>
    match enterConditional rv (AstNode.Conditional id condition thenBlock elseBlock)
        condition elseBlock (fun s1 => traverse rv thenBlock s1)
        (fun s1 => traverseOption rv elseBlock s1) s with
    | none => none
    | some (go, s1) =>
      match (if go then
          match traverse rv condition s1 with
          | none => none
          | some s2 =>
            match traverse rv thenBlock s2 with
            | none => none
            | some s3 => traverseOption rv elseBlock s3
        else some s1) with
      | none => none
      | some s4 =>
        exitConditional rv (AstNode.Conditional id condition thenBlock elseBlock) s4
  | AstNode.Try id stmts handlers, s =>
    let r := enterAstNode rv (AstNode.Try id stmts handlers) s
    match traverseList rv stmts r.2 with
    | none => none
    | some s2 =>
      match traverseList rv handlers s2 with
      | none => none
      | some s3 => exitAstNode rv (AstNode.Try id stmts handlers) s3
  | AstNode.Return _ value, s => some (enterReturn value s).2
  | AstNode.Yield _ value, s => (enterYield value s).map Prod.snd
  | AstNode.Function _ _, s => some (enterFunction s).2
  | AstNode.plain id tag children, s =>
    let r := enterAstNode rv (AstNode.plain id tag children) s
    match traverseList rv children r.2 with
    | none => none
    | some s2 => exitAstNode rv (AstNode.plain id tag children) s2

/-- The traversal of the children of a node, in order. -/
def traverseList (rv : RV) : List AstNode → ReturnTypeInferrer → Option ReturnTypeInferrer
  | [], s => some s
  | child :: rest, s =>
    match traverse rv child s with
    | none => none
    | some s1 => traverseList rv rest s1

/-- The traversal of a child that may be null. -/
def traverseOption (rv : RV) : Option AstNode → ReturnTypeInferrer → Option ReturnTypeInferrer
  | none, s => some s
  | some child, s => traverse rv child s

end

/-- The method `process`: the traversal of the body of the function from the
state of the constructor. -/
def process (rv : RV) (symbol : AstNode) : Option ReturnTypeInferrer :=
  traverse rv symbol { returnFrames := [], returnedTypes := [] }

end ReturnTypeInferrer

end Inference

namespace Inference

/-! ## Vocabulary of the claims about return reachability -/

/-- The sub-frames `b` are the sub-frames `a` with frames saved into them:
the nodes and the skip marks are the same, and a sub-frame without a node
keeps its frame. -/
def subFramesGrow (a b : List (ReturnInferenceSubFrame ReturnInferenceFrame)) : Prop :=
  List.Forall₂
    (fun x y => y.astNode = x.astNode ∧ y.skip = x.skip ∧
      (x.astNode = none → y.frame = x.frame)) a b

/-- The frame `t1` is the frame `t` later in the traversal: for the same
node, still marked as returning if it was, with frames saved into its
sub-frames. -/
def frameGrows (t t1 : ReturnInferenceFrame) : Prop :=
  t1.scopeAst = t.scopeAst ∧ (t.returnsOrThrows = true → t1.returnsOrThrows = true) ∧
    subFramesGrow t.subFrames t1.subFrames

/-- The stack `fs1` is the stack `fs` later in the traversal: the frames
below the top one are the same, and the top frame has grown. -/
def stackGrows (fs fs1 : List ReturnInferenceFrame) : Prop :=
  match fs, fs1 with
  | [], [] => True
  | t :: rest, t1 :: rest1 => frameGrows t t1 ∧ rest1 = rest
  | _, _ => False

/-- A sub-frame of the list is for `node`. -/
def hasSubFrameFor (node : AstNode)
    (subFrames : List (ReturnInferenceSubFrame ReturnInferenceFrame)) : Prop :=
  ∃ subFrame ∈ subFrames, ∃ astNode, subFrame.astNode = some astNode ∧
    astNode.samePointer node = true

/-- The value of `returnsOrThrows` of the frame saved in sub-frame `idx`,
false when none is saved. -/
def savedReturnsOrThrows (frame : ReturnInferenceFrame) (idx : Nat) : Bool :=
  match frame.subFrames[idx]? with
  | some subFrame =>
    (match subFrame.frame with
     | some saved => saved.returnsOrThrows
     | none => false)
  | none => false

end Inference


namespace Inference

/-! ## Sample function bodies for return reachability -/

namespace Sample

/-- A `createsScope` that answers true for conditionals, try statements,
blocks, catch clauses, loops and functions, with the resolution results of a
body in which the expression 100 is the param `true` and the expression 101
the param `false`. -/
def sampleRV : RV :=
  { createsScope := fun tag =>
      match tag with
      | AstTag.Conditional => true
      | AstTag.Try => true
      | AstTag.Block => true
      | AstTag.Catch => true
      | AstTag.Loop => true
      | AstTag.Function => true
      | _ => false,
    isParamTrue := fun id => id == 100,
    isParamFalse := fun id => id == 101 }

/-- An expression without children. -/
def expr (id : ID) : AstNode := AstNode.plain id (PlainTag.Other 0) []

/-- The statement `return e;` for the expression `value`. -/
def ret (id value : ID) : AstNode := AstNode.Return id (some (expr value))

def block (id : ID) (stmts : List AstNode) : AstNode := AstNode.plain id PlainTag.Block stmts

/-- The statement `if c { return 11; }` followed by `return 12;`, where `c`
is the expression `condition`. -/
def bodyIfNoElse (condition : ID) : AstNode :=
  block 1
    [AstNode.Conditional 2 (expr condition) (block 3 [ret 4 11]) none,
     ret 5 12]

/-- The statement `if c { return 11; } else { return 13; }` followed by
`return 12;`. -/
def bodyIfElse (condition : ID) : AstNode :=
  block 1
    [AstNode.Conditional 2 (expr condition) (block 3 [ret 4 11]) (some (block 6 [ret 7 13])),
     ret 5 12]

/-- The statement `if c { return 11; } else { }` followed by `return 12;`. -/
def bodyIfEmptyElse (condition : ID) : AstNode :=
  block 1
    [AstNode.Conditional 2 (expr condition) (block 3 [ret 4 11]) (some (block 6 [])),
     ret 5 12]

/-- The statement `if c { } else { return 13; }` followed by `return 12;`. -/
def bodyIfEmptyThen (condition : ID) : AstNode :=
  block 1
    [AstNode.Conditional 2 (expr condition) (block 3 []) (some (block 6 [ret 7 13])),
     ret 5 12]

/-- A catch clause with the statements `stmts` in its block. -/
def catchClause (id : ID) (stmts : List AstNode) : AstNode :=
  AstNode.plain id PlainTag.Catch [block (id + 1) stmts]

/-- The statement `try { stmts } catch ...` followed by `return 12;`. -/
def bodyTry (stmts handlers : List AstNode) : AstNode :=
  block 1 [AstNode.Try 2 stmts handlers, ret 5 12]

/-- A loop with the statement `return 11;` in its block, followed by
`return 12;`. -/
def bodyLoop : AstNode :=
  block 1 [AstNode.plain 2 PlainTag.Loop [block 3 [ret 4 11]], ret 5 12]

end Sample

/-- The expressions whose types have been noted as returned, in order. -/
def notedReturns (r : Option ReturnTypeInferrer) : Option (List (Option ID)) :=
  r.map (fun s => s.returnedTypes)

/-- The marks `returnsOrThrows` of the frames of the stack, top first. -/
def marks (r : Option ReturnTypeInferrer) : Option (List Bool) :=
  r.map (fun s => s.returnFrames.map (fun frame => frame.returnsOrThrows))

/-- The traversal of the first statement of the block `body`, in the frame of
that block. -/
def firstStatement (rv : RV) (body : AstNode) : Option ReturnTypeInferrer :=
  match body with
  | AstNode.plain _ _ (stmt :: _) =>
    ReturnTypeInferrer.traverse rv stmt
      (ReturnTypeInferrer.enterScope rv body { returnFrames := [], returnedTypes := [] })
  | _ => none

end Inference

/-! ## The scopes of the symbol table

The part of `compiler/AST/symscope.cpp` that defines and undefines symbols in
a scope and looks them up: `define`, `undefine`, `lookupLocal`, `lookup`,
`addVisibleFunction`, `removeVisibleFunction` and `getVisibleFunctions`.
Symbols and scopes are objects reached through pointers: the model names them
by numbers and keeps what the functions write in a heap. -/

namespace Symscope

/-- Identity of a `Symbol` (the object a `Symbol*` points to). -/
abbrev Symbol := Nat

/-- Identity of a `SymScope`. -/
abbrev SymScope := Nat

/-- What the functions read and do not write: of a symbol its `name`, whether
it is a `FnSymbol` (`toFnSymbol`), the fields `global` and `visible` of a
function and whether it is a `ModuleSymbol`; the scope
`theProgram->block->blkScope`; of a scope its `parent`, and through its
`astParent`: the scope `mod->initFn->body->blkScope` when `astParent` is the
block of its module `mod`, the scopes `module->block->blkScope` of the modules
of `getModuleUses()` (null when `astParent` is not a block), the scope
`fn->visiblePoint->parentScope` when `astParent` is a function `fn` with a
visible point in a scope, the scope `ct->structScope` when `astParent` is a
function whose `_this` has a class type `ct`, and the scope of the class that
`ct` is nested in.  The vectors of functions are of the class `Vec`, declared
outside the files at hand: `append` is its method `Vec::append`, which adds
the elements of the second vector to the first. -/
structure Program where
  name : Symbol → String
  isFnSymbol : Symbol → Bool
  global : Symbol → Bool
  visible : Symbol → Bool
  isModuleSymbol : Symbol → Bool
  programScope : SymScope
  parent : SymScope → Option SymScope
  moduleInitScope : SymScope → Option SymScope
  moduleUses : SymScope → Option (List SymScope)
  visiblePointScope : SymScope → Option SymScope
  thisStructScope : SymScope → Option SymScope
  outerStructScope : SymScope → Option SymScope
  append : List (Option Symbol) → List (Option Symbol) → List (Option Symbol)

/-- What the functions write: the map `table` and the map `visibleFunctions`
of each scope (a vector of pointers to functions, some of them null, for a
name; null for a name without vector), and the fields `overloadNext`,
`overloadPrev` and `parentScope` of each symbol. -/
structure Heap where
  table : SymScope → String → Option Symbol
  visibleFunctions : SymScope → String → Option (List (Option Symbol))
  overloadNext : Symbol → Option Symbol
  overloadPrev : Symbol → Option Symbol
  parentScope : Symbol → Option SymScope

namespace Heap

/-- The calls `table.put(name, sym)` (for `some sym`) and `table.del(name)`
(for `none`) on the table of `scope`. -/
def putTable (h : Heap) (scope : SymScope) (name : String) (sym : Option Symbol) : Heap :=
  { h with table := fun s n => if s = scope ∧ n = name then sym else h.table s n }

/-- The vector of `name` in `scope` becomes `fs`. -/
def putVisibleFunctions (h : Heap) (scope : SymScope) (name : String)
    (fs : List (Option Symbol)) : Heap :=
  { h with
    visibleFunctions := fun s n => if s = scope ∧ n = name then some fs
      else h.visibleFunctions s n }

/-- The assignment `sym->overloadNext = next`. -/
def setOverloadNext (h : Heap) (sym : Symbol) (next : Option Symbol) : Heap :=
  { h with overloadNext := fun s => if s = sym then next else h.overloadNext s }

/-- The assignment `sym->overloadPrev = prev`. -/
def setOverloadPrev (h : Heap) (sym : Symbol) (prev : Option Symbol) : Heap :=
  { h with overloadPrev := fun s => if s = sym then prev else h.overloadPrev s }

/-- The call `sym->setParentScope(scope)`. -/
def setParentScope (h : Heap) (sym : Symbol) (scope : Option SymScope) : Heap :=
  { h with parentScope := fun s => if s = sym then scope else h.parentScope s }

end Heap

namespace SymScope

def addVisibleFunction (p : Program) (this : SymScope) (fn : Symbol) (h : Heap) : Heap :=
  if !p.visible fn then h
  else
    let fs := (h.visibleFunctions this (p.name fn)).getD []
    h.putVisibleFunctions this (p.name fn) (fs ++ [some fn])

def removeVisibleFunction (p : Program) (this : SymScope) (fn : Symbol) (h : Heap) : Heap :=
  if !p.visible fn then h
  else
    match h.visibleFunctions this (p.name fn) with
    | none => h
    | some fs =>
      h.putVisibleFunctions this (p.name fn)
        (fs.map (fun entry => if entry = some fn then none else entry))

/-- The first statement of `define`: a function is added to the visible
functions of the scope of the program when it is global and to those of this
scope otherwise. -/
def define.visible (p : Program) (this : SymScope) (sym : Symbol) (h : Heap) : Heap :=
  if p.isFnSymbol sym then
    if p.global sym then addVisibleFunction p p.programScope sym h
    else addVisibleFunction p this sym h
  else h

/-- The rest of `define`: the symbol is linked after the entry `tmp` of its
name in the table, or becomes the entry. -/
def define.link (p : Program) (this : SymScope) (sym : Symbol) (h1 : Heap) : Heap :=
  match h1.table this (p.name sym) with
  | some tmp =>
    let h2 := h1.setOverloadNext sym (h1.overloadNext tmp)
    let h3 := h2.setOverloadPrev sym (some tmp)
    let h4 :=
      match h3.overloadNext tmp with
      | some next => h3.setOverloadPrev next (some sym)
      | none => h3
    let h5 := h4.setOverloadNext tmp (some sym)
    h5.setParentScope sym (h5.parentScope tmp)
  | none =>
    let h2 := h1.putTable this (p.name sym) (some sym)
    let h3 := h2.setOverloadNext sym none
    let h4 := h3.setOverloadPrev sym none
    h4.setParentScope sym (some this)

def define (p : Program) (this : SymScope) (sym : Symbol) (h : Heap) : Heap :=
  define.link p this sym (define.visible p this sym h)

/-- The first statement of `undefine`: a function is removed from the visible
functions of the scope of the program and from those of this scope. -/
def undefine.visible (p : Program) (this : SymScope) (sym : Symbol) (h : Heap) : Heap :=
  if p.isFnSymbol sym then
    removeVisibleFunction p this sym (removeVisibleFunction p p.programScope sym h)
  else h

/-- The rest of `undefine`: the symbol is taken out of the table or out of
the chain of its name, and its links are cleared; `none` when `INT_FATAL` ends
the run. -/
def undefine.unlink (p : Program) (this : SymScope) (sym : Symbol) (h1 : Heap) :
    Option Heap :=
  let unlinked : Option Heap :=
    if h1.table this (p.name sym) = some sym then
      let tmp := h1.overloadNext sym
      let h2 := h1.putTable this (p.name sym) none
      match tmp with
      | some next => some (h2.putTable this (p.name sym) (some next))
      | none => some h2
    else
      match h1.overloadPrev sym with
      | none => none
      | some prev =>
        let h2 := h1.setOverloadNext prev (h1.overloadNext sym)
        match h2.overloadNext sym with
        | some next => some (h2.setOverloadPrev next (h2.overloadPrev sym))
        | none => some h2
  unlinked.map (fun h3 => (h3.setOverloadNext sym none).setOverloadPrev sym none)

/-- The function `undefine`; `none` when `INT_FATAL` ends the run. -/
def undefine (p : Program) (this : SymScope) (sym : Symbol) (h : Heap) : Option Heap :=
  undefine.unlink p this sym (undefine.visible p this sym h)

/-- The test `sym && (!toModuleSymbol(sym) || returnModules)`. -/
def lookup.found (p : Program) (returnModules : Bool) (sym : Option Symbol) : Bool :=
  match sym with
  | some s => !p.isModuleSymbol s || returnModules
  | none => false

/-- The loop of `lookupLocal` over the used modules: `visit` is the call of
`lookup` on the scope of a module. -/
def lookupLocal.uses (p : Program) (returnModules : Bool)
    (visit : SymScope → List SymScope → Option (Option Symbol × List SymScope)) :
    List SymScope → List SymScope → Option (Option Symbol × List SymScope)
  | [], visited => some (none, visited)
  | module :: rest, visited =>
    match visit module visited with
    | none => none
    | some (sym, visited1) =>
      if lookup.found p returnModules sym then some (sym, visited1)
      else lookupLocal.uses p returnModules visit rest visited1

mutual

/-- The function `lookupLocal` for the vector `alreadyVisited` (`none` for a
null pointer): yields the symbol and the vector after the call (for a null
pointer that of the local vector `scopes`); `none` when the recursion goes
deeper than `depth`. -/
def lookupLocal (p : Program) (h : Heap) (name : String) ( returnModules : Bool) :
    Nat → SymScope → Option (List SymScope) → Option (Option Symbol × List SymScope)
  | 0, _, _ => none
  | depth + 1, this, none => lookupLocal p h name returnModules depth this (some [])
  | depth + 1, this, some alreadyVisited =>
    if alreadyVisited.contains this then some (none, alreadyVisited)
    else
      let visited := this :: alreadyVisited
      let sym := h.table this name
      if lookup.found p returnModules sym then some (sym, visited)
      else
        match (match p.moduleInitScope this with
            | some initScope => lookupLocal p h name returnModules depth initScope (some visited)
            | none => some (none, visited)) with
        | none => none
        | some (sym1, visited1) =>
          if lookup.found p returnModules sym1 then some (sym1, visited1)
          else
            match p.moduleUses this with
            | none => some (none, visited1)
            | some modUses =>
              lookupLocal.uses p returnModules
                (fun module visited2 =>
                  lookup p h name returnModules depth module (some visited2))
                modUses visited1

/-- The function `lookup`, with the same conventions. -/
def lookup (p : Program) (h : Heap) (name : String) ( returnModules : Bool) :
    Nat → SymScope → Option (List SymScope) → Option (Option Symbol × List SymScope)
  | 0, _, _ => none
  | depth + 1, this, none => lookup p h name returnModules depth this (some [])
  | depth + 1, this, some alreadyVisited =>
    match lookupLocal p h name returnModules depth this (some alreadyVisited) with
    | none => none
    | some (sym, visited) =>
      if lookup.found p returnModules sym then some (sym, visited)
      else
        match (match p.thisStructScope this with
            | some structScope =>
              (match lookupLocal p h name returnModules depth structScope (some visited) with
               | none => none
               | some (sym1, visited1) =>
                 if lookup.found p returnModules sym1 then some (sym1, visited1, true)
                 else
                   match p.outerStructScope this with
                   | some outerScope =>
                     (match lookup p h name returnModules depth outerScope (some visited1) with
                      | none => none
                      | some (sym2, visited2) =>
                        some (sym2, visited2, lookup.found p returnModules sym2))
                   | none => some (none, visited1, false))
            | none => some (none, visited, false)) with
        | none => none
        | some (sym3, visited3, true) => some (sym3, visited3)
        | some (_, visited3, false) =>
          match p.parent this with
          | some parent => lookup p h name returnModules depth parent (some visited3)
          | none => some (none, visited3)

end

/-- The statement `if (fs) allVisibleFunctions->append(*fs);` of
`getVisibleFunctions`. -/
def getVisibleFunctions.own (p : Program) (h : Heap) (this : SymScope) (name : String)
    (allVisibleFunctions : List (Option Symbol)) : List (Option Symbol) :=
  match h.visibleFunctions this name with
  | some fs => p.append allVisibleFunctions fs
  | none => allVisibleFunctions

/-- The loop of `getVisibleFunctions` over the used modules. -/
def getVisibleFunctions.uses {σ : Type} (visit : SymScope → σ → Option σ) :
    List SymScope → σ → Option σ
  | [], st => some st
  | module :: rest, st =>
    match visit module st with
    | none => none
    | some st1 => getVisibleFunctions.uses visit rest st1

/-- A call of `getVisibleFunctions` that is made when the scope `scope` is
not null. -/
def getVisibleFunctions.on {σ : Type} (visit : SymScope → σ → Option σ)
    (scope : Option SymScope) (st : σ) : Option σ :=
  match scope with
  | some sc => visit sc st
  | none => some st

/-- The function `getVisibleFunctions`: the state is the static vector
`visited` and the vector `allVisibleFunctions`; `none` when the recursion
goes deeper than `depth`. -/
def getVisibleFunctions (p : Program) (h : Heap) (name : String) :
    Nat → SymScope → Bool → List SymScope × List (Option Symbol) →
      Option (List SymScope × List (Option Symbol))
  | 0, _, _, _ => none
  | depth + 1, this, recursed, (visited0, allVisibleFunctions) =>
    let visited := if !recursed then [] else visited0
    if visited.contains this then some (visited, allVisibleFunctions)
    else
      let st : List SymScope × List (Option Symbol) :=
        (this :: visited, getVisibleFunctions.own p h this name allVisibleFunctions)
      ((((match p.moduleUses this with
          | some modUses =>
            getVisibleFunctions.uses
              (fun module st1 => getVisibleFunctions p h name depth module true st1) modUses st
          | none => some st).bind
        (getVisibleFunctions.on
          (fun scope st1 => getVisibleFunctions p h name depth scope true st1)
          (p.visiblePointScope this))).bind
        (getVisibleFunctions.on
          (fun scope st1 => getVisibleFunctions p h name depth scope true st1)
          (p.moduleInitScope this))).bind
        (getVisibleFunctions.on
          (fun scope st1 => getVisibleFunctions p h name depth scope true st1)
          (p.parent this)))

end SymScope

end Symscope

namespace Symscope

/-! ## Vocabulary of the claim about the scopes of the symbol table -/

/-- The scopes that `getVisibleFunctions` goes to from a scope below `n` are
below `n`: the program has at most `n` scopes, numbered from 0. -/
def Program.closedBelow (p : Program) (n : Nat) : Prop :=
  (∀ s, s < n → ∀ s1, p.parent s = some s1 → s1 < n) ∧
  (∀ s, s < n → ∀ s1, p.visiblePointScope s = some s1 → s1 < n) ∧
  (∀ s, s < n → ∀ s1, p.moduleInitScope s = some s1 → s1 < n) ∧
  (∀ s, s < n → ∀ modUses, p.moduleUses s = some modUses → ∀ m ∈ modUses, m < n)

end Symscope

namespace Symscope

/-- The scopes that `lookupLocal` and `lookup` go to from a scope below `n`
are below `n`, and `rank`, at most `maxRank` on them, falls from a scope to
its parent and to the scope of the class that its class is nested in: the
scopes form a forest. -/
def Program.rankedBelow (p : Program) (n maxRank : Nat) (rank : SymScope → Nat) : Prop :=
  p.closedBelow n ∧
  (∀ s, s < n → ∀ s1, p.thisStructScope s = some s1 → s1 < n) ∧
  (∀ s, s < n → ∀ s1, p.outerStructScope s = some s1 → s1 < n) ∧
  (∀ s, s < n → rank s ≤ maxRank) ∧
  (∀ s, s < n → ∀ s1, p.parent s = some s1 → rank s1 < rank s) ∧
  (∀ s, s < n → ∀ s1, p.outerStructScope s = some s1 → rank s1 < rank s)

end Symscope

namespace Symscope

/-! ## A sample symbol table -/

namespace Sample

/-- An `append` that adds the elements of the second vector that are not
null. -/
def appendNonNull (all fs : List (Option Symbol)) : List (Option Symbol) :=
  all ++ fs.filter (fun entry => entry.isSome)

/-- An `append` that adds every element of the second vector. -/
def appendAll (all fs : List (Option Symbol)) : List (Option Symbol) := all ++ fs

/-- A program of five scopes: 0 the scope of the program, 1 the block of a
module `M` that uses the module `N`, 2 the body of the initialization function
of `M`, 3 the block of `N` and 4 the body of the initialization function of
`N`.  The symbols 10 to 13 and 15 are functions named `f`, of which 11 and 13
are global; 14 is the module symbol `N`. -/
def programWith
    (append : List (Option Symbol) → List (Option Symbol) → List (Option Symbol)) :
    Program :=
  { name := fun sym => if sym = 14 then "N" else "f",
    isFnSymbol := fun sym => sym != 14,
    global := fun sym => sym == 11 || sym == 13,
    visible := fun _ => true,
    isModuleSymbol := fun sym => sym == 14,
    programScope := 0,
    parent := fun s =>
      if s = 1 then some 0 else if s = 2 then some 1 else if s = 3 then some 0
      else if s = 4 then some 3 else none,
    moduleInitScope := fun s => if s = 1 then some 2 else if s = 3 then some 4 else none,
    moduleUses := fun s => if s = 1 then some [3] else some [],
    visiblePointScope := fun _ => none,
    thisStructScope := fun _ => none,
    outerStructScope := fun _ => none,
    append := append }

def program : Program := programWith appendNonNull

/-- The depth of a scope of the sample program below the scope of the program,
counted down from 2. -/
def rank (s : SymScope) : Nat :=
  if s = 0 then 0 else if s = 1 ∨ s = 3 then 1 else 2

/-- The heap in which the function 10 is defined in the block of `M`, the
global function 11 and the module symbol `N` in the scope of the program and
the function 15 in the block of `N`; the functions 12 and 13 are not defined
yet. -/
def heap : Heap :=
  { table := fun s n =>
      if s = 1 ∧ n = "f" then some 10
      else if s = 0 ∧ n = "f" then some 11
      else if s = 0 ∧ n = "N" then some 14
      else if s = 3 ∧ n = "f" then some 15
      else none,
    visibleFunctions := fun s n =>
      if s = 1 ∧ n = "f" then some [some 10]
      else if s = 0 ∧ n = "f" then some [some 11]
      else if s = 3 ∧ n = "f" then some [some 15]
      else none,
    overloadNext := fun _ => none,
    overloadPrev := fun _ => none,
    parentScope := fun sym =>
      if sym = 10 then some 1 else if sym = 11 ∨ sym = 14 then some 0
      else if sym = 15 then some 3 else none }

end Sample

/-- The symbol that a lookup returns. -/
def lookedUp (r : Option (Option Symbol × List SymScope)) : Option (Option Symbol) :=
  r.map (fun answer => answer.1)

/-- The vector `allVisibleFunctions` after a call of `getVisibleFunctions`. -/
def collected (r : Option (List SymScope × List (Option Symbol))) :
    Option (List (Option Symbol)) :=
  r.map (fun st => st.2)

/-- The heap after `define` and then `undefine` of `sym` in the scope
`this`. -/
def roundTrip (p : Program) (this : SymScope) (sym : Symbol) (h : Heap) : Option Heap :=
  SymScope.undefine p this sym (SymScope.define p this sym h)

end Symscope

/-! ## Theorems -/

/-- C1: for every call and every candidate list of length exactly 1,
`findMostSpecificCandidates` returns the "only" result holding that single
candidate; the call never aborts, and the result is the same whatever the
conversion oracle, the scope lookup and the other queries answer and whatever
the forwarding information and the scopes of the call are, as no pairwise
comparison or filter is evaluated. -/
theorem findMostSpecificCandidates_singleton (context : Context) (fn : TypedFnSignature)
    (forwardingInfo : List QualifiedType) (call : CallInfo) (callInScope : Scope)
    (callInPoiScope : PoiScope) :
    findMostSpecificCandidates context [fn] forwardingInfo call callInScope callInPoiScope
      = some (MostSpecificCandidates.getOnly
          (MostSpecificCandidate.fromTypedFnSignatureCall context fn call)) ∧
    ∀ (context1 : Context) (forwardingInfo1 : List QualifiedType) (callInScope1 : Scope)
      (callInPoiScope1 : PoiScope),
      context1.formalActualMap = context.formalActualMap →
      findMostSpecificCandidates context1 [fn] forwardingInfo1 call callInScope1
          callInPoiScope1
        = findMostSpecificCandidates context [fn] forwardingInfo call callInScope
          callInPoiScope := by
  refine ⟨rfl, ?_⟩
  intro context1 forwardingInfo1 callInScope1 callInPoiScope1 h
  simp [findMostSpecificCandidates, MostSpecificCandidate.fromTypedFnSignatureCall,
    MostSpecificCandidate.fromTypedFnSignature, h]

theorem wrapInt_range (x : Int) : INT_MIN ≤ wrapInt x ∧ wrapInt x ≤ INT_MAX := by
  unfold wrapInt INT_MIN INT_MAX
  omega

theorem wrapInt_of_range (x : Int) (h1 : INT_MIN ≤ x) (h2 : x ≤ INT_MAX) : wrapInt x = x := by
  unfold wrapInt
  unfold INT_MIN at h1
  unfold INT_MAX at h2
  omega

theorem computeVisibilityDistanceInternal_range (context : Context) (scope : Scope)
    (fn : TypedFnSignature) (distance : Int) (h1 : INT_MIN ≤ distance)
    (h2 : distance ≤ INT_MAX) :
    INT_MIN ≤ computeVisibilityDistanceInternal context scope fn distance ∧
      computeVisibilityDistanceInternal context scope fn distance ≤ INT_MAX := by
  induction scope generalizing distance with
  | root i b =>
    unfold computeVisibilityDistanceInternal
    have := wrapInt_range (distance + 1)
    simp only
    split_ifs
    · exact ⟨h1, h2⟩
    · exact this
    · unfold INT_MIN INT_MAX; omega
  | child i b p ih =>
    unfold computeVisibilityDistanceInternal
    have := wrapInt_range (distance + 1)
    have h3 := wrapInt_range (distance + 2)
    simp only
    split_ifs
    · exact ⟨h1, h2⟩
    · exact this
    · exact ih _ h3.1 h3.2

theorem computeVisibilityDistance_range (context : Context) (scope : Scope)
    (fn : TypedFnSignature) :
    INT_MIN ≤ computeVisibilityDistance context scope fn ∧
      computeVisibilityDistance context scope fn ≤ INT_MAX := by
  unfold computeVisibilityDistance
  split_ifs
  · unfold INT_MIN INT_MAX; omega
  · exact computeVisibilityDistanceInternal_range context scope fn 0
      (by unfold INT_MIN; omega) (by unfold INT_MAX; omega)

theorem discardWorseVisibility_single (dctx : DisambiguationContext)
    (c : DisambiguationCandidate) :
    ∃ c1, discardWorseVisibility dctx [c] [false] = ([c1], [false]) ∧ c1.fn = c.fn ∧
      c1.formalActualMap = c.formalActualMap := by
  have hr := computeVisibilityDistance_range dctx.context dctx.callInScope c.fn
  simp only [discardWorseVisibility, discardWorseVisibility.scan, List.headD_cons,
    Bool.false_eq_true, if_false, discardWorseVisibility.mark]
  unfold INT_MIN INT_MAX at *
  split_ifs <;> simp <;> omega

theorem discardWorseArgs_single (dctx : DisambiguationContext)
    (c : DisambiguationCandidate) : discardWorseArgs dctx [c] [false] = some [false] := by
  simp [discardWorseArgs, discardWorseArgsWith, discardWorseArgs.outerLoop,
    discardWorseArgs.innerLoop, discardWorseArgs.mark, List.range_succ]

theorem disambiguateDiscarding_single (dctx : DisambiguationContext)
    (c : DisambiguationCandidate) (ignoreWhere : Bool) :
    ∃ c1, disambiguateDiscarding dctx [c] ignoreWhere [false] = some ([c1], [false]) ∧
      c1.fn = c.fn ∧ c1.formalActualMap = c.formalActualMap := by
  obtain ⟨c1, h1, h2, h3⟩ := discardWorseVisibility_single dctx c
  unfold disambiguateDiscarding
  by_cases hv : ¬ dctx.useOldVisibility = true ∧ ¬ dctx.isMethodCall = true
  · refine ⟨c1, ?_, h2, h3⟩
    have hv2 : ¬ (dctx.useOldVisibility = true ∧ ¬ dctx.isMethodCall = true) := by tauto
    simp only [if_pos hv, if_neg hv2, h1, discardWorsePromoting, discardWorseConversions,
      discardWorseWhereClauses, ite_self, discardWorseArgs_single]
  · by_cases hv2 : dctx.useOldVisibility = true ∧ ¬ dctx.isMethodCall = true
    · refine ⟨c1, ?_, h2, h3⟩
      simp only [if_neg hv, if_pos hv2, discardWorsePromoting, discardWorseConversions,
        discardWorseWhereClauses, ite_self, discardWorseArgs_single, h1]
    · refine ⟨c, ?_, rfl, rfl⟩
      simp only [if_neg hv, if_neg hv2, discardWorsePromoting, discardWorseConversions,
        discardWorseWhereClauses, ite_self, discardWorseArgs_single]

/-- C2: the singleton short-circuit is equivalent to the general path: for a
one-element candidate list the body of `findMostSpecificCandidatesQuery`
builds one candidate, `disambiguateDiscarding` discards nothing (the mask is
`[false]` afterwards), `computeMostSpecificCandidates` yields the result of
`findMostSpecificCandidates`, and so does the query as a whole. -/
theorem singleton_query_eq_shortcut (context : Context) (fn : TypedFnSignature)
    (forwardingInfo : List QualifiedType) (call : CallInfo) (callInScope : Scope)
    (callInPoiScope : PoiScope) :
    ∃ candidates candidates1,
      findMostSpecificCandidatesQuery.candidates context forwardingInfo call [fn] 0
        = some candidates ∧
      disambiguateDiscarding
          (DisambiguationContext.new context call callInScope callInPoiScope true)
          candidates true (List.replicate candidates.length false)
        = some (candidates1, [false]) ∧
      computeMostSpecificCandidates context
          (DisambiguationContext.new context call callInScope callInPoiScope true)
          candidates1
        = findMostSpecificCandidates context [fn] forwardingInfo call callInScope
            callInPoiScope ∧
      findMostSpecificCandidatesQuery context [fn] forwardingInfo call callInScope
          callInPoiScope
        = findMostSpecificCandidates context [fn] forwardingInfo call callInScope
            callInPoiScope := by
  have hc : ∃ forwardingTo,
      findMostSpecificCandidatesQuery.candidates context forwardingInfo call [fn] 0
        = some [DisambiguationCandidate.new context fn forwardingTo call 0] := by
    cases forwardingInfo with
    | nil => exact ⟨QualifiedType.empty, by simp [findMostSpecificCandidatesQuery.candidates]⟩
    | cons q qs => exact ⟨q, by simp [findMostSpecificCandidatesQuery.candidates]⟩
  obtain ⟨forwardingTo, hc⟩ := hc
  obtain ⟨c1, hd, hfn, hmap⟩ := disambiguateDiscarding_single
    (DisambiguationContext.new context call callInScope callInPoiScope true)
    (DisambiguationCandidate.new context fn forwardingTo call 0) true
  have hm : computeMostSpecificCandidates context
      (DisambiguationContext.new context call callInScope callInPoiScope true) [c1]
      = findMostSpecificCandidates context [fn] forwardingInfo call callInScope
          callInPoiScope := by
    simp [computeMostSpecificCandidates, findMostSpecificIgnoringReturn,
      findMostSpecificIgnoringReturnWith, findMostSpecificCandidates,
      DisambiguationCandidate.toMostSpecificCandidate,
      MostSpecificCandidate.fromTypedFnSignatureCall, hfn, hmap,
      DisambiguationCandidate.new]
  refine ⟨_, [c1], hc, ?_, hm, ?_⟩
  · simpa using hd
  · unfold findMostSpecificCandidatesQuery
    simp only [hc]
    have hd2 : disambiguateDiscarding
        (DisambiguationContext.new context call callInScope callInPoiScope true)
        [DisambiguationCandidate.new context fn forwardingTo call 0] true
        (List.replicate [DisambiguationCandidate.new context fn forwardingTo call 0].length
          false) = some ([c1], [false]) := by simpa using hd
    simp only [hd2]
    exact hm

open Sample in
/-- C3 (evaluation at the failing input): for the call `f(myInt)` made where
`f(x: real)` is declared in the call scope and `f(x: int)` in the enclosing
scope, `disambiguateDiscarding` marks candidate 1, `f(x: int)`, as discarded,
and `findMostSpecificCandidatesQuery` nevertheless returns it as the only
most specific candidate: the mask is not consulted by the final selection. -/
theorem query_selects_discarded_candidate :
    findMostSpecificCandidatesQuery.candidates shadowContext [] callF
        [fnNearReal, fnFarInt] 0
      = some [DisambiguationCandidate.new shadowContext fnNearReal QualifiedType.empty callF 0,
          DisambiguationCandidate.new shadowContext fnFarInt QualifiedType.empty callF 1] ∧
    (disambiguateDiscarding (DisambiguationContext.new shadowContext callF innerScope [] true)
        [DisambiguationCandidate.new shadowContext fnNearReal QualifiedType.empty callF 0,
          DisambiguationCandidate.new shadowContext fnFarInt QualifiedType.empty callF 1]
        true [false, false]).map Prod.snd = some [false, true] ∧
    findMostSpecificCandidatesQuery shadowContext [fnNearReal, fnFarInt] [] callF innerScope []
      = some (MostSpecificCandidates.getOnly
          { fn := fnFarInt, formalActualMap := oneFormalMap intTy }) := by
  refine ⟨rfl, ?_, ?_⟩
  · decide
  · decide

/-! ### The search for the single most specific candidate -/

theorem findMostSpecific_innerLoop_spec (cmp : Nat → Nat → Option Int)
    (ci : Nat → Nat → Int)
    (n i : Nat) (hcmp : ∀ a b, a < n → b < n → cmp a b = some (ci a b)) (hi : i < n)
    (js : List Nat) (hjs : ∀ j ∈ js, j < n) (notBest : Nat → Bool) :
    ∃ notBest1 single,
      findMostSpecificIgnoringReturn.innerLoop cmp i js notBest = some (notBest1, single) ∧
      (single = true ↔ ∀ j ∈ js, j ≠ i → ci i j < 0) ∧
      (∀ k, k ≠ i → ¬ ci i k < 0 → notBest1 k = notBest k) := by
  induction js generalizing notBest with
  | nil =>
    exact ⟨notBest, true, rfl, by simp, fun _ _ _ => rfl⟩
  | cons j js ih =>
    have hjn : j < n := hjs j (List.mem_cons_self _ _)
    have hjs1 : ∀ j ∈ js, j < n := fun k hk => hjs k (List.mem_cons_of_mem _ hk)
    unfold findMostSpecificIgnoringReturn.innerLoop
    by_cases hij : i = j
    · obtain ⟨nb1, s, h1, h2, h3⟩ := ih hjs1 notBest
      refine ⟨nb1, s, by simp [hij] at h1 ⊢; exact h1, ?_, h3⟩
      rw [h2]
      constructor
      · intro h k hk hki
        rcases List.mem_cons.mp hk with rfl | hk
        · exact absurd hij.symm hki
        · exact h k hk hki
      · intro h k hk hki
        exact h k (List.mem_cons_of_mem _ hk) hki
    · simp only [hij, if_false, hcmp i j hi hjn]
      by_cases hlt : ci i j < 0
      · obtain ⟨nb1, s, h1, h2, h3⟩ := ih hjs1 (Function.update notBest j true)
        refine ⟨nb1, s, by simp [hlt, h1], ?_, ?_⟩
        · rw [h2]
          constructor
          · intro h k hk hki
            rcases List.mem_cons.mp hk with rfl | hk
            · exact hlt
            · exact h k hk hki
          · intro h k hk hki
            exact h k (List.mem_cons_of_mem _ hk) hki
        · intro k hki hk
          rw [h3 k hki hk]
          have : k ≠ j := by
            rintro rfl
            exact hk hlt
          simp [Function.update, this]
      · simp only [hlt, if_false]
        have hne : ¬ ∀ k ∈ j :: js, k ≠ i → ci i k < 0 := by
          intro h
          exact hlt (h j (List.mem_cons_self _ _) (Ne.symm hij))
        have hiff : (false = true ↔ ∀ k ∈ j :: js, k ≠ i → ci i k < 0) :=
          ⟨fun h => absurd h (by simp), fun h => absurd h hne⟩
        by_cases hgt : ci i j > 0
        · refine ⟨Function.update notBest i true, false, by simp [hgt], hiff, ?_⟩
          intro k hki _
          simp [Function.update, hki]
        · refine ⟨if notBest j = true then Function.update notBest i true else notBest,
            false, by simp [hgt], hiff, ?_⟩
          intro k hki _
          split_ifs
          · simp [Function.update, hki]
          · rfl

theorem findMostSpecific_outerLoop_sound (cmp : Nat → Nat → Option Int)
    (ci : Nat → Nat → Int) (n : Nat)
    (hcmp : ∀ a b, a < n → b < n → cmp a b = some (ci a b))
    (is : List Nat) (his : ∀ i ∈ is, i < n) (notBest : Nat → Bool) :
    ∃ r notBest1,
      findMostSpecificIgnoringReturn.outerLoop cmp n is notBest = some (r, notBest1) ∧
      ∀ i, r = some i → i < n ∧ ∀ j, j < n → j ≠ i → ci i j < 0 := by
  induction is generalizing notBest with
  | nil => exact ⟨none, notBest, rfl, by simp⟩
  | cons i is ih =>
    have hin : i < n := his i (List.mem_cons_self _ _)
    have his1 : ∀ k ∈ is, k < n := fun k hk => his k (List.mem_cons_of_mem _ hk)
    unfold findMostSpecificIgnoringReturn.outerLoop
    by_cases hnb : notBest i = true
    · simpa [hnb] using ih his1 notBest
    · obtain ⟨nb1, single, h1, h2, _⟩ := findMostSpecific_innerLoop_spec cmp ci n i hcmp hin
        (List.range n) (fun j hj => List.mem_range.mp hj) notBest
      simp only [hnb, h1]
      cases single with
      | true =>
        refine ⟨some i, nb1, by simp, ?_⟩
        intro k hk
        obtain rfl : i = k := by simpa using hk
        exact ⟨hin, fun j hj hji => (h2.mp rfl) j (List.mem_range.mpr hj) hji⟩
      | false => simpa using ih his1 nb1

theorem findMostSpecific_outerLoop_best (cmp : Nat → Nat → Option Int)
    (ci : Nat → Nat → Int) (n : Nat)
    (hcmp : ∀ a b, a < n → b < n → cmp a b = some (ci a b))
    (i0 : Nat) (hi0 : i0 < n) (hbest : ∀ j, j < n → j ≠ i0 → ci i0 j < 0)
    (hworse : ∀ j, j < n → j ≠ i0 → ci j i0 > 0)
    (is : List Nat) (his : ∀ i ∈ is, i < n) (hmem : i0 ∈ is) (notBest : Nat → Bool)
    (hnb0 : notBest i0 = false) :
    ∃ notBest1,
      findMostSpecificIgnoringReturn.outerLoop cmp n is notBest = some (some i0, notBest1) := by
  induction is generalizing notBest with
  | nil => simp at hmem
  | cons i is ih =>
    have hin : i < n := his i (List.mem_cons_self _ _)
    have his1 : ∀ k ∈ is, k < n := fun k hk => his k (List.mem_cons_of_mem _ hk)
    obtain ⟨nb1, single, h1, h2, h3⟩ := findMostSpecific_innerLoop_spec cmp ci n i hcmp hin
      (List.range n) (fun j hj => List.mem_range.mp hj) notBest
    unfold findMostSpecificIgnoringReturn.outerLoop
    by_cases hii : i = i0
    · subst hii
      have hs : single = true :=
        h2.mpr (fun j hj hji => hbest j (List.mem_range.mp hj) hji)
      subst hs
      exact ⟨nb1, by simp [hnb0, h1]⟩
    · have hmem1 : i0 ∈ is := by
        rcases List.mem_cons.mp hmem with h | h
        · exact absurd h.symm hii
        · exact h
      have hpos : ci i i0 > 0 := hworse i hin hii
      by_cases hnb : notBest i = true
      · simpa [hnb] using ih his1 hmem1 notBest hnb0
      · have hs : single = false := by
          cases single with
          | false => rfl
          | true =>
            have := (h2.mp rfl) i0 (List.mem_range.mpr hi0) (Ne.symm hii)
            omega
        subst hs
        have hnb1 : nb1 i0 = false := by
          rw [h3 i0 (Ne.symm hii) (by omega)]
          exact hnb0
        simpa [hnb, h1] using ih his1 hmem1 nb1 hnb1

theorem findMostSpecificIgnoringReturnWith_unfold
    (cmp : DisambiguationCandidate → DisambiguationCandidate → Option Int)
    (candidates ambiguousBest : CandidatesVec) (hn : 2 ≤ candidates.length) :
    findMostSpecificIgnoringReturnWith cmp candidates ambiguousBest =
      match findMostSpecificIgnoringReturn.outerLoop
          (fun i j =>
            match candidates[i]?, candidates[j]? with
            | some candidate1, some candidate2 => cmp candidate1 candidate2
            | _, _ => none)
          candidates.length (List.range candidates.length) (fun _ => false) with
      | none => none
      | some (some i, _) => some (candidates[i]?, ambiguousBest)
      | some (none, notBest) =>
        some (none,
          ambiguousBest ++
            ((List.range candidates.length).filter (fun i => notBest i == false)).filterMap
              (fun i => candidates[i]?)) := by
  match candidates, hn with
  | a :: b :: rest, _ => rfl

theorem findMostSpecificIgnoringReturnWith_total
    (cmp : DisambiguationCandidate → DisambiguationCandidate → Int)
    (candidates ambiguousBest : CandidatesVec) (hn : 2 ≤ candidates.length) :
    ∃ r nb,
      findMostSpecificIgnoringReturn.outerLoop
          (fun i j =>
            match candidates[i]?, candidates[j]? with
            | some candidate1, some candidate2 => some (cmp candidate1 candidate2)
            | _, _ => none)
          candidates.length (List.range candidates.length) (fun _ => false) = some (r, nb) ∧
      findMostSpecificIgnoringReturnWith (fun a b => some (cmp a b)) candidates ambiguousBest
        = (match r with
          | some i => some (candidates[i]?, ambiguousBest)
          | none =>
            some (none,
              ambiguousBest ++
                ((List.range candidates.length).filter (fun i => nb i == false)).filterMap
                  (fun i => candidates[i]?))) ∧
      ∀ i, r = some i → ∃ hi : i < candidates.length,
        ∀ j (hj : j < candidates.length), j ≠ i → cmp candidates[i] candidates[j] < 0 := by
  have hcmp : ∀ a b, a < candidates.length → b < candidates.length →
      (fun i j =>
        match candidates[i]?, candidates[j]? with
        | some candidate1, some candidate2 => some (cmp candidate1 candidate2)
        | _, _ => none) a b
      = some ((fun i j =>
          match candidates[i]?, candidates[j]? with
          | some a, some b => cmp a b
          | _, _ => 0) a b) := by
    intro a b ha hb
    simp [List.getElem?_eq_getElem ha, List.getElem?_eq_getElem hb]
  obtain ⟨r, nb1, hr, hsound⟩ := findMostSpecific_outerLoop_sound _ _ candidates.length hcmp
    (List.range candidates.length) (fun i hi => List.mem_range.mp hi) (fun _ => false)
  refine ⟨r, nb1, hr, ?_, ?_⟩
  · rw [findMostSpecificIgnoringReturnWith_unfold _ _ _ hn, hr]
    cases r <;> rfl
  · intro i hi
    obtain ⟨hlt, hall⟩ := hsound i hi
    refine ⟨hlt, fun j hj hji => ?_⟩
    have := hall j hj hji
    simpa [List.getElem?_eq_getElem hlt, List.getElem?_eq_getElem hj] using this

theorem findMostSpecificIgnoringReturnWith_best
    (cmp : DisambiguationCandidate → DisambiguationCandidate → Int)
    (candidates ambiguousBest : CandidatesVec) (hn : 2 ≤ candidates.length)
    (i : Nat) (hi : i < candidates.length)
    (hbest : ∀ j (hj : j < candidates.length), j ≠ i →
      cmp candidates[i] candidates[j] < 0 ∧ cmp candidates[j] candidates[i] > 0) :
    findMostSpecificIgnoringReturnWith (fun a b => some (cmp a b)) candidates ambiguousBest
      = some (some candidates[i], ambiguousBest) := by
  have hciv : ∀ a b (ha : a < candidates.length) (hb : b < candidates.length),
      (fun i j =>
        match candidates[i]?, candidates[j]? with
        | some a, some b => cmp a b
        | _, _ => 0) a b = cmp candidates[a] candidates[b] := by
    intro a b ha hb
    simp [List.getElem?_eq_getElem ha, List.getElem?_eq_getElem hb]
  obtain ⟨nb1, h⟩ := findMostSpecific_outerLoop_best
    (fun i j =>
      match candidates[i]?, candidates[j]? with
      | some candidate1, some candidate2 => some (cmp candidate1 candidate2)
      | _, _ => none)
    (fun i j =>
      match candidates[i]?, candidates[j]? with
      | some a, some b => cmp a b
      | _, _ => 0)
    candidates.length
    (fun a b ha hb => by
      simp [List.getElem?_eq_getElem ha, List.getElem?_eq_getElem hb])
    i hi (fun j hj hji => by rw [hciv i j hi hj]; exact (hbest j hj hji).1)
    (fun j hj hji => by rw [hciv j i hj hi]; exact (hbest j hj hji).2)
    (List.range candidates.length) (fun i hi => List.mem_range.mp hi)
    (List.mem_range.mpr hi) (fun _ => false) rfl
  rw [findMostSpecificIgnoringReturnWith_unfold _ _ _ hn, h]
  simp [List.getElem?_eq_getElem hi]

theorem unique_best_of_perm
    (cmp : DisambiguationCandidate → DisambiguationCandidate → Int)
    (candidates candidates1 : CandidatesVec) (hperm : candidates1.Perm candidates)
    (hanti : ∀ a b, cmp a b < 0 ↔ cmp b a > 0)
    (i : Nat) (hi : i < candidates.length)
    (hbest : ∀ j (hj : j < candidates.length), j ≠ i →
      cmp candidates[i] candidates[j] < 0) :
    ∃ i1, ∃ hi1 : i1 < candidates1.length, candidates1[i1] = candidates[i] ∧
      ∀ j (hj : j < candidates1.length), j ≠ i1 →
        cmp candidates1[i1] candidates1[j] < 0 := by
  have hirr : ¬ cmp candidates[i] candidates[i] < 0 := by
    intro h
    have := (hanti _ _).mp h
    omega
  have hnodup : ¬ candidates.Duplicate candidates[i] := by
    intro hdup
    obtain ⟨n, m, hnm, h1, h2⟩ := List.duplicate_iff_exists_distinct_get.mp hdup
    by_cases hni : (n : Nat) = i
    · have hmi : (m : Nat) ≠ i := by
        intro h
        have : (n : Nat) < (m : Nat) := hnm
        omega
      have := hbest m m.2 hmi
      rw [show candidates[(m : Nat)] = candidates.get m from rfl, ← h2] at this
      exact hirr this
    · have := hbest n n.2 hni
      rw [show candidates[(n : Nat)] = candidates.get n from rfl, ← h1] at this
      exact hirr this
  have hmem : candidates[i] ∈ candidates1 :=
    hperm.mem_iff.mpr (List.getElem_mem hi)
  obtain ⟨i1, hi1, hc⟩ := List.getElem_of_mem hmem
  refine ⟨i1, hi1, hc, ?_⟩
  intro j hj hji
  have hmemj : candidates1[j] ∈ candidates := hperm.mem_iff.mp (List.getElem_mem hj)
  obtain ⟨j0, hj0, hcj⟩ := List.getElem_of_mem hmemj
  rw [hc, ← hcj]
  by_cases hj0i : j0 = i
  · exfalso
    subst hj0i
    apply hnodup
    rw [List.duplicate_iff_two_le_count, ← hperm.count_eq, ← List.duplicate_iff_two_le_count,
      List.duplicate_iff_exists_distinct_get]
    rcases Nat.lt_or_gt_of_ne hji with hlt | hgt
    · exact ⟨⟨j, hj⟩, ⟨i1, hi1⟩, hlt, by simpa using hcj, by simpa using hc.symm⟩
    · exact ⟨⟨i1, hi1⟩, ⟨j, hj⟩, hgt, by simpa using hc.symm, by simpa using hcj⟩
  · exact hbest j0 hj0 hj0i

/-- C4: for every candidate list of length at least 2 and every (total)
pairwise comparison `cmp`, `findMostSpecificIgnoringReturn` returns a result;
if it returns a candidate `c` then `cmp c d < 0` for every other candidate `d`
of the list.  Conversely a candidate that wins against every other candidate
in both orders of comparison is the one returned, so when no candidate is
returned there is no such candidate; hence, if `cmp` is antisymmetric, a
candidate that is strictly more specific than every other candidate of the
list is the one returned, at whatever position it stands and in whatever
order the list is given (for every permutation of the list), and when no
candidate is returned no candidate is strictly more specific than all
others. -/
theorem findMostSpecificIgnoringReturn_unique_best
    (cmp : DisambiguationCandidate → DisambiguationCandidate → Int)
    (candidates ambiguousBest : CandidatesVec) (hn : 2 ≤ candidates.length) :
    (∃ r, findMostSpecificIgnoringReturnWith (fun a b => some (cmp a b)) candidates
        ambiguousBest = some r) ∧
    (∀ c amb,
      findMostSpecificIgnoringReturnWith (fun a b => some (cmp a b)) candidates
          ambiguousBest = some (some c, amb) →
      ∃ i, ∃ hi : i < candidates.length, candidates[i] = c ∧
        ∀ j (hj : j < candidates.length), j ≠ i → cmp c candidates[j] < 0) ∧
    (∀ i (hi : i < candidates.length),
      (∀ j (hj : j < candidates.length), j ≠ i →
        cmp candidates[i] candidates[j] < 0 ∧ cmp candidates[j] candidates[i] > 0) →
      findMostSpecificIgnoringReturnWith (fun a b => some (cmp a b)) candidates
        ambiguousBest = some (some candidates[i], ambiguousBest)) ∧
    (∀ amb,
      findMostSpecificIgnoringReturnWith (fun a b => some (cmp a b)) candidates
          ambiguousBest = some (none, amb) →
      ¬ ∃ i, ∃ hi : i < candidates.length,
        ∀ j (hj : j < candidates.length), j ≠ i →
          cmp candidates[i] candidates[j] < 0 ∧ cmp candidates[j] candidates[i] > 0) ∧
    ((∀ a b, cmp a b < 0 ↔ cmp b a > 0) →
      (∀ i (hi : i < candidates.length),
        (∀ j (hj : j < candidates.length), j ≠ i → cmp candidates[i] candidates[j] < 0) →
        findMostSpecificIgnoringReturnWith (fun a b => some (cmp a b)) candidates
            ambiguousBest = some (some candidates[i], ambiguousBest) ∧
        ∀ candidates1 : CandidatesVec, candidates1.Perm candidates →
          findMostSpecificIgnoringReturnWith (fun a b => some (cmp a b)) candidates1
            ambiguousBest = some (some candidates[i], ambiguousBest)) ∧
      (∀ amb,
        findMostSpecificIgnoringReturnWith (fun a b => some (cmp a b)) candidates
            ambiguousBest = some (none, amb) →
        ¬ ∃ i, ∃ hi : i < candidates.length,
          ∀ j (hj : j < candidates.length), j ≠ i →
            cmp candidates[i] candidates[j] < 0)) := by
  obtain ⟨r, nb, _, hF, hsound⟩ :=
    findMostSpecificIgnoringReturnWith_total cmp candidates ambiguousBest hn
  have hbothOf : ∀ (l : CandidatesVec), (∀ a b, cmp a b < 0 ↔ cmp b a > 0) →
      ∀ i (hi : i < l.length),
      (∀ j (hj : j < l.length), j ≠ i → cmp l[i] l[j] < 0) →
      ∀ j (hj : j < l.length), j ≠ i → cmp l[i] l[j] < 0 ∧ cmp l[j] l[i] > 0 :=
    fun l hanti i hi hbest j hj hji => ⟨hbest j hj hji, (hanti _ _).mp (hbest j hj hji)⟩
  refine ⟨?_, ?_, ?_, ?_, ?_⟩
  · rw [hF]
    cases r <;> simp
  · intro c amb h
    rw [hF] at h
    cases r with
    | none => simp at h
    | some i =>
      obtain ⟨hi, hlt⟩ := hsound i rfl
      simp only [List.getElem?_eq_getElem hi, Option.some.injEq, Prod.mk.injEq] at h
      refine ⟨i, hi, h.1, ?_⟩
      intro j hj hji
      rw [← h.1]
      exact hlt j hj hji
  · intro i hi hbest
    exact findMostSpecificIgnoringReturnWith_best cmp candidates ambiguousBest hn i hi hbest
  · intro amb h
    rintro ⟨i, hi, hbest⟩
    have h2 := findMostSpecificIgnoringReturnWith_best cmp candidates ambiguousBest hn i hi
      hbest
    rw [h] at h2
    simp at h2
  · intro hanti
    refine ⟨fun i hi hbest =>
      ⟨findMostSpecificIgnoringReturnWith_best cmp candidates ambiguousBest hn i hi
        (hbothOf candidates hanti i hi hbest), ?_⟩, ?_⟩
    · intro candidates1 hperm
      obtain ⟨i1, hi1, hc, hb1⟩ :=
        unique_best_of_perm cmp candidates candidates1 hperm hanti i hi hbest
      rw [← hc]
      exact findMostSpecificIgnoringReturnWith_best cmp candidates1 ambiguousBest
        (by rw [hperm.length_eq]; exact hn) i1 hi1 (hbothOf candidates1 hanti i1 hi1 hb1)
    · intro amb h
      rintro ⟨i, hi, hbest⟩
      have h2 := findMostSpecificIgnoringReturnWith_best cmp candidates ambiguousBest hn i hi
        (hbothOf candidates hanti i hi hbest)
      rw [h] at h2
      simp at h2

open Sample in
/-- With the comparison by index, candidate `f(x: real)` (index 0) is strictly
more specific than the other candidate; it is returned from the list in this
order and in the reversed order. -/
theorem findMostSpecificIgnoringReturn_unique_best_witness :
    2 ≤ [candNearReal, candFarInt].length ∧
    findMostSpecificIgnoringReturnWith (fun a b => some (cmpByIdx a b))
      [candNearReal, candFarInt] [] = some (some candNearReal, []) ∧
    findMostSpecificIgnoringReturnWith (fun a b => some (cmpByIdx a b))
      [candFarInt, candNearReal] [] = some (some candNearReal, []) :=
  have h := ((findMostSpecificIgnoringReturn_unique_best cmpByIdx [candNearReal, candFarInt] []
      (by decide)).2.2.2.2 (fun a b => by unfold cmpByIdx; omega)).1 0 (by decide)
      (fun j hj hj0 => by
        have hj1 : j = 1 := by
          simp only [List.length_cons, List.length_nil] at hj
          omega
        subst hj1
        show cmpByIdx candNearReal candFarInt < 0
        decide)
  ⟨by decide, h.1, h.2 [candFarInt, candNearReal] (List.Perm.swap _ _ _)⟩

/-! ### Antisymmetry of the per-argument comparison -/

theorem swapVerdict_one : swapVerdict 1 = 2 := by decide

theorem swapVerdict_two : swapVerdict 2 = 1 := by decide

theorem swapVerdict_zero : swapVerdict 0 = 0 := by decide

theorem swapVerdict_neg_one : swapVerdict (-1) = -1 := by decide

theorem swapVerdict_other (p : Int) (h1 : ¬ p = 1) (h2 : ¬ p = 2) : swapVerdict p = p := by
  simp [swapVerdict, h1, h2]

theorem swapVerdict_swapVerdict (p : Int) : swapVerdict (swapVerdict p) = p := by
  unfold swapVerdict
  split_ifs <;> omega

theorem prefersNumericCoercion_swap (f1Qt f2Qt actualQt : QualifiedType) :
    prefersNumericCoercion f2Qt f1Qt actualQt =
      (prefersNumericCoercion f1Qt f2Qt actualQt).map swapVerdict := by
  unfold prefersNumericCoercion swapVerdict
  cases classifyNumericWidth actualQt <;> cases classifyNumericWidth f1Qt <;>
    cases classifyNumericWidth f2Qt <;> cases actualQt.type <;> cases f1Qt.type <;>
    cases f2Qt.type <;> simp only [Option.map_none', Option.map_some']
  split_ifs <;> simp_all <;> omega

theorem testArgMapping_verdict_swap (dctx : DisambiguationContext)
    (t1 t2 a s : QualifiedType)
    (fi1 fi2 any1 any2 fp1 fp2 ap pr1 pr2 pn1 pn2 : Bool) :
    testArgMapping.verdict dctx t2 t1 a s fi2 fi1 any2 any1 false false fp2 fp1 ap pr2 pr1
        pn2 pn1 =
      (testArgMapping.verdict dctx t1 t2 a s fi1 fi2 any1 any2 false false fp1 fp2 ap pr1 pr2
        pn1 pn2).map swapVerdict := by
  unfold testArgMapping.verdict
  rw [prefersNumericCoercion_swap t1 t2 s]
  generalize prefersNumericCoercion t1 t2 s = p
  generalize moreSpecificCanDispatch dctx t1 t2 = d1
  generalize moreSpecificCanDispatch dctx t2 t1 = d2
  cases pr1 <;> cases pr2 <;>
    simp only [Bool.false_eq_true, not_false_eq_true, not_true_eq_false, and_self, and_false,
      false_and, true_and, and_true, if_true, if_false, Option.map_some', swapVerdict_one,
      swapVerdict_two]
  all_goals (by_cases hteq : t1 = t2)
  all_goals first
    | (subst hteq
       cases fi1 <;> cases fi2 <;>
         simp only [Bool.false_eq_true, not_false_eq_true, not_true_eq_false, and_self,
           and_false, false_and, true_and, and_true, if_true, if_false, Option.map_some',
           swapVerdict_one, swapVerdict_two, ne_eq]
       all_goals (cases any1 <;> cases any2 <;>
         simp only [Bool.false_eq_true, not_false_eq_true, not_true_eq_false, and_self,
           and_false, false_and, true_and, and_true, if_true, if_false, Option.map_some',
           swapVerdict_one, swapVerdict_two, ne_eq])
       all_goals (cases fp1 <;> cases fp2 <;>
         simp only [Bool.false_eq_true, not_false_eq_true, not_true_eq_false, and_self,
           and_false, false_and, true_and, and_true, if_true, if_false, Option.map_some',
           swapVerdict_one, swapVerdict_two, swapVerdict_zero, ne_eq]))
    | (have hteq2 : ¬ t2 = t1 := fun h => hteq h.symm
       simp only [hteq, hteq2, Bool.false_eq_true, not_false_eq_true, not_true_eq_false,
         and_self, and_false, false_and, true_and, and_true, if_true, if_false,
         Option.map_some', swapVerdict_one, swapVerdict_two, ne_eq]
       cases fp1 <;> cases fp2 <;>
         simp only [Bool.false_eq_true, not_false_eq_true, not_true_eq_false, and_self,
           and_false, false_and, true_and, and_true, if_true, if_false, Option.map_some',
           swapVerdict_one, swapVerdict_two, ne_eq]
       all_goals (cases ap <;> cases pn1 <;> cases pn2 <;>
         simp only [Bool.false_eq_true, not_false_eq_true, not_true_eq_false, and_self,
           and_false, false_and, true_and, and_true, if_true, if_false, Option.map_some',
           swapVerdict_one, swapVerdict_two, ne_eq])
       all_goals (cases p with
         | none => rfl
         | some pv =>
           simp only [Option.map_some']
           by_cases hp1 : pv = 1
           · subst hp1
             simp only [swapVerdict_one, swapVerdict_two, if_true, Option.map_some']
             rfl
           · by_cases hp2 : pv = 2
             · subst hp2
               simp only [swapVerdict_one, swapVerdict_two, if_true, Option.map_some']
               rfl
             · simp only [swapVerdict_other pv hp1 hp2, hp1, hp2, if_false]
               have key : ∀ (x : QualifiedType) (P Q : Option Int),
                   Q = Option.map swapVerdict P →
                   (if x = t2 ∧ ¬ x = t1 then some 1 else if x = t1 ∧ ¬ x = t2 then some 2
                     else Q) =
                   Option.map swapVerdict
                     (if x = t1 ∧ ¬ x = t2 then some 1 else if x = t2 ∧ ¬ x = t1 then some 2
                       else P) := by
                 intro x P Q hPQ
                 by_cases hx1 : x = t1
                 · have hx2 : ¬ x = t2 := fun h => hteq (hx1.symm.trans h)
                   simp only [eq_true hx1, eq_false hx2, not_true_eq_false, not_false_eq_true,
                     and_self, and_false, false_and, if_true, if_false, Option.map_some',
                     swapVerdict_one]
                 · by_cases hx2 : x = t2
                   · simp only [eq_true hx2, eq_false hx1, not_true_eq_false,
                       not_false_eq_true, and_self, and_false, false_and, if_true, if_false,
                       Option.map_some', swapVerdict_two]
                   · simp only [eq_false hx2, eq_false hx1, not_true_eq_false,
                       not_false_eq_true, and_self, and_false, false_and, if_true, if_false]
                     exact hPQ
               apply key a
               apply key s
               cases d1 <;> cases d2 <;>
                 simp only [Bool.false_eq_true, not_false_eq_true, not_true_eq_false, and_self,
                   and_false, false_and, true_and, and_true, if_true, if_false,
                   Option.map_some', swapVerdict_one, swapVerdict_two,
                   swapVerdict_neg_one]))

theorem testArgMapping_swap (dctx : DisambiguationContext)
    (candidate1 candidate2 : DisambiguationCandidate) (actualIdx : Nat)
    (ds ds1 : DisambiguationState) (fa1 fa2 : FormalActual)
    (h1 : candidate1.formalActualMap.byActualIdx actualIdx = some fa1)
    (h2 : candidate2.formalActualMap.byActualIdx actualIdx = some fa2) :
    testArgMapping dctx candidate2 candidate1 actualIdx ds1 =
      (testArgMapping dctx candidate1 candidate2 actualIdx ds).map swapVerdict := by
  unfold testArgMapping
  simp only [h1, h2]
  by_cases hact : fa1.actualType = fa2.actualType
  swap
  · simp only [ne_eq, hact, Ne.symm hact, not_false_eq_true, if_true, Option.map_none']
  simp only [← hact, ne_eq, not_true_eq_false, if_false]
  by_cases hout : fa1.formalType.kind = Kind.OUT ∨ fa2.formalType.kind = Kind.OUT
  · simp only [if_pos hout, if_pos (Or.comm.mp hout), Option.map_some', swapVerdict_neg_one]
  simp only [if_neg hout, if_neg (fun h => hout (Or.comm.mp h))]
  simp only [isFormalPartiallyGeneric, computeActualScalarType, ite_self, testArgMapHelper,
    ← hact]
  generalize (if fa1.formalInstantiated = true then isFormalInstantiatedAny candidate1 fa1
    else some false) = o1
  generalize (if fa2.formalInstantiated = true then isFormalInstantiatedAny candidate2 fa2
    else some false) = o2
  generalize dctx.context.canPass
    (if candidate1.forwardingTo.type.isSome = true then candidate1.forwardingTo
      else fa1.actualType) fa1.formalType = r1
  generalize dctx.context.canPass
    (if candidate2.forwardingTo.type.isSome = true then candidate2.forwardingTo
      else fa1.actualType) fa2.formalType = r2
  cases o1 <;> cases o2 <;> cases hr1 : r1.passes <;> cases hr2 : r2.passes <;>
    simp only [Option.map_none', Bool.false_eq_true, if_false, if_true]
  exact testArgMapping_verdict_swap dctx _ _ _ _ _ _ _ _ _ _ _ _ _ _ _

/-- C5: the int-returning `testArgMapping` is antisymmetric under swapping the
candidates: when both candidates have a formal at actual index `k`, the call
on `(c1, c2)` returns 1 iff the call on `(c2, c1)` returns 2 (and 2 iff 1), 0
iff 0, and -1 iff -1; one call aborts iff the other does.  The conversion
oracle is a function of the context, hence deterministic. -/
theorem testArgMapping_antisymmetric (dctx : DisambiguationContext)
    (c1 c2 : DisambiguationCandidate) (k : Nat) (ds1 ds2 : DisambiguationState)
    (fa1 fa2 : FormalActual)
    (h1 : c1.formalActualMap.byActualIdx k = some fa1)
    (h2 : c2.formalActualMap.byActualIdx k = some fa2) :
    (testArgMapping dctx c1 c2 k ds1 = some 1 ↔ testArgMapping dctx c2 c1 k ds2 = some 2) ∧
    (testArgMapping dctx c1 c2 k ds1 = some 2 ↔ testArgMapping dctx c2 c1 k ds2 = some 1) ∧
    (testArgMapping dctx c1 c2 k ds1 = some 0 ↔ testArgMapping dctx c2 c1 k ds2 = some 0) ∧
    (testArgMapping dctx c1 c2 k ds1 = some (-1) ↔
      testArgMapping dctx c2 c1 k ds2 = some (-1)) ∧
    (testArgMapping dctx c1 c2 k ds1 = none ↔ testArgMapping dctx c2 c1 k ds2 = none) := by
  rw [testArgMapping_swap dctx c1 c2 k ds1 ds2 fa1 fa2 h1 h2]
  cases testArgMapping dctx c1 c2 k ds1 with
  | none => simp
  | some v =>
    simp only [Option.map_some', Option.some.injEq, reduceCtorEq, iff_self, and_true]
    unfold swapVerdict
    refine ⟨?_, ?_, ?_, ?_⟩ <;> constructor <;> intro h <;> split_ifs at * <;> omega

open Sample in
/-- For the call `f(myInt)` with the overloads `f(x: real)` and `f(x: int)`
both candidates have a formal at actual 0; the comparison prefers the second
(`int`) candidate in one order and the first in the other. -/
theorem testArgMapping_antisymmetric_witness :
    testArgMapping (DisambiguationContext.new shadowContext callF innerScope [] true)
        candNearReal candFarInt 0 {} = some 2 ∧
      testArgMapping (DisambiguationContext.new shadowContext callF innerScope [] true)
        candFarInt candNearReal 0 {} = some 1 :=
  have h := (testArgMapping_antisymmetric
    (DisambiguationContext.new shadowContext callF innerScope [] true)
    candNearReal candFarInt 0 {} {} _ _ rfl rfl).2.1
  ⟨by decide, h.mp (by decide)⟩

open Sample in
/-- C6 (evaluation at the failing input): for the call `g(myBool)` with the
overloads `g(x: int(8))` and `g(x: uint)`, `prefersConvToOtherNumeric` holds
in both orders of the two formals (bool prefers int over uint, and prefers a
default-width uint over a non-default int), so the state-updating
`testArgMapping` records a weaker preference for its first candidate in
whichever order the two candidates are given: for `int(8)` on
`(int(8), uint)` and for `uint` on `(uint, int(8))`.  The resolution of the
call then depends on the order of the candidate list. -/
theorem testArgMappingVoid_prefers_first_both_orders :
    prefersConvToOtherNumeric { kind := Kind.VAR, type := some boolTy, param := none }
        { kind := Kind.CONST_IN, type := some int8Ty, param := none }
        { kind := Kind.CONST_IN, type := some uintTy, param := none } = some true ∧
    prefersConvToOtherNumeric { kind := Kind.VAR, type := some boolTy, param := none }
        { kind := Kind.CONST_IN, type := some uintTy, param := none }
        { kind := Kind.CONST_IN, type := some int8Ty, param := none } = some true ∧
    testArgMappingVoid boolDctx candInt8 candUint 0 {} = some { fn1WeakerPreferred := true } ∧
    testArgMappingVoid boolDctx candUint candInt8 0 {} = some { fn1WeakerPreferred := true } ∧
    findMostSpecificCandidates boolContext [fnInt8, fnUint] [] callG (Scope.root 0 false) []
      = some (MostSpecificCandidates.getOnly
          { fn := fnInt8, formalActualMap := boolFormalMap int8Ty }) ∧
    findMostSpecificCandidates boolContext [fnUint, fnInt8] [] callG (Scope.root 0 false) []
      = some (MostSpecificCandidates.getOnly
          { fn := fnUint, formalActualMap := boolFormalMap uintTy }) := by
  refine ⟨?_, ?_, ?_, ?_, ?_, ?_⟩ <;> decide

/-! ### The argument filter under a preorder -/

theorem preorderVerdict_eq_one (le : Nat → Nat → Bool) (i j : Nat) :
    preorderVerdict le i j = 1 ↔ strictlyBelow le j i := by
  unfold preorderVerdict strictlyBelow
  cases le i j <;> cases le j i <;> simp

theorem preorderVerdict_eq_two (le : Nat → Nat → Bool) (i j : Nat) :
    preorderVerdict le i j = 2 ↔ strictlyBelow le i j := by
  unfold preorderVerdict strictlyBelow
  cases le i j <;> cases le j i <;> simp

theorem preorderVerdict_eq_zero (le : Nat → Nat → Bool) (i j : Nat) :
    preorderVerdict le i j = 0 ↔ le i j = true ∧ le j i = true := by
  unfold preorderVerdict
  cases le i j <;> cases le j i <;> simp

theorem strictlyBelow_trans_equiv (le : Nat → Nat → Bool)
    (htrans : ∀ i j k, le i j = true → le j k = true → le i k = true) (i j m : Nat)
    (hij : le i j = true) (hjm : strictlyBelow le j m) :
    strictlyBelow le i m := by
  refine ⟨htrans i j m hij hjm.1, ?_⟩
  cases hmi : le m i with
  | false => rfl
  | true =>
    have := htrans m i j hmi hij
    rw [hjm.2] at this
    exact absurd this (by simp)

theorem strictlyBelow_trans (le : Nat → Nat → Bool)
    (htrans : ∀ i j k, le i j = true → le j k = true → le i k = true) (i j m : Nat)
    (hij : strictlyBelow le i j) (hjm : strictlyBelow le j m) : strictlyBelow le i m := by
  refine ⟨htrans i j m hij.1 hjm.1, ?_⟩
  cases hmi : le m i with
  | false => rfl
  | true =>
    have := htrans m i j hmi hij.1
    rw [hjm.2] at this
    exact absurd this (by simp)

theorem discardWorseArgs_innerLoop_spec (cmp : Nat → Nat → Option Int)
    (le : Nat → Nat → Bool) (n : Nat) (discarded : List Bool)
    (htrans : ∀ i j k, le i j = true → le j k = true → le i k = true)
    (hcmp : ∀ i j, i < n → j < n → i ≠ j → cmp i j = some (preorderVerdict le i j))
    (i : Nat) (hi : isActive n discarded i) (js : List Nat) (hjs : ∀ j ∈ js, j < n)
    (notBest : Nat → Bool)
    (hinv : ∀ k, notBest k = true → isActive n discarded k ∧ isDominated le n discarded k) :
    ∃ notBest1, discardWorseArgs.innerLoop cmp discarded i js notBest = some notBest1 ∧
      (∀ k, notBest1 k = true → isActive n discarded k ∧ isDominated le n discarded k) ∧
      (∀ k, notBest k = true → notBest1 k = true) ∧
      ((∀ k, isActive n discarded k → ¬ strictlyBelow le i k) →
        ∀ j ∈ js, isActive n discarded j → strictlyBelow le j i → notBest1 j = true) := by
  induction js generalizing notBest with
  | nil => exact ⟨notBest, rfl, hinv, fun _ h => h, fun _ j hj => by simp at hj⟩
  | cons j js ih =>
    have hjn : j < n := hjs j (List.mem_cons_self _ _)
    have hjs1 : ∀ j ∈ js, j < n := fun k hk => hjs k (List.mem_cons_of_mem _ hk)
    unfold discardWorseArgs.innerLoop
    by_cases hij : i = j
    · obtain ⟨nb1, h1, h2, h3, h4⟩ := ih hjs1 notBest hinv
      refine ⟨nb1, by simp only [hij, if_true] at h1 ⊢; exact h1, h2, h3, ?_⟩
      intro hmax k hk hka hlt
      rcases List.mem_cons.mp hk with rfl | hk
      · rw [← hij] at hlt
        exact absurd (hlt.1.symm.trans hlt.2) (by simp)
      · exact h4 hmax k hk hka hlt
    · by_cases hdj : discarded.getD j false = true
      · obtain ⟨nb1, h1, h2, h3, h4⟩ := ih hjs1 notBest hinv
        refine ⟨nb1, by simp only [hij, if_false, hdj, if_true]; exact h1, h2, h3, ?_⟩
        intro hmax k hk hka hlt
        rcases List.mem_cons.mp hk with rfl | hk
        · exact absurd hka.2 (by rw [hdj]; simp)
        · exact h4 hmax k hk hka hlt
      · have hja : isActive n discarded j := ⟨hjn, by simpa using hdj⟩
        simp only [hij, if_false, hdj, hcmp i j hi.1 hjn hij]
        by_cases hv1 : preorderVerdict le i j = 1
        · have hlt : strictlyBelow le j i := (preorderVerdict_eq_one le i j).mp hv1
          have hinv1 : ∀ k, Function.update notBest j true k = true →
              isActive n discarded k ∧ isDominated le n discarded k := by
            intro k hk
            by_cases hkj : k = j
            · subst hkj
              exact ⟨hja, i, hi, hlt⟩
            · rw [Function.update_noteq hkj] at hk
              exact hinv k hk
          obtain ⟨nb1, h1, h2, h3, h4⟩ := ih hjs1 _ hinv1
          refine ⟨nb1, by simp only [hv1, if_true]; exact h1, h2, ?_, ?_⟩
          · intro k hk
            apply h3
            by_cases hkj : k = j
            · subst hkj; simp
            · rw [Function.update_noteq hkj]; exact hk
          · intro hmax k hk hka hltk
            rcases List.mem_cons.mp hk with rfl | hk
            · exact h3 _ (by simp)
            · exact h4 hmax k hk hka hltk
        · by_cases hv2 : preorderVerdict le i j = 2
          · have hlt : strictlyBelow le i j := (preorderVerdict_eq_two le i j).mp hv2
            refine ⟨Function.update notBest i true, by simp [hv2], ?_, ?_, ?_⟩
            · intro k hk
              by_cases hki : k = i
              · subst hki
                exact ⟨hi, j, hja, hlt⟩
              · rw [Function.update_noteq hki] at hk
                exact hinv k hk
            · intro k hk
              by_cases hki : k = i
              · subst hki; simp
              · rw [Function.update_noteq hki]; exact hk
            · intro hmax
              exact absurd hlt (hmax j hja)
          · by_cases hv0 : preorderVerdict le i j = 0 ∧ notBest j = true
            · obtain ⟨hjact, m, hm, hjm⟩ := hinv j hv0.2
              have heq := (preorderVerdict_eq_zero le i j).mp hv0.1
              have hlt : strictlyBelow le i m :=
                strictlyBelow_trans_equiv le htrans i j m heq.1 hjm
              refine ⟨Function.update notBest i true, by simp [hv0], ?_, ?_, ?_⟩
              · intro k hk
                by_cases hki : k = i
                · subst hki
                  exact ⟨hi, m, hm, hlt⟩
                · rw [Function.update_noteq hki] at hk
                  exact hinv k hk
              · intro k hk
                by_cases hki : k = i
                · subst hki; simp
                · rw [Function.update_noteq hki]; exact hk
              · intro hmax
                exact absurd hlt (hmax m hm)
            · obtain ⟨nb1, h1, h2, h3, h4⟩ := ih hjs1 notBest hinv
              refine ⟨nb1, by simp only [hv1, hv2, hv0, if_false]; exact h1, h2, h3, ?_⟩
              intro hmax k hk hka hltk
              rcases List.mem_cons.mp hk with rfl | hk
              · exact absurd ((preorderVerdict_eq_one le i k).mpr hltk) hv1
              · exact h4 hmax k hk hka hltk

theorem discardWorseArgs_outerLoop_spec (cmp : Nat → Nat → Option Int)
    (le : Nat → Nat → Bool) (n : Nat) (discarded : List Bool)
    (htrans : ∀ i j k, le i j = true → le j k = true → le i k = true)
    (hcmp : ∀ i j, i < n → j < n → i ≠ j → cmp i j = some (preorderVerdict le i j))
    (is : List Nat) (his : ∀ i ∈ is, i < n) (notBest : Nat → Bool)
    (hinv : ∀ k, notBest k = true → isActive n discarded k ∧ isDominated le n discarded k) :
    ∃ notBest1, discardWorseArgs.outerLoop cmp discarded n is notBest = some notBest1 ∧
      (∀ k, notBest1 k = true → isActive n discarded k ∧ isDominated le n discarded k) ∧
      (∀ k, notBest k = true → notBest1 k = true) ∧
      (∀ i ∈ is, isActive n discarded i →
        (∀ k, isActive n discarded k → ¬ strictlyBelow le i k) →
        ∀ j, isActive n discarded j → strictlyBelow le j i → notBest1 j = true) := by
  induction is generalizing notBest with
  | nil => exact ⟨notBest, rfl, hinv, fun _ h => h, fun _ hi => by simp at hi⟩
  | cons i is ih =>
    have hin : i < n := his i (List.mem_cons_self _ _)
    have his1 : ∀ k ∈ is, k < n := fun k hk => his k (List.mem_cons_of_mem _ hk)
    unfold discardWorseArgs.outerLoop
    by_cases hdi : discarded.getD i false = true
    · obtain ⟨nb1, h1, h2, h3, h4⟩ := ih his1 notBest hinv
      refine ⟨nb1, by simp only [hdi, if_true]; exact h1, h2, h3, ?_⟩
      intro i' hi' hact hmax j hj hlt
      rcases List.mem_cons.mp hi' with rfl | hi'
      · exact absurd hact.2 (by rw [hdi]; simp)
      · exact h4 i' hi' hact hmax j hj hlt
    · have hia : isActive n discarded i := ⟨hin, by simpa using hdi⟩
      by_cases hnb : notBest i = true
      · obtain ⟨nb1, h1, h2, h3, h4⟩ := ih his1 notBest hinv
        refine ⟨nb1, by simp only [hdi, hnb, if_true, if_false]; exact h1, h2, h3, ?_⟩
        intro i' hi' hact hmax j hj hlt
        rcases List.mem_cons.mp hi' with rfl | hi'
        · obtain ⟨_, m, hm, hlt'⟩ := hinv _ hnb
          exact absurd hlt' (hmax m hm)
        · exact h4 i' hi' hact hmax j hj hlt
      · obtain ⟨nb0, g1, g2, g3, g4⟩ := discardWorseArgs_innerLoop_spec cmp le n discarded
          htrans hcmp i hia (List.range n) (fun j hj => List.mem_range.mp hj) notBest hinv
        obtain ⟨nb1, h1, h2, h3, h4⟩ := ih his1 nb0 g2
        refine ⟨nb1, by simp only [hdi, hnb, if_false, g1]; exact h1, h2,
          fun k hk => h3 k (g3 k hk), ?_⟩
        intro i' hi' hact hmax j hj hlt
        rcases List.mem_cons.mp hi' with rfl | hi'
        · exact h3 j (g4 hmax j (List.mem_range.mpr hj.1) hj hlt)
        · exact h4 i' hi' hact hmax j hj hlt

theorem discardWorseArgs_mark_getD (notBest : Nat → Bool) (discarded : List Bool)
    (start k : Nat) :
    (discardWorseArgs.mark notBest start discarded).length = discarded.length ∧
    (discardWorseArgs.mark notBest start discarded).getD k false =
      if k < discarded.length then (notBest (start + k) || discarded.getD k false)
      else false := by
  induction discarded generalizing start k with
  | nil => simp [discardWorseArgs.mark]
  | cons d ds ih =>
    unfold discardWorseArgs.mark
    cases k with
    | zero =>
      cases hnb : notBest start <;> simp [hnb, (ih (start + 1) 0).1]
    | succ k =>
      have h := ih (start + 1) k
      simp only [List.length_cons, h.1, List.getD_cons_succ, h.2, Nat.add_lt_add_iff_right,
        true_and]
      rw [show start + 1 + k = start + (k + 1) by omega]

theorem exists_maximal_above (le : Nat → Nat → Bool) (n : Nat) (discarded : List Bool)
    (htrans : ∀ i j k, le i j = true → le j k = true → le i k = true)
    (i : Nat) (hi : isActive n discarded i) :
    ∃ m, isActive n discarded m ∧ (m = i ∨ strictlyBelow le i m) ∧
      ∀ k, isActive n discarded k → ¬ strictlyBelow le m k := by
  classical
  have key : ∀ c : Nat, ∀ i, isActive n discarded i →
      ((Finset.range n).filter
        (fun k => isActive n discarded k ∧ strictlyBelow le i k)).card ≤ c →
      ∃ m, isActive n discarded m ∧ (m = i ∨ strictlyBelow le i m) ∧
        ∀ k, isActive n discarded k → ¬ strictlyBelow le m k := by
    intro c
    induction c with
    | zero =>
      intro i hi hc
      refine ⟨i, hi, Or.inl rfl, ?_⟩
      intro k hk hlt
      have hmem : k ∈ (Finset.range n).filter
          (fun k => isActive n discarded k ∧ strictlyBelow le i k) := by
        simp only [Finset.mem_filter, Finset.mem_range]
        exact ⟨hk.1, hk, hlt⟩
      have hpos := Finset.card_pos.mpr ⟨k, hmem⟩
      omega
    | succ c ih =>
      intro i hi hc
      by_cases hmax : ∀ k, isActive n discarded k → ¬ strictlyBelow le i k
      · exact ⟨i, hi, Or.inl rfl, hmax⟩
      · push_neg at hmax
        obtain ⟨j, hj, hij⟩ := hmax
        have hsub : (Finset.range n).filter
            (fun k => isActive n discarded k ∧ strictlyBelow le j k) ⊂
            (Finset.range n).filter
              (fun k => isActive n discarded k ∧ strictlyBelow le i k) := by
          rw [Finset.ssubset_iff_of_subset]
          · refine ⟨j, ?_, ?_⟩
            · simp only [Finset.mem_filter, Finset.mem_range]
              exact ⟨hj.1, hj, hij⟩
            · simp only [Finset.mem_filter, Finset.mem_range, not_and]
              intro _ _ h
              exact absurd (h.1.symm.trans h.2) (by simp)
          · intro k hk
            simp only [Finset.mem_filter, Finset.mem_range] at hk ⊢
            exact ⟨hk.1, hk.2.1, strictlyBelow_trans le htrans i j k hij hk.2.2⟩
        have hcard := Finset.card_lt_card hsub
        obtain ⟨m, hm, hjm, hmmax⟩ := ih j hj (by omega)
        refine ⟨m, hm, Or.inr ?_, hmmax⟩
        rcases hjm with rfl | hjm
        · exact hij
        · exact strictlyBelow_trans le htrans i j m hij hjm
  exact key _ i hi le_rfl

/-- C7: assume the verdicts of `compareSpecificity` (argument filter) on the
candidates are induced by a transitive relation `le` on the candidate indices
(1/2 = strictly more/less specific, 0 = equivalent, -1 = incomparable).  Then
`discardWorseArgs` returns a mask of the same length in which a previously
active candidate is discarded iff it is strictly dominated by some active
candidate (so no maximal candidate is discarded), every previously discarded
candidate stays discarded, and an active candidate survives whenever one was
active. -/
theorem discardWorseArgs_discards_exactly_dominated (dctx : DisambiguationContext)
    (candidates : CandidatesVec) (discarded : List Bool) (le : Nat → Nat → Bool)
    (hlen : discarded.length = candidates.length)
    (htrans : ∀ i j k, le i j = true → le j k = true → le i k = true)
    (hcmp : ∀ i j (hi : i < candidates.length) (hj : j < candidates.length), i ≠ j →
      compareSpecificityForArgs dctx candidates[i] candidates[j] i j
          (candidates[i].fn.untyped.isMethod &&
            (candidates[i].fn.untyped.name == "init" ||
              candidates[i].fn.untyped.name == "init="))
        = some (preorderVerdict le i j)) :
    ∃ out, discardWorseArgs dctx candidates discarded = some out ∧
      out.length = discarded.length ∧
      (∀ i, isActive candidates.length discarded i →
        (out.getD i false = true ↔ isDominated le candidates.length discarded i)) ∧
      (∀ i, discarded.getD i false = true → out.getD i false = true) ∧
      ((∃ i, isActive candidates.length discarded i) →
        ∃ i, isActive candidates.length discarded i ∧ out.getD i false = false) := by
  unfold discardWorseArgs discardWorseArgsWith
  obtain ⟨nb, h1, h2, _, h4⟩ := discardWorseArgs_outerLoop_spec
    (fun i j =>
      match candidates[i]?, candidates[j]? with
      | some candidate1, some candidate2 =>
        compareSpecificityForArgs dctx candidate1 candidate2 i j
          (candidate1.fn.untyped.isMethod &&
            (candidate1.fn.untyped.name == "init" || candidate1.fn.untyped.name == "init="))
      | _, _ => none)
    le candidates.length discarded htrans
    (fun i j hi hj hij => by
      simp only [List.getElem?_eq_getElem hi, List.getElem?_eq_getElem hj]
      exact hcmp i j hi hj hij)
    (List.range candidates.length) (fun i hi => List.mem_range.mp hi) (fun _ => false)
    (fun k hk => by simp at hk)
  have hiff : ∀ i, isActive candidates.length discarded i →
      ((discardWorseArgs.mark nb 0 discarded).getD i false = true ↔
        isDominated le candidates.length discarded i) := by
    intro i hi
    rw [(discardWorseArgs_mark_getD nb discarded 0 i).2, if_pos (by rw [hlen]; exact hi.1),
      hi.2, Nat.zero_add, Bool.or_false]
    constructor
    · intro h
      exact (h2 i h).2
    · rintro ⟨j, hj, hlt⟩
      obtain ⟨m, hm, hjm, hmax⟩ := exists_maximal_above le candidates.length discarded htrans
        j hj
      have hlt2 : strictlyBelow le i m := by
        rcases hjm with rfl | hjm
        · exact hlt
        · exact strictlyBelow_trans le htrans i j m hlt hjm
      exact h4 m (List.mem_range.mpr hm.1) hm hmax i hi hlt2
  refine ⟨_, by rw [h1], (discardWorseArgs_mark_getD nb discarded 0 0).1, hiff, ?_, ?_⟩
  · intro i hi
    have hlt : i < discarded.length := by
      by_contra hge
      rw [List.getD_eq_default _ _ (by omega)] at hi
      simp at hi
    rw [(discardWorseArgs_mark_getD nb discarded 0 i).2, if_pos hlt, hi, Bool.or_true]
  · rintro ⟨i, hi⟩
    obtain ⟨m, hm, _, hmax⟩ := exists_maximal_above le candidates.length discarded htrans i hi
    refine ⟨m, hm, ?_⟩
    cases hout : (discardWorseArgs.mark nb 0 discarded).getD m false with
    | false => rfl
    | true =>
      obtain ⟨k, hk, hlt⟩ := (hiff m hm).mp hout
      exact absurd hlt (hmax k hk)

open Sample in
/-- For the call `f(myInt)` with the candidates `f(x: real)` and `f(x: int)`
the argument filter's verdicts are those of the order of the indices (the
`int` overload, index 1, is strictly more specific): the hypotheses hold, and
the filter discards exactly candidate 0. -/
theorem discardWorseArgs_discards_exactly_dominated_witness :
    discardWorseArgs (DisambiguationContext.new shadowContext callF innerScope [] true)
        [candNearReal, candFarInt] [false, false] = some [true, false] ∧
    ∃ out,
      discardWorseArgs (DisambiguationContext.new shadowContext callF innerScope [] true)
          [candNearReal, candFarInt] [false, false] = some out ∧
      out.length = [false, false].length ∧
      (∀ i, isActive [candNearReal, candFarInt].length [false, false] i →
        (out.getD i false = true ↔
          isDominated (fun i j => decide (i ≤ j)) [candNearReal, candFarInt].length
            [false, false] i)) ∧
      (∀ i, [false, false].getD i false = true → out.getD i false = true) ∧
      ((∃ i, isActive [candNearReal, candFarInt].length [false, false] i) →
        ∃ i, isActive [candNearReal, candFarInt].length [false, false] i ∧
          out.getD i false = false) :=
  ⟨by decide,
    discardWorseArgs_discards_exactly_dominated
      (DisambiguationContext.new shadowContext callF innerScope [] true)
      [candNearReal, candFarInt] [false, false] (fun i j => decide (i ≤ j)) rfl
      (fun i j k hij hjk => by
        simp only [decide_eq_true_eq] at *
        omega)
      (fun i j hi hj hij => by
        simp only [List.length_cons, List.length_nil] at hi hj
        have hcases : (i = 0 ∧ j = 1) ∨ (i = 1 ∧ j = 0) := by omega
        rcases hcases with ⟨rfl, rfl⟩ | ⟨rfl, rfl⟩
        · show compareSpecificityForArgs
              (DisambiguationContext.new shadowContext callF innerScope [] true)
              candNearReal candFarInt 0 1 false = some 2
          decide
        · show compareSpecificityForArgs
              (DisambiguationContext.new shadowContext callF innerScope [] true)
              candFarInt candNearReal 1 0 false = some 1
          decide)⟩

/-! ### The visibility filter -/

theorem discardWorseVisibility_scan_spec (dctx : DisambiguationContext)
    (candidates : CandidatesVec) (discarded : List Bool) (minDistance maxDistance : Int) :
    (discardWorseVisibility.scan dctx candidates discarded minDistance maxDistance).1.length
      = candidates.length ∧
    (∀ i c, candidates[i]? = some c →
      ∃ c1, (discardWorseVisibility.scan dctx candidates discarded minDistance
          maxDistance).1[i]? = some c1 ∧ c1.fn = c.fn ∧
        (discarded.getD i false = false → c1.visibilityDistance =
          computeVisibilityDistance dctx.context dctx.callInScope c.fn)) ∧
    (∀ i c, candidates[i]? = some c → discarded.getD i false = false →
      0 ≤ computeVisibilityDistance dctx.context dctx.callInScope c.fn →
      (discardWorseVisibility.scan dctx candidates discarded minDistance maxDistance).2.1
          ≤ computeVisibilityDistance dctx.context dctx.callInScope c.fn ∧
        computeVisibilityDistance dctx.context dctx.callInScope c.fn ≤
          (discardWorseVisibility.scan dctx candidates discarded minDistance
            maxDistance).2.2) ∧
    ((discardWorseVisibility.scan dctx candidates discarded minDistance maxDistance).2.1
        ≤ minDistance ∧
      maxDistance ≤
        (discardWorseVisibility.scan dctx candidates discarded minDistance maxDistance).2.2) ∧
    ((discardWorseVisibility.scan dctx candidates discarded minDistance maxDistance).2.1
        = minDistance ∨
      ∃ i c, candidates[i]? = some c ∧ discarded.getD i false = false ∧
        0 ≤ computeVisibilityDistance dctx.context dctx.callInScope c.fn ∧
        computeVisibilityDistance dctx.context dctx.callInScope c.fn =
          (discardWorseVisibility.scan dctx candidates discarded minDistance
            maxDistance).2.1) := by
  induction candidates generalizing discarded minDistance maxDistance with
  | nil =>
    simp [discardWorseVisibility.scan]
  | cons c cs ih =>
    unfold discardWorseVisibility.scan
    by_cases hd : discarded.headD false = true
    · rw [if_pos hd]
      obtain ⟨h1, h2, h3, h4, h5⟩ := ih discarded.tail minDistance maxDistance
      refine ⟨by simp [h1], ?_, ?_, h4, ?_⟩
      · intro i c' hi
        cases i with
        | zero =>
          simp only [List.getElem?_cons_zero, Option.some.injEq] at hi
          subst hi
          refine ⟨c, by simp, rfl, ?_⟩
          intro hf
          cases discarded with
          | nil => simp at hd
          | cons d ds => simp_all
        | succ i =>
          simp only [List.getElem?_cons_succ] at hi
          obtain ⟨c1, g1, g2, g3⟩ := h2 i c' hi
          refine ⟨c1, by simpa using g1, g2, ?_⟩
          intro hf
          apply g3
          cases discarded with
          | nil => simp
          | cons d ds => simpa using hf
      · intro i c' hi hf
        cases i with
        | zero =>
          cases discarded with
          | nil => simp at hd
          | cons d ds => simp_all
        | succ i =>
          simp only [List.getElem?_cons_succ] at hi
          apply h3 i c' hi
          cases discarded with
          | nil => simp
          | cons d ds => simpa using hf
      · rcases h5 with h5 | ⟨i, c', g1, g2, g3, g4⟩
        · exact Or.inl h5
        · refine Or.inr ⟨i + 1, c', by simpa using g1, ?_, g3, g4⟩
          cases discarded with
          | nil => simp
          | cons d ds => simpa using g2
    · rw [if_neg hd]
      dsimp only
      have hd0 : discarded.getD 0 false = false := by
        cases discarded with
        | nil => simp
        | cons d ds => simpa using hd
      generalize hdist : computeVisibilityDistance dctx.context dctx.callInScope c.fn = dist
      obtain ⟨h1, h2, h3, h4, h5⟩ := ih discarded.tail
        (if dist ≥ 0 ∧ dist < minDistance then dist else minDistance)
        (if dist ≥ 0 ∧ dist > maxDistance then dist else maxDistance)
      refine ⟨by simp [h1], ?_, ?_, ?_, ?_⟩
      · intro i c' hi
        cases i with
        | zero =>
          simp only [List.getElem?_cons_zero, Option.some.injEq] at hi
          subst hi
          exact ⟨{ c with visibilityDistance := dist }, by simp, rfl, fun _ => hdist.symm⟩
        | succ i =>
          simp only [List.getElem?_cons_succ] at hi
          obtain ⟨c1, g1, g2, g3⟩ := h2 i c' hi
          refine ⟨c1, by simpa using g1, g2, ?_⟩
          intro hf
          apply g3
          cases discarded with
          | nil => simp
          | cons d ds => simpa using hf
      · intro i c' hi hf hnn
        cases i with
        | zero =>
          simp only [List.getElem?_cons_zero, Option.some.injEq] at hi
          subst hi
          rw [hdist] at hnn ⊢
          constructor
          · refine le_trans h4.1 ?_
            split_ifs <;> omega
          · refine le_trans ?_ h4.2
            split_ifs <;> omega
        | succ i =>
          simp only [List.getElem?_cons_succ] at hi
          apply h3 i c' hi _ hnn
          cases discarded with
          | nil => simp
          | cons d ds => simpa using hf
      · constructor
        · refine le_trans h4.1 ?_
          split_ifs <;> omega
        · refine le_trans ?_ h4.2
          split_ifs <;> omega
      · rcases h5 with h5 | ⟨i, c', g1, g2, g3, g4⟩
        · by_cases hc : dist ≥ 0 ∧ dist < minDistance
          · rw [if_pos hc] at h5 ⊢
            exact Or.inr ⟨0, c, by simp, hd0, by rw [hdist]; exact hc.1,
              by rw [hdist]; exact h5.symm⟩
          · rw [if_neg hc] at h5 ⊢
            exact Or.inl h5
        · refine Or.inr ⟨i + 1, c', by simpa using g1, ?_, g3, g4⟩
          cases discarded with
          | nil => simp
          | cons d ds => simpa using g2

theorem discardWorseVisibility_mark_spec (minDistance : Int) (candidates : CandidatesVec)
    (discarded : List Bool) :
    (discardWorseVisibility.mark minDistance candidates discarded).length = discarded.length ∧
    ∀ (i : Nat) (c : DisambiguationCandidate) (b : Bool), candidates[i]? = some c →
      discarded[i]? = some b →
      (discardWorseVisibility.mark minDistance candidates discarded)[i]? =
        some (b || decide (c.visibilityDistance > 0 ∧ c.visibilityDistance > minDistance)) := by
  induction candidates generalizing discarded with
  | nil => simp [discardWorseVisibility.mark]
  | cons c cs ih =>
    cases discarded with
    | nil => simp [discardWorseVisibility.mark]
    | cons d ds =>
      unfold discardWorseVisibility.mark
      refine ⟨by simp [(ih ds).1], ?_⟩
      intro i c' b hc hb
      cases i with
      | zero =>
        simp only [List.getElem?_cons_zero, Option.some.injEq] at hc hb ⊢
        subst hc hb
        cases d <;> simp
      | succ i =>
        simp only [List.getElem?_cons_succ] at hc hb ⊢
        exact (ih ds).2 i c' b hc hb

theorem getD_eq_of_getElem_some (l : List Bool) (i : Nat) (b : Bool) (h : l[i]? = some b) :
    l.getD i false = b := by
  simp [List.getD_eq_getElem?_getD, h]

/-- C8: `discardWorseVisibility` keeps the length of the mask, and a
previously active candidate is discarded iff its visibility distance is
non-negative and strictly greater than the non-negative distance of some
previously active candidate, that is, than the minimum `m` of those
distances.  In particular a candidate whose distance is -1 (a method, or a function that
is not found) is not discarded, and neither is a candidate whose distance is
not above that of any active candidate with a non-negative distance. -/
theorem discardWorseVisibility_discards_farther (dctx : DisambiguationContext)
    (candidates : CandidatesVec) (discarded : List Bool)
    (hlen : discarded.length = candidates.length) :
    (discardWorseVisibility dctx candidates discarded).2.length = discarded.length ∧
    ∀ (i : Nat) (c : DisambiguationCandidate), candidates[i]? = some c →
      discarded[i]? = some false →
      ((discardWorseVisibility dctx candidates discarded).2[i]? = some true ↔
        0 ≤ computeVisibilityDistance dctx.context dctx.callInScope c.fn ∧
        ∃ (j : Nat) (cj : DisambiguationCandidate), candidates[j]? = some cj ∧
          discarded[j]? = some false ∧
          0 ≤ computeVisibilityDistance dctx.context dctx.callInScope cj.fn ∧
          computeVisibilityDistance dctx.context dctx.callInScope cj.fn <
            computeVisibilityDistance dctx.context dctx.callInScope c.fn) ∧
      (∀ m : Int,
        (∃ (j : Nat) (cj : DisambiguationCandidate), candidates[j]? = some cj ∧
          discarded[j]? = some false ∧
          computeVisibilityDistance dctx.context dctx.callInScope cj.fn = m ∧ 0 ≤ m) →
        (∀ (j : Nat) (cj : DisambiguationCandidate), candidates[j]? = some cj →
          discarded[j]? = some false →
          0 ≤ computeVisibilityDistance dctx.context dctx.callInScope cj.fn →
          m ≤ computeVisibilityDistance dctx.context dctx.callInScope cj.fn) →
        ((discardWorseVisibility dctx candidates discarded).2[i]? = some true ↔
          0 ≤ computeVisibilityDistance dctx.context dctx.callInScope c.fn ∧
            m < computeVisibilityDistance dctx.context dctx.callInScope c.fn)) ∧
      ((discardWorseVisibility dctx candidates discarded).2[i]? = some true ∨
        (discardWorseVisibility dctx candidates discarded).2[i]? = some false) ∧
      (computeVisibilityDistance dctx.context dctx.callInScope c.fn = -1 →
        (discardWorseVisibility dctx candidates discarded).2[i]? = some false) ∧
      (c.fn.untyped.isMethod = true →
        (discardWorseVisibility dctx candidates discarded).2[i]? = some false) ∧
      ((∀ (j : Nat) (cj : DisambiguationCandidate), candidates[j]? = some cj →
          discarded[j]? = some false →
          0 ≤ computeVisibilityDistance dctx.context dctx.callInScope cj.fn →
          computeVisibilityDistance dctx.context dctx.callInScope c.fn ≤
            computeVisibilityDistance dctx.context dctx.callInScope cj.fn) →
        (discardWorseVisibility dctx candidates discarded).2[i]? = some false) := by
  obtain ⟨s1, s2, s3, s4, s5⟩ := discardWorseVisibility_scan_spec dctx candidates discarded
    INT_MAX INT_MIN
  have hlenOut : (discardWorseVisibility dctx candidates discarded).2.length
      = discarded.length := by
    unfold discardWorseVisibility
    dsimp only
    split_ifs
    · exact (discardWorseVisibility_mark_spec _ _ _).1
    · rfl
  have hmain : ∀ (i : Nat) (c : DisambiguationCandidate), candidates[i]? = some c →
      discarded[i]? = some false →
      ((discardWorseVisibility dctx candidates discarded).2[i]? = some true ↔
        0 ≤ computeVisibilityDistance dctx.context dctx.callInScope c.fn ∧
        ∃ (j : Nat) (cj : DisambiguationCandidate), candidates[j]? = some cj ∧
          discarded[j]? = some false ∧
          0 ≤ computeVisibilityDistance dctx.context dctx.callInScope cj.fn ∧
          computeVisibilityDistance dctx.context dctx.callInScope cj.fn <
            computeVisibilityDistance dctx.context dctx.callInScope c.fn) ∧
      ((discardWorseVisibility dctx candidates discarded).2[i]? = some true ∨
        (discardWorseVisibility dctx candidates discarded).2[i]? = some false) := by
    intro i c hc hd
    have hdi : discarded.getD i false = false := getD_eq_of_getElem_some _ _ _ hd
    obtain ⟨c1, hc1, _, hc1d⟩ := s2 i c hc
    have hc1d := hc1d hdi
    have hrange := computeVisibilityDistance_range dctx.context dctx.callInScope c.fn
    unfold discardWorseVisibility
    dsimp only
    by_cases hlt : (discardWorseVisibility.scan dctx candidates discarded INT_MAX INT_MIN).2.1
        < (discardWorseVisibility.scan dctx candidates discarded INT_MAX INT_MIN).2.2
    · rw [if_pos hlt]
      dsimp only
      rw [(discardWorseVisibility_mark_spec _ _ _).2 i c1 false hc1 hd, hc1d]
      refine ⟨?_, by simp only [Option.some.injEq]; exact Bool.eq_false_or_eq_true _⟩
      simp only [Bool.false_or, Option.some.injEq, decide_eq_true_eq]
      constructor
      · rintro ⟨hpos, hgt⟩
        refine ⟨by omega, ?_⟩
        rcases s5 with h5 | ⟨j, cj, g1, g2, g3, g4⟩
        · rw [h5] at hgt
          omega
        · refine ⟨j, cj, g1, ?_, g3, by omega⟩
          have hjlt : j < discarded.length := by
            rw [hlen]
            exact (List.getElem?_eq_some_iff.mp g1).1
          rw [List.getElem?_eq_getElem hjlt]
          rw [List.getD_eq_getElem _ _ hjlt] at g2
          rw [g2]
      · rintro ⟨hnn, j, cj, g1, g2, g3, g4⟩
        have := (s3 j cj g1 (getD_eq_of_getElem_some _ _ _ g2) g3).1
        omega
    · rw [if_neg hlt]
      dsimp only
      rw [hd]
      refine ⟨?_, Or.inr rfl⟩
      simp only [Option.some.injEq, Bool.false_eq_true, false_iff, not_and, not_exists]
      intro hnn j cj g1 g2 g3 g4
      have h1 := (s3 j cj g1 (getD_eq_of_getElem_some _ _ _ g2) g3).1
      have h2 := (s3 i c hc hdi hnn).2
      omega
  refine ⟨hlenOut, ?_⟩
  intro i c hc hd
  obtain ⟨hiff, hdef⟩ := hmain i c hc hd
  have hfalse : ¬ (0 ≤ computeVisibilityDistance dctx.context dctx.callInScope c.fn ∧
        ∃ (j : Nat) (cj : DisambiguationCandidate), candidates[j]? = some cj ∧
          discarded[j]? = some false ∧
          0 ≤ computeVisibilityDistance dctx.context dctx.callInScope cj.fn ∧
          computeVisibilityDistance dctx.context dctx.callInScope cj.fn <
            computeVisibilityDistance dctx.context dctx.callInScope c.fn) →
      (discardWorseVisibility dctx candidates discarded).2[i]? = some false := by
    intro hn
    rcases hdef with h | h
    · exact absurd (hiff.mp h) hn
    · exact h
  refine ⟨hiff, ?_, hdef, ?_, ?_, ?_⟩
  · rintro m ⟨jm, cm, m1, m2, m3, m4⟩ hmin
    rw [hiff]
    constructor
    · rintro ⟨h0, j, cj, g1, g2, g3, g4⟩
      have := hmin j cj g1 g2 g3
      exact ⟨h0, by omega⟩
    · rintro ⟨h0, hlt⟩
      exact ⟨h0, jm, cm, m1, m2, by omega, by omega⟩
  · intro h
    apply hfalse
    rintro ⟨h0, _⟩
    omega
  · intro hm
    apply hfalse
    rintro ⟨h0, _⟩
    simp [computeVisibilityDistance, hm] at h0
  · intro hmin
    apply hfalse
    rintro ⟨_, j, cj, g1, g2, g3, g4⟩
    have := hmin j cj g1 g2 g3
    omega

open Sample in
/-- For the call `f(myInt)`, `f(x: real)` is declared in the call scope
(distance 0) and `f(x: int)` in the enclosing scope (distance 2): the
visibility filter discards candidate 1. -/
theorem discardWorseVisibility_discards_farther_witness :
    [false, false].length = [candNearReal, candFarInt].length ∧
    (discardWorseVisibility (DisambiguationContext.new shadowContext callF innerScope [] true)
      [candNearReal, candFarInt] [false, false]).2[1]? = some true :=
  ⟨rfl,
    ((discardWorseVisibility_discards_farther
      (DisambiguationContext.new shadowContext callF innerScope [] true)
      [candNearReal, candFarInt] [false, false] rfl).2 1 candFarInt rfl rfl).1.mpr
      ⟨by decide, 0, candNearReal, rfl, rfl, by decide, by decide⟩⟩

/-! ### The visibility distance -/

theorem computeVisibilityDistanceInternal_not_found (context : Context) (scope : Scope)
    (fn : TypedFnSignature) (distance : Int)
    (h : ∀ k s, scope.ancestor k = some s →
      foundHere context s fn = false ∧ foundShadowHere context s fn = false) :
    computeVisibilityDistanceInternal context scope fn distance = -1 := by
  induction scope generalizing distance with
  | root i b =>
    have h0 := h 0 _ rfl
    unfold foundHere foundShadowHere at h0
    unfold computeVisibilityDistanceInternal
    simp [h0.1, h0.2]
  | child i b p ih =>
    have h0 := h 0 _ rfl
    unfold foundHere foundShadowHere at h0
    unfold computeVisibilityDistanceInternal
    simp only [h0.1, h0.2, Bool.false_eq_true, if_false]
    exact ih _ (fun k s hs => h (k + 1) s hs)

theorem computeVisibilityDistanceInternal_found (context : Context) (fn : TypedFnSignature)
    (k : Nat) (scope s : Scope) (distance : Int) (hd0 : 0 ≤ distance)
    (hd : distance + 2 * k + 1 ≤ INT_MAX) (hs : scope.ancestor k = some s)
    (hbelow : ∀ k1 s1, k1 < k → scope.ancestor k1 = some s1 →
      foundHere context s1 fn = false ∧ foundShadowHere context s1 fn = false) :
    (foundHere context s fn = true →
      computeVisibilityDistanceInternal context scope fn distance = distance + 2 * k) ∧
    (foundHere context s fn = false → foundShadowHere context s fn = true →
      computeVisibilityDistanceInternal context scope fn distance = distance + 2 * k + 1) := by
  induction k generalizing scope distance with
  | zero =>
    have hss : scope = s := by
      cases scope <;> simpa [Scope.ancestor] using hs
    subst hss
    have hw : wrapInt (distance + 1) = distance + 1 :=
      wrapInt_of_range _ (by unfold INT_MIN; omega) (by simpa using hd)
    constructor
    · intro hf
      unfold foundHere at hf
      cases scope <;> unfold computeVisibilityDistanceInternal <;> simp [hf]
    · intro hf hsh
      unfold foundHere at hf
      unfold foundShadowHere at hsh
      cases scope <;> unfold computeVisibilityDistanceInternal <;> simp [hf, hsh, hw]
  | succ k ih =>
    have h0 := hbelow 0 scope (by omega) (by cases scope <;> rfl)
    unfold foundHere foundShadowHere at h0
    cases scope with
    | root i b => simp [Scope.ancestor] at hs
    | child i b p =>
      have hw : wrapInt (distance + 2) = distance + 2 :=
        wrapInt_of_range _ (by unfold INT_MIN; omega) (by unfold INT_MAX at *; omega)
      have := ih p (distance + 2) (by omega)
        (by unfold INT_MAX at *; push_cast at hd ⊢; omega) hs
        (fun k1 s1 hk1 hs1 => hbelow (k1 + 1) s1 (by omega) hs1)
      unfold computeVisibilityDistanceInternal
      simp only [h0.1, h0.2, Bool.false_eq_true, if_false, hw]
      push_cast
      constructor
      · intro hf
        rw [this.1 hf]
        ring
      · intro hf hsh
        rw [this.2 hf hsh]
        ring

/-- C9: `computeVisibilityDistance` returns -1 for a method and for a function
found in no scope on the parent chain of the call scope; otherwise, with `k`
the least number of `parentScope` hops to a scope where the function is found
(`k < 2^30`, so that the C `int` does not overflow), it returns `2k` if the
function is found there among the direct declarations or non-shadow
use/imports and `2k+1` if it is found there only through a shadow-scope
use/import.  The function is total: the recursion is structural on the parent
chain. -/
theorem computeVisibilityDistance_spec (context : Context) (scope : Scope)
    (fn : TypedFnSignature) :
    (fn.untyped.isMethod = true → computeVisibilityDistance context scope fn = -1) ∧
    (fn.untyped.isMethod = false →
      (∀ k s, scope.ancestor k = some s →
        foundHere context s fn = false ∧ foundShadowHere context s fn = false) →
      computeVisibilityDistance context scope fn = -1) ∧
    (∀ (k : Nat) (s : Scope), fn.untyped.isMethod = false → k < 2 ^ 30 →
      scope.ancestor k = some s →
      (∀ k1 s1, k1 < k → scope.ancestor k1 = some s1 →
        foundHere context s1 fn = false ∧ foundShadowHere context s1 fn = false) →
      (foundHere context s fn = true →
        computeVisibilityDistance context scope fn = 2 * k) ∧
      (foundHere context s fn = false → foundShadowHere context s fn = true →
        computeVisibilityDistance context scope fn = 2 * k + 1)) := by
  refine ⟨?_, ?_, ?_⟩
  · intro hm
    simp [computeVisibilityDistance, hm]
  · intro hm h
    simp only [computeVisibilityDistance, hm, Bool.false_eq_true, if_false]
    exact computeVisibilityDistanceInternal_not_found context scope fn 0 h
  · intro k s hm hk hs hbelow
    simp only [computeVisibilityDistance, hm, Bool.false_eq_true, if_false]
    have := computeVisibilityDistanceInternal_found context fn k scope s 0 le_rfl
      (by unfold INT_MAX; omega) hs hbelow
    simpa using this

open Sample in
/-- In the sample scopes `f(x: int)` is not found in the call scope and is
found among the declarations of its parent: one hop, distance 2. -/
theorem computeVisibilityDistance_spec_witness :
    computeVisibilityDistance shadowContext innerScope fnFarInt = 2 * (1 : Nat) :=
  ((computeVisibilityDistance_spec shadowContext innerScope fnFarInt).2.2 1
    (Scope.root 0 false) rfl (by norm_num) rfl
    (fun k1 s1 hk1 hs1 => by
      have hk0 : k1 = 0 := by omega
      subst hk0
      have hs : s1 = innerScope := by
        simpa [Scope.ancestor, innerScope] using hs1.symm
      subst hs
      decide)).1 (by decide)

/-! ### The promotion filter -/

open Sample in
/-- C10 (evaluation at the failing input): for the call `h(A)` with the
candidates `h(out x: [1..3] int)`, which requires no promotion, and
`h(x: int)`, which requires promotion, `discardWorsePromoting` leaves the mask
unchanged (its body is empty) and the whole of `disambiguateDiscarding`
discards neither candidate: the promoting candidate stays active next to the
non-promoting one. -/
theorem promoting_candidate_survives :
    requiresPromotion promotionDctx candOutArray = false ∧
    requiresPromotion promotionDctx candPromotedInt = true ∧
    discardWorsePromoting promotionDctx [candOutArray, candPromotedInt] [false, false]
      = [false, false] ∧
    (disambiguateDiscarding promotionDctx [candOutArray, candPromotedInt] true
      [false, false]).map Prod.snd = some [false, false] := by
  refine ⟨?_, ?_, ?_, ?_⟩ <;> decide

/-! ### The numeric coercion helpers -/

theorem classifyNumericWidth_nonneg (qt : QualifiedType) (t : Ty) (h : qt.type = some t)
    (hn : isSizedNumeric t) : ∃ w, classifyNumericWidth qt = some w ∧ 0 ≤ w := by
  obtain ⟨h1, h2, h3⟩ := hn
  obtain ⟨tag, width, dw, uid⟩ := t
  simp only at h3
  cases tag <;>
    simp [classifyNumericType, Ty.isBoolType, Ty.isEnumType, Ty.isIntType, Ty.isUintType,
      Ty.isRealType, Ty.isImagType, Ty.isComplexType] at h1 h2 <;>
    cases dw <;>
    simp [classifyNumericWidth, h, isDefaultInt, isDefaultUint, isDefaultReal, isDefaultImag,
      isDefaultComplex, bitwidth, Ty.isPrimitiveType, Ty.isBoolType, Ty.isEnumType,
      Ty.isIntType, Ty.isUintType, Ty.isRealType, Ty.isImagType, Ty.isComplexType, h3]
  exact Int.tdiv_nonneg h3 (by decide)

theorem classifyNumericWidth_enum (qt : QualifiedType) (t : Ty) (h : qt.type = some t)
    (hn : classifyNumericType t = numeric_type_t.NUMERIC_TYPE_ENUM) :
    classifyNumericWidth qt = some (-1) := by
  obtain ⟨tag, width, dw, uid⟩ := t
  cases tag <;>
    simp [classifyNumericType, Ty.isBoolType, Ty.isEnumType, Ty.isIntType, Ty.isUintType,
      Ty.isRealType, Ty.isImagType, Ty.isComplexType] at hn
  simp [classifyNumericWidth, h, isDefaultInt, isDefaultUint, isDefaultReal, isDefaultImag,
    isDefaultComplex, bitwidth, Ty.isPrimitiveType, Ty.isBoolType, Ty.isEnumType,
    Ty.isIntType, Ty.isUintType, Ty.isRealType, Ty.isImagType, Ty.isComplexType]

theorem classifyNumericWidth_isSome (qt : QualifiedType) (t : Ty) (h : qt.type = some t) :
    ∃ w, classifyNumericWidth qt = some w := by
  simp only [classifyNumericWidth, h]
  split_ifs <;> exact ⟨_, rfl⟩

/-- The verdict of `prefersNumericCoercion` once the three widths are known
and none is negative. -/
theorem prefersNumericCoercion_of_widths (f1Qt f2Qt actualQt : QualifiedType)
    (actualType f1Type f2Type : Ty) (acWidth f1Width f2Width : Int)
    (ha : actualQt.type = some actualType) (h1 : f1Qt.type = some f1Type)
    (h2 : f2Qt.type = some f2Type)
    (hwa : classifyNumericWidth actualQt = some acWidth)
    (hw1 : classifyNumericWidth f1Qt = some f1Width)
    (hw2 : classifyNumericWidth f2Qt = some f2Width)
    (hna : 0 ≤ acWidth) (hn1 : 0 ≤ f1Width) (hn2 : 0 ≤ f2Width) :
    prefersNumericCoercion f1Qt f2Qt actualQt =
      some (if classifyNumericType actualType = classifyNumericType f1Type ∧
              classifyNumericType actualType ≠ classifyNumericType f2Type then 1
            else if classifyNumericType actualType ≠ classifyNumericType f1Type ∧
              classifyNumericType actualType = classifyNumericType f2Type then 2
            else if acWidth = f1Width ∧ acWidth ≠ f2Width then 1
            else if acWidth ≠ f1Width ∧ acWidth = f2Width then 2
            else 0) := by
  have hneg : ¬ (acWidth < 0 ∨ f1Width < 0 ∨ f2Width < 0) := by omega
  simp only [prefersNumericCoercion, hwa, hw1, hw2, ha, h1, h2, if_neg hneg]
  split_ifs <;> rfl

/-- C18 (amended): `prefersNumericCoercion` implements category-then-width
preference for every actual and pair of formals drawn from the numeric
categories bool, int/uint, real, imag and complex: the three normalised widths
are defined and not negative; if exactly one formal has the numeric category of
the actual the result is the index of that formal; failing that, if exactly
one formal has the normalised width of the actual the result is the index of
that formal; otherwise the result is 0.  When the actual or a formal is of the
enum category, the result is 0 whatever the categories and widths are. -/
theorem prefersNumericCoercion_category_then_width (f1Qt f2Qt actualQt : QualifiedType)
    (actualType f1Type f2Type : Ty)
    (ha : actualQt.type = some actualType) (h1 : f1Qt.type = some f1Type)
    (h2 : f2Qt.type = some f2Type) :
    (isSizedNumeric actualType → isSizedNumeric f1Type → isSizedNumeric f2Type →
      ∃ acWidth f1Width f2Width,
        classifyNumericWidth actualQt = some acWidth ∧
        classifyNumericWidth f1Qt = some f1Width ∧
        classifyNumericWidth f2Qt = some f2Width ∧
        0 ≤ acWidth ∧ 0 ≤ f1Width ∧ 0 ≤ f2Width ∧
        (classifyNumericType actualType = classifyNumericType f1Type →
          classifyNumericType actualType ≠ classifyNumericType f2Type →
          prefersNumericCoercion f1Qt f2Qt actualQt = some 1) ∧
        (classifyNumericType actualType ≠ classifyNumericType f1Type →
          classifyNumericType actualType = classifyNumericType f2Type →
          prefersNumericCoercion f1Qt f2Qt actualQt = some 2) ∧
        ((classifyNumericType actualType = classifyNumericType f1Type ↔
            classifyNumericType actualType = classifyNumericType f2Type) →
          (acWidth = f1Width → acWidth ≠ f2Width →
            prefersNumericCoercion f1Qt f2Qt actualQt = some 1) ∧
          (acWidth ≠ f1Width → acWidth = f2Width →
            prefersNumericCoercion f1Qt f2Qt actualQt = some 2) ∧
          ((acWidth = f1Width ↔ acWidth = f2Width) →
            prefersNumericCoercion f1Qt f2Qt actualQt = some 0))) ∧
    (classifyNumericType actualType = numeric_type_t.NUMERIC_TYPE_ENUM ∨
        classifyNumericType f1Type = numeric_type_t.NUMERIC_TYPE_ENUM ∨
        classifyNumericType f2Type = numeric_type_t.NUMERIC_TYPE_ENUM →
      prefersNumericCoercion f1Qt f2Qt actualQt = some 0) := by
  constructor
  · intro hna hn1 hn2
    obtain ⟨acWidth, hwa, hpa⟩ := classifyNumericWidth_nonneg actualQt actualType ha hna
    obtain ⟨f1Width, hw1, hp1⟩ := classifyNumericWidth_nonneg f1Qt f1Type h1 hn1
    obtain ⟨f2Width, hw2, hp2⟩ := classifyNumericWidth_nonneg f2Qt f2Type h2 hn2
    have key := prefersNumericCoercion_of_widths f1Qt f2Qt actualQt actualType f1Type f2Type
      acWidth f1Width f2Width ha h1 h2 hwa hw1 hw2 hpa hp1 hp2
    refine ⟨acWidth, f1Width, f2Width, hwa, hw1, hw2, hpa, hp1, hp2, ?_, ?_, ?_⟩
    · intro e1 e2
      rw [key, if_pos ⟨e1, e2⟩]
    · intro e1 e2
      rw [key, if_neg (fun h => e1 h.1), if_pos ⟨e1, e2⟩]
    · intro hk
      have k1 : ¬ (classifyNumericType actualType = classifyNumericType f1Type ∧
          classifyNumericType actualType ≠ classifyNumericType f2Type) :=
        fun h => h.2 (hk.1 h.1)
      have k2 : ¬ (classifyNumericType actualType ≠ classifyNumericType f1Type ∧
          classifyNumericType actualType = classifyNumericType f2Type) :=
        fun h => h.1 (hk.2 h.2)
      rw [key, if_neg k1, if_neg k2]
      refine ⟨?_, ?_, ?_⟩
      · intro e1 e2
        rw [if_pos ⟨e1, e2⟩]
      · intro e1 e2
        rw [if_neg (fun h => e1 h.1), if_pos ⟨e1, e2⟩]
      · intro hw
        rw [if_neg (fun h => h.2 (hw.1 h.1)), if_neg (fun h => h.1 (hw.2 h.2))]
  · intro henum
    obtain ⟨acWidth, hwa⟩ := classifyNumericWidth_isSome actualQt actualType ha
    obtain ⟨f1Width, hw1⟩ := classifyNumericWidth_isSome f1Qt f1Type h1
    obtain ⟨f2Width, hw2⟩ := classifyNumericWidth_isSome f2Qt f2Type h2
    have hneg : acWidth < 0 ∨ f1Width < 0 ∨ f2Width < 0 := by
      rcases henum with he | he | he
      · have := classifyNumericWidth_enum actualQt actualType ha he
        rw [hwa] at this
        left
        have := Option.some.inj this
        omega
      · have := classifyNumericWidth_enum f1Qt f1Type h1 he
        rw [hw1] at this
        right; left
        have := Option.some.inj this
        omega
      · have := classifyNumericWidth_enum f2Qt f2Type h2 he
        rw [hw2] at this
        right; right
        have := Option.some.inj this
        omega
    simp only [prefersNumericCoercion, hwa, hw1, hw2, ha, h1, h2, if_pos hneg]

open Sample in
/-- C18 at a concrete input: for a `bool` actual, a first formal of type
`bool` and a second formal of type `int`, only the first formal has the
numeric category of the actual, and the result is 1. -/
theorem prefersNumericCoercion_category_then_width_witness :
    prefersNumericCoercion
        { kind := Kind.CONST_IN, type := some boolTy, param := none }
        { kind := Kind.CONST_IN, type := some intTy, param := none }
        { kind := Kind.VAR, type := some boolTy, param := none } = some 1 := by
  have h := (prefersNumericCoercion_category_then_width
    { kind := Kind.CONST_IN, type := some boolTy, param := none }
    { kind := Kind.CONST_IN, type := some intTy, param := none }
    { kind := Kind.VAR, type := some boolTy, param := none } boolTy boolTy intTy rfl rfl rfl).1
    (by decide) (by decide) (by decide)
  obtain ⟨_, _, _, _, _, _, _, _, _, h1, _⟩ := h
  exact h1 (by decide) (by decide)

open Sample in
/-- C18 as stated fails for the enum category: for an actual of the enum type
`color`, a first formal of the same enum type and a second formal of type
`int`, exactly the first formal has the numeric category of the actual, and
`prefersNumericCoercion` returns 0, not 1. -/
theorem prefersNumericCoercion_enum_no_preference :
    classifyNumericType colorTy = classifyNumericType colorTy ∧
    classifyNumericType colorTy ≠ classifyNumericType intTy ∧
    prefersNumericCoercion
        { kind := Kind.CONST_IN, type := some colorTy, param := none }
        { kind := Kind.CONST_IN, type := some intTy, param := none }
        { kind := Kind.VAR, type := some colorTy, param := none } = some 0 := by
  decide

open Sample in
/-- C19: for every actual of type `real(w)` or `imag(w)`, `w` one of 32 and
64, and two formals `complex(2w)` and `complex(w1)`, `w1` one of 64 and 128
and different from `2w`, whatever the kinds and param values of the three
qualified types are: `prefersNumericCoercion` returns the index of
`complex(2w)` in either order of the formals, and `prefersConvToOtherNumeric`
is true for `complex(2w)` over `complex(w1)` and false for `complex(w1)` over
`complex(2w)`. -/
theorem numeric_helpers_prefer_double_width_complex (w w1 : Int) (actualTy : Ty)
    (ka k1 k2 : Kind) (pa p1 p2 : Option Int)
    (hw : w = 32 ∨ w = 64) (hw1 : w1 = 64 ∨ w1 = 128) (hne : w1 ≠ 2 * w)
    (hty : actualTy = realOf w ∨ actualTy = imagOf w) :
    prefersNumericCoercion
        { kind := k1, type := some (complexOf (2 * w)), param := p1 }
        { kind := k2, type := some (complexOf w1), param := p2 }
        { kind := ka, type := some actualTy, param := pa } = some 1 ∧
    prefersNumericCoercion
        { kind := k2, type := some (complexOf w1), param := p2 }
        { kind := k1, type := some (complexOf (2 * w)), param := p1 }
        { kind := ka, type := some actualTy, param := pa } = some 2 ∧
    prefersConvToOtherNumeric
        { kind := ka, type := some actualTy, param := pa }
        { kind := k1, type := some (complexOf (2 * w)), param := p1 }
        { kind := k2, type := some (complexOf w1), param := p2 } = some true ∧
    prefersConvToOtherNumeric
        { kind := ka, type := some actualTy, param := pa }
        { kind := k2, type := some (complexOf w1), param := p2 }
        { kind := k1, type := some (complexOf (2 * w)), param := p1 } = some false := by
  rcases hw with rfl | rfl <;> rcases hw1 with rfl | rfl <;>
    first
    | exact absurd rfl hne
    | (rcases hty with rfl | rfl <;> exact ⟨rfl, rfl, rfl, rfl⟩)

open Sample in
/-- C19 at a concrete input: a non-param `real(32)` actual with the formals
`complex(64)` and `complex(128)`. -/
theorem numeric_helpers_prefer_double_width_complex_witness :
    prefersNumericCoercion
        { kind := Kind.CONST_IN, type := some (complexOf (2 * 32)), param := none }
        { kind := Kind.CONST_IN, type := some (complexOf 128), param := none }
        { kind := Kind.VAR, type := some (realOf 32), param := none } = some 1 :=
  (numeric_helpers_prefer_double_width_complex 32 128 (realOf 32) Kind.VAR Kind.CONST_IN
    Kind.CONST_IN none none none (Or.inl rfl) (Or.inr rfl) (by decide) (Or.inl rfl)).1

/-! ### Operator functions against methods -/

open Sample in
/-- C20 (evaluation at the failing input): `testOpArgMapping` never returns 1
or 2: its third assertion reads `actualType()` of both formal/actual entries,
one of which is null whenever the function is reached, so the comparison
aborts for every input.  For the call `x + y` with the operator function
`operator +(rhs: R)` (no formal for the receiver actual 0) and the method
`proc R.+(rhs: R)`, the two assertions on the operator kinds hold at actual 0,
and `compareSpecificity` (argument filter) aborts in either order of the two
candidates instead of recording a non-param preference for the method.  The
last part of the claim holds: when both candidates are operator functions, an
index where a formal is missing is skipped and the state is left as it is. -/
theorem testOpArgMapping_aborts_on_missing_formal :
    (∀ (dctx : DisambiguationContext) (candidate1 candidate2 : DisambiguationCandidate)
        (actualIdx : Nat) (ds : DisambiguationState),
      testOpArgMapping dctx candidate1 candidate2 actualIdx ds = none) ∧
    candOperatorPlus.formalActualMap.byActualIdx 0 = none ∧
    candMethodPlus.formalActualMap.byActualIdx 0 = some (recordFormal "this" 0) ∧
    candOperatorPlus.fn.untyped.kind = FunctionKind.OPERATOR ∧
    candMethodPlus.fn.untyped.kind ≠ FunctionKind.OPERATOR ∧
    testOpArgMapping operatorDctx candOperatorPlus candMethodPlus 0 {} = none ∧
    testOpArgMapping operatorDctx candMethodPlus candOperatorPlus 0 {} = none ∧
    compareSpecificityForArgs operatorDctx candOperatorPlus candMethodPlus 0 1 false = none ∧
    compareSpecificityForArgs operatorDctx candMethodPlus candOperatorPlus 1 0 false = none ∧
    (∀ (dctx : DisambiguationContext) (candidate1 candidate2 : DisambiguationCandidate)
        (st : DisambiguationState × Nat) (k : Nat),
      candidate1.fn.untyped.kind = FunctionKind.OPERATOR →
      candidate2.fn.untyped.kind = FunctionKind.OPERATOR →
      (candidate1.formalActualMap.byActualIdx k = none ∨
        candidate2.formalActualMap.byActualIdx k = none) →
      compareSpecificityForArgs.step dctx candidate1 candidate2 st k = some st) := by
  refine ⟨?_, by decide, by decide, by decide, by decide, by decide, by decide, by decide,
    by decide, ?_⟩
  · intro dctx candidate1 candidate2 actualIdx ds
    unfold testOpArgMapping
    simp only
    split_ifs
    · rfl
    · rfl
    · split <;> simp
  · intro dctx candidate1 candidate2 st k h1 h2 hnull
    unfold compareSpecificityForArgs.step
    rcases hnull with h | h
    · simp [h, h1, h2]
    · rw [h]
      cases candidate1.formalActualMap.byActualIdx k <;> simp [h1, h2]

/-! ### Small candidate lists -/

theorem findMostSpecificIgnoringReturnWith_pair_first
    (cmp : DisambiguationCandidate → DisambiguationCandidate → Option Int)
    (a b : DisambiguationCandidate) (amb : CandidatesVec) (x : Int)
    (hab : cmp a b = some x) (hx : x < 0) :
    findMostSpecificIgnoringReturnWith cmp [a, b] amb = some (some a, amb) := by
  simp [findMostSpecificIgnoringReturnWith, findMostSpecificIgnoringReturn.outerLoop,
    findMostSpecificIgnoringReturn.innerLoop, List.range_succ, hab, hx]

theorem findMostSpecificIgnoringReturnWith_pair_second
    (cmp : DisambiguationCandidate → DisambiguationCandidate → Option Int)
    (a b : DisambiguationCandidate) (amb : CandidatesVec) (x y : Int)
    (hab : cmp a b = some x) (hx : 0 < x) (hba : cmp b a = some y) (hy : y < 0) :
    findMostSpecificIgnoringReturnWith cmp [a, b] amb = some (some b, amb) := by
  have hx2 : ¬ x < 0 := by omega
  simp [findMostSpecificIgnoringReturnWith, findMostSpecificIgnoringReturn.outerLoop,
    findMostSpecificIgnoringReturn.innerLoop, List.range_succ, hab, hx, hx2, hba, hy]

theorem findMostSpecificIgnoringReturnWith_pair_tie
    (cmp : DisambiguationCandidate → DisambiguationCandidate → Option Int)
    (a b : DisambiguationCandidate) (amb : CandidatesVec)
    (hab : cmp a b = some 0) (hba : cmp b a = some 0) :
    findMostSpecificIgnoringReturnWith cmp [a, b] amb = some (none, amb ++ [a, b]) := by
  simp [findMostSpecificIgnoringReturnWith, findMostSpecificIgnoringReturn.outerLoop,
    findMostSpecificIgnoringReturn.innerLoop, List.range_succ, hab, hba]

theorem findMostSpecificIgnoringReturnWith_triple_tie
    (cmp : DisambiguationCandidate → DisambiguationCandidate → Option Int)
    (a b c : DisambiguationCandidate) (amb : CandidatesVec)
    (hab : cmp a b = some 0) (hba : cmp b a = some 0) (hca : cmp c a = some 0) :
    findMostSpecificIgnoringReturnWith cmp [a, b, c] amb = some (none, amb ++ [a, b, c]) := by
  simp [findMostSpecificIgnoringReturnWith, findMostSpecificIgnoringReturn.outerLoop,
    findMostSpecificIgnoringReturn.innerLoop, List.range_succ, hab, hba, hca]

/-- C13: for every list of three candidates that compare as equally specific
(with where clauses ignored, as in the first pass; of the six comparisons the
search evaluates candidate 0 with 1, 1 with 0 and 2 with 0, and only these
ties are assumed) and whose return intents fall one each in the value
(default, `out`, `const`), const-ref and ref categories, in any order,
`computeMostSpecificCandidates` returns a result that is not ambiguous, that
is not an "only" result, and whose slot of each candidate's category holds
that candidate. -/
theorem computeMostSpecificCandidates_buckets (context : Context)
    (dctx : DisambiguationContext) (c0 c1 c2 : DisambiguationCandidate)
    (h01 : compareSpecificity dctx c0 c1 true = some 0)
    (h10 : compareSpecificity dctx c1 c0 true = some 0)
    (h20 : compareSpecificity dctx c2 c0 true = some 0)
    (hother0 : candidateCategory dctx c0 ≠ IntentCategory.OTHER)
    (hother1 : candidateCategory dctx c1 ≠ IntentCategory.OTHER)
    (hother2 : candidateCategory dctx c2 ≠ IntentCategory.OTHER)
    (hne01 : candidateCategory dctx c0 ≠ candidateCategory dctx c1)
    (hne02 : candidateCategory dctx c0 ≠ candidateCategory dctx c2)
    (hne12 : candidateCategory dctx c1 ≠ candidateCategory dctx c2) :
    ∃ res, computeMostSpecificCandidates context dctx [c0, c1, c2] = some res ∧
      res.emptyDueToAmbiguity = false ∧ res.only = none ∧
      res.slot (candidateCategory dctx c0) = some (c0.toMostSpecificCandidate context) ∧
      res.slot (candidateCategory dctx c1) = some (c1.toMostSpecificCandidate context) ∧
      res.slot (candidateCategory dctx c2) = some (c2.toMostSpecificCandidate context) := by
  have hfirst : findMostSpecificIgnoringReturn dctx [c0, c1, c2] true []
      = some (none, [c0, c1, c2]) := by
    have := findMostSpecificIgnoringReturnWith_triple_tie
      (fun candidate1 candidate2 => compareSpecificity dctx candidate1 candidate2 true)
      c0 c1 c2 [] h01 h10 h20
    simpa [findMostSpecificIgnoringReturn] using this
  unfold candidateCategory at *
  generalize hr0 : dctx.context.idToFnReturnIntent c0.fn.id = r0 at *
  generalize hr1 : dctx.context.idToFnReturnIntent c1.fn.id = r1 at *
  generalize hr2 : dctx.context.idToFnReturnIntent c2.fn.id = r2 at *
  simp only [computeMostSpecificCandidates, hfirst]
  cases r0 <;> simp only [returnIntentCategory, ne_eq, not_true_eq_false,
      reduceCtorEq, not_false_eq_true] at hother0 hne01 hne02 ⊢ <;>
    cases r1 <;> simp only [returnIntentCategory, ne_eq, not_true_eq_false,
      reduceCtorEq, not_false_eq_true] at hother1 hne01 hne12 ⊢ <;>
    cases r2 <;> simp only [returnIntentCategory, ne_eq, not_true_eq_false,
      reduceCtorEq, not_false_eq_true] at hother2 hne02 hne12 ⊢ <;>
    simp [countByReturnIntent, gatherByReturnIntent, gatherByReturnIntent.loop, hr0, hr1, hr2,
      MostSpecificCandidates.getEmpty, MostSpecificCandidates.setBestValue,
      MostSpecificCandidates.setBestConstRef, MostSpecificCandidates.setBestRef,
      MostSpecificCandidates.slot]

open Sample in
/-- C13 at a concrete input: the overloads `proc f()`, `proc f() const ref`
and `proc f() ref` of the call `f()`, declared in one scope. -/
theorem computeMostSpecificCandidates_buckets_witness :
    ∃ res, computeMostSpecificCandidates accessorContext accessorDctx
        [candAccessor 50 0, candAccessor 51 1, candAccessor 52 2] = some res ∧
      res.emptyDueToAmbiguity = false ∧ res.only = none ∧
      res.slot (candidateCategory accessorDctx (candAccessor 50 0))
        = some ((candAccessor 50 0).toMostSpecificCandidate accessorContext) ∧
      res.slot (candidateCategory accessorDctx (candAccessor 51 1))
        = some ((candAccessor 51 1).toMostSpecificCandidate accessorContext) ∧
      res.slot (candidateCategory accessorDctx (candAccessor 52 2))
        = some ((candAccessor 52 2).toMostSpecificCandidate accessorContext) :=
  computeMostSpecificCandidates_buckets accessorContext accessorDctx (candAccessor 50 0)
    (candAccessor 51 1) (candAccessor 52 2) (by decide) (by decide) (by decide) (by decide)
    (by decide) (by decide) (by decide) (by decide) (by decide)

/-! ### The pairwise comparison -/

theorem compareSpecificity_eq_verdict (dctx : DisambiguationContext)
    (candidate1 candidate2 : DisambiguationCandidate) (ignoreWhere : Bool) :
    compareSpecificity dctx candidate1 candidate2 ignoreWhere =
      match argPreferences dctx candidate1 candidate2 with
      | none => none
      | some ds =>
        compareSpecificity.verdict ds (moreVisible dctx candidate1 candidate2) ignoreWhere
          (dctx.context.idIsFunctionWithWhere candidate1.fn.id)
          (dctx.context.idIsFunctionWithWhere candidate2.fn.id) := rfl

theorem compareSpecificity_verdict_tie (ds : DisambiguationState) (mv : MoreVisibleResult)
    (w1 w2 : Bool) (h : compareSpecificity.verdict ds mv true w1 w2 = some 0) :
    compareSpecificity.verdict ds mv false w1 w2 =
      some (if w1 = w2 then 0 else if w1 then -1 else 1) := by
  obtain ⟨a1, a2, a3, a4, a5, a6, a7, a8, a9, a10, a11, a12, a13, a14⟩ := ds
  unfold compareSpecificity.verdict at h ⊢
  simp only at h ⊢
  cases a7 <;> cases a8 <;> cases a5 <;> cases a6 <;> cases mv <;> simp at h ⊢ <;>
    cases a9 <;> cases a10 <;> simp at h ⊢ <;>
    cases a11 <;> cases a12 <;> simp at h ⊢ <;>
    cases a13 <;> cases a14 <;> simp at h ⊢ <;>
    cases w1 <;> cases w2 <;> simp

theorem compareSpecificity_tie_ignoring_where (dctx : DisambiguationContext)
    (candidate1 candidate2 : DisambiguationCandidate)
    (h : compareSpecificity dctx candidate1 candidate2 true = some 0) :
    compareSpecificity dctx candidate1 candidate2 false =
      some (if dctx.context.idIsFunctionWithWhere candidate1.fn.id =
              dctx.context.idIsFunctionWithWhere candidate2.fn.id then 0
            else if dctx.context.idIsFunctionWithWhere candidate1.fn.id then -1 else 1) := by
  rw [compareSpecificity_eq_verdict] at h ⊢
  cases hfold : argPreferences dctx candidate1 candidate2 with
  | none => rw [hfold] at h; exact absurd h (by simp)
  | some ds =>
    rw [hfold] at h
    exact compareSpecificity_verdict_tie ds _ _ _ h

theorem computeIsMoreVisible_congr (context context1 : Context)
    (h : context1.lookupNameInScope = context.lookupNameInScope) (callName : UniqueString)
    (curScope : Scope) (fn1Id fn2Id : ID) :
    computeIsMoreVisible context1 callName curScope fn1Id fn2Id
      = computeIsMoreVisible context callName curScope fn1Id fn2Id := by
  induction curScope with
  | root i b =>
    unfold computeIsMoreVisible
    simp only [h, checkVisibilityInVec]
  | child i b p ih =>
    unfold computeIsMoreVisible
    simp only [h, checkVisibilityInVec, ih]

theorem moreVisiblePoiLoop_congr (context context1 : Context)
    (h : context1.lookupNameInScope = context.lookupNameInScope) (callName : UniqueString)
    (fn1Id fn2Id : ID) (poi : PoiScope) (result : MoreVisibleResult) :
    moreVisiblePoiLoop context1 callName fn1Id fn2Id poi result
      = moreVisiblePoiLoop context callName fn1Id fn2Id poi result := by
  induction poi generalizing result with
  | nil => rfl
  | cons s rest ih =>
    unfold moreVisiblePoiLoop
    rw [ih, computeIsMoreVisible_congr context context1 h]

theorem moreVisible_where_irrelevant (dctx : DisambiguationContext) (hasWhere : ID → Bool)
    (a b : DisambiguationCandidate) :
    moreVisible
        { dctx with context := { dctx.context with idIsFunctionWithWhere := hasWhere } } a b
      = moreVisible dctx a b := by
  unfold moreVisible moreVisibleQuery
  simp only
  rw [moreVisiblePoiLoop_congr dctx.context
      { dctx.context with idIsFunctionWithWhere := hasWhere } rfl,
    computeIsMoreVisible_congr dctx.context
      { dctx.context with idIsFunctionWithWhere := hasWhere } rfl]

theorem compareSpecificity_verdict_ignoreWhere (ds : DisambiguationState)
    (mv : MoreVisibleResult) (w1 w2 v1 v2 : Bool) :
    compareSpecificity.verdict ds mv true w1 w2 = compareSpecificity.verdict ds mv true v1 v2 := by
  simp [compareSpecificity.verdict]

theorem findMostSpecificIgnoringReturn_nil (dctx : DisambiguationContext) (ignoreWhere : Bool)
    (amb : CandidatesVec) :
    findMostSpecificIgnoringReturn dctx [] ignoreWhere amb = some (none, amb) := rfl

/-- C11 (amended): where clauses are ignored on the first pass and decide
when return-intent subgroups are resolved.  The comparison with `ignoreWhere`
set, the one used by the first call of `findMostSpecificIgnoringReturn` in
`computeMostSpecificCandidates`, does not depend on which functions have a
where clause.  For two candidates that tie on every other criterion (the
comparison with `ignoreWhere` set returns 0 in both orders), of which only
the first has a where clause, and whose return intents are of one category:
the first call finds no single most specific candidate and leaves both as
possibly best; the comparison with `ignoreWhere` unset, the one used by the
per-return-intent calls of `computeMostSpecificCandidatesWithVecs`, reports
the candidate with the where clause as strictly more specific in either
order, the search with `ignoreWhere` unset returns it, and
`computeMostSpecificCandidates` returns a result that is not ambiguous and
holds exactly that candidate. -/
theorem where_clause_decides_in_subgroups (context : Context) (dctx : DisambiguationContext)
    (c1 c2 : DisambiguationCandidate)
    (h12 : compareSpecificity dctx c1 c2 true = some 0)
    (h21 : compareSpecificity dctx c2 c1 true = some 0)
    (hw1 : dctx.context.idIsFunctionWithWhere c1.fn.id = true)
    (hw2 : dctx.context.idIsFunctionWithWhere c2.fn.id = false)
    (hcat : candidateCategory dctx c1 = candidateCategory dctx c2) :
    (∀ (hasWhere : ID → Bool) (a b : DisambiguationCandidate),
      compareSpecificity
          { dctx with context := { dctx.context with idIsFunctionWithWhere := hasWhere } }
          a b true
        = compareSpecificity dctx a b true) ∧
    findMostSpecificIgnoringReturn dctx [c1, c2] true [] = some (none, [c1, c2]) ∧
    findMostSpecificIgnoringReturn dctx [c2, c1] true [] = some (none, [c2, c1]) ∧
    compareSpecificity dctx c1 c2 false = some (-1) ∧
    compareSpecificity dctx c2 c1 false = some 1 ∧
    findMostSpecificIgnoringReturn dctx [c1, c2] false [] = some (some c1, []) ∧
    findMostSpecificIgnoringReturn dctx [c2, c1] false [] = some (some c1, []) ∧
    (∃ res, computeMostSpecificCandidates context dctx [c1, c2] = some res ∧
      res.emptyDueToAmbiguity = false ∧
      res.slots = [c1.toMostSpecificCandidate context]) ∧
    (∃ res, computeMostSpecificCandidates context dctx [c2, c1] = some res ∧
      res.emptyDueToAmbiguity = false ∧
      res.slots = [c1.toMostSpecificCandidate context]) := by
  have hf12 : compareSpecificity dctx c1 c2 false = some (-1) := by
    rw [compareSpecificity_tie_ignoring_where dctx c1 c2 h12, hw1, hw2]
    rfl
  have hf21 : compareSpecificity dctx c2 c1 false = some 1 := by
    rw [compareSpecificity_tie_ignoring_where dctx c2 c1 h21, hw1, hw2]
    rfl
  have ht12 : findMostSpecificIgnoringReturn dctx [c1, c2] true [] = some (none, [c1, c2]) := by
    have := findMostSpecificIgnoringReturnWith_pair_tie
      (fun a b => compareSpecificity dctx a b true) c1 c2 [] h12 h21
    simpa [findMostSpecificIgnoringReturn] using this
  have ht21 : findMostSpecificIgnoringReturn dctx [c2, c1] true [] = some (none, [c2, c1]) := by
    have := findMostSpecificIgnoringReturnWith_pair_tie
      (fun a b => compareSpecificity dctx a b true) c2 c1 [] h21 h12
    simpa [findMostSpecificIgnoringReturn] using this
  have hs12 : findMostSpecificIgnoringReturn dctx [c1, c2] false [] = some (some c1, []) :=
    findMostSpecificIgnoringReturnWith_pair_first
      (fun a b => compareSpecificity dctx a b false) c1 c2 [] (-1) hf12 (by decide)
  have hs21 : findMostSpecificIgnoringReturn dctx [c2, c1] false [] = some (some c1, []) :=
    findMostSpecificIgnoringReturnWith_pair_second
      (fun a b => compareSpecificity dctx a b false) c2 c1 [] 1 (-1) hf21 (by decide) hf12
      (by decide)
  refine ⟨?_, ht12, ht21, hf12, hf21, hs12, hs21, ?_, ?_⟩
  · intro hasWhere a b
    have e1 : argPreferences
        { dctx with context := { dctx.context with idIsFunctionWithWhere := hasWhere } } a b
        = argPreferences dctx a b := rfl
    have e2 := moreVisible_where_irrelevant dctx hasWhere a b
    rw [compareSpecificity_eq_verdict, compareSpecificity_eq_verdict, e1, e2]
    cases argPreferences dctx a b with
    | none => rfl
    | some ds => exact compareSpecificity_verdict_ignoreWhere _ _ _ _ _ _
  · unfold candidateCategory at hcat
    generalize hr1 : dctx.context.idToFnReturnIntent c1.fn.id = r1 at hcat
    generalize hr2 : dctx.context.idToFnReturnIntent c2.fn.id = r2 at hcat
    simp only [computeMostSpecificCandidates, ht12]
    cases r1 <;> cases r2 <;>
      simp only [returnIntentCategory, reduceCtorEq] at hcat <;>
      simp [countByReturnIntent, computeMostSpecificCandidatesWithVecs,
        gatherVecsByReturnIntent, hr1, hr2, hs12, findMostSpecificIgnoringReturn_nil,
        MostSpecificCandidates.getEmpty, MostSpecificCandidates.setBestValue,
        MostSpecificCandidates.setBestConstRef, MostSpecificCandidates.setBestRef,
        MostSpecificCandidates.getOnly, MostSpecificCandidates.slots]
  · unfold candidateCategory at hcat
    generalize hr1 : dctx.context.idToFnReturnIntent c1.fn.id = r1 at hcat
    generalize hr2 : dctx.context.idToFnReturnIntent c2.fn.id = r2 at hcat
    simp only [computeMostSpecificCandidates, ht21]
    cases r1 <;> cases r2 <;>
      simp only [returnIntentCategory, reduceCtorEq] at hcat <;>
      simp [countByReturnIntent, computeMostSpecificCandidatesWithVecs,
        gatherVecsByReturnIntent, hr1, hr2, hs21, findMostSpecificIgnoringReturn_nil,
        MostSpecificCandidates.getEmpty, MostSpecificCandidates.setBestValue,
        MostSpecificCandidates.setBestConstRef, MostSpecificCandidates.setBestRef,
        MostSpecificCandidates.getOnly, MostSpecificCandidates.slots]

open Sample in
/-- C11 (amended) at a concrete input: the overloads `proc f() where ...` and
`proc f()` of the call `f()`, declared in one scope. -/
theorem where_clause_decides_in_subgroups_witness :
    compareSpecificity accessorDctx (candAccessor 54 0) (candAccessor 50 1) false
        = some (-1) ∧
    ∃ res, computeMostSpecificCandidates accessorContext accessorDctx
        [candAccessor 54 0, candAccessor 50 1] = some res ∧
      res.emptyDueToAmbiguity = false ∧
      res.slots = [(candAccessor 54 0).toMostSpecificCandidate accessorContext] :=
  have h := where_clause_decides_in_subgroups accessorContext accessorDctx (candAccessor 54 0)
    (candAccessor 50 1) (by decide) (by decide) (by decide) (by decide) (by decide)
  ⟨h.2.2.2.1, h.2.2.2.2.2.2.2.1⟩

open Sample in
/-- C11 as stated fails: for the overloads `proc f() where ...` and
`proc f()` of the call `f()`, which tie on every criterion but the where
clause, the comparison of the first call (`ignoreWhere` set) returns 0, not
-1, and the first call finds no single most specific candidate; the
per-return-intent call of `computeMostSpecificCandidatesWithVecs` on the two
value-returning candidates returns the candidate with the where clause, while
the same call in a context where no function has a where clause returns
none, so the where clause does influence it. -/
theorem first_pass_ignores_where_clause :
    compareSpecificity accessorDctx (candAccessor 54 0) (candAccessor 50 1) true = some 0 ∧
    findMostSpecificIgnoringReturn accessorDctx [candAccessor 54 0, candAccessor 50 1] true []
      = some (none, [candAccessor 54 0, candAccessor 50 1]) ∧
    findMostSpecificIgnoringReturn accessorDctx [candAccessor 54 0, candAccessor 50 1] false []
      = some (some (candAccessor 54 0), []) ∧
    findMostSpecificIgnoringReturn
        { accessorDctx with
          context := { accessorContext with idIsFunctionWithWhere := fun _ => false } }
        [candAccessor 54 0, candAccessor 50 1] false []
      = some (none, [candAccessor 54 0, candAccessor 50 1]) ∧
    computeMostSpecificCandidatesWithVecs accessorContext accessorDctx
        [candAccessor 54 0, candAccessor 50 1]
      = some { MostSpecificCandidates.getEmpty with
          bestValue := some ((candAccessor 54 0).toMostSpecificCandidate accessorContext) } := by
  decide

theorem recordPreference_none (ds : DisambiguationState) :
    recordPreference ds arg_preference_t.NONE arg_preference_t.NONE = ds := by
  simp [recordPreference]

theorem testArgMappingVoid_records (dctx : DisambiguationContext)
    (candidate1 candidate2 : DisambiguationCandidate) (actualIdx : Nat)
    (ds ds1 : DisambiguationState)
    (h : testArgMappingVoid dctx candidate1 candidate2 actualIdx ds = some ds1) :
    ∃ prefer1 prefer2, ds1 = recordPreference ds prefer1 prefer2 := by
  unfold testArgMappingVoid at h
  split at h
  · simp only at h
    split at h
    · exact absurd h (by simp)
    · split at h
      · exact ⟨_, _, ((Option.some.inj h).symm.trans (recordPreference_none ds).symm)⟩
      · split at h
        · exact ⟨_, _, ((Option.some.inj h).symm.trans (recordPreference_none ds).symm)⟩
        · split at h
          · exact absurd h (by simp)
          · split at h
            · exact absurd h (by simp)
            · split at h
              · exact absurd h (by simp)
              · split at h
                · exact absurd h (by simp)
                · split at h
                  · exact absurd h (by simp)
                  · exact ⟨_, _, (Option.some.inj h).symm⟩
  · exact absurd h (by simp)

theorem recordPreference_promotes (ds : DisambiguationState)
    (prefer1 prefer2 : arg_preference_t) :
    (recordPreference ds prefer1 prefer2).fn1Promotes = ds.fn1Promotes ∧
    (recordPreference ds prefer1 prefer2).fn2Promotes = ds.fn2Promotes := by
  cases prefer1 <;> cases prefer2 <;> simp [recordPreference]

theorem foldlM_option_invariant {σ α : Type} (f : σ → α → Option σ) (P : σ → Prop)
    (hstep : ∀ s a s1, P s → f s a = some s1 → P s1) (l : List α) (s s1 : σ) (hs : P s)
    (h : l.foldlM f s = some s1) : P s1 := by
  induction l generalizing s with
  | nil =>
    simp only [List.foldlM_nil] at h
    cases h
    exact hs
  | cons a rest ih =>
    rw [List.foldlM_cons] at h
    cases hfa : f s a with
    | none => rw [hfa] at h; exact absurd h (by simp)
    | some s2 =>
      rw [hfa] at h
      exact ih s2 (hstep s a s2 hs hfa) h

theorem argPreferences_promotes (dctx : DisambiguationContext)
    (candidate1 candidate2 : DisambiguationCandidate) (ds : DisambiguationState)
    (h : argPreferences dctx candidate1 candidate2 = some ds) :
    ds.fn1Promotes = false ∧ ds.fn2Promotes = false := by
  refine foldlM_option_invariant
    (fun ds k => testArgMappingVoid dctx candidate1 candidate2 k ds)
    (fun s => s.fn1Promotes = false ∧ s.fn2Promotes = false) ?_
    (List.range dctx.call.numActuals) {} ds ⟨rfl, rfl⟩ h
  intro s a s1 hs hstep
  obtain ⟨p1, p2, rfl⟩ := testArgMappingVoid_records dctx candidate1 candidate2 a s s1 hstep
  have := recordPreference_promotes s p1 p2
  exact ⟨this.1.trans hs.1, this.2.trans hs.2⟩

/-- C12 (amended): the "more visible" tie-break comes after the strong
per-argument preferences and before every weaker criterion.  For every pair
of candidates whose per-argument comparisons complete in the state `ds`: if
exactly one candidate has a strong preference (`fn1MoreSpecific` differs from
`fn2MoreSpecific`), that candidate is the more specific one whatever
`moreVisible` reports; if the strong preferences tie and `moreVisible` reports
`FOUND_F1_FIRST`, `compareSpecificity` returns -1 whatever the weak, weaker
and weakest preferences and the where clauses are, and symmetrically 1 for
`FOUND_F2_FIRST`; in the remaining case (strong preferences tie, neither
candidate found first) the verdict is that of the weaker criteria, the same
for `FOUND_BOTH` and `FOUND_NEITHER`. -/
theorem moreVisible_after_strong_preferences (dctx : DisambiguationContext)
    (c1 c2 : DisambiguationCandidate) (ignoreWhere : Bool) (ds : DisambiguationState)
    (hargs : argPreferences dctx c1 c2 = some ds) :
    (ds.fn1MoreSpecific ≠ ds.fn2MoreSpecific →
      compareSpecificity dctx c1 c2 ignoreWhere
        = some (if ds.fn1MoreSpecific then -1 else 1)) ∧
    (ds.fn1MoreSpecific = ds.fn2MoreSpecific →
      (moreVisible dctx c1 c2 = MoreVisibleResult.FOUND_F1_FIRST →
        compareSpecificity dctx c1 c2 ignoreWhere = some (-1)) ∧
      (moreVisible dctx c1 c2 = MoreVisibleResult.FOUND_F2_FIRST →
        compareSpecificity dctx c1 c2 ignoreWhere = some 1) ∧
      (moreVisible dctx c1 c2 ≠ MoreVisibleResult.FOUND_F1_FIRST →
        moreVisible dctx c1 c2 ≠ MoreVisibleResult.FOUND_F2_FIRST →
        compareSpecificity dctx c1 c2 ignoreWhere
          = compareSpecificity.verdict ds MoreVisibleResult.FOUND_BOTH ignoreWhere
              (dctx.context.idIsFunctionWithWhere c1.fn.id)
              (dctx.context.idIsFunctionWithWhere c2.fn.id))) := by
  obtain ⟨hp1, hp2⟩ := argPreferences_promotes dctx c1 c2 ds hargs
  rw [compareSpecificity_eq_verdict, hargs]
  simp only
  generalize moreVisible dctx c1 c2 = mv
  generalize dctx.context.idIsFunctionWithWhere c1.fn.id = w1
  generalize dctx.context.idIsFunctionWithWhere c2.fn.id = w2
  obtain ⟨a1, a2, a3, a4, a5, a6, a7, a8, a9, a10, a11, a12, a13, a14⟩ := ds
  simp only at hp1 hp2
  subst hp1 hp2
  unfold compareSpecificity.verdict
  refine ⟨?_, ?_⟩
  · intro hne
    cases a5 <;> cases a6 <;> simp at hne ⊢
  · intro heq
    simp only at heq
    subst heq
    refine ⟨?_, ?_, ?_⟩
    · intro hmv
      subst hmv
      simp
    · intro hmv
      subst hmv
      simp
    · intro h1 h2
      cases mv <;> simp at h1 h2 ⊢

open Sample in
/-- C12 (amended) at a concrete input: for the call `f()` the overload 50,
declared in the scope of the call, is found before the overload 56, declared
in the enclosing scope; there are no actuals, so no preference is recorded,
and the comparison returns -1. -/
theorem moreVisible_after_strong_preferences_witness :
    compareSpecificity accessorDctx (candAccessor 50 0) (candAccessor 56 1) true
      = some (-1) :=
  ((moreVisible_after_strong_preferences accessorDctx (candAccessor 50 0) (candAccessor 56 1)
    true {} (by decide)).2 rfl).1 (by decide)

open Sample in
/-- C12 as stated fails: for the call `f(myInt)`, `f(x: real)` declared in
the scope of the call and `f(x: int)` declared in the enclosing scope, neither
a method, `moreVisible` reports that `f(x: real)` is found first, and
`compareSpecificity` nevertheless reports `f(x: int)` as the more specific
one (1, not -1), with `ignoreWhere` set or not: the strong preference for the
formal that the other formal's type converts to is consulted before
visibility. -/
theorem strong_preference_beats_visibility :
    candNearReal.fn.untyped.isMethod = false ∧ candFarInt.fn.untyped.isMethod = false ∧
    moreVisible shadowDctx candNearReal candFarInt = MoreVisibleResult.FOUND_F1_FIRST ∧
    argPreferences shadowDctx candNearReal candFarInt
      = some { fn2MoreSpecific := true } ∧
    compareSpecificity shadowDctx candNearReal candFarInt true = some 1 ∧
    compareSpecificity shadowDctx candNearReal candFarInt false = some 1 := by
  decide

/-! ### Param- and type-returning candidates -/

theorem countByReturnIntent_other (dctx : DisambiguationContext) (vec : CandidatesVec)
    (counts : Nat × Nat × Nat × Nat) :
    (countByReturnIntent dctx vec counts).2.2.2 > 0 ↔
      counts.2.2.2 > 0 ∨ ∃ c ∈ vec, candidateCategory dctx c = IntentCategory.OTHER := by
  induction vec generalizing counts with
  | nil => simp [countByReturnIntent]
  | cons c rest ih =>
    obtain ⟨nRef, nConstRef, nValue, nOther⟩ := counts
    unfold countByReturnIntent
    cases hr : dctx.context.idToFnReturnIntent c.fn.id <;>
      simp only [ih, candidateCategory, List.mem_cons, exists_eq_or_imp, hr,
        returnIntentCategory, reduceCtorEq, false_or, true_or, or_true] <;>
      simp

theorem findMostSpecificIgnoringReturnWith_congr
    (cmp1 cmp2 : DisambiguationCandidate → DisambiguationCandidate → Option Int)
    (candidates ambiguousBest : CandidatesVec)
    (h : ∀ a ∈ candidates, ∀ b ∈ candidates, cmp1 a b = cmp2 a b) :
    findMostSpecificIgnoringReturnWith cmp1 candidates ambiguousBest
      = findMostSpecificIgnoringReturnWith cmp2 candidates ambiguousBest := by
  have hfun : (fun i j =>
        match candidates[i]?, candidates[j]? with
        | some candidate1, some candidate2 => cmp1 candidate1 candidate2
        | _, _ => none)
      = (fun (i j : Nat) =>
        match candidates[i]?, candidates[j]? with
        | some candidate1, some candidate2 => cmp2 candidate1 candidate2
        | _, _ => none) := by
    funext i j
    cases hi : candidates[i]? with
    | none => rfl
    | some a =>
      cases hj : candidates[j]? with
      | none => rfl
      | some b => exact h a (List.getElem?_mem hi) b (List.getElem?_mem hj)
  unfold findMostSpecificIgnoringReturnWith
  simp only [hfun]

theorem compareSpecificity_same_where (dctx : DisambiguationContext)
    (a b : DisambiguationCandidate)
    (h : dctx.context.idIsFunctionWithWhere a.fn.id = dctx.context.idIsFunctionWithWhere b.fn.id) :
    compareSpecificity dctx a b false = compareSpecificity dctx a b true := by
  rw [compareSpecificity_eq_verdict, compareSpecificity_eq_verdict, h]
  cases argPreferences dctx a b with
  | none => rfl
  | some ds => simp [compareSpecificity.verdict]

/-- C14 (amended): if the first pass finds no unique most specific candidate
and the candidates it leaves as possibly best include a param- or
type-returning one, return-intent bucketing is skipped and the search is
repeated with where clauses considered: when that search leaves more than one
candidate as possibly best, `computeMostSpecificCandidates` reports the
ambiguous result; when it singles out one candidate, that candidate is the
only result; every result has the three per-intent slots empty.  In
particular, when no where clause tells two candidates apart and the first
pass leaves more than one candidate, the result is the ambiguous one. -/
theorem computeMostSpecificCandidates_other_intent (context : Context)
    (dctx : DisambiguationContext) (candidates amb : CandidatesVec)
    (hfirst : findMostSpecificIgnoringReturn dctx candidates true [] = some (none, amb))
    (hother : ∃ c ∈ amb, candidateCategory dctx c = IntentCategory.OTHER) :
    (∀ best amb1,
      findMostSpecificIgnoringReturn dctx candidates false [] = some (best, amb1) →
      (1 < amb1.length →
        computeMostSpecificCandidates context dctx candidates
          = some MostSpecificCandidates.getAmbiguous) ∧
      (amb1.length ≤ 1 → ∀ b, best = some b →
        computeMostSpecificCandidates context dctx candidates
          = some (MostSpecificCandidates.getOnly (b.toMostSpecificCandidate context)))) ∧
    (∀ res, computeMostSpecificCandidates context dctx candidates = some res →
      res.bestRef = none ∧ res.bestConstRef = none ∧ res.bestValue = none) ∧
    ((∀ a ∈ candidates, ∀ b ∈ candidates,
        dctx.context.idIsFunctionWithWhere a.fn.id
          = dctx.context.idIsFunctionWithWhere b.fn.id) →
      1 < amb.length →
      computeMostSpecificCandidates context dctx candidates
        = some MostSpecificCandidates.getAmbiguous) := by
  have hcount : (countByReturnIntent dctx amb (0, 0, 0, 0)).2.2.2 > 0 :=
    (countByReturnIntent_other dctx amb (0, 0, 0, 0)).2 (Or.inr hother)
  have hlen : ¬ amb.length = 0 := by
    obtain ⟨c, hc, _⟩ := hother
    intro h0
    rw [List.length_eq_zero] at h0
    rw [h0] at hc
    exact absurd hc (List.not_mem_nil c)
  have hcompute : computeMostSpecificCandidates context dctx candidates =
      match findMostSpecificIgnoringReturn dctx candidates false [] with
      | none => none
      | some (best, amb1) =>
        if amb1.length > 1 then some MostSpecificCandidates.getAmbiguous
        else
          match best with
          | some b =>
            some (MostSpecificCandidates.getOnly (b.toMostSpecificCandidate context))
          | none => none := by
    simp only [computeMostSpecificCandidates, hfirst, if_neg hlen, if_pos hcount]
  have hretry : ∀ best amb1,
      findMostSpecificIgnoringReturn dctx candidates false [] = some (best, amb1) →
      (1 < amb1.length →
        computeMostSpecificCandidates context dctx candidates
          = some MostSpecificCandidates.getAmbiguous) ∧
      (amb1.length ≤ 1 → ∀ b, best = some b →
        computeMostSpecificCandidates context dctx candidates
          = some (MostSpecificCandidates.getOnly (b.toMostSpecificCandidate context))) := by
    intro best amb1 h
    rw [hcompute, h]
    constructor
    · intro h1
      simp only [gt_iff_lt, if_pos h1]
    · intro h1 b hb
      have h2 : ¬ 1 < amb1.length := by omega
      simp only [gt_iff_lt, if_neg h2, hb]
  refine ⟨hretry, ?_, ?_⟩
  · intro res hres
    rw [hcompute] at hres
    cases hr : findMostSpecificIgnoringReturn dctx candidates false [] with
    | none => rw [hr] at hres; exact absurd hres (by simp)
    | some r =>
      obtain ⟨best, amb1⟩ := r
      rw [hr] at hres
      simp only at hres
      split_ifs at hres
      · cases hres
        exact ⟨rfl, rfl, rfl⟩
      · cases best with
        | none => exact absurd hres (by simp)
        | some b =>
          simp only [Option.some.injEq] at hres
          subst hres
          exact ⟨rfl, rfl, rfl⟩
  · intro hwhere hamb
    have heq : findMostSpecificIgnoringReturn dctx candidates false []
        = findMostSpecificIgnoringReturn dctx candidates true [] :=
      findMostSpecificIgnoringReturnWith_congr _ _ candidates []
        (fun a ha b hb => compareSpecificity_same_where dctx a b (hwhere a ha b hb))
    exact (hretry none amb (heq.trans hfirst)).1 hamb

open Sample in
/-- C14 (amended) at a concrete input: the overloads `proc f()`,
`proc f() const ref`, `proc f() ref` and `proc f() param` of the call `f()`,
declared in one scope and none with a where clause: the result is the
ambiguous one. -/
theorem computeMostSpecificCandidates_other_intent_witness :
    computeMostSpecificCandidates accessorContext accessorDctx
        [candAccessor 50 0, candAccessor 51 1, candAccessor 52 2, candAccessor 53 3]
      = some MostSpecificCandidates.getAmbiguous :=
  (computeMostSpecificCandidates_other_intent accessorContext accessorDctx
    [candAccessor 50 0, candAccessor 51 1, candAccessor 52 2, candAccessor 53 3]
    [candAccessor 50 0, candAccessor 51 1, candAccessor 52 2, candAccessor 53 3]
    (by decide) ⟨candAccessor 53 3, by decide, by decide⟩).2.2 (by decide) (by decide)

open Sample in
/-- C14 as stated fails in two ways.  For the overloads `proc f() param` and
`proc f() where ...` of the call `f()`, the first pass finds no unique most
specific candidate and leaves both, and the result is a single winner, the
overload with the where clause.  For the overloads `proc f()` and
`proc f() ref` declared in the scope of the call and `proc f() param`
declared in the enclosing scope, the candidate set contains a param-returning
candidate and the first pass finds no unique most specific candidate, and the
result holds the per-intent winners `proc f()` and `proc f() ref`. -/
theorem param_candidate_not_always_ambiguous :
    findMostSpecificIgnoringReturn accessorDctx [candAccessor 53 0, candAccessor 54 1] true []
      = some (none, [candAccessor 53 0, candAccessor 54 1]) ∧
    candidateCategory accessorDctx (candAccessor 53 0) = IntentCategory.OTHER ∧
    computeMostSpecificCandidates accessorContext accessorDctx
        [candAccessor 53 0, candAccessor 54 1]
      = some (MostSpecificCandidates.getOnly
          ((candAccessor 54 1).toMostSpecificCandidate accessorContext)) ∧
    findMostSpecificIgnoringReturn accessorDctx
        [candAccessor 50 0, candAccessor 52 1, candAccessor 56 2] true []
      = some (none, [candAccessor 50 0, candAccessor 52 1]) ∧
    candidateCategory accessorDctx (candAccessor 56 2) = IntentCategory.OTHER ∧
    computeMostSpecificCandidates accessorContext accessorDctx
        [candAccessor 50 0, candAccessor 52 1, candAccessor 56 2]
      = some { MostSpecificCandidates.getEmpty with
          bestRef := some ((candAccessor 52 1).toMostSpecificCandidate accessorContext),
          bestValue := some ((candAccessor 50 0).toMostSpecificCandidate accessorContext) } := by
  decide

/-! ### Default-width numeric params -/

theorem prefersConvToOtherNumeric_isSome (actualQt f1Qt f2Qt : QualifiedType)
    (ta t1 t2 : Ty) (ha : actualQt.type = some ta) (h1 : f1Qt.type = some t1)
    (h2 : f2Qt.type = some t2) : ∃ b, prefersConvToOtherNumeric actualQt f1Qt f2Qt = some b := by
  unfold prefersConvToOtherNumeric
  rw [ha, h1, h2]
  simp only
  split_ifs <;> exact ⟨_, rfl⟩

open arg_preference_t in
theorem testArgMappingVoid_preference_default_param (dctx : DisambiguationContext)
    (f1Type f2Type actualType : QualifiedType) (ta t1 t2 : Ty) (n1 n2 : Bool)
    (ha : actualType.type = some ta) (h1 : f1Type.type = some t1)
    (h2 : f2Type.type = some t2) :
    ∃ p, testArgMappingVoid.preference dctx f1Type f2Type actualType actualType
        false false false false false false false false true true false false n1 n2 = some p ∧
      (p = (NONE, NONE) ∨ p = (WEAKEST, NONE) ∨ p = (NONE, WEAKEST)) := by
  obtain ⟨b1, hb1⟩ := prefersConvToOtherNumeric_isSome actualType f1Type f2Type ta t1 t2 ha h1 h2
  obtain ⟨b2, hb2⟩ := prefersConvToOtherNumeric_isSome actualType f2Type f1Type ta t2 t1 ha h2 h1
  unfold testArgMappingVoid.preference
  simp only [Bool.false_eq_true, not_false_eq_true, not_true_eq_false, and_false, false_and,
    and_true, true_and, if_false, if_true, ne_eq, hb1, hb2, h1, h2, Option.map_some']
  cases b1 <;> cases b2 <;> cases t1.isIntType <;> cases t2.isUintType <;>
    simp only [Bool.false_eq_true, if_false, if_true] <;>
    split_ifs <;>
    first
    | exact ⟨_, rfl, Or.inl rfl⟩
    | exact ⟨_, rfl, Or.inr (Or.inl rfl)⟩
    | exact ⟨_, rfl, Or.inr (Or.inr rfl)⟩

/-- C16: when the actual is a default-width numeric param and the two
formals are both non-param, both concrete (not instantiated), both of a type
that is not null, and the actual passes to both without promotion, the
state-updating `testArgMapping` returns, and the state it returns is the
incoming state, or the incoming state with `fn1WeakestPreferred` set, or the
incoming state with `fn2WeakestPreferred` set: no strong, weak or weaker
preference is recorded, whatever the conversion oracle reports about
param narrowing (`n1`, `n2`), so the param-narrowing rule does not fire. -/
theorem testArgMappingVoid_default_param_weakest (dctx : DisambiguationContext)
    (candidate1 candidate2 : DisambiguationCandidate) (actualIdx : Nat)
    (ds : DisambiguationState) (fa1 fa2 : FormalActual) (t1 t2 : Ty) (n1 n2 : Bool)
    (hfa1 : candidate1.formalActualMap.byActualIdx actualIdx = some fa1)
    (hfa2 : candidate2.formalActualMap.byActualIdx actualIdx = some fa2)
    (hactual : fa1.actualType = fa2.actualType)
    (hparam : fa1.actualType.hasParamPtr = true)
    (hdefault : isNumericParamDefaultType fa1.actualType = true)
    (hf1 : fa1.formalType.hasParamPtr = false) (hf2 : fa2.formalType.hasParamPtr = false)
    (hc1 : fa1.formalInstantiated = false) (hc2 : fa2.formalInstantiated = false)
    (ht1 : fa1.formalType.type = some t1) (ht2 : fa2.formalType.type = some t2)
    (hpass1 : testArgMapHelper dctx fa1 candidate1.forwardingTo ds 1 = some (false, n1))
    (hpass2 : testArgMapHelper dctx fa2 candidate2.forwardingTo ds 2 = some (false, n2)) :
    ∃ ds1, testArgMappingVoid dctx candidate1 candidate2 actualIdx ds = some ds1 ∧
      ds1.fn1MoreSpecific = ds.fn1MoreSpecific ∧ ds1.fn2MoreSpecific = ds.fn2MoreSpecific ∧
      (ds1 = ds ∨ ds1 = { ds with fn1WeakestPreferred := true } ∨
        ds1 = { ds with fn2WeakestPreferred := true }) := by
  have hta : ∃ ta, fa1.actualType.type = some ta := by
    unfold isNumericParamDefaultType at hdefault
    cases h : fa1.actualType.type with
    | none => rw [h] at hdefault; exact absurd hdefault (by simp)
    | some ta => exact ⟨ta, rfl⟩
  obtain ⟨ta, hta⟩ := hta
  obtain ⟨p, hp, hcases⟩ := testArgMappingVoid_preference_default_param dctx fa1.formalType
    fa2.formalType fa1.actualType ta t1 t2 n1 n2 hta ht1 ht2
  unfold testArgMappingVoid
  rw [hfa1, hfa2]
  simp only [← hactual, ne_eq, not_true_eq_false, if_false, hc1, hc2, Bool.false_eq_true,
    hpass1, hpass2, hparam, hdefault, hf1, hf2, if_true, or_self, hp]
  rcases hcases with rfl | rfl | rfl
  · refine ⟨ds, ?_, rfl, rfl, Or.inl rfl⟩
    rw [recordPreference_none]
    split_ifs <;> rfl
  · by_cases hout : fa1.formalType.kind = Kind.OUT ∨ fa2.formalType.kind = Kind.OUT
    · exact ⟨ds, by rw [if_pos hout], rfl, rfl, Or.inl rfl⟩
    · rw [if_neg hout]
      split_ifs
      · exact ⟨ds, rfl, rfl, rfl, Or.inl rfl⟩
      · exact ⟨_, rfl, rfl, rfl, Or.inr (Or.inl rfl)⟩
  · by_cases hout : fa1.formalType.kind = Kind.OUT ∨ fa2.formalType.kind = Kind.OUT
    · exact ⟨ds, by rw [if_pos hout], rfl, rfl, Or.inl rfl⟩
    · rw [if_neg hout]
      split_ifs
      · exact ⟨ds, rfl, rfl, rfl, Or.inl rfl⟩
      · exact ⟨_, rfl, rfl, rfl, Or.inr (Or.inr rfl)⟩

open Sample in
/-- C16 at a concrete input: the call `f(5)` with the overloads `f(x: int)`
and `f(x: int(8))`; passing the literal to `int(8)` narrows it, and the only
preference recorded is of the weakest level. -/
theorem testArgMappingVoid_default_param_weakest_witness :
    ∃ ds1, testArgMappingVoid literalDctx (candLiteral 70 0) (candLiteral 71 1) 0 {} = some ds1 ∧
      ds1.fn1MoreSpecific = false ∧ ds1.fn2MoreSpecific = false ∧
      (ds1 = {} ∨ ds1 = { fn1WeakestPreferred := true } ∨
        ds1 = { fn2WeakestPreferred := true }) :=
  testArgMappingVoid_default_param_weakest literalDctx (candLiteral 70 0) (candLiteral 71 1) 0 {}
    { formalType := { kind := Kind.CONST_IN, type := some intTy, param := none },
      actualType := literalFive, formalIdx := 0, formalInstantiated := false,
      formalName := some "x" }
    { formalType := { kind := Kind.CONST_IN, type := some int8Ty, param := none },
      actualType := literalFive, formalIdx := 0, formalInstantiated := false,
      formalName := some "x" }
    intTy int8Ty false true
    (by decide) (by decide) (by decide) (by decide) (by decide) (by decide) (by decide)
    (by decide) (by decide) (by decide) (by decide) (by decide) (by decide)

/-! ### Calls with two candidates -/

theorem sameCandidate_withDistance (a : DisambiguationCandidate) (d : Int) :
    sameCandidate a { a with visibilityDistance := d } := ⟨rfl, rfl, rfl⟩

theorem compareSpecificity_sameCandidate (dctx : DisambiguationContext)
    (a b a1 b1 : DisambiguationCandidate) (ha : sameCandidate a a1) (hb : sameCandidate b b1)
    (ignoreWhere : Bool) :
    compareSpecificity dctx a1 b1 ignoreWhere = compareSpecificity dctx a b ignoreWhere := by
  obtain ⟨fa, wa, ma, ia, da⟩ := a
  obtain ⟨fa1, wa1, ma1, ia1, da1⟩ := a1
  obtain ⟨fb, wb, mb, ib, db⟩ := b
  obtain ⟨fb1, wb1, mb1, ib1, db1⟩ := b1
  obtain ⟨h1, h2, h3⟩ := ha
  obtain ⟨h4, h5, h6⟩ := hb
  simp only at h1 h2 h3 h4 h5 h6
  subst h1 h2 h3 h4 h5 h6
  rfl

theorem compareSpecificityForArgs_sameCandidate (dctx : DisambiguationContext)
    (a b a1 b1 : DisambiguationCandidate) (ha : sameCandidate a a1) (hb : sameCandidate b b1)
    (i j i1 j1 : Nat) (forGenericInit : Bool) :
    compareSpecificityForArgs dctx a1 b1 i1 j1 forGenericInit
      = compareSpecificityForArgs dctx a b i j forGenericInit := by
  obtain ⟨fa, wa, ma, ia, da⟩ := a
  obtain ⟨fa1, wa1, ma1, ia1, da1⟩ := a1
  obtain ⟨fb, wb, mb, ib, db⟩ := b
  obtain ⟨fb1, wb1, mb1, ib1, db1⟩ := b1
  obtain ⟨h1, h2, h3⟩ := ha
  obtain ⟨h4, h5, h6⟩ := hb
  simp only at h1 h2 h3 h4 h5 h6
  subst h1 h2 h3 h4 h5 h6
  rfl

theorem toMostSpecificCandidate_sameCandidate (context : Context)
    (a a1 : DisambiguationCandidate) (ha : sameCandidate a a1) :
    a1.toMostSpecificCandidate context = a.toMostSpecificCandidate context := by
  obtain ⟨h1, _, h3⟩ := ha
  simp [DisambiguationCandidate.toMostSpecificCandidate, h1, h3]

theorem discardWorseVisibility_scan_sameCandidate (dctx : DisambiguationContext)
    (candidates : CandidatesVec) (discarded : List Bool) (minDistance maxDistance : Int) :
    List.Forall₂ sameCandidate candidates
      (discardWorseVisibility.scan dctx candidates discarded minDistance maxDistance).1 := by
  induction candidates generalizing discarded minDistance maxDistance with
  | nil => exact List.Forall₂.nil
  | cons c rest ih =>
    unfold discardWorseVisibility.scan
    split_ifs
    · exact List.Forall₂.cons ⟨rfl, rfl, rfl⟩ (ih _ _ _)
    · exact List.Forall₂.cons ⟨rfl, rfl, rfl⟩ (ih _ _ _)

theorem discardWorseVisibility_sameCandidate (dctx : DisambiguationContext)
    (candidates : CandidatesVec) (discarded : List Bool) :
    List.Forall₂ sameCandidate candidates
      (discardWorseVisibility dctx candidates discarded).1 := by
  unfold discardWorseVisibility
  simp only
  split_ifs <;> exact discardWorseVisibility_scan_sameCandidate dctx candidates discarded _ _

theorem discardWorseArgs_innerLoop_isSome (cmp : Nat → Nat → Option Int)
    (discarded : List Bool) (i : Nat) (js : List Nat)
    (h : ∀ j ∈ js, i ≠ j → (cmp i j).isSome) (notBest : Nat → Bool) :
    (discardWorseArgs.innerLoop cmp discarded i js notBest).isSome := by
  induction js generalizing notBest with
  | nil => rfl
  | cons j rest ih =>
    have hrest : ∀ k ∈ rest, i ≠ k → (cmp i k).isSome :=
      fun k hk => h k (List.mem_cons_of_mem j hk)
    unfold discardWorseArgs.innerLoop
    split_ifs with hij hd
    · exact ih hrest notBest
    · exact ih hrest notBest
    · have hc := h j (List.mem_cons_self j rest) hij
      cases hcmp : cmp i j with
      | none => rw [hcmp] at hc; exact absurd hc (by simp)
      | some c =>
        simp only
        split_ifs
        · exact ih hrest _
        · rfl
        · rfl
        · exact ih hrest _

theorem discardWorseArgs_outerLoop_isSome (cmp : Nat → Nat → Option Int)
    (discarded : List Bool) (n : Nat)
    (h : ∀ i j, i < n → j < n → i ≠ j → (cmp i j).isSome)
    (is : List Nat) (his : ∀ i ∈ is, i < n) (notBest : Nat → Bool) :
    (discardWorseArgs.outerLoop cmp discarded n is notBest).isSome := by
  induction is generalizing notBest with
  | nil => rfl
  | cons i rest ih =>
    have hrest : ∀ k ∈ rest, k < n := fun k hk => his k (List.mem_cons_of_mem i hk)
    have hi : i < n := his i (List.mem_cons_self i rest)
    unfold discardWorseArgs.outerLoop
    split_ifs
    · exact ih hrest notBest
    · exact ih hrest notBest
    · have hin := discardWorseArgs_innerLoop_isSome cmp discarded i (List.range n)
        (fun j hj hij => h i j hi (List.mem_range.1 hj) hij) notBest
      cases hr : discardWorseArgs.innerLoop cmp discarded i (List.range n) notBest with
      | none => rw [hr] at hin; exact absurd hin (by simp)
      | some nb => exact ih hrest nb

theorem discardWorseArgsWith_isSome (cmp : Nat → Nat → Option Int) (n : Nat)
    (discarded : List Bool) (h : ∀ i j, i < n → j < n → i ≠ j → (cmp i j).isSome) :
    (discardWorseArgsWith cmp n discarded).isSome := by
  have ho := discardWorseArgs_outerLoop_isSome cmp discarded n h (List.range n)
    (fun i hi => List.mem_range.1 hi) (fun _ => false)
  unfold discardWorseArgsWith
  cases hr : discardWorseArgs.outerLoop cmp discarded n (List.range n) (fun _ => false) with
  | none => rw [hr] at ho; exact absurd ho (by simp)
  | some nb => rfl

theorem discardWorseArgs_pair_isSome (dctx : DisambiguationContext)
    (a b : DisambiguationCandidate) (discarded : List Bool)
    (hab : ∀ i j g, (compareSpecificityForArgs dctx a b i j g).isSome)
    (hba : ∀ i j g, (compareSpecificityForArgs dctx b a i j g).isSome) :
    (discardWorseArgs dctx [a, b] discarded).isSome := by
  unfold discardWorseArgs
  apply discardWorseArgsWith_isSome
  intro i j hi hj hij
  simp only [List.length_cons, List.length_nil] at hi hj
  have hi2 : i = 0 ∨ i = 1 := by omega
  have hj2 : j = 0 ∨ j = 1 := by omega
  rcases hi2 with rfl | rfl <;> rcases hj2 with rfl | rfl
  · exact absurd rfl hij
  · exact hab _ _ _
  · exact hba _ _ _
  · exact absurd rfl hij

theorem forall₂_sameCandidate_pair (a b : DisambiguationCandidate) (l : CandidatesVec)
    (h : List.Forall₂ sameCandidate [a, b] l) :
    ∃ a1 b1, l = [a1, b1] ∧ sameCandidate a a1 ∧ sameCandidate b b1 := by
  cases h with
  | cons ha hrest =>
    cases hrest with
    | cons hb hnil =>
      cases hnil
      exact ⟨_, _, rfl, ha, hb⟩

theorem disambiguateDiscarding_pair (dctx : DisambiguationContext)
    (a b : DisambiguationCandidate) (ignoreWhere : Bool) (discarded : List Bool)
    (hab : ∀ i j g, (compareSpecificityForArgs dctx a b i j g).isSome)
    (hba : ∀ i j g, (compareSpecificityForArgs dctx b a i j g).isSome) :
    ∃ a1 b1 mask, sameCandidate a a1 ∧ sameCandidate b b1 ∧
      disambiguateDiscarding dctx [a, b] ignoreWhere discarded = some ([a1, b1], mask) := by
  obtain ⟨a1, b1, hl, ha1, hb1⟩ := forall₂_sameCandidate_pair a b _
    (discardWorseVisibility_sameCandidate dctx [a, b] discarded)
  have hargs1 : ∀ d, (discardWorseArgs dctx [a1, b1] d).isSome := fun d =>
    discardWorseArgs_pair_isSome dctx a1 b1 d
      (fun i j g => by
        rw [compareSpecificityForArgs_sameCandidate dctx a b a1 b1 ha1 hb1 i j i j g]
        exact hab i j g)
      (fun i j g => by
        rw [compareSpecificityForArgs_sameCandidate dctx b a b1 a1 hb1 ha1 i j i j g]
        exact hba i j g)
  have hargs0 : ∀ d, (discardWorseArgs dctx [a, b] d).isSome := fun d =>
    discardWorseArgs_pair_isSome dctx a b d hab hba
  unfold disambiguateDiscarding
  by_cases hv : ¬ dctx.useOldVisibility = true ∧ ¬ dctx.isMethodCall = true
  · have hv2 : ¬ (dctx.useOldVisibility = true ∧ ¬ dctx.isMethodCall = true) := by tauto
    simp only [if_pos hv, if_neg hv2, discardWorsePromoting, discardWorseConversions,
      discardWorseWhereClauses, ite_self]
    have hs := hargs1 (discardWorseVisibility dctx [a, b] discarded).2
    rw [hl]
    cases hr : discardWorseArgs dctx [a1, b1] (discardWorseVisibility dctx [a, b] discarded).2 with
    | none => rw [hr] at hs; exact absurd hs (by simp)
    | some m => exact ⟨a1, b1, m, ha1, hb1, rfl⟩
  · simp only [if_neg hv, discardWorsePromoting, discardWorseConversions,
      discardWorseWhereClauses, ite_self]
    have hs := hargs0 discarded
    cases hr : discardWorseArgs dctx [a, b] discarded with
    | none => rw [hr] at hs; exact absurd hs (by simp)
    | some m =>
      simp only
      split_ifs
      · obtain ⟨a2, b2, hl2, ha2, hb2⟩ := forall₂_sameCandidate_pair a b _
          (discardWorseVisibility_sameCandidate dctx [a, b] m)
        refine ⟨a2, b2, (discardWorseVisibility dctx [a, b] m).2, ha2, hb2, ?_⟩
        rw [← hl2]
      · exact ⟨a, b, m, ⟨rfl, rfl, rfl⟩, ⟨rfl, rfl, rfl⟩, rfl⟩

theorem computeMostSpecificCandidates_pair_first (context : Context)
    (dctx : DisambiguationContext) (a b : DisambiguationCandidate) (x : Int)
    (hab : compareSpecificity dctx a b true = some x) (hx : x < 0) :
    computeMostSpecificCandidates context dctx [a, b]
      = some (MostSpecificCandidates.getOnly (a.toMostSpecificCandidate context)) := by
  have h : findMostSpecificIgnoringReturn dctx [a, b] true [] = some (some a, []) :=
    findMostSpecificIgnoringReturnWith_pair_first _ a b [] x hab hx
  simp only [computeMostSpecificCandidates, h]

theorem computeMostSpecificCandidates_pair_second (context : Context)
    (dctx : DisambiguationContext) (a b : DisambiguationCandidate) (x y : Int)
    (hab : compareSpecificity dctx a b true = some x) (hx : 0 < x)
    (hba : compareSpecificity dctx b a true = some y) (hy : y < 0) :
    computeMostSpecificCandidates context dctx [a, b]
      = some (MostSpecificCandidates.getOnly (b.toMostSpecificCandidate context)) := by
  have h : findMostSpecificIgnoringReturn dctx [a, b] true [] = some (some b, []) :=
    findMostSpecificIgnoringReturnWith_pair_second _ a b [] x y hab hx hba hy
  simp only [computeMostSpecificCandidates, h]

/-- A call with two candidates and no forwarding in which the first function
compares as more specific than the second and the second as less specific
than the first, and in which the argument filter does not abort: the first
function is the only result, in either order of the candidate list. -/
theorem findMostSpecificCandidates_pair (context : Context) (fnA fnB : TypedFnSignature)
    (call : CallInfo) (callInScope : Scope) (callInPoiScope : PoiScope) (x y : Int)
    (hargsAB : ∀ i j g, (compareSpecificityForArgs
      (DisambiguationContext.new context call callInScope callInPoiScope true)
      (DisambiguationCandidate.new context fnA QualifiedType.empty call 0)
      (DisambiguationCandidate.new context fnB QualifiedType.empty call 1) i j g).isSome)
    (hargsBA : ∀ i j g, (compareSpecificityForArgs
      (DisambiguationContext.new context call callInScope callInPoiScope true)
      (DisambiguationCandidate.new context fnB QualifiedType.empty call 1)
      (DisambiguationCandidate.new context fnA QualifiedType.empty call 0) i j g).isSome)
    (hAB : compareSpecificity
      (DisambiguationContext.new context call callInScope callInPoiScope true)
      (DisambiguationCandidate.new context fnA QualifiedType.empty call 0)
      (DisambiguationCandidate.new context fnB QualifiedType.empty call 1) true = some x)
    (hx : x < 0)
    (hBA : compareSpecificity
      (DisambiguationContext.new context call callInScope callInPoiScope true)
      (DisambiguationCandidate.new context fnB QualifiedType.empty call 1)
      (DisambiguationCandidate.new context fnA QualifiedType.empty call 0) true = some y)
    (hy : 0 < y) :
    findMostSpecificCandidates context [fnA, fnB] [] call callInScope callInPoiScope
      = some (MostSpecificCandidates.getOnly
          (MostSpecificCandidate.fromTypedFnSignatureCall context fnA call)) ∧
    findMostSpecificCandidates context [fnB, fnA] [] call callInScope callInPoiScope
      = some (MostSpecificCandidates.getOnly
          (MostSpecificCandidate.fromTypedFnSignatureCall context fnA call)) := by
  have sA : ∀ k, sameCandidate (DisambiguationCandidate.new context fnA QualifiedType.empty call 0)
      (DisambiguationCandidate.new context fnA QualifiedType.empty call k) :=
    fun _ => ⟨rfl, rfl, rfl⟩
  have sB : ∀ k, sameCandidate (DisambiguationCandidate.new context fnB QualifiedType.empty call 1)
      (DisambiguationCandidate.new context fnB QualifiedType.empty call k) :=
    fun _ => ⟨rfl, rfl, rfl⟩
  have trans : ∀ {p q r : DisambiguationCandidate}, sameCandidate p q → sameCandidate q r →
      sameCandidate p r := fun h1 h2 =>
    ⟨h2.1.trans h1.1, h2.2.1.trans h1.2.1, h2.2.2.trans h1.2.2⟩
  constructor
  · obtain ⟨a1, b1, m, ha1, hb1, hd⟩ := disambiguateDiscarding_pair
      (DisambiguationContext.new context call callInScope callInPoiScope true)
      (DisambiguationCandidate.new context fnA QualifiedType.empty call 0)
      (DisambiguationCandidate.new context fnB QualifiedType.empty call 1) true [false, false]
      hargsAB hargsBA
    have hc := computeMostSpecificCandidates_pair_first context
      (DisambiguationContext.new context call callInScope callInPoiScope true) a1 b1 x
      ((compareSpecificity_sameCandidate _ _ _ a1 b1 ha1 hb1 true).trans hAB) hx
    rw [toMostSpecificCandidate_sameCandidate context _ a1 ha1] at hc
    simp only [findMostSpecificCandidates, findMostSpecificCandidatesQuery,
      findMostSpecificCandidatesQuery.candidates, List.isEmpty_nil, if_true, List.length_cons,
      List.length_nil, List.replicate, hd]
    exact hc
  · obtain ⟨b1, a1, m, hb1, ha1, hd⟩ := disambiguateDiscarding_pair
      (DisambiguationContext.new context call callInScope callInPoiScope true)
      (DisambiguationCandidate.new context fnB QualifiedType.empty call 0)
      (DisambiguationCandidate.new context fnA QualifiedType.empty call 1) true [false, false]
      (fun i j g => by
        rw [compareSpecificityForArgs_sameCandidate _ _ _ _ _ (sB 0) (sA 1) i j i j g]
        exact hargsBA i j g)
      (fun i j g => by
        rw [compareSpecificityForArgs_sameCandidate _ _ _ _ _ (sA 1) (sB 0) i j i j g]
        exact hargsAB i j g)
    have hc := computeMostSpecificCandidates_pair_second context
      (DisambiguationContext.new context call callInScope callInPoiScope true) b1 a1 y x
      ((compareSpecificity_sameCandidate _ _ _ b1 a1 (trans (sB 0) hb1) (trans (sA 1) ha1)
        true).trans hBA) hy
      ((compareSpecificity_sameCandidate _ _ _ a1 b1 (trans (sA 1) ha1) (trans (sB 0) hb1)
        true).trans hAB) hx
    rw [toMostSpecificCandidate_sameCandidate context _ a1 (trans (sA 1) ha1)] at hc
    simp only [findMostSpecificCandidates, findMostSpecificCandidatesQuery,
      findMostSpecificCandidatesQuery.candidates, List.isEmpty_nil, if_true, List.length_cons,
      List.length_nil, List.replicate, hd]
    exact hc

/-! ### One-argument calls -/

theorem argPreferences_one (dctx : DisambiguationContext)
    (c1 c2 : DisambiguationCandidate) (hn : dctx.call.numActuals = 1) :
    argPreferences dctx c1 c2 = testArgMappingVoid dctx c1 c2 0 {} := by
  unfold argPreferences
  rw [hn]
  simp [List.range_succ]

theorem compareSpecificity_one (dctx : DisambiguationContext)
    (c1 c2 : DisambiguationCandidate) (ignoreWhere : Bool) (ds : DisambiguationState)
    (hn : dctx.call.numActuals = 1) (h : testArgMappingVoid dctx c1 c2 0 {} = some ds) :
    compareSpecificity dctx c1 c2 ignoreWhere =
      compareSpecificity.verdict ds (moreVisible dctx c1 c2) ignoreWhere
        (dctx.context.idIsFunctionWithWhere c1.fn.id)
        (dctx.context.idIsFunctionWithWhere c2.fn.id) := by
  rw [compareSpecificity_eq_verdict, argPreferences_one dctx c1 c2 hn, h]

theorem prefersNumericCoercion_isSome (f1Qt f2Qt actualQt : QualifiedType) (ta t1 t2 : Ty)
    (ha : actualQt.type = some ta) (h1 : f1Qt.type = some t1) (h2 : f2Qt.type = some t2) :
    ∃ p, prefersNumericCoercion f1Qt f2Qt actualQt = some p := by
  obtain ⟨wa, hwa⟩ := classifyNumericWidth_isSome actualQt ta ha
  obtain ⟨w1, hw1⟩ := classifyNumericWidth_isSome f1Qt t1 h1
  obtain ⟨w2, hw2⟩ := classifyNumericWidth_isSome f2Qt t2 h2
  simp only [prefersNumericCoercion, hwa, hw1, hw2, ha, h1, h2]
  split_ifs <;> exact ⟨_, rfl⟩

theorem isSome_ite_some {α : Type} (c : Prop) [Decidable c] (x : α) (o : Option α)
    (h : o.isSome = true) : (if c then some x else o).isSome = true := by
  split_ifs
  · rfl
  · exact h

theorem isSome_ite {α : Type} (c : Prop) [Decidable c] (a b : Option α)
    (ha : a.isSome = true) (hb : b.isSome = true) : (if c then a else b).isSome = true := by
  split_ifs
  · exact ha
  · exact hb

theorem testArgMapping_verdict_isSome (dctx : DisambiguationContext)
    (f1Type f2Type actualType actualScalarT : QualifiedType)
    (b1 b2 b3 b4 b5 b6 b7 b8 b9 b10 b11 b12 b13 : Bool) (p : Int)
    (h : prefersNumericCoercion f1Type f2Type actualScalarT = some p) :
    (testArgMapping.verdict dctx f1Type f2Type actualType actualScalarT
      b1 b2 b3 b4 b5 b6 b7 b8 b9 b10 b11 b12 b13).isSome = true := by
  unfold testArgMapping.verdict
  rw [h]
  repeat apply isSome_ite_some
  apply isSome_ite
  · repeat apply isSome_ite_some
    rfl
  · rfl

theorem testArgMapping_isSome (dctx : DisambiguationContext)
    (c1 c2 : DisambiguationCandidate) (k : Nat) (ds : DisambiguationState)
    (fa1 fa2 : FormalActual) (ta t1 t2 : Ty) (r1 r2 : Bool × Bool)
    (hfa1 : c1.formalActualMap.byActualIdx k = some fa1)
    (hfa2 : c2.formalActualMap.byActualIdx k = some fa2)
    (hactual : fa1.actualType = fa2.actualType)
    (hc1 : fa1.formalInstantiated = false) (hc2 : fa2.formalInstantiated = false)
    (hta : fa1.actualType.type = some ta)
    (ht1 : fa1.formalType.type = some t1) (ht2 : fa2.formalType.type = some t2)
    (hp1 : testArgMapHelper dctx fa1 c1.forwardingTo ds 1 = some r1)
    (hp2 : testArgMapHelper dctx fa2 c2.forwardingTo ds 2 = some r2) :
    (testArgMapping dctx c1 c2 k ds).isSome = true := by
  unfold testArgMapping
  rw [hfa1, hfa2]
  simp only [← hactual, ne_eq, not_true_eq_false, if_false, hc1, hc2, Bool.false_eq_true,
    hp1, hp2]
  obtain ⟨p, hp⟩ := prefersNumericCoercion_isSome fa1.formalType fa2.formalType
    fa1.actualType ta t1 t2 hta ht1 ht2
  apply isSome_ite_some
  apply testArgMapping_verdict_isSome dctx _ _ _ _ _ _ _ _ _ _ _ _ _ _ _ _ _ p
  split_ifs
  · exact hp
  · exact hp

theorem compareSpecificityForArgs_step_isSome (dctx : DisambiguationContext)
    (c1 c2 : DisambiguationCandidate) (st : DisambiguationState × Nat) (k : Nat)
    (fa1 fa2 : FormalActual)
    (hfa1 : c1.formalActualMap.byActualIdx k = some fa1)
    (hfa2 : c2.formalActualMap.byActualIdx k = some fa2)
    (h : (testArgMapping dctx c1 c2 k st.1).isSome = true) :
    (compareSpecificityForArgs.step dctx c1 c2 st k).isSome = true := by
  unfold compareSpecificityForArgs.step
  rw [hfa1, hfa2]
  cases hv : testArgMapping dctx c1 c2 k st.1 with
  | none => rw [hv] at h; exact absurd h (by simp)
  | some v =>
    simp only
    split_ifs <;> rfl

theorem compareSpecificityForArgs_one_isSome (dctx : DisambiguationContext)
    (c1 c2 : DisambiguationCandidate) (i j : Nat) (g : Bool) (fa1 fa2 : FormalActual)
    (hn : dctx.call.numActuals = 1)
    (hfa1 : c1.formalActualMap.byActualIdx 0 = some fa1)
    (hfa2 : c2.formalActualMap.byActualIdx 0 = some fa2)
    (h : (testArgMapping dctx c1 c2 0 {}).isSome = true) :
    (compareSpecificityForArgs dctx c1 c2 i j g).isSome = true := by
  have hstep := compareSpecificityForArgs_step_isSome dctx c1 c2 ({}, 0) 0 fa1 fa2 hfa1 hfa2 h
  have hfold : ((List.drop (if g = false then 0 else 2) (List.range 1)).foldlM
      (compareSpecificityForArgs.step dctx c1 c2) (({} : DisambiguationState), 0)).isSome
      = true := by
    cases g
    · cases hs : compareSpecificityForArgs.step dctx c1 c2 ({}, 0) 0 with
      | none => rw [hs] at hstep; exact absurd hstep (by simp)
      | some st => simp [List.range_succ, hs]
    · simp [List.range_succ]
  unfold compareSpecificityForArgs
  rw [hn]
  dsimp only
  generalize (List.drop (if g = false then 0 else 2) (List.range 1)).foldlM
      (compareSpecificityForArgs.step dctx c1 c2) (({} : DisambiguationState), 0) = r at hfold
  cases r with
  | none => exact absurd hfold (by simp)
  | some st =>
    dsimp only
    split_ifs <;> rfl

/-! ### The exact-match rule -/

theorem prefersConvToOtherNumeric_same_type (actualQt f1Qt f2Qt : QualifiedType)
    (h : actualQt.type = f1Qt.type ∨ actualQt.type = f2Qt.type) :
    prefersConvToOtherNumeric actualQt f1Qt f2Qt = some false := by
  unfold prefersConvToOtherNumeric
  have hc : ¬ (actualQt.type ≠ f1Qt.type ∧ actualQt.type ≠ f2Qt.type) := by
    rintro ⟨h1, h2⟩
    rcases h with h | h
    · exact h1 h
    · exact h2 h
  rw [if_neg hc]

open arg_preference_t in
/-- The decision chain of the state-updating comparison for a non-param
actual whose type is that of the first formal, two non-param concrete formals
of different types and no promotion or narrowing: the first formal is
strongly preferred, by the exact-type rule when it is the actual's qualified
type and by the can-dispatch rule otherwise. -/
theorem testArgMappingVoid_preference_exact_first (dctx : DisambiguationContext)
    (f1Type f2Type actualType : QualifiedType)
    (hty1 : f1Type.type = actualType.type) (hty2 : f2Type.type ≠ actualType.type)
    (hmatch : f1Type = actualType ∨
      (moreSpecificCanDispatch dctx f1Type f2Type = true ∧
        moreSpecificCanDispatch dctx f2Type f1Type = false)) :
    testArgMappingVoid.preference dctx f1Type f2Type actualType actualType
        false false false false false false false false false false false false false false
      = some (STRONG, NONE) ∧
    testArgMappingVoid.preference dctx f2Type f1Type actualType actualType
        false false false false false false false false false false false false false false
      = some (NONE, STRONG) := by
  have hne2 : ¬ actualType = f2Type := fun h => hty2 (by rw [h])
  have hne12 : ¬ f1Type = f2Type := fun h => hty2 (by rw [← h, hty1])
  have hne21 : ¬ f2Type = f1Type := fun h => hne12 h.symm
  have hconv1 := prefersConvToOtherNumeric_same_type actualType f1Type f2Type (Or.inl hty1.symm)
  have hconv2 := prefersConvToOtherNumeric_same_type actualType f2Type f1Type (Or.inr hty1.symm)
  unfold testArgMappingVoid.preference
  simp only [Bool.false_eq_true, not_false_eq_true, not_true_eq_false, and_false, false_and,
    and_true, true_and, if_false, if_true, ne_eq, hconv1, hconv2, hne2, hne12, hne21]
  rcases hmatch with heq | ⟨hd1, hd2⟩
  · have heq2 : actualType = f1Type := heq.symm
    simp only [heq2, if_true, and_self]
  · by_cases heq : actualType = f1Type
    · simp only [heq, if_true, and_self]
    · simp only [heq, if_false, hd1, hd2, if_true, Bool.false_eq_true, and_self]

/-- The state-updating comparison at actual 0 in the setting of the
exact-match rule: a strong preference is recorded for the candidate whose
formal has the type of the actual, whichever side it is on. -/
theorem testArgMappingVoid_exact (dctx : DisambiguationContext)
    (c1 c2 : DisambiguationCandidate) (ds : DisambiguationState) (fa1 fa2 : FormalActual)
    (hfa1 : c1.formalActualMap.byActualIdx 0 = some fa1)
    (hfa2 : c2.formalActualMap.byActualIdx 0 = some fa2)
    (hactual : fa2.actualType = fa1.actualType)
    (haparam : fa1.actualType.param = none)
    (hty1 : fa1.formalType.type = fa1.actualType.type)
    (hty2 : fa2.formalType.type ≠ fa1.actualType.type)
    (hparam1 : fa1.formalType.param = none) (hparam2 : fa2.formalType.param = none)
    (hout1 : fa1.formalType.kind ≠ Kind.OUT) (hout2 : fa2.formalType.kind ≠ Kind.OUT)
    (hc1 : fa1.formalInstantiated = false) (hc2 : fa2.formalInstantiated = false)
    (hgen : dctx.context.getTypeGenericity fa1.formalType = Genericity.CONCRETE)
    (hpass1 : testArgMapHelper dctx fa1 c1.forwardingTo ds 1 = some (false, false))
    (hpass2 : testArgMapHelper dctx fa2 c2.forwardingTo ds 2 = some (false, false))
    (hpass1b : testArgMapHelper dctx fa1 c1.forwardingTo ds 2 = some (false, false))
    (hpass2b : testArgMapHelper dctx fa2 c2.forwardingTo ds 1 = some (false, false))
    (hmatch : fa1.formalType = fa1.actualType ∨
      (moreSpecificCanDispatch dctx fa1.formalType fa2.formalType = true ∧
        moreSpecificCanDispatch dctx fa2.formalType fa1.formalType = false)) :
    testArgMappingVoid dctx c1 c2 0 ds = some { ds with fn1MoreSpecific := true } ∧
    testArgMappingVoid dctx c2 c1 0 ds = some { ds with fn2MoreSpecific := true } := by
  obtain ⟨hp1, hp2⟩ := testArgMappingVoid_preference_exact_first dctx fa1.formalType
    fa2.formalType fa1.actualType hty1 hty2 hmatch
  have hout : ¬ (fa1.formalType.kind = Kind.OUT ∨ fa2.formalType.kind = Kind.OUT) := by
    rintro (h | h)
    · exact hout1 h
    · exact hout2 h
  have hout3 : ¬ (fa2.formalType.kind = Kind.OUT ∨ fa1.formalType.kind = Kind.OUT) := by
    rintro (h | h)
    · exact hout2 h
    · exact hout1 h
  have hinit : ¬ ((dctx.call.name = "init" ∨ dctx.call.name = "init=") ∧
      fa1.formalName = some "this" ∧ fa2.formalName = some "this" ∧
      dctx.context.getTypeGenericity fa1.formalType ≠ Genericity.CONCRETE ∧
      dctx.context.getTypeGenericity fa2.formalType ≠ Genericity.CONCRETE) :=
    fun h => h.2.2.2.1 hgen
  have hinit2 : ¬ ((dctx.call.name = "init" ∨ dctx.call.name = "init=") ∧
      fa2.formalName = some "this" ∧ fa1.formalName = some "this" ∧
      dctx.context.getTypeGenericity fa2.formalType ≠ Genericity.CONCRETE ∧
      dctx.context.getTypeGenericity fa1.formalType ≠ Genericity.CONCRETE) :=
    fun h => h.2.2.2.2 hgen
  have hap : fa1.actualType.hasParamPtr = false := by
    simp [QualifiedType.hasParamPtr, haparam]
  have hfp1 : fa1.formalType.hasParamPtr = false := by
    simp [QualifiedType.hasParamPtr, hparam1]
  have hfp2 : fa2.formalType.hasParamPtr = false := by
    simp [QualifiedType.hasParamPtr, hparam2]
  constructor
  · unfold testArgMappingVoid
    rw [hfa1, hfa2]
    simp only [hactual, ne_eq, not_true_eq_false, if_false, hc1, hc2, Bool.false_eq_true,
      hpass1, hpass2, hap, hfp1, hfp2, or_self, hp1, if_neg hout, if_neg hinit]
    rfl
  · unfold testArgMappingVoid
    rw [hfa1, hfa2]
    simp only [hactual, ne_eq, not_true_eq_false, if_false, hc1, hc2, Bool.false_eq_true,
      hpass1b, hpass2b, hap, hfp1, hfp2, or_self, hp2, if_neg hout3, if_neg hinit2]
    rfl

theorem testArgMapHelper_no_forwarding (dctx : DisambiguationContext) (fa : FormalActual)
    (ds : DisambiguationState) (fnNum : Nat) (narrows : Bool)
    (h : dctx.context.canPass fa.actualType fa.formalType
      = { passes := true, promotes := false, convertsWithParamNarrowing := narrows }) :
    testArgMapHelper dctx fa QualifiedType.empty ds fnNum = some (false, narrows) := by
  simp [testArgMapHelper, QualifiedType.empty, h]

theorem compareSpecificity_verdict_strong_first (mv : MoreVisibleResult)
    (ignoreWhere w1 w2 : Bool) :
    compareSpecificity.verdict { fn1MoreSpecific := true } mv ignoreWhere w1 w2 = some (-1) ∧
    compareSpecificity.verdict { fn2MoreSpecific := true } mv ignoreWhere w1 w2 = some 1 :=
  ⟨rfl, rfl⟩

/-- C15: for a one-argument call without forwarding whose actual is a
non-param value of type `int(8)`, and two concrete candidates whose formals
are non-param, not of `out` intent and of the types `int` (default width) and
`int(8)`, to both of which the actual passes without promotion (and, not
being a param, without param narrowing), where the `int(8)` formal is the
qualified type of the actual or else the conversion oracle lets `int(8)` pass
to `int` and not `int` to `int(8)`: `findMostSpecificCandidates` returns only
the `int(8)` candidate, in either order of the candidate list, whatever the
scopes of the call and the scope lookup are. -/
theorem findMostSpecificCandidates_exact_match (context : Context)
    (fn8 fnInt : TypedFnSignature) (call : CallInfo) (callInScope : Scope)
    (callInPoiScope : PoiScope) (fa8 faInt : FormalActual) (t8 tInt : Ty)
    (hn : call.numActuals = 1)
    (hmap8 : (context.formalActualMap fn8 call).byActualIdx 0 = some fa8)
    (hmapInt : (context.formalActualMap fnInt call).byActualIdx 0 = some faInt)
    (hactual : faInt.actualType = fa8.actualType)
    (hvalue : fa8.actualType.kind ≠ Kind.PARAM ∧ fa8.actualType.param = none)
    (hat : fa8.actualType.type = some t8)
    (ht8 : t8.tag = TypeTag.IntType ∧ t8.width = 8 ∧ t8.defaultWidth = false)
    (htInt : tInt.tag = TypeTag.IntType ∧ tInt.defaultWidth = true)
    (hf8 : fa8.formalType.type = some t8 ∧ fa8.formalType.param = none ∧
      fa8.formalType.kind ≠ Kind.OUT)
    (hfInt : faInt.formalType.type = some tInt ∧ faInt.formalType.param = none ∧
      faInt.formalType.kind ≠ Kind.OUT)
    (hconcrete : fa8.formalInstantiated = false ∧ faInt.formalInstantiated = false ∧
      context.getTypeGenericity fa8.formalType = Genericity.CONCRETE)
    (hpass8 : context.canPass fa8.actualType fa8.formalType
      = { passes := true, promotes := false, convertsWithParamNarrowing := false })
    (hpassInt : context.canPass fa8.actualType faInt.formalType
      = { passes := true, promotes := false, convertsWithParamNarrowing := false })
    (hmatch : fa8.formalType = fa8.actualType ∨
      ((context.canPass fa8.formalType faInt.formalType).passes = true ∧
        (context.canPass faInt.formalType fa8.formalType).passes = false)) :
    findMostSpecificCandidates context [fnInt, fn8] [] call callInScope callInPoiScope
      = some (MostSpecificCandidates.getOnly
          (MostSpecificCandidate.fromTypedFnSignatureCall context fn8 call)) ∧
    findMostSpecificCandidates context [fn8, fnInt] [] call callInScope callInPoiScope
      = some (MostSpecificCandidates.getOnly
          (MostSpecificCandidate.fromTypedFnSignatureCall context fn8 call)) := by
  have htne : tInt ≠ t8 := by
    intro h
    have := ht8.2.2
    rw [← h, htInt.2] at this
    exact absurd this (by decide)
  have hty2 : faInt.formalType.type ≠ fa8.actualType.type := by
    rw [hfInt.1, hat]
    exact fun h => htne (Option.some.inj h)
  have hh8 : ∀ ds k, testArgMapHelper
      (DisambiguationContext.new context call callInScope callInPoiScope true) fa8
      QualifiedType.empty ds k = some (false, false) :=
    fun ds k => testArgMapHelper_no_forwarding _ fa8 ds k false hpass8
  have hhInt : ∀ ds k, testArgMapHelper
      (DisambiguationContext.new context call callInScope callInPoiScope true) faInt
      QualifiedType.empty ds k = some (false, false) :=
    fun ds k => testArgMapHelper_no_forwarding _ faInt ds k false (by rw [hactual]; exact hpassInt)
  obtain ⟨hv1, hv2⟩ := testArgMappingVoid_exact
    (DisambiguationContext.new context call callInScope callInPoiScope true)
    (DisambiguationCandidate.new context fn8 QualifiedType.empty call 0)
    (DisambiguationCandidate.new context fnInt QualifiedType.empty call 1) {} fa8 faInt
    hmap8 hmapInt hactual hvalue.2 (hf8.1.trans hat.symm) hty2 hf8.2.1 hfInt.2.1 hf8.2.2
    hfInt.2.2 hconcrete.1 hconcrete.2.1 hconcrete.2.2 (hh8 _ _) (hhInt _ _) (hh8 _ _)
    (hhInt _ _) hmatch
  have hswap := findMostSpecificCandidates_pair context fn8 fnInt call callInScope
    callInPoiScope (-1) 1
    (fun i j g => compareSpecificityForArgs_one_isSome _ _ _ i j g fa8 faInt hn hmap8 hmapInt
      (testArgMapping_isSome _ _ _ 0 {} fa8 faInt t8 t8 tInt _ _ hmap8 hmapInt hactual.symm
        hconcrete.1 hconcrete.2.1 hat hf8.1 hfInt.1 (hh8 _ _) (hhInt _ _)))
    (fun i j g => compareSpecificityForArgs_one_isSome _ _ _ i j g faInt fa8 hn hmapInt hmap8
      (testArgMapping_isSome _ _ _ 0 {} faInt fa8 t8 tInt t8 _ _ hmapInt hmap8 hactual
        hconcrete.2.1 hconcrete.1 (by rw [hactual]; exact hat) hfInt.1 hf8.1 (hhInt _ _)
        (hh8 _ _)))
    ((compareSpecificity_one _ _ _ true _ hn hv1).trans
      (compareSpecificity_verdict_strong_first _ _ _ _).1) (by decide)
    ((compareSpecificity_one _ _ _ true _ hn hv2).trans
      (compareSpecificity_verdict_strong_first _ _ _ _).2) (by decide)
  exact ⟨hswap.2, hswap.1⟩

open Sample in
/-- C15 at a concrete input: the call `f(myInt8)` made in scope 1, where the
overload `f(x: int)` is the more visible one; `int(8)` passes to `int` and not
`int` to `int(8)`. -/
theorem findMostSpecificCandidates_exact_match_witness :
    findMostSpecificCandidates (widthContext int8VarActual intTy int8Ty)
        [fnWidth 70, fnWidth 71] [] callF innerScope []
      = some (MostSpecificCandidates.getOnly
          (MostSpecificCandidate.fromTypedFnSignatureCall
            (widthContext int8VarActual intTy int8Ty) (fnWidth 71) callF)) ∧
    findMostSpecificCandidates (widthContext int8VarActual intTy int8Ty)
        [fnWidth 71, fnWidth 70] [] callF innerScope []
      = some (MostSpecificCandidates.getOnly
          (MostSpecificCandidate.fromTypedFnSignatureCall
            (widthContext int8VarActual intTy int8Ty) (fnWidth 71) callF)) :=
  findMostSpecificCandidates_exact_match (widthContext int8VarActual intTy int8Ty)
    (fnWidth 71) (fnWidth 70) callF innerScope [] (widthFormal int8Ty int8VarActual)
    (widthFormal intTy int8VarActual) int8Ty intTy rfl rfl rfl rfl (by decide) rfl
    (by decide) (by decide) (by decide) (by decide) (by decide) (by decide) (by decide)
    (by decide)

/-! ### Symmetry of the visibility comparison -/

theorem checkVisibilityInVec_swap (context : Context) (vec : List (List ID)) (fn1Id fn2Id : ID) :
    checkVisibilityInVec context vec fn2Id fn1Id
      = (checkVisibilityInVec context vec fn1Id fn2Id).swap := by
  unfold checkVisibilityInVec
  simp only
  cases vec.any (fun borrowedIds => borrowedIds.any (fun id => id == fn1Id)) <;>
    cases vec.any (fun borrowedIds => borrowedIds.any (fun id => id == fn2Id)) <;> rfl

theorem MoreVisibleResult.swap_eq_neither (r : MoreVisibleResult) :
    r.swap = MoreVisibleResult.FOUND_NEITHER ↔ r = MoreVisibleResult.FOUND_NEITHER := by
  cases r <;> simp [MoreVisibleResult.swap]

theorem computeIsMoreVisible_swap (context : Context) (callName : UniqueString)
    (curScope : Scope) (fn1Id fn2Id : ID) :
    computeIsMoreVisible context callName curScope fn2Id fn1Id
      = (computeIsMoreVisible context callName curScope fn1Id fn2Id).swap := by
  induction curScope with
  | root i b =>
    unfold computeIsMoreVisible
    simp only [checkVisibilityInVec_swap context _ fn1Id fn2Id]
    generalize checkVisibilityInVec context (context.lookupNameInScope (Scope.root i b) callName
      { lookupDecls := true, lookupImportAndUse := false, lookupMethods := true,
        skipShadowScopes := false, skipPrivateUseImport := false }) fn1Id fn2Id = d
    generalize checkVisibilityInVec context (context.lookupNameInScope (Scope.root i b) callName
      { lookupDecls := false, lookupImportAndUse := true, lookupMethods := true,
        skipShadowScopes := false, skipPrivateUseImport := false }) fn1Id fn2Id = u
    cases d <;> cases u <;> cases (Scope.root i b).containsUseImport <;>
      simp [MoreVisibleResult.swap]
  | child i b p ih =>
    unfold computeIsMoreVisible
    simp only [checkVisibilityInVec_swap context _ fn1Id fn2Id, ih]
    generalize checkVisibilityInVec context (context.lookupNameInScope (Scope.child i b p)
      callName
      { lookupDecls := true, lookupImportAndUse := false, lookupMethods := true,
        skipShadowScopes := false, skipPrivateUseImport := false }) fn1Id fn2Id = d
    generalize checkVisibilityInVec context (context.lookupNameInScope (Scope.child i b p)
      callName
      { lookupDecls := false, lookupImportAndUse := true, lookupMethods := true,
        skipShadowScopes := false, skipPrivateUseImport := false }) fn1Id fn2Id = u
    cases d <;> cases u <;> cases (Scope.child i b p).containsUseImport <;>
      simp [MoreVisibleResult.swap]

theorem moreVisiblePoiLoop_swap (context : Context) (callName : UniqueString)
    (fn1Id fn2Id : ID) (poi : PoiScope) (result : MoreVisibleResult) :
    moreVisiblePoiLoop context callName fn2Id fn1Id poi result.swap
      = (moreVisiblePoiLoop context callName fn1Id fn2Id poi result).swap := by
  induction poi generalizing result with
  | nil => rfl
  | cons s rest ih =>
    unfold moreVisiblePoiLoop
    by_cases h : result = MoreVisibleResult.FOUND_NEITHER
    · subst h
      simp only [MoreVisibleResult.swap, ne_eq, not_true_eq_false, if_false]
      rw [computeIsMoreVisible_swap, ih]
      rfl
    · have h2 : ¬ result.swap = MoreVisibleResult.FOUND_NEITHER :=
        fun h3 => h ((MoreVisibleResult.swap_eq_neither result).1 h3)
      simp only [ne_eq, h, h2, not_false_eq_true, if_true]

theorem moreVisible_swap (dctx : DisambiguationContext) (a b : DisambiguationCandidate) :
    moreVisible dctx b a = (moreVisible dctx a b).swap := by
  unfold moreVisible moreVisibleQuery
  by_cases h : a.fn.untyped.isMethod = true ∧ b.fn.untyped.isMethod = true
  · rw [if_pos h, if_pos ⟨h.2, h.1⟩]
    rfl
  · have h2 : ¬ (b.fn.untyped.isMethod = true ∧ a.fn.untyped.isMethod = true) :=
      fun h3 => h ⟨h3.2, h3.1⟩
    rw [if_neg h, if_neg h2, computeIsMoreVisible_swap, moreVisiblePoiLoop_swap]

/-! ### A default-width literal passed to `real(32)` and `real(64)` -/

theorem literal_prefers_default_real (actualQt f32Qt f64Qt : QualifiedType)
    (tInt t32 t64 : Ty) (ha : actualQt.type = some tInt) (h32 : f32Qt.type = some t32)
    (h64 : f64Qt.type = some t64)
    (htInt : tInt.tag = TypeTag.IntType ∧ tInt.defaultWidth = true)
    (ht32 : t32.tag = TypeTag.RealType ∧ t32.width = 32 ∧ t32.defaultWidth = false)
    (ht64 : t64.tag = TypeTag.RealType ∧ t64.width = 64 ∧ t64.defaultWidth = true) :
    prefersNumericCoercion f64Qt f32Qt actualQt = some 1 ∧
    prefersNumericCoercion f32Qt f64Qt actualQt = some 2 ∧
    prefersConvToOtherNumeric actualQt f64Qt f32Qt = some true ∧
    prefersConvToOtherNumeric actualQt f32Qt f64Qt = some false := by
  obtain ⟨ka, ta, pa⟩ := actualQt
  obtain ⟨k32, t32o, p32⟩ := f32Qt
  obtain ⟨k64, t64o, p64⟩ := f64Qt
  obtain ⟨tagI, wI, dI, uI⟩ := tInt
  obtain ⟨tag32, w32, d32, u32⟩ := t32
  obtain ⟨tag64, w64, d64, u64⟩ := t64
  simp only at ha h32 h64 htInt ht32 ht64
  obtain ⟨rfl, rfl⟩ := htInt
  obtain ⟨rfl, rfl, rfl⟩ := ht32
  obtain ⟨rfl, rfl, rfl⟩ := ht64
  subst ha h32 h64
  exact ⟨rfl, rfl, rfl, rfl⟩

open arg_preference_t in
theorem testArgMappingVoid_preference_literal (dctx : DisambiguationContext)
    (f1Type f2Type actualType : QualifiedType)
    (hne : f1Type ≠ f2Type) (hne1 : actualType ≠ f1Type) (hne2 : actualType ≠ f2Type)
    (hconv1 : prefersConvToOtherNumeric actualType f1Type f2Type = some true)
    (hconv2 : prefersConvToOtherNumeric actualType f2Type f1Type = some false) :
    testArgMappingVoid.preference dctx f1Type f2Type actualType actualType
        false false false false false false false false true true false false false false
      = some (WEAKEST, NONE) ∧
    testArgMappingVoid.preference dctx f2Type f1Type actualType actualType
        false false false false false false false false true true false false false false
      = some (NONE, WEAKEST) := by
  have hne21 : ¬ f2Type = f1Type := fun h => hne h.symm
  unfold testArgMappingVoid.preference
  simp only [Bool.false_eq_true, not_false_eq_true, not_true_eq_false, and_false, false_and,
    and_true, true_and, if_false, if_true, ne_eq, hconv1, hconv2, eq_false hne, eq_false hne1,
    eq_false hne2, eq_false hne21, and_self]

theorem testArgMapping_verdict_literal (dctx : DisambiguationContext)
    (f1Type f2Type actualType : QualifiedType) (actualParam : Bool)
    (hne : f1Type ≠ f2Type)
    (h1 : prefersNumericCoercion f1Type f2Type actualType = some 1)
    (h2 : prefersNumericCoercion f2Type f1Type actualType = some 2) :
    testArgMapping.verdict dctx f1Type f2Type actualType actualType
        false false false false false false false false actualParam false false false false
      = some 1 ∧
    testArgMapping.verdict dctx f2Type f1Type actualType actualType
        false false false false false false false false actualParam false false false false
      = some 2 := by
  have hne21 : ¬ f2Type = f1Type := fun h => hne h.symm
  unfold testArgMapping.verdict
  simp only [Bool.false_eq_true, not_false_eq_true, not_true_eq_false, and_false, false_and,
    and_true, true_and, if_false, if_true, ne_eq, h1, h2, eq_false hne, eq_false hne21,
    and_self]
  rfl

theorem compareSpecificity_verdict_weakest_first (mv : MoreVisibleResult)
    (ignoreWhere w1 w2 : Bool) (h1 : mv ≠ MoreVisibleResult.FOUND_F1_FIRST)
    (h2 : mv ≠ MoreVisibleResult.FOUND_F2_FIRST) :
    compareSpecificity.verdict { fn1WeakestPreferred := true } mv ignoreWhere w1 w2
      = some (-1) ∧
    compareSpecificity.verdict { fn2WeakestPreferred := true } mv ignoreWhere w1 w2
      = some 1 := by
  cases mv
  · exact absurd rfl h1
  · exact absurd rfl h2
  · exact ⟨rfl, rfl⟩
  · exact ⟨rfl, rfl⟩

/-- The two per-argument comparisons at actual 0 for a param actual of
default width passed to two non-param concrete formals of different types,
neither the actual's, without promotion or narrowing, when both numeric
helpers prefer the formal of the first candidate: the int-returning
comparison returns the side of that candidate and the state-updating one
records a weakest preference for it. -/
theorem testArgMapping_literal (dctx : DisambiguationContext)
    (c1 c2 : DisambiguationCandidate) (ds : DisambiguationState) (fa1 fa2 : FormalActual)
    (hfa1 : c1.formalActualMap.byActualIdx 0 = some fa1)
    (hfa2 : c2.formalActualMap.byActualIdx 0 = some fa2)
    (hactual : fa2.actualType = fa1.actualType)
    (haparam : fa1.actualType.hasParamPtr = true)
    (hdefault : isNumericParamDefaultType fa1.actualType = true)
    (hne : fa1.formalType ≠ fa2.formalType)
    (hne1 : fa1.actualType ≠ fa1.formalType) (hne2 : fa1.actualType ≠ fa2.formalType)
    (hparam1 : fa1.formalType.hasParamPtr = false)
    (hparam2 : fa2.formalType.hasParamPtr = false)
    (hout1 : fa1.formalType.kind ≠ Kind.OUT) (hout2 : fa2.formalType.kind ≠ Kind.OUT)
    (hc1 : fa1.formalInstantiated = false) (hc2 : fa2.formalInstantiated = false)
    (hgen : dctx.context.getTypeGenericity fa1.formalType = Genericity.CONCRETE)
    (hpass1 : ∀ k, testArgMapHelper dctx fa1 c1.forwardingTo ds k = some (false, false))
    (hpass2 : ∀ k, testArgMapHelper dctx fa2 c2.forwardingTo ds k = some (false, false))
    (hnum1 : prefersNumericCoercion fa1.formalType fa2.formalType fa1.actualType = some 1)
    (hnum2 : prefersNumericCoercion fa2.formalType fa1.formalType fa1.actualType = some 2)
    (hconv1 : prefersConvToOtherNumeric fa1.actualType fa1.formalType fa2.formalType
      = some true)
    (hconv2 : prefersConvToOtherNumeric fa1.actualType fa2.formalType fa1.formalType
      = some false) :
    testArgMapping dctx c1 c2 0 ds = some 1 ∧
    testArgMapping dctx c2 c1 0 ds = some 2 ∧
    testArgMappingVoid dctx c1 c2 0 ds = some { ds with fn1WeakestPreferred := true } ∧
    testArgMappingVoid dctx c2 c1 0 ds = some { ds with fn2WeakestPreferred := true } := by
  obtain ⟨hp1, hp2⟩ := testArgMappingVoid_preference_literal dctx fa1.formalType
    fa2.formalType fa1.actualType hne hne1 hne2 hconv1 hconv2
  obtain ⟨hv1, hv2⟩ := testArgMapping_verdict_literal dctx fa1.formalType fa2.formalType
    fa1.actualType fa1.actualType.isParam hne hnum1 hnum2
  have hout : ¬ (fa1.formalType.kind = Kind.OUT ∨ fa2.formalType.kind = Kind.OUT) := by
    rintro (h | h)
    · exact hout1 h
    · exact hout2 h
  have hout3 : ¬ (fa2.formalType.kind = Kind.OUT ∨ fa1.formalType.kind = Kind.OUT) := by
    rintro (h | h)
    · exact hout2 h
    · exact hout1 h
  have hinit : ¬ ((dctx.call.name = "init" ∨ dctx.call.name = "init=") ∧
      fa1.formalName = some "this" ∧ fa2.formalName = some "this" ∧
      dctx.context.getTypeGenericity fa1.formalType ≠ Genericity.CONCRETE ∧
      dctx.context.getTypeGenericity fa2.formalType ≠ Genericity.CONCRETE) :=
    fun h => h.2.2.2.1 hgen
  have hinit2 : ¬ ((dctx.call.name = "init" ∨ dctx.call.name = "init=") ∧
      fa2.formalName = some "this" ∧ fa1.formalName = some "this" ∧
      dctx.context.getTypeGenericity fa2.formalType ≠ Genericity.CONCRETE ∧
      dctx.context.getTypeGenericity fa1.formalType ≠ Genericity.CONCRETE) :=
    fun h => h.2.2.2.2 hgen
  refine ⟨?_, ?_, ?_, ?_⟩
  · unfold testArgMapping
    rw [hfa1, hfa2]
    simp only [hactual, ne_eq, not_true_eq_false, if_false, hc1, hc2, Bool.false_eq_true,
      hpass1, hpass2, hparam1, hparam2, or_self, hv1, if_neg hout]
  · unfold testArgMapping
    rw [hfa1, hfa2]
    simp only [hactual, ne_eq, not_true_eq_false, if_false, hc1, hc2, Bool.false_eq_true,
      hpass1, hpass2, hparam1, hparam2, or_self, hv2, if_neg hout3]
  · unfold testArgMappingVoid
    rw [hfa1, hfa2]
    simp only [hactual, ne_eq, not_true_eq_false, if_false, hc1, hc2, Bool.false_eq_true,
      hpass1, hpass2, haparam, hdefault, hparam1, hparam2, or_self, hp1, if_neg hout,
      if_neg hinit, if_true]
    rfl
  · unfold testArgMappingVoid
    rw [hfa1, hfa2]
    simp only [hactual, ne_eq, not_true_eq_false, if_false, hc1, hc2, Bool.false_eq_true,
      hpass1, hpass2, haparam, hdefault, hparam1, hparam2, or_self, hp2, if_neg hout3,
      if_neg hinit2, if_true]
    rfl

/-- C17: for a one-argument call without forwarding whose actual is a param
of the default-width `int` type, and two concrete candidates, neither found
before the other by `moreVisible`, whose formals are non-param, not of `out`
intent and of the types `real(32)` and `real(64)` (the default width), to both
of which the actual passes without promotion and without param narrowing:
`prefersNumericCoercion` returns the side of the `real(64)` formal in either
order, `prefersConvToOtherNumeric` is true for `real(64)` over `real(32)` and
false for `real(32)` over `real(64)`; the int-returning `testArgMapping`
returns the side of the `real(64)` candidate and the state-updating one
records a weakest preference for it, in either order; and
`findMostSpecificCandidates` returns only the `real(64)` candidate, in either
order of the candidate list. -/
theorem findMostSpecificCandidates_literal_real (context : Context)
    (fn32 fn64 : TypedFnSignature) (call : CallInfo) (callInScope : Scope)
    (callInPoiScope : PoiScope) (fa32 fa64 : FormalActual) (tInt t32 t64 : Ty) (value : Int)
    (hn : call.numActuals = 1)
    (hmap32 : (context.formalActualMap fn32 call).byActualIdx 0 = some fa32)
    (hmap64 : (context.formalActualMap fn64 call).byActualIdx 0 = some fa64)
    (hactual : fa32.actualType = fa64.actualType)
    (hliteral : fa64.actualType.kind = Kind.PARAM ∧ fa64.actualType.param = some value ∧
      fa64.actualType.type = some tInt)
    (htInt : tInt.tag = TypeTag.IntType ∧ tInt.defaultWidth = true)
    (ht32 : t32.tag = TypeTag.RealType ∧ t32.width = 32 ∧ t32.defaultWidth = false)
    (ht64 : t64.tag = TypeTag.RealType ∧ t64.width = 64 ∧ t64.defaultWidth = true)
    (hf32 : fa32.formalType.type = some t32 ∧ fa32.formalType.param = none ∧
      fa32.formalType.kind ≠ Kind.OUT)
    (hf64 : fa64.formalType.type = some t64 ∧ fa64.formalType.param = none ∧
      fa64.formalType.kind ≠ Kind.OUT)
    (hconcrete : fa32.formalInstantiated = false ∧ fa64.formalInstantiated = false ∧
      context.getTypeGenericity fa64.formalType = Genericity.CONCRETE)
    (hpass32 : context.canPass fa64.actualType fa32.formalType
      = { passes := true, promotes := false, convertsWithParamNarrowing := false })
    (hpass64 : context.canPass fa64.actualType fa64.formalType
      = { passes := true, promotes := false, convertsWithParamNarrowing := false })
    (hvisible :
      moreVisible (DisambiguationContext.new context call callInScope callInPoiScope true)
          (DisambiguationCandidate.new context fn64 QualifiedType.empty call 0)
          (DisambiguationCandidate.new context fn32 QualifiedType.empty call 1)
        ≠ MoreVisibleResult.FOUND_F1_FIRST ∧
      moreVisible (DisambiguationContext.new context call callInScope callInPoiScope true)
          (DisambiguationCandidate.new context fn64 QualifiedType.empty call 0)
          (DisambiguationCandidate.new context fn32 QualifiedType.empty call 1)
        ≠ MoreVisibleResult.FOUND_F2_FIRST) :
    prefersNumericCoercion fa64.formalType fa32.formalType fa64.actualType = some 1 ∧
    prefersNumericCoercion fa32.formalType fa64.formalType fa64.actualType = some 2 ∧
    prefersConvToOtherNumeric fa64.actualType fa64.formalType fa32.formalType = some true ∧
    prefersConvToOtherNumeric fa64.actualType fa32.formalType fa64.formalType = some false ∧
    testArgMapping (DisambiguationContext.new context call callInScope callInPoiScope true)
        (DisambiguationCandidate.new context fn64 QualifiedType.empty call 0)
        (DisambiguationCandidate.new context fn32 QualifiedType.empty call 1) 0 {} = some 1 ∧
    testArgMapping (DisambiguationContext.new context call callInScope callInPoiScope true)
        (DisambiguationCandidate.new context fn32 QualifiedType.empty call 1)
        (DisambiguationCandidate.new context fn64 QualifiedType.empty call 0) 0 {} = some 2 ∧
    testArgMappingVoid (DisambiguationContext.new context call callInScope callInPoiScope true)
        (DisambiguationCandidate.new context fn64 QualifiedType.empty call 0)
        (DisambiguationCandidate.new context fn32 QualifiedType.empty call 1) 0 {}
      = some { fn1WeakestPreferred := true } ∧
    testArgMappingVoid (DisambiguationContext.new context call callInScope callInPoiScope true)
        (DisambiguationCandidate.new context fn32 QualifiedType.empty call 1)
        (DisambiguationCandidate.new context fn64 QualifiedType.empty call 0) 0 {}
      = some { fn2WeakestPreferred := true } ∧
    findMostSpecificCandidates context [fn32, fn64] [] call callInScope callInPoiScope
      = some (MostSpecificCandidates.getOnly
          (MostSpecificCandidate.fromTypedFnSignatureCall context fn64 call)) ∧
    findMostSpecificCandidates context [fn64, fn32] [] call callInScope callInPoiScope
      = some (MostSpecificCandidates.getOnly
          (MostSpecificCandidate.fromTypedFnSignatureCall context fn64 call)) := by
  obtain ⟨hnum1, hnum2, hconv1, hconv2⟩ := literal_prefers_default_real fa64.actualType
    fa32.formalType fa64.formalType tInt t32 t64 hliteral.2.2 hf32.1 hf64.1 htInt ht32 ht64
  have hne : fa64.formalType ≠ fa32.formalType := by
    intro h
    have h2 : some t64 = some t32 := by rw [← hf64.1, ← hf32.1, h]
    have h3 := congrArg Ty.defaultWidth (Option.some.inj h2)
    rw [ht64.2.2, ht32.2.2] at h3
    exact absurd h3 (by decide)
  have hne1 : fa64.actualType ≠ fa64.formalType := by
    intro h
    have h2 : some tInt = some t64 := by rw [← hliteral.2.2, ← hf64.1, h]
    have h3 := congrArg Ty.tag (Option.some.inj h2)
    rw [htInt.1, ht64.1] at h3
    exact absurd h3 (by decide)
  have hne2 : fa64.actualType ≠ fa32.formalType := by
    intro h
    have h2 : some tInt = some t32 := by rw [← hliteral.2.2, ← hf32.1, h]
    have h3 := congrArg Ty.tag (Option.some.inj h2)
    rw [htInt.1, ht32.1] at h3
    exact absurd h3 (by decide)
  have hap : fa64.actualType.hasParamPtr = true := by
    simp [QualifiedType.hasParamPtr, hliteral.2.1]
  have hdef : isNumericParamDefaultType fa64.actualType = true := by
    simp [isNumericParamDefaultType, hliteral.2.2, Ty.isPrimitiveType, Ty.isIntType, htInt.1,
      htInt.2]
  have hfp32 : fa32.formalType.hasParamPtr = false := by
    simp [QualifiedType.hasParamPtr, hf32.2.1]
  have hfp64 : fa64.formalType.hasParamPtr = false := by
    simp [QualifiedType.hasParamPtr, hf64.2.1]
  have hh64 : ∀ ds k, testArgMapHelper
      (DisambiguationContext.new context call callInScope callInPoiScope true) fa64
      QualifiedType.empty ds k = some (false, false) :=
    fun ds k => testArgMapHelper_no_forwarding _ fa64 ds k false hpass64
  have hh32 : ∀ ds k, testArgMapHelper
      (DisambiguationContext.new context call callInScope callInPoiScope true) fa32
      QualifiedType.empty ds k = some (false, false) :=
    fun ds k => testArgMapHelper_no_forwarding _ fa32 ds k false (by rw [hactual]; exact hpass32)
  obtain ⟨hi1, hi2, hv1, hv2⟩ := testArgMapping_literal
    (DisambiguationContext.new context call callInScope callInPoiScope true)
    (DisambiguationCandidate.new context fn64 QualifiedType.empty call 0)
    (DisambiguationCandidate.new context fn32 QualifiedType.empty call 1) {} fa64 fa32
    hmap64 hmap32 hactual hap hdef hne hne1 hne2 hfp64 hfp32 hf64.2.2 hf32.2.2 hconcrete.2.1
    hconcrete.1 hconcrete.2.2 (hh64 _) (hh32 _) hnum1 hnum2 hconv1 hconv2
  have hvis2 : moreVisible
      (DisambiguationContext.new context call callInScope callInPoiScope true)
      (DisambiguationCandidate.new context fn32 QualifiedType.empty call 1)
      (DisambiguationCandidate.new context fn64 QualifiedType.empty call 0)
        ≠ MoreVisibleResult.FOUND_F1_FIRST ∧
      moreVisible (DisambiguationContext.new context call callInScope callInPoiScope true)
      (DisambiguationCandidate.new context fn32 QualifiedType.empty call 1)
      (DisambiguationCandidate.new context fn64 QualifiedType.empty call 0)
        ≠ MoreVisibleResult.FOUND_F2_FIRST := by
    rw [moreVisible_swap]
    obtain ⟨h1, h2⟩ := hvisible
    revert h1 h2
    generalize moreVisible _ _ _ = mv
    cases mv <;> simp [MoreVisibleResult.swap]
  have hpair := findMostSpecificCandidates_pair context fn64 fn32 call callInScope
    callInPoiScope (-1) 1
    (fun i j g => compareSpecificityForArgs_one_isSome _ _ _ i j g fa64 fa32 hn hmap64 hmap32
      (by rw [hi1]; rfl))
    (fun i j g => compareSpecificityForArgs_one_isSome _ _ _ i j g fa32 fa64 hn hmap32 hmap64
      (by rw [hi2]; rfl))
    ((compareSpecificity_one _ _ _ true _ hn hv1).trans
      (compareSpecificity_verdict_weakest_first _ _ _ _ hvisible.1 hvisible.2).1) (by decide)
    ((compareSpecificity_one _ _ _ true _ hn hv2).trans
      (compareSpecificity_verdict_weakest_first _ _ _ _ hvis2.1 hvis2.2).2) (by decide)
  exact ⟨hnum1, hnum2, hconv1, hconv2, hi1, hi2, hv1, hv2, hpair.2, hpair.1⟩

open Sample in
/-- C17 at a concrete input: the call `f(1)` made in the root scope, which
declares the overloads `f(x: real(32))` and `f(x: real(64))`. -/
theorem findMostSpecificCandidates_literal_real_witness :
    findMostSpecificCandidates (widthContext literalOne (realOf 32) (realOf 64))
        [fnWidth 70, fnWidth 71] [] callF (Scope.root 0 false) []
      = some (MostSpecificCandidates.getOnly
          (MostSpecificCandidate.fromTypedFnSignatureCall
            (widthContext literalOne (realOf 32) (realOf 64)) (fnWidth 71) callF)) ∧
    findMostSpecificCandidates (widthContext literalOne (realOf 32) (realOf 64))
        [fnWidth 71, fnWidth 70] [] callF (Scope.root 0 false) []
      = some (MostSpecificCandidates.getOnly
          (MostSpecificCandidate.fromTypedFnSignatureCall
            (widthContext literalOne (realOf 32) (realOf 64)) (fnWidth 71) callF)) :=
  (findMostSpecificCandidates_literal_real (widthContext literalOne (realOf 32) (realOf 64))
    (fnWidth 70) (fnWidth 71) callF (Scope.root 0 false) []
    (widthFormal (realOf 32) literalOne) (widthFormal (realOf 64) literalOne)
    intTy (realOf 32) (realOf 64) 1 rfl rfl rfl rfl (by decide) (by decide) (by decide)
    (by decide) (by decide) (by decide) (by decide) (by decide) (by decide)
    (by decide)).2.2.2.2.2.2.2.2

/-! ### The assertion of the pairwise comparison -/

/-- The tail of `compareSpecificity` (ignoreWhere overload) on a pair of flags
that are not both set: the assertion holds and the result is -1, 0 or 1. -/
theorem compareSpecificity_tail_of_not_both (p : Bool × Bool)
    (h : ¬ (p.1 = true ∧ p.2 = true)) :
    (if p.1 = true ∧ p.2 = true then (none : Option Int)
      else if p.1 = true then some (-1) else if p.2 = true then some 1 else some 0) =
        (if p.1 = true then some (-1) else if p.2 = true then some 1 else some 0) ∧
    ((if p.1 = true then some (-1) else if p.2 = true then some 1 else some 0) = some (-1) ∨
     (if p.1 = true then some (-1) else if p.2 = true then some 1 else some 0) = some (0 : Int) ∨
     (if p.1 = true then some (-1) else if p.2 = true then some 1 else some 0) = some (1 : Int)) := by
  obtain ⟨a, b⟩ := p
  cases a <;> cases b <;> simp at h ⊢

/-- A pair of two flags that differ never has both flags set. -/
theorem not_both_of_ne (a b : Bool) (h : a ≠ b) : ¬ ((a, b).1 = true ∧ (a, b).2 = true) := by
  cases a <;> cases b <;> simp at h ⊢

/-- The pair of the negations of two flags that differ never has both flags
set. -/
theorem not_both_of_ne_not (a b : Bool) (h : a ≠ b) :
    ¬ ((!a, !b).1 = true ∧ (!a, !b).2 = true) := by
  cases a <;> cases b <;> simp at h ⊢

/-- The flags `prefer1` and `prefer2` that `compareSpecificity` (ignoreWhere
overload) holds at its assertion, from the state `ds`, the answer of
`moreVisible` and the where-clause flags. -/
theorem compareSpecificity_verdict_cases (ds : DisambiguationState)
    (moreVis : MoreVisibleResult) (ignoreWhere fn1where fn2where : Bool) :
    compareSpecificity.verdict ds moreVis ignoreWhere fn1where fn2where = some (-1) ∨
    compareSpecificity.verdict ds moreVis ignoreWhere fn1where fn2where = some 0 ∨
    compareSpecificity.verdict ds moreVis ignoreWhere fn1where fn2where = some 1 := by
  unfold compareSpecificity.verdict
  have key : ∀ p : Bool × Bool, ¬ (p.1 = true ∧ p.2 = true) →
      ((if p.1 = true ∧ p.2 = true then (none : Option Int)
        else if p.1 = true then some (-1) else if p.2 = true then some 1 else some 0) = some (-1) ∨
       (if p.1 = true ∧ p.2 = true then (none : Option Int)
        else if p.1 = true then some (-1) else if p.2 = true then some 1 else some 0) = some 0 ∨
       (if p.1 = true ∧ p.2 = true then (none : Option Int)
        else if p.1 = true then some (-1) else if p.2 = true then some 1 else some 0) = some 1) := by
    intro p hp
    rw [(compareSpecificity_tail_of_not_both p hp).1]
    exact (compareSpecificity_tail_of_not_both p hp).2
  apply key
  by_cases h1 : ds.fn1Promotes ≠ ds.fn2Promotes
  · rw [if_pos h1]; exact not_both_of_ne_not _ _ h1
  rw [if_neg h1]
  by_cases h2 : ds.fn1MoreSpecific ≠ ds.fn2MoreSpecific
  · rw [if_pos h2]; exact not_both_of_ne _ _ h2
  rw [if_neg h2]
  by_cases h3 : moreVis = MoreVisibleResult.FOUND_F1_FIRST
  · rw [if_pos h3]; simp
  rw [if_neg h3]
  by_cases h4 : moreVis = MoreVisibleResult.FOUND_F2_FIRST
  · rw [if_pos h4]; simp
  rw [if_neg h4]
  by_cases h5 : ds.fn1WeakPreferred ≠ ds.fn2WeakPreferred
  · rw [if_pos h5]; exact not_both_of_ne _ _ h5
  rw [if_neg h5]
  by_cases h6 : ds.fn1WeakerPreferred ≠ ds.fn2WeakerPreferred
  · rw [if_pos h6]; exact not_both_of_ne _ _ h6
  rw [if_neg h6]
  by_cases h7 : ds.fn1WeakestPreferred ≠ ds.fn2WeakestPreferred
  · rw [if_pos h7]; exact not_both_of_ne _ _ h7
  rw [if_neg h7]
  by_cases h8 : ¬ ignoreWhere = true
  · rw [if_pos h8]
    by_cases h9 : fn1where ≠ fn2where
    · rw [if_pos h9]; exact not_both_of_ne _ _ h9
    · rw [if_neg h9]; simp
  · rw [if_neg h8]; simp

open Sample in
/-- C29: The assertion `!(prefer1 && prefer2)` of `compareSpecificity`
(ignoreWhere overload) never fails.  For every state `ds` whatsoever, every
answer of `moreVisible` and every combination of `ignoreWhere` and the two
where-clause flags, the decision after the loop yields -1, 0 or 1 and never
aborts; hence whenever the loop over the actuals produces a state, the
function returns -1, 0 or 1, and it aborts only when the loop itself does.
The loop does produce a state, e.g. for the two candidates of the call
`f(myInt)`, where the result is 1. -/
theorem compareSpecificity_assertion_never_fails :
    (∀ (ds : DisambiguationState) (moreVis : MoreVisibleResult)
        (ignoreWhere fn1where fn2where : Bool),
      compareSpecificity.verdict ds moreVis ignoreWhere fn1where fn2where = some (-1) ∨
      compareSpecificity.verdict ds moreVis ignoreWhere fn1where fn2where = some 0 ∨
      compareSpecificity.verdict ds moreVis ignoreWhere fn1where fn2where = some 1) ∧
    (∀ (dctx : DisambiguationContext) (candidate1 candidate2 : DisambiguationCandidate)
        (ignoreWhere : Bool) (ds : DisambiguationState),
      argPreferences dctx candidate1 candidate2 = some ds →
      compareSpecificity dctx candidate1 candidate2 ignoreWhere =
          compareSpecificity.verdict ds (moreVisible dctx candidate1 candidate2) ignoreWhere
            (dctx.context.idIsFunctionWithWhere candidate1.fn.id)
            (dctx.context.idIsFunctionWithWhere candidate2.fn.id) ∧
      (compareSpecificity dctx candidate1 candidate2 ignoreWhere = some (-1) ∨
       compareSpecificity dctx candidate1 candidate2 ignoreWhere = some 0 ∨
       compareSpecificity dctx candidate1 candidate2 ignoreWhere = some 1)) ∧
    (∀ (dctx : DisambiguationContext) (candidate1 candidate2 : DisambiguationCandidate)
        (ignoreWhere : Bool),
      compareSpecificity dctx candidate1 candidate2 ignoreWhere = none ↔
        argPreferences dctx candidate1 candidate2 = none) ∧
    (argPreferences shadowDctx candNearReal candFarInt).isSome = true ∧
    compareSpecificity shadowDctx candNearReal candFarInt false = some 1 := by
  refine ⟨compareSpecificity_verdict_cases, ?_, ?_, by decide, by decide⟩
  · intro dctx candidate1 candidate2 ignoreWhere ds hds
    have heq := compareSpecificity_eq_verdict dctx candidate1 candidate2 ignoreWhere
    rw [hds] at heq
    refine ⟨heq, ?_⟩
    rw [heq]
    exact compareSpecificity_verdict_cases _ _ _ _ _
  · intro dctx candidate1 candidate2 ignoreWhere
    have heq := compareSpecificity_eq_verdict dctx candidate1 candidate2 ignoreWhere
    cases hds : argPreferences dctx candidate1 candidate2 with
    | none => rw [hds] at heq; simp [heq]
    | some ds =>
      rw [hds] at heq
      rw [heq]
      rcases compareSpecificity_verdict_cases ds (moreVisible dctx candidate1 candidate2)
        ignoreWhere (dctx.context.idIsFunctionWithWhere candidate1.fn.id)
        (dctx.context.idIsFunctionWithWhere candidate2.fn.id) with h | h | h <;> simp [h]

/-! ### Operator calls in the pairwise comparison -/

/-- A monadic fold aborts when its step aborts at some element of the list
from every state. -/
theorem foldlM_option_abort {σ α : Type} (f : σ → α → Option σ) (k : α)
    (hk : ∀ s, f s k = none) :
    ∀ (l : List α) (init : σ), k ∈ l → l.foldlM f init = none := by
  intro l
  induction l with
  | nil => intro init h; simp at h
  | cons a rest ih =>
    intro init h
    rw [List.foldlM_cons]
    cases hfa : f init a with
    | none => rfl
    | some s =>
      have hne : a ≠ k := by
        intro hak
        rw [hak, hk] at hfa
        exact Option.noConfusion hfa
      have hmem : k ∈ rest := by
        rcases List.mem_cons.mp h with h | h
        · exact absurd h.symm hne
        · exact h
      exact ih s hmem

/-- The state-updating `testArgMapping` aborts when either candidate has no
formal for the actual. -/
theorem testArgMappingVoid_missing_formal (dctx : DisambiguationContext)
    (candidate1 candidate2 : DisambiguationCandidate) (actualIdx : Nat)
    (ds : DisambiguationState)
    (h : candidate1.formalActualMap.byActualIdx actualIdx = none ∨
      candidate2.formalActualMap.byActualIdx actualIdx = none) :
    testArgMappingVoid dctx candidate1 candidate2 actualIdx ds = none := by
  unfold testArgMappingVoid
  rcases h with h | h
  · rw [h]
  · rw [h]
    cases candidate1.formalActualMap.byActualIdx actualIdx <;> rfl

/-- C21 (what the code does instead): when either candidate has no formal for
some actual of the call, `compareSpecificity` (ignoreWhere overload) aborts,
whatever the kinds of the two functions and whatever `ignoreWhere`: the
state-updating `testArgMapping` reaches `CHPL_ASSERT(false)` at that actual
and never calls `testOpArgMapping`. -/
theorem compareSpecificity_aborts_on_missing_formal (dctx : DisambiguationContext)
    (candidate1 candidate2 : DisambiguationCandidate) (ignoreWhere : Bool) (k : Nat)
    (hk : k < dctx.call.numActuals)
    (h : candidate1.formalActualMap.byActualIdx k = none ∨
      candidate2.formalActualMap.byActualIdx k = none) :
    (∀ ds : DisambiguationState,
      testArgMappingVoid dctx candidate1 candidate2 k ds = none) ∧
    argPreferences dctx candidate1 candidate2 = none ∧
    compareSpecificity dctx candidate1 candidate2 ignoreWhere = none := by
  have hstep : ∀ ds : DisambiguationState,
      testArgMappingVoid dctx candidate1 candidate2 k ds = none :=
    fun ds => testArgMappingVoid_missing_formal dctx candidate1 candidate2 k ds h
  have hloop : argPreferences dctx candidate1 candidate2 = none := by
    unfold argPreferences
    exact foldlM_option_abort _ k hstep _ _ (List.mem_range.mpr hk)
  refine ⟨hstep, hloop, ?_⟩
  rw [compareSpecificity_eq_verdict, hloop]

open Sample in
/-- The call `x + y` with the operator function `operator +(rhs: R)`, which
has no formal for the receiver actual 0, and the method `proc R.+(rhs: R)`:
the comparison aborts. -/
theorem compareSpecificity_aborts_on_missing_formal_witness :
    (0 < operatorDctx.call.numActuals ∧
      (candOperatorPlus.formalActualMap.byActualIdx 0 = none ∨
        candMethodPlus.formalActualMap.byActualIdx 0 = none)) ∧
    ((∀ ds : DisambiguationState,
      testArgMappingVoid operatorDctx candOperatorPlus candMethodPlus 0 ds = none) ∧
    argPreferences operatorDctx candOperatorPlus candMethodPlus = none ∧
    compareSpecificity operatorDctx candOperatorPlus candMethodPlus true = none) :=
  ⟨⟨by decide, Or.inl (by decide)⟩,
    compareSpecificity_aborts_on_missing_formal operatorDctx candOperatorPlus candMethodPlus
      true 0 (by decide) (Or.inl (by decide))⟩

/-! ### The filters only narrow -/

theorem narrowsMask_refl (d : List Bool) : narrowsMask d d := ⟨rfl, fun _ h => h⟩

theorem narrowsMask_trans {a b c : List Bool} (hab : narrowsMask a b) (hbc : narrowsMask b c) :
    narrowsMask a c :=
  ⟨hbc.1.trans hab.1, fun i h => hbc.2 i (hab.2 i h)⟩

theorem sameCandidatesVec_refl (candidates : CandidatesVec) :
    sameCandidatesVec candidates candidates := by
  unfold sameCandidatesVec
  induction candidates with
  | nil => exact List.Forall₂.nil
  | cons c rest ih => exact List.Forall₂.cons rfl ih

theorem sameCandidatesVec_trans {a b c : CandidatesVec} (hab : sameCandidatesVec a b)
    (hbc : sameCandidatesVec b c) : sameCandidatesVec a c := by
  unfold sameCandidatesVec at *
  induction hab generalizing c with
  | nil => cases hbc; exact List.Forall₂.nil
  | cons h _ ih =>
    cases hbc with
    | cons h2 t2 =>
      refine List.Forall₂.cons ?_ (ih t2)
      rw [h2, h]

theorem discardWorseVisibility_scan_sameVec (dctx : DisambiguationContext)
    (candidates : CandidatesVec) (discarded : List Bool) (minDistance maxDistance : Int) :
    sameCandidatesVec candidates
      (discardWorseVisibility.scan dctx candidates discarded minDistance maxDistance).1 := by
  unfold sameCandidatesVec
  induction candidates generalizing discarded minDistance maxDistance with
  | nil => exact List.Forall₂.nil
  | cons c rest ih =>
    unfold discardWorseVisibility.scan
    split_ifs
    · exact List.Forall₂.cons rfl (ih _ _ _)
    · exact List.Forall₂.cons rfl (ih _ _ _)

theorem discardWorseVisibility_mark_narrows (minDistance : Int) (candidates : CandidatesVec)
    (discarded : List Bool) :
    narrowsMask discarded (discardWorseVisibility.mark minDistance candidates discarded) := by
  induction candidates generalizing discarded with
  | nil =>
    unfold discardWorseVisibility.mark
    exact narrowsMask_refl discarded
  | cons c cs ih =>
    cases discarded with
    | nil =>
      unfold discardWorseVisibility.mark
      exact narrowsMask_refl []
    | cons d ds =>
      unfold discardWorseVisibility.mark
      obtain ⟨hlen, hmono⟩ := ih ds
      refine ⟨by simp [hlen], ?_⟩
      intro i hi
      cases i with
      | zero =>
        simp only [List.getElem?_cons_zero, Option.some.injEq] at hi ⊢
        simp [hi]
      | succ i =>
        simp only [List.getElem?_cons_succ] at hi ⊢
        exact hmono i hi

theorem discardWorseVisibility_narrows (dctx : DisambiguationContext)
    (candidates : CandidatesVec) (discarded : List Bool) :
    narrowsMask discarded (discardWorseVisibility dctx candidates discarded).2 ∧
    sameCandidatesVec candidates (discardWorseVisibility dctx candidates discarded).1 := by
  unfold discardWorseVisibility
  simp only
  split_ifs
  · exact ⟨discardWorseVisibility_mark_narrows _ _ _,
      discardWorseVisibility_scan_sameVec dctx candidates discarded _ _⟩
  · exact ⟨narrowsMask_refl _, discardWorseVisibility_scan_sameVec dctx candidates discarded _ _⟩

theorem discardWorseArgs_mark_narrows (notBest : Nat → Bool) (start : Nat)
    (discarded : List Bool) :
    narrowsMask discarded (discardWorseArgs.mark notBest start discarded) := by
  induction discarded generalizing start with
  | nil =>
    unfold discardWorseArgs.mark
    exact narrowsMask_refl []
  | cons d ds ih =>
    unfold discardWorseArgs.mark
    obtain ⟨hlen, hmono⟩ := ih (start + 1)
    refine ⟨by simp [hlen], ?_⟩
    intro i hi
    cases i with
    | zero =>
      simp only [List.getElem?_cons_zero, Option.some.injEq] at hi ⊢
      simp [hi]
    | succ i =>
      simp only [List.getElem?_cons_succ] at hi ⊢
      exact hmono i hi

theorem discardWorseArgs_narrows (dctx : DisambiguationContext)
    (candidates : CandidatesVec) (discarded out : List Bool)
    (h : discardWorseArgs dctx candidates discarded = some out) :
    narrowsMask discarded out := by
  unfold discardWorseArgs discardWorseArgsWith at h
  split at h
  · exact Option.noConfusion h
  · cases h
    exact discardWorseArgs_mark_narrows _ 0 discarded

theorem disambiguateDiscarding_narrows (dctx : DisambiguationContext)
    (candidates : CandidatesVec) (ignoreWhere : Bool) (discarded : List Bool)
    (r : CandidatesVec × List Bool)
    (h : disambiguateDiscarding dctx candidates ignoreWhere discarded = some r) :
    narrowsMask discarded r.2 ∧ sameCandidatesVec candidates r.1 := by
  unfold disambiguateDiscarding at h
  simp only [discardWorsePromoting, discardWorseConversions, discardWorseWhereClauses,
    ite_self] at h
  by_cases hv : ¬ dctx.useOldVisibility = true ∧ ¬ dctx.isMethodCall = true
  · have hv2 : ¬ (dctx.useOldVisibility = true ∧ ¬ dctx.isMethodCall = true) := by tauto
    simp only [if_pos hv, if_neg hv2] at h
    obtain ⟨hn, hs⟩ := discardWorseVisibility_narrows dctx candidates discarded
    cases hargs : discardWorseArgs dctx (discardWorseVisibility dctx candidates discarded).1
        (discardWorseVisibility dctx candidates discarded).2 with
    | none => rw [hargs] at h; exact Option.noConfusion h
    | some d3 =>
      rw [hargs] at h
      simp only [Option.some.injEq] at h
      subst h
      exact ⟨narrowsMask_trans hn (discardWorseArgs_narrows _ _ _ _ hargs), hs⟩
  · simp only [if_neg hv] at h
    cases hargs : discardWorseArgs dctx candidates discarded with
    | none => rw [hargs] at h; exact Option.noConfusion h
    | some d3 =>
      rw [hargs] at h
      have hn := discardWorseArgs_narrows _ _ _ _ hargs
      by_cases hv2 : dctx.useOldVisibility = true ∧ ¬ dctx.isMethodCall = true
      · simp only [if_pos hv2, Option.some.injEq] at h
        subst h
        obtain ⟨hn2, hs⟩ := discardWorseVisibility_narrows dctx candidates d3
        exact ⟨narrowsMask_trans hn hn2, hs⟩
      · simp only [if_neg hv2, Option.some.injEq] at h
        subst h
        exact ⟨hn, sameCandidatesVec_refl candidates⟩

open Sample in
/-- C30: The filters only narrow.  For every context, candidate vector and
incoming mask `discarded` (of any length), each filter and the pipeline
`disambiguateDiscarding` yield a mask of the same length in which every index
that was discarded is still discarded, whenever they return; and the
candidate vector that comes out holds the same candidates in the same order.
`discardWorseVisibility` is the only filter that touches a candidate: it
writes the cached field `visibilityDistance` of the candidates it measures,
and nothing else of a candidate changes.  `discardWorseArgs` yields only a
mask.  The three remaining filters leave the mask as it is.  For the call
`f(myInt)` the pipeline returns: from a mask in which candidate 0 is discarded
it keeps candidate 0 discarded and candidate 1 active, and from the mask in
which none is discarded it discards candidate 1. -/
theorem filters_only_narrow :
    (∀ (dctx : DisambiguationContext) (candidates : CandidatesVec) (discarded : List Bool),
      narrowsMask discarded (discardWorseVisibility dctx candidates discarded).2 ∧
      sameCandidatesVec candidates (discardWorseVisibility dctx candidates discarded).1 ∧
      discardWorsePromoting dctx candidates discarded = discarded ∧
      discardWorseConversions dctx candidates discarded = discarded ∧
      discardWorseWhereClauses dctx candidates discarded = discarded ∧
      (∀ out, discardWorseArgs dctx candidates discarded = some out →
        narrowsMask discarded out)) ∧
    (∀ (dctx : DisambiguationContext) (candidates : CandidatesVec) (ignoreWhere : Bool)
        (discarded : List Bool) (r : CandidatesVec × List Bool),
      disambiguateDiscarding dctx candidates ignoreWhere discarded = some r →
        narrowsMask discarded r.2 ∧ sameCandidatesVec candidates r.1) ∧
    (disambiguateDiscarding shadowDctx [candNearReal, candFarInt] true [true, false]).map
        Prod.snd = some [true, false] ∧
    (disambiguateDiscarding shadowDctx [candNearReal, candFarInt] true [false, false]).map
        Prod.snd = some [false, true] := by
  refine ⟨?_, disambiguateDiscarding_narrows, by decide, by decide⟩
  · intro dctx candidates discarded
    exact ⟨(discardWorseVisibility_narrows dctx candidates discarded).1,
      (discardWorseVisibility_narrows dctx candidates discarded).2, rfl, rfl, rfl,
      fun out h => discardWorseArgs_narrows dctx candidates discarded out h⟩

namespace Compiler

/-! ### The visibility search: bookkeeping of the visited blocks -/

theorem Outcome.bind_eq_returned {σ τ : Type} (o : Outcome σ) (f : σ → Outcome τ) (t : τ) :
    o.bind f = Outcome.returned t ↔ ∃ s, o = Outcome.returned s ∧ f s = Outcome.returned t := by
  cases o <;> simp [Outcome.bind]

/-- An invariant of the steps of a loop over a use list, reflexive and
transitive, holds between the states before and after the loop. -/
theorem for_actuals_returned {σ : Type} (step : σ → UseListExpr → Outcome σ)
    (R : σ → σ → Prop) (hrefl : ∀ s, R s s) (htrans : ∀ a b c, R a b → R b c → R a c) :
    ∀ (l : List UseListExpr),
      (∀ e ∈ l, ∀ s s1, step s e = Outcome.returned s1 → R s s1) →
      ∀ st st1, for_actuals step l st = Outcome.returned st1 → R st st1 := by
  intro l
  induction l with
  | nil =>
    intro _ st st1 h
    simp only [for_actuals, Outcome.returned.injEq] at h
    subst h
    exact hrefl st
  | cons e rest ih =>
    intro hstep st st1 h
    simp only [for_actuals, Outcome.bind_eq_returned] at h
    obtain ⟨s, hs, hrest⟩ := h
    exact htrans _ _ _ (hstep e (List.mem_cons_self e rest) st s hs)
      (ih (fun e1 he1 => hstep e1 (List.mem_cons_of_mem e he1)) s st1 hrest)

theorem addFns_acc (prog : Program) (call : CallExpr) (fns : List FnSymbol)
    (privacyChecked privateOkay : Bool) (visibleFns : List FnSymbol) :
    getVisibleFunctions.addFns prog call fns privacyChecked privateOkay visibleFns =
      visibleFns ++ getVisibleFunctions.addFns prog call fns privacyChecked privateOkay [] := by
  induction fns generalizing privacyChecked privateOkay visibleFns with
  | nil => simp [getVisibleFunctions.addFns]
  | cons fn fns ih =>
    unfold getVisibleFunctions.addFns
    split_ifs
    · rw [ih, ih _ _ ([] ++ [fn])]; simp
    · rw [ih]
    · rw [ih, ih _ _ ([] ++ [fn])]; simp
    · rw [ih]
    · rw [ih, ih _ _ ([] ++ [fn])]; simp

theorem growsFrom_refl (prog : Program)
    (visibleFunctionMap : BlockStmt → Option VisibleFunctionBlock)
    (call : CallExpr) (start : String × BlockStmt × Bool) (s : SearchState) :
    growsFrom prog visibleFunctionMap call start s s :=
  ⟨[], ⟨by simp, by simp, by simp, by simp⟩, by simp⟩

theorem growsFrom_visited (prog : Program)
    (visibleFunctionMap : BlockStmt → Option VisibleFunctionBlock)
    (call : CallExpr) (start : String × BlockStmt × Bool) (a b : SearchState)
    (h : growsFrom prog visibleFunctionMap call start a b) (x : BlockStmt)
    (hx : x ∈ a.visited) : x ∈ b.visited := by
  obtain ⟨trace, ⟨hv, _, _, _⟩, _⟩ := h
  rw [hv]
  exact List.mem_append_right _ hx

theorem growsFrom_trans (prog : Program)
    (visibleFunctionMap : BlockStmt → Option VisibleFunctionBlock)
    (call : CallExpr) (start : String × BlockStmt × Bool) (a b c : SearchState)
    (hab : growsFrom prog visibleFunctionMap call start a b)
    (hbc : growsFrom prog visibleFunctionMap call start b c) :
    growsFrom prog visibleFunctionMap call start a c := by
  obtain ⟨t1, ⟨hv1, hf1, hn1, hfresh1⟩, hr1⟩ := hab
  obtain ⟨t2, ⟨hv2, hf2, hn2, hfresh2⟩, hr2⟩ := hbc
  refine ⟨t1 ++ t2, ⟨?_, ?_, ?_, ?_⟩, ?_⟩
  · rw [hv2, hv1]; simp
  · rw [hf2, hf1]; simp
  · rw [List.map_append, List.nodup_append]
    refine ⟨hn1, hn2, ?_⟩
    intro x hx1 hx2
    obtain ⟨e, he, rfl⟩ := List.mem_map.mp hx2
    apply hfresh2 e he
    rw [hv1]
    exact List.mem_append_left _ (List.mem_reverse.mpr hx1)
  · intro e he
    rcases List.mem_append.mp he with h | h
    · exact hfresh1 e h
    · intro hmem
      apply hfresh2 e h
      rw [hv1]
      exact List.mem_append_right _ hmem
  · intro e he
    rcases List.mem_append.mp he with h | h
    · exact hr1 e h
    · exact hr2 e h

theorem traverse_grows (prog : Program)
    (visibleFunctionMap : BlockStmt → Option VisibleFunctionBlock)
    (call : CallExpr) (start : String × BlockStmt × Bool)
    (recur : String → BlockStmt → SearchState → Bool → Outcome SearchState)
    (hrec : callGrows prog visibleFunctionMap call start recur)
    (name : String) (block : BlockStmt) (inUseChain : Bool)
    (hreach : Relation.ReflTransGen (SearchStep prog call) start (name, block, inUseChain))
    ( isImport : Bool) (stmt : VisibilityStmt)
    (hmem : UseListExpr.useStmt stmt ∈ (prog.useList block).getD [] ∨
      UseListExpr.importStmt stmt ∈ (prog.useList block).getD [])
    (hpriv : inUseChain = false ∨ stmt.isPrivate = false)
    (s s1 : SearchState)
    (h : getVisibleFunctions.traverse prog call recur name isImport stmt s =
      Outcome.returned s1) :
    growsFrom prog visibleFunctionMap call start s s1 := by
  unfold getVisibleFunctions.traverse at h
  by_cases hskip : stmt.skipSymbolSearch name = false
  · rw [if_pos hskip] at h
    cases hsrc : stmt.src with
    | none => rw [hsrc] at h; exact Outcome.noConfusion h
    | some sym =>
      rw [hsrc] at h
      cases sym with
      | otherSymbol =>
        simp only at h
        split at h
        · exact Outcome.noConfusion h
        · cases h; exact growsFrom_refl _ _ _ _ _
      | moduleSymbol mod =>
        simp only at h
        by_cases hvis : prog.modIsVisible mod call = true
        · rw [if_pos hvis] at h
          have hstep := @SearchStep.useOrImport prog call name block
            inUseChain stmt mod hmem hpriv hskip hsrc hvis
          by_cases hren : stmt.isARenamedSym name = true
          · rw [if_pos hren] at h hstep
            exact (hrec _ _ _ _ _ (hreach.tail hstep) h).1
          · rw [if_neg hren] at h hstep
            exact (hrec _ _ _ _ _ (hreach.tail hstep) h).1
        · rw [if_neg hvis] at h
          cases h; exact growsFrom_refl _ _ _ _ _
  · rw [if_neg hskip] at h
    cases h; exact growsFrom_refl _ _ _ _ _

theorem useStep_grows (prog : Program)
    (visibleFunctionMap : BlockStmt → Option VisibleFunctionBlock)
    (call : CallExpr) (start : String × BlockStmt × Bool)
    (recur : String → BlockStmt → SearchState → Bool → Outcome SearchState)
    (hrec : callGrows prog visibleFunctionMap call start recur)
    (name : String) (block : BlockStmt) (inUseChain revisit : Bool)
    (hreach : Relation.ReflTransGen (SearchStep prog call) start (name, block, inUseChain))
    (hrev : revisit = true → inUseChain = false)
    (expr : UseListExpr) (hmem : expr ∈ (prog.useList block).getD [])
    (s s1 : SearchState)
    (h : getVisibleFunctions.useStep prog call recur name inUseChain revisit s expr =
      Outcome.returned s1) :
    growsFrom prog visibleFunctionMap call start s s1 := by
  unfold getVisibleFunctions.useStep at h
  cases expr with
  | other => exact Outcome.noConfusion h
  | useStmt use =>
    simp only at h
    by_cases hc : (if revisit = true then use.isPrivate = true
        else (¬ inUseChain = true ∨ ¬ use.isPrivate = true))
    · rw [if_pos hc] at h
      refine traverse_grows prog visibleFunctionMap call start recur hrec name block
        inUseChain hreach false use (Or.inl hmem) ?_ s s1 h
      cases revisit with
      | true => exact Or.inl (hrev rfl)
      | false =>
        cases inUseChain <;> cases hp : use.isPrivate <;> simp [hp] at hc ⊢
    · rw [if_neg hc] at h
      cases h; exact growsFrom_refl _ _ _ _ _
  | importStmt imp =>
    simp only at h
    by_cases hc : (if revisit = true then imp.isPrivate = true
        else (¬ inUseChain = true ∨ ¬ imp.isPrivate = true))
    · rw [if_pos hc] at h
      refine traverse_grows prog visibleFunctionMap call start recur hrec name block
        inUseChain hreach true imp (Or.inr hmem) ?_ s s1 h
      cases revisit with
      | true => exact Or.inl (hrev rfl)
      | false =>
        cases inUseChain <;> cases hp : imp.isPrivate <;> simp [hp] at hc ⊢
    · rw [if_neg hc] at h
      cases h; exact growsFrom_refl _ _ _ _ _

theorem useLoop_grows (prog : Program)
    (visibleFunctionMap : BlockStmt → Option VisibleFunctionBlock)
    (call : CallExpr) (start : String × BlockStmt × Bool)
    (recur : String → BlockStmt → SearchState → Bool → Outcome SearchState)
    (hrec : callGrows prog visibleFunctionMap call start recur)
    (name : String) (block : BlockStmt) (inUseChain revisit : Bool)
    (hreach : Relation.ReflTransGen (SearchStep prog call) start (name, block, inUseChain))
    (hrev : revisit = true → inUseChain = false)
    (s s1 : SearchState)
    (h : for_actuals (getVisibleFunctions.useStep prog call recur name inUseChain revisit)
      ((prog.useList block).getD []) s = Outcome.returned s1) :
    growsFrom prog visibleFunctionMap call start s s1 :=
  for_actuals_returned _ (growsFrom prog visibleFunctionMap call start)
    (growsFrom_refl _ _ _ _) (growsFrom_trans _ _ _ _) _
    (fun e he a b hab => useStep_grows prog visibleFunctionMap call start recur hrec name
      block inUseChain revisit hreach hrev e he a b hab) s s1 h

/-- A run of `getVisibleFunctions` that returns has grown the state by first
visits of blocks reached by steps of the search, and has visited `block`. -/
theorem getVisibleFunctions_grows (prog : Program)
    (visibleFunctionMap : BlockStmt → Option VisibleFunctionBlock)
    (call : CallExpr) (start : String × BlockStmt × Bool) (depth : Nat) :
    callGrows prog visibleFunctionMap call start
      (getVisibleFunctions prog visibleFunctionMap call depth) := by
  induction depth with
  | zero =>
    intro name block s s1 u _ h
    simp only [getVisibleFunctions] at h
    exact Outcome.noConfusion h
  | succ depth ih =>
    intro name block s s1 u hreach h
    rw [getVisibleFunctions] at h
    by_cases hv : block ∉ s.visited
    · rw [if_pos hv] at h
      cases hip : instantiationPt prog block with
      | none => rw [hip] at h; exact Outcome.noConfusion h
      | some ip =>
        rw [hip] at h
        simp only [Outcome.bind_eq_returned] at h
        obtain ⟨s2, hloop, hrest⟩ := h
        have g0 : growsFrom prog visibleFunctionMap call start s
            { visited := block :: s.visited,
              visibleFns := getVisibleFunctions.addFns prog call
                (visibleFunctionsIn visibleFunctionMap block name) false false s.visibleFns } := by
          refine ⟨[(name, block)], ⟨by simp, ?_, by simp, ?_⟩, ?_⟩
          · simp only [List.flatMap_cons, List.flatMap_nil, List.append_nil]
            rw [addFns_acc]; rfl
          · intro e he
            simp only [List.mem_singleton] at he
            subst he; exact hv
          · intro e he
            simp only [List.mem_singleton] at he
            subst he; exact ⟨u, hreach⟩
        have g1 := useLoop_grows prog visibleFunctionMap call start _ ih name block u false
          hreach (by simp) _ _ hloop
        have g01 := growsFrom_trans _ _ _ _ _ _ _ g0 g1
        have hb2 : block ∈ s2.visited :=
          growsFrom_visited _ _ _ _ _ _ g1 block (List.mem_cons_self _ _)
        by_cases hroot : block ≠ prog.rootModule.block
        · rw [if_pos hroot] at hrest
          cases hnext : nextScope prog block with
          | none => rw [hnext] at hrest; exact Outcome.noConfusion hrest
          | some next =>
            rw [hnext] at hrest
            simp only [Outcome.bind_eq_returned] at hrest
            obtain ⟨s3, hcall, hinst⟩ := hrest
            have g2 := (ih name next s2 s3 u
              (hreach.tail (SearchStep.enclosing name block u next hroot hnext)) hcall).1
            have g02 := growsFrom_trans _ _ _ _ _ _ _ g01 g2
            cases ip with
            | none =>
              simp only [Outcome.returned.injEq] at hinst
              subst hinst
              exact ⟨g02, growsFrom_visited _ _ _ _ _ _ g2 block hb2⟩
            | some pt =>
              simp only at hinst
              have g3 := (ih name pt s3 s1 u
                (hreach.tail (SearchStep.instantiation name block u pt hip)) hinst).1
              exact ⟨growsFrom_trans _ _ _ _ _ _ _ g02 g3,
                growsFrom_visited _ _ _ _ _ _ g3 block
                  (growsFrom_visited _ _ _ _ _ _ g2 block hb2)⟩
        · rw [if_neg hroot] at hrest
          simp only [Outcome.returned.injEq] at hrest
          subst hrest
          exact ⟨g01, hb2⟩
    · rw [if_neg hv] at h
      have hvis : block ∈ s.visited := not_not.mp hv
      by_cases hu : ¬ u = true
      · rw [if_pos hu] at h
        have hu1 : u = false := by simpa using hu
        cases hip : instantiationPt prog block with
        | none => rw [hip] at h; exact Outcome.noConfusion h
        | some ip =>
          rw [hip] at h
          simp only [Outcome.bind_eq_returned] at h
          obtain ⟨s2, hloop, s3, hnextcall, hinst⟩ := h
          have g1 := useLoop_grows prog visibleFunctionMap call start _ ih name block u true
            hreach (fun _ => hu1) _ _ hloop
          have g2 : growsFrom prog visibleFunctionMap call start s2 s3 := by
            by_cases hroot : block ≠ prog.rootModule.block
            · rw [if_pos hroot] at hnextcall
              cases hnext : nextScope prog block with
              | none => rw [hnext] at hnextcall; exact Outcome.noConfusion hnextcall
              | some next =>
                rw [hnext] at hnextcall
                exact (ih name next s2 s3 u
                  (hreach.tail (SearchStep.enclosing name block u next hroot hnext))
                  hnextcall).1
            · rw [if_neg hroot] at hnextcall
              simp only [Outcome.returned.injEq] at hnextcall
              subst hnextcall
              exact growsFrom_refl _ _ _ _ _
          have g12 := growsFrom_trans _ _ _ _ _ _ _ g1 g2
          cases ip with
          | none =>
            simp only [Outcome.returned.injEq] at hinst
            subst hinst
            exact ⟨g12, growsFrom_visited _ _ _ _ _ _ g12 block hvis⟩
          | some pt =>
            simp only at hinst
            have g3 := (ih name pt s3 s1 u
              (hreach.tail (SearchStep.instantiation name block u pt hip)) hinst).1
            have g13 := growsFrom_trans _ _ _ _ _ _ _ g12 g3
            exact ⟨g13, growsFrom_visited _ _ _ _ _ _ g13 block hvis⟩
      · rw [if_neg hu] at h
        simp only [Outcome.returned.injEq] at h
        subst h
        exact ⟨growsFrom_refl _ _ _ _ _, hvis⟩

/-! ### The visibility search: what the walk from the call site covers -/

/-- A run that returns keeps the visited blocks visited and has visited
`block`. -/
theorem getVisibleFunctions_visited (prog : Program)
    (visibleFunctionMap : BlockStmt → Option VisibleFunctionBlock)
    (call : CallExpr) (depth : Nat) (name : String) (block : BlockStmt)
    (s s1 : SearchState) (u : Bool)
    (h : getVisibleFunctions prog visibleFunctionMap call depth name block s u =
      Outcome.returned s1) :
    (∀ x ∈ s.visited, x ∈ s1.visited) ∧ block ∈ s1.visited := by
  have hg := getVisibleFunctions_grows prog visibleFunctionMap call (name, block, u) depth
    name block s s1 u Relation.ReflTransGen.refl h
  exact ⟨fun x hx => growsFrom_visited _ _ _ _ _ _ hg.1 x hx, hg.2⟩

/-- After the loop over a use list, the block of every module named by a
statement that the loop traverses is visited. -/
theorem useLoop_covers (prog : Program)
    (visibleFunctionMap : BlockStmt → Option VisibleFunctionBlock)
    (call : CallExpr) (depth : Nat) (name : String) (inUseChain revisit : Bool) :
    ∀ (l : List UseListExpr) (s s1 : SearchState),
      for_actuals (getVisibleFunctions.useStep prog call
        (getVisibleFunctions prog visibleFunctionMap call depth) name inUseChain revisit)
        l s = Outcome.returned s1 →
      (∀ x ∈ s.visited, x ∈ s1.visited) ∧
      ∀ (stmt : VisibilityStmt) (mod : ModuleSymbol),
        (UseListExpr.useStmt stmt ∈ l ∨ UseListExpr.importStmt stmt ∈ l) →
        (if revisit = true then stmt.isPrivate = true
          else (¬ inUseChain = true ∨ ¬ stmt.isPrivate = true)) →
        stmt.skipSymbolSearch name = false →
        stmt.src = some (Symbol.moduleSymbol mod) →
        prog.modIsVisible mod call = true →
        mod.block ∈ s1.visited := by
  intro l
  induction l with
  | nil =>
    intro s s1 h
    simp only [for_actuals, Outcome.returned.injEq] at h
    subst h
    exact ⟨fun _ hx => hx, fun stmt mod hmem => by simp at hmem⟩
  | cons e rest ih =>
    intro s s1 h
    simp only [for_actuals, Outcome.bind_eq_returned] at h
    obtain ⟨s2, hstep, hrest⟩ := h
    obtain ⟨hmono2, hcov2⟩ := ih s2 s1 hrest
    -- the step on `e`
    have hstepfacts : (∀ x ∈ s.visited, x ∈ s2.visited) ∧
        ∀ (stmt : VisibilityStmt) (mod : ModuleSymbol),
          (UseListExpr.useStmt stmt = e ∨ UseListExpr.importStmt stmt = e) →
          (if revisit = true then stmt.isPrivate = true
            else (¬ inUseChain = true ∨ ¬ stmt.isPrivate = true)) →
          stmt.skipSymbolSearch name = false →
          stmt.src = some (Symbol.moduleSymbol mod) →
          prog.modIsVisible mod call = true →
          mod.block ∈ s2.visited := by
      have htrav : ∀ ( isImport : Bool) (stmt : VisibilityStmt),
          getVisibleFunctions.traverse prog call
            (getVisibleFunctions prog visibleFunctionMap call depth) name isImport stmt s =
            Outcome.returned s2 →
          (∀ x ∈ s.visited, x ∈ s2.visited) ∧
          ∀ (mod : ModuleSymbol), stmt.skipSymbolSearch name = false →
            stmt.src = some (Symbol.moduleSymbol mod) →
            prog.modIsVisible mod call = true → mod.block ∈ s2.visited := by
        intro isImport stmt ht
        unfold getVisibleFunctions.traverse at ht
        by_cases hskip : stmt.skipSymbolSearch name = false
        · rw [if_pos hskip] at ht
          cases hsrc : stmt.src with
          | none => rw [hsrc] at ht; exact Outcome.noConfusion ht
          | some sym =>
            rw [hsrc] at ht
            cases sym with
            | otherSymbol =>
              simp only at ht
              split at ht
              · exact Outcome.noConfusion ht
              · cases ht
                exact ⟨fun _ hx => hx, fun mod _ hm => by simp at hm⟩
            | moduleSymbol mod0 =>
              simp only at ht
              by_cases hvis : prog.modIsVisible mod0 call = true
              · rw [if_pos hvis] at ht
                have hv : (∀ x ∈ s.visited, x ∈ s2.visited) ∧ mod0.block ∈ s2.visited := by
                  by_cases hren : stmt.isARenamedSym name = true
                  · rw [if_pos hren] at ht
                    exact getVisibleFunctions_visited _ _ _ _ _ _ _ _ _ ht
                  · rw [if_neg hren] at ht
                    exact getVisibleFunctions_visited _ _ _ _ _ _ _ _ _ ht
                refine ⟨hv.1, fun mod _ hm _ => ?_⟩
                simp only [Option.some.injEq, Symbol.moduleSymbol.injEq] at hm
                subst hm
                exact hv.2
              · rw [if_neg hvis] at ht
                cases ht
                refine ⟨fun _ hx => hx, fun mod _ hm hv => ?_⟩
                simp only [Option.some.injEq, Symbol.moduleSymbol.injEq] at hm
                subst hm
                exact absurd hv hvis
        · rw [if_neg hskip] at ht
          cases ht
          exact ⟨fun _ hx => hx, fun mod hs => absurd hs hskip⟩
      unfold getVisibleFunctions.useStep at hstep
      cases e with
      | other => exact Outcome.noConfusion hstep
      | useStmt use =>
        simp only at hstep
        by_cases hc : (if revisit = true then use.isPrivate = true
            else (¬ inUseChain = true ∨ ¬ use.isPrivate = true))
        · rw [if_pos hc] at hstep
          obtain ⟨hm, hcov⟩ := htrav false use hstep
          refine ⟨hm, fun stmt mod heq _ hskip hsrc hvis => ?_⟩
          rcases heq with heq | heq
          · cases heq; exact hcov mod hskip hsrc hvis
          · cases heq
        · rw [if_neg hc] at hstep
          cases hstep
          refine ⟨fun _ hx => hx, fun stmt mod heq hfollow _ _ _ => ?_⟩
          rcases heq with heq | heq
          · cases heq; exact absurd hfollow hc
          · cases heq
      | importStmt imp =>
        simp only at hstep
        by_cases hc : (if revisit = true then imp.isPrivate = true
            else (¬ inUseChain = true ∨ ¬ imp.isPrivate = true))
        · rw [if_pos hc] at hstep
          obtain ⟨hm, hcov⟩ := htrav true imp hstep
          refine ⟨hm, fun stmt mod heq _ hskip hsrc hvis => ?_⟩
          rcases heq with heq | heq
          · cases heq
          · cases heq; exact hcov mod hskip hsrc hvis
        · rw [if_neg hc] at hstep
          cases hstep
          refine ⟨fun _ hx => hx, fun stmt mod heq hfollow _ _ _ => ?_⟩
          rcases heq with heq | heq
          · cases heq
          · cases heq; exact absurd hfollow hc
    refine ⟨fun x hx => hmono2 x (hstepfacts.1 x hx), ?_⟩
    intro stmt mod hmem hfollow hskip hsrc hvis
    have hsplit : (UseListExpr.useStmt stmt = e ∨ UseListExpr.importStmt stmt = e) ∨
        (UseListExpr.useStmt stmt ∈ rest ∨ UseListExpr.importStmt stmt ∈ rest) := by
      rcases hmem with h | h
      · rcases List.mem_cons.mp h with h | h
        · exact Or.inl (Or.inl h)
        · exact Or.inr (Or.inl h)
      · rcases List.mem_cons.mp h with h | h
        · exact Or.inl (Or.inr h)
        · exact Or.inr (Or.inr h)
    rcases hsplit with h | h
    · exact hmono2 _ (hstepfacts.2 stmt mod h hfollow hskip hsrc hvis)
    · exact hcov2 stmt mod h hfollow hskip hsrc hvis

theorem coveredAt_mono (prog : Program) (call : CallExpr) (name : String)
    (v v1 : List BlockStmt) (c : BlockStmt) (hsub : ∀ x ∈ v, x ∈ v1)
    (h : coveredAt prog call name v c) : coveredAt prog call name v1 c :=
  ⟨hsub c h.1, fun stmt mod hm hp hs hsrc hv => hsub _ (h.2 stmt mod hm hp hs hsrc hv)⟩

/-- A run of `getVisibleFunctions` outside a use chain that returns has
covered every block reached from `block` by steps to the enclosing block and
to the instantiation point. -/
theorem getVisibleFunctions_covers (prog : Program)
    (visibleFunctionMap : BlockStmt → Option VisibleFunctionBlock)
    (call : CallExpr) (name : String) (depth : Nat) :
    ∀ (block : BlockStmt) (s s1 : SearchState),
      getVisibleFunctions prog visibleFunctionMap call depth name block s false =
        Outcome.returned s1 →
      ∀ c, Relation.ReflTransGen (walkStep prog) block c →
        coveredAt prog call name s1.visited c := by
  induction depth with
  | zero =>
    intro block s s1 h
    simp only [getVisibleFunctions] at h
    exact Outcome.noConfusion h
  | succ depth ih =>
    intro block s s1 h c hc
    have hall := getVisibleFunctions_visited _ _ _ _ _ _ _ _ _ h
    rw [getVisibleFunctions] at h
    by_cases hv : block ∉ s.visited
    · rw [if_pos hv] at h
      cases hip : instantiationPt prog block with
      | none => rw [hip] at h; exact Outcome.noConfusion h
      | some ip =>
        rw [hip] at h
        simp only [Outcome.bind_eq_returned] at h
        obtain ⟨s2, hloop, hrest⟩ := h
        obtain ⟨hmono1, hcov1⟩ := useLoop_covers prog visibleFunctionMap call depth name
          false false _ _ _ hloop
        by_cases hroot : block ≠ prog.rootModule.block
        · rw [if_pos hroot] at hrest
          cases hnext : nextScope prog block with
          | none => rw [hnext] at hrest; exact Outcome.noConfusion hrest
          | some next =>
            rw [hnext] at hrest
            simp only [Outcome.bind_eq_returned] at hrest
            obtain ⟨s3, hcall, hinst⟩ := hrest
            have hmono3 : ∀ x ∈ s3.visited, x ∈ s1.visited := by
              cases ip with
              | none =>
                simp only [Outcome.returned.injEq] at hinst
                subst hinst; exact fun _ hx => hx
              | some pt =>
                exact (getVisibleFunctions_visited _ _ _ _ _ _ _ _ _ hinst).1
            have hmono2 := (getVisibleFunctions_visited _ _ _ _ _ _ _ _ _ hcall).1
            rcases Relation.ReflTransGen.cases_head hc with heq | ⟨d, hstep, hdc⟩
            · subst heq
              refine ⟨hall.2, fun stmt mod hm _ hs hsrc hvis => ?_⟩
              exact hmono3 _ (hmono2 _ (hcov1 stmt mod hm (by simp) hs hsrc hvis))
            · rcases hstep.2 with hd | hd
              · rw [hnext] at hd
                cases hd
                exact coveredAt_mono _ _ _ _ _ _ hmono3 (ih _ _ _ hcall c hdc)
              · rw [hip] at hd
                cases hd
                exact ih _ _ _ hinst c hdc
        · rcases Relation.ReflTransGen.cases_head hc with heq | ⟨d, hstep, _⟩
          · subst heq
            rw [if_neg hroot] at hrest
            simp only [Outcome.returned.injEq] at hrest
            subst hrest
            exact ⟨hall.2, fun stmt mod hm _ hs hsrc hvis =>
              hcov1 stmt mod hm (by simp) hs hsrc hvis⟩
          · exact absurd hstep.1 hroot
    · rw [if_neg hv, if_pos (by simp)] at h
      cases hip : instantiationPt prog block with
      | none => rw [hip] at h; exact Outcome.noConfusion h
      | some ip =>
        rw [hip] at h
        simp only [Outcome.bind_eq_returned] at h
        obtain ⟨s2, hloop, s3, hnextcall, hinst⟩ := h
        obtain ⟨hmono1, hcov1⟩ := useLoop_covers prog visibleFunctionMap call depth name
          false true _ _ _ hloop
        have hmono3 : ∀ x ∈ s3.visited, x ∈ s1.visited := by
          cases ip with
          | none =>
            simp only [Outcome.returned.injEq] at hinst
            subst hinst; exact fun _ hx => hx
          | some pt =>
            exact (getVisibleFunctions_visited _ _ _ _ _ _ _ _ _ hinst).1
        have hmono2 : ∀ x ∈ s2.visited, x ∈ s3.visited := by
          by_cases hroot : block ≠ prog.rootModule.block
          · rw [if_pos hroot] at hnextcall
            cases hnext : nextScope prog block with
            | none => rw [hnext] at hnextcall; exact Outcome.noConfusion hnextcall
            | some next =>
              rw [hnext] at hnextcall
              exact (getVisibleFunctions_visited _ _ _ _ _ _ _ _ _ hnextcall).1
          · rw [if_neg hroot] at hnextcall
            simp only [Outcome.returned.injEq] at hnextcall
            subst hnextcall; exact fun _ hx => hx
        rcases Relation.ReflTransGen.cases_head hc with heq | ⟨d, hstep, hdc⟩
        · subst heq
          refine ⟨hall.2, fun stmt mod hm hp hs hsrc hvis => ?_⟩
          exact hmono3 _ (hmono2 _ (hcov1 stmt mod hm (by simpa using hp) hs hsrc hvis))
        · rw [if_pos hstep.1] at hnextcall
          rcases hstep.2 with hd | hd
          · rw [hd] at hnextcall
            exact coveredAt_mono _ _ _ _ _ _ hmono3 (ih _ _ _ hnextcall c hdc)
          · rw [hip] at hd
            cases hd
            exact ih _ _ _ hinst c hdc

/-! ### The visibility search: termination -/

theorem unvisited_mono (n : Nat) (v v1 : List BlockStmt) (h : ∀ x ∈ v, x ∈ v1) :
    unvisited n v1 ≤ unvisited n v := by
  unfold unvisited
  apply Finset.card_le_card
  intro b hb
  simp only [Finset.mem_filter, Finset.mem_range] at hb ⊢
  exact ⟨hb.1, fun hbv => hb.2 (h b hbv)⟩

theorem unvisited_cons_lt (n : Nat) (v : List BlockStmt) (b : BlockStmt) (hb : b < n)
    (hv : b ∉ v) : unvisited n (b :: v) < unvisited n v := by
  unfold unvisited
  apply Finset.card_lt_card
  rw [Finset.ssubset_iff_of_subset]
  · refine ⟨b, ?_, ?_⟩
    · simp only [Finset.mem_filter, Finset.mem_range]
      exact ⟨hb, hv⟩
    · simp
  · intro x hx
    simp only [Finset.mem_filter, Finset.mem_range, List.mem_cons, not_or] at hx ⊢
    exact ⟨hx.1, hx.2.2⟩

theorem Outcome.bind_ne {σ τ : Type} (bad : Outcome τ) (o : Outcome σ) (f : σ → Outcome τ)
    (ho : ∀ s, o = Outcome.returned s → f s ≠ bad)
    (hbad : o = Outcome.aborted → bad ≠ Outcome.aborted)
    (hbad2 : o = Outcome.depthExceeded → bad ≠ Outcome.depthExceeded) :
    o.bind f ≠ bad := by
  cases o with
  | returned s => exact ho s rfl
  | aborted => exact fun h => hbad rfl h.symm
  | depthExceeded => exact fun h => hbad2 rfl h.symm

/-- A loop over a use list does not end in the outcome `bad`, which is not a
return, when no step does from a state that satisfies the invariant `Inv`. -/
theorem for_actuals_avoids {σ : Type} (step : σ → UseListExpr → Outcome σ)
    (bad : Outcome σ) (hbad : ∀ s, Outcome.returned s ≠ bad) (Inv : σ → Prop) :
    ∀ (l : List UseListExpr),
      (∀ e ∈ l, ∀ s, Inv s → step s e ≠ bad ∧ ∀ s1, step s e = Outcome.returned s1 → Inv s1) →
      ∀ s, Inv s → for_actuals step l s ≠ bad ∧
        ∀ s1, for_actuals step l s = Outcome.returned s1 → Inv s1 := by
  intro l
  induction l with
  | nil =>
    intro _ s hs
    simp only [for_actuals]
    refine ⟨hbad s, fun s1 h => ?_⟩
    cases h; exact hs
  | cons e rest ih =>
    intro hstep s hs
    obtain ⟨hne, hinv⟩ := hstep e (List.mem_cons_self e rest) s hs
    have hrest := ih (fun e1 he1 => hstep e1 (List.mem_cons_of_mem e he1))
    simp only [for_actuals]
    constructor
    · cases hse : step s e with
      | returned s2 =>
        simp only [Outcome.bind]
        exact (hrest s2 (hinv s2 hse)).1
      | aborted =>
        simp only [Outcome.bind]
        rw [hse] at hne; exact hne
      | depthExceeded =>
        simp only [Outcome.bind]
        rw [hse] at hne; exact hne
    · intro s1 h
      simp only [Outcome.bind_eq_returned] at h
      obtain ⟨s2, hs2, hr⟩ := h
      exact (hrest s2 (hinv s2 hs2)).2 s1 hr

theorem traverse_avoids (prog : Program) (call : CallExpr)
    (recur : String → BlockStmt → SearchState → Bool → Outcome SearchState)
    (bad : Outcome SearchState) (hbad : ∀ s, Outcome.returned s ≠ bad)
    (Inv : SearchState → Prop) (name : String) ( isImport : Bool) (stmt : VisibilityStmt)
    (hab : bad = Outcome.aborted →
      (isImport = false ∧ ∃ sym, stmt.src = some sym) ∨
      (∃ mod, stmt.src = some (Symbol.moduleSymbol mod)))
    (s : SearchState) (hs : Inv s)
    (hrec : ∀ (mod : ModuleSymbol) (name1 : String),
      stmt.src = some (Symbol.moduleSymbol mod) →
      recur name1 mod.block s true ≠ bad ∧
        ∀ s1, recur name1 mod.block s true = Outcome.returned s1 → Inv s1) :
    getVisibleFunctions.traverse prog call recur name isImport stmt s ≠ bad ∧
    ∀ s1, getVisibleFunctions.traverse prog call recur name isImport stmt s =
      Outcome.returned s1 → Inv s1 := by
  have hret : Outcome.returned s ≠ bad ∧
      ∀ s1, Outcome.returned s = Outcome.returned s1 → Inv s1 :=
    ⟨hbad s, fun s1 h => by cases h; exact hs⟩
  unfold getVisibleFunctions.traverse
  by_cases hskip : stmt.skipSymbolSearch name = false
  · rw [if_pos hskip]
    cases hsrc : stmt.src with
    | none =>
      simp only
      refine ⟨fun h => ?_, fun s1 h => Outcome.noConfusion h⟩
      rcases hab h.symm with ⟨_, sym, hsym⟩ | ⟨mod, hmod⟩
      · rw [hsrc] at hsym; exact Option.noConfusion hsym
      · rw [hsrc] at hmod; exact Option.noConfusion hmod
    | some sym =>
      cases sym with
      | otherSymbol =>
        simp only
        by_cases hi : isImport = true
        · rw [if_pos hi]
          refine ⟨fun h => ?_, fun s1 h => Outcome.noConfusion h⟩
          rcases hab h.symm with ⟨hf, _⟩ | ⟨mod, hmod⟩
          · rw [hi] at hf; exact Bool.noConfusion hf
          · rw [hsrc] at hmod
            simp at hmod
        · rw [if_neg hi]; exact hret
      | moduleSymbol mod =>
        simp only
        by_cases hvis : prog.modIsVisible mod call = true
        · rw [if_pos hvis]
          by_cases hren : stmt.isARenamedSym name = true
          · rw [if_pos hren]; exact hrec mod _ hsrc
          · rw [if_neg hren]; exact hrec mod _ hsrc
        · rw [if_neg hvis]; exact hret
  · rw [if_neg hskip]; exact hret

/-- The steps of the loop over a use list in `getVisibleFunctions` avoid the
outcome `bad` and keep the invariant `Inv` when the recursive calls on the
blocks of modules do. -/
theorem useStep_avoids (prog : Program) (call : CallExpr)
    (recur : String → BlockStmt → SearchState → Bool → Outcome SearchState)
    (bad : Outcome SearchState) (hbad : ∀ s, Outcome.returned s ≠ bad)
    (Inv : SearchState → Prop) (name : String) (inUseChain revisit : Bool)
    (expr : UseListExpr)
    (hab : bad = Outcome.aborted →
      (∃ use sym, expr = UseListExpr.useStmt use ∧ use.src = some sym) ∨
      (∃ imp mod, expr = UseListExpr.importStmt imp ∧
        imp.src = some (Symbol.moduleSymbol mod)))
    (s : SearchState) (hs : Inv s)
    (hrec : ∀ (stmt : VisibilityStmt) (mod : ModuleSymbol) (name1 : String),
      (expr = UseListExpr.useStmt stmt ∨ expr = UseListExpr.importStmt stmt) →
      stmt.src = some (Symbol.moduleSymbol mod) →
      recur name1 mod.block s true ≠ bad ∧
        ∀ s1, recur name1 mod.block s true = Outcome.returned s1 → Inv s1) :
    getVisibleFunctions.useStep prog call recur name inUseChain revisit s expr ≠ bad ∧
    ∀ s1, getVisibleFunctions.useStep prog call recur name inUseChain revisit s expr =
      Outcome.returned s1 → Inv s1 := by
  have hret : Outcome.returned s ≠ bad ∧
      ∀ s1, Outcome.returned s = Outcome.returned s1 → Inv s1 :=
    ⟨hbad s, fun s1 h => by cases h; exact hs⟩
  unfold getVisibleFunctions.useStep
  cases expr with
  | other =>
    simp only
    refine ⟨fun h => ?_, fun s1 h => Outcome.noConfusion h⟩
    rcases hab h.symm with ⟨_, _, h1, _⟩ | ⟨_, _, h1, _⟩ <;> cases h1
  | useStmt use =>
    simp only
    by_cases hc : (if revisit = true then use.isPrivate = true
        else (¬ inUseChain = true ∨ ¬ use.isPrivate = true))
    · rw [if_pos hc]
      refine traverse_avoids prog call recur bad hbad Inv name false use ?_ s hs
        (fun mod name1 hsrc => hrec use mod name1 (Or.inl rfl) hsrc)
      intro h
      rcases hab h with ⟨use1, sym, h1, h2⟩ | ⟨_, _, h1, _⟩
      · cases h1; exact Or.inl ⟨rfl, sym, h2⟩
      · cases h1
    · rw [if_neg hc]; exact hret
  | importStmt imp =>
    simp only
    by_cases hc : (if revisit = true then imp.isPrivate = true
        else (¬ inUseChain = true ∨ ¬ imp.isPrivate = true))
    · rw [if_pos hc]
      refine traverse_avoids prog call recur bad hbad Inv name true imp ?_ s hs
        (fun mod name1 hsrc => hrec imp mod name1 (Or.inr rfl) hsrc)
      intro h
      rcases hab h with ⟨_, _, h1, _⟩ | ⟨imp1, mod, h1, h2⟩
      · cases h1
      · cases h1; exact Or.inr ⟨mod, h2⟩
    · rw [if_neg hc]; exact hret

/-- One level of `getVisibleFunctions` avoids the outcome `bad`, which is not
a return, when the recursive calls that it can make do, from states that
satisfy the invariant `Inv`. -/
theorem getVisibleFunctions_succ_avoids (prog : Program)
    (visibleFunctionMap : BlockStmt → Option VisibleFunctionBlock)
    (call : CallExpr) (depth : Nat) (name : String) (block : BlockStmt) (s : SearchState)
    (u : Bool) (bad : Outcome SearchState) (hbad : ∀ s, Outcome.returned s ≠ bad)
    (Inv : SearchState → Prop)
    (hinst : bad = Outcome.aborted → instantiationPt prog block ≠ none)
    (hnext : bad = Outcome.aborted → block ≠ prog.rootModule.block →
      nextScope prog block ≠ none)
    (huse : bad = Outcome.aborted → ∀ e ∈ (prog.useList block).getD [],
      (∃ use sym, e = UseListExpr.useStmt use ∧ use.src = some sym) ∨
      (∃ imp mod, e = UseListExpr.importStmt imp ∧
        imp.src = some (Symbol.moduleSymbol mod)))
    (hs : block ∈ s.visited → Inv s)
    (hs1 : block ∉ s.visited → ∀ fns, Inv { visited := block :: s.visited, visibleFns := fns })
    (hcallee : ∀ (name1 : String) (b1 : BlockStmt) (s1 : SearchState) (u1 : Bool), Inv s1 →
      ((u1 = true ∧ ∃ stmt mod,
          (UseListExpr.useStmt stmt ∈ (prog.useList block).getD [] ∨
            UseListExpr.importStmt stmt ∈ (prog.useList block).getD []) ∧
          stmt.src = some (Symbol.moduleSymbol mod) ∧ b1 = mod.block) ∨
        (u1 = u ∧ block ≠ prog.rootModule.block ∧ nextScope prog block = some b1) ∨
        (u1 = u ∧ instantiationPt prog block = some (some b1))) →
      getVisibleFunctions prog visibleFunctionMap call depth name1 b1 s1 u1 ≠ bad ∧
      ∀ s2, getVisibleFunctions prog visibleFunctionMap call depth name1 b1 s1 u1 =
        Outcome.returned s2 → Inv s2) :
    getVisibleFunctions prog visibleFunctionMap call (depth + 1) name block s u ≠ bad := by
  have hloop : ∀ (revisit : Bool) (s0 : SearchState), Inv s0 →
      for_actuals (getVisibleFunctions.useStep prog call
        (getVisibleFunctions prog visibleFunctionMap call depth) name u revisit)
        ((prog.useList block).getD []) s0 ≠ bad ∧
      ∀ s1, for_actuals (getVisibleFunctions.useStep prog call
        (getVisibleFunctions prog visibleFunctionMap call depth) name u revisit)
        ((prog.useList block).getD []) s0 = Outcome.returned s1 → Inv s1 := by
    intro revisit s0 hs0
    refine for_actuals_avoids _ bad hbad Inv _ ?_ s0 hs0
    intro e he s2 hs2
    refine useStep_avoids prog call _ bad hbad Inv name u revisit e
      (fun h => huse h e he) s2 hs2 ?_
    intro stmt mod name1 hexpr hsrc
    refine hcallee name1 mod.block s2 true hs2 (Or.inl ⟨rfl, stmt, mod, ?_, hsrc, rfl⟩)
    rcases hexpr with h | h
    · exact Or.inl (h ▸ he)
    · exact Or.inr (h ▸ he)
  rw [getVisibleFunctions]
  by_cases hv : block ∉ s.visited
  · rw [if_pos hv]
    cases hip : instantiationPt prog block with
    | none => exact fun h => hinst h.symm hip
    | some ip =>
      simp only
      obtain ⟨hl1, hl2⟩ := hloop false _ (hs1 hv _)
      refine Outcome.bind_ne bad _ _ ?_ (fun h hb => hl1 (h.trans hb.symm))
        (fun h hb => hl1 (h.trans hb.symm))
      intro s2 hs2
      have hi2 := hl2 s2 hs2
      by_cases hroot : block ≠ prog.rootModule.block
      · rw [if_pos hroot]
        cases hnx : nextScope prog block with
        | none => exact fun h => hnext h.symm hroot hnx
        | some next =>
          simp only
          obtain ⟨hc1, hc2⟩ := hcallee name next s2 u hi2 (Or.inr (Or.inl ⟨rfl, hroot, hnx⟩))
          refine Outcome.bind_ne bad _ _ ?_ (fun h hb => hc1 (h.trans hb.symm))
            (fun h hb => hc1 (h.trans hb.symm))
          intro s3 hs3
          cases ip with
          | none => exact hbad s3
          | some pt =>
            exact (hcallee name pt s3 u (hc2 s3 hs3) (Or.inr (Or.inr ⟨rfl, hip⟩))).1
      · rw [if_neg hroot]; exact hbad s2
  · rw [if_neg hv]
    have hvis : block ∈ s.visited := not_not.mp hv
    by_cases hu : ¬ u = true
    · rw [if_pos hu]
      cases hip : instantiationPt prog block with
      | none => exact fun h => hinst h.symm hip
      | some ip =>
        simp only
        obtain ⟨hl1, hl2⟩ := hloop true s (hs hvis)
        refine Outcome.bind_ne bad _ _ ?_ (fun h hb => hl1 (h.trans hb.symm))
          (fun h hb => hl1 (h.trans hb.symm))
        intro s2 hs2
        have hi2 := hl2 s2 hs2
        have hmid : (if block ≠ prog.rootModule.block then
              match nextScope prog block with
              | none => Outcome.aborted
              | some next =>
                getVisibleFunctions prog visibleFunctionMap call depth name next s2 u
            else Outcome.returned s2) ≠ bad ∧
            ∀ s3, (if block ≠ prog.rootModule.block then
              match nextScope prog block with
              | none => Outcome.aborted
              | some next =>
                getVisibleFunctions prog visibleFunctionMap call depth name next s2 u
            else Outcome.returned s2) = Outcome.returned s3 → Inv s3 := by
          by_cases hroot : block ≠ prog.rootModule.block
          · rw [if_pos hroot]
            cases hnx : nextScope prog block with
            | none =>
              exact ⟨fun h => hnext h.symm hroot hnx, fun s3 h => Outcome.noConfusion h⟩
            | some next =>
              exact hcallee name next s2 u hi2 (Or.inr (Or.inl ⟨rfl, hroot, hnx⟩))
          · rw [if_neg hroot]
            exact ⟨hbad s2, fun s3 h => by cases h; exact hi2⟩
        refine Outcome.bind_ne bad _ _ ?_ (fun h hb => hmid.1 (h.trans hb.symm))
          (fun h hb => hmid.1 (h.trans hb.symm))
        intro s3 hs3
        cases ip with
        | none => exact hbad s3
        | some pt =>
          exact (hcallee name pt s3 u (hmid.2 s3 hs3) (Or.inr (Or.inr ⟨rfl, hip⟩))).1
    · rw [if_neg hu]; exact hbad s

theorem unvisited_le (n : Nat) (v : List BlockStmt) : unvisited n v ≤ n := by
  unfold unvisited
  exact (Finset.card_filter_le _ _).trans (by simp)

/-- On a ranked graph `getVisibleFunctions` does not exceed the depth
`unvisited * (r + 2) + k + 1`, where `k` is 0 for a call on an unvisited
block or inside a use chain and the rank of the block plus 1 otherwise. -/
theorem getVisibleFunctions_terminates (prog : Program)
    (visibleFunctionMap : BlockStmt → Option VisibleFunctionBlock)
    (call : CallExpr) (n r : Nat) (rank : BlockStmt → Nat)
    (hg : RankedGraph prog n r rank) (depth : Nat) :
    ∀ (name : String) (block : BlockStmt) (s : SearchState) (u : Bool), block < n →
      unvisited n s.visited * (r + 2) +
        (if block ∈ s.visited ∧ u = false then rank block + 1 else 0) + 1 ≤ depth →
      getVisibleFunctions prog visibleFunctionMap call depth name block s u ≠
        Outcome.depthExceeded := by
  induction depth with
  | zero => intro name block s u _ h; omega
  | succ depth ih =>
    intro name block s u hb hdepth
    by_cases himm : block ∈ s.visited ∧ u = true
    · rw [getVisibleFunctions, if_neg (not_not.mpr himm.1), if_neg (not_not.mpr himm.2)]
      exact fun h => Outcome.noConfusion h
    have hmono : ∀ (name1 : String) (b1 : BlockStmt) (s1 s2 : SearchState) (u1 : Bool)
        (M : Nat), unvisited n s1.visited ≤ M →
        getVisibleFunctions prog visibleFunctionMap call depth name1 b1 s1 u1 =
          Outcome.returned s2 → unvisited n s2.visited ≤ M := by
      intro name1 b1 s1 s2 u1 M hM h
      exact (unvisited_mono n _ _ (getVisibleFunctions_visited _ _ _ _ _ _ _ _ _ h).1).trans hM
    have hallowed : ∀ (b1 : BlockStmt) (u1 : Bool),
        ((u1 = true ∧ ∃ stmt mod,
          (UseListExpr.useStmt stmt ∈ (prog.useList block).getD [] ∨
            UseListExpr.importStmt stmt ∈ (prog.useList block).getD []) ∧
          stmt.src = some (Symbol.moduleSymbol mod) ∧ b1 = mod.block) ∨
        (u1 = u ∧ block ≠ prog.rootModule.block ∧ nextScope prog block = some b1) ∨
        (u1 = u ∧ instantiationPt prog block = some (some b1))) →
        b1 < n ∧ rank b1 < r ∧ (u1 = true ∨ (u1 = u ∧ rank b1 < rank block)) := by
      intro b1 u1 h
      rcases h with ⟨hu1, stmt, mod, hmem, hsrc, rfl⟩ | ⟨hu1, hroot, hnx⟩ | ⟨hu1, hip⟩
      · have := hg.use_lt block stmt mod hb hmem hsrc
        exact ⟨this, hg.rank_lt _ this, Or.inl hu1⟩
      · have := hg.next_lt block b1 hb hroot hnx
        exact ⟨this, hg.rank_lt _ this, Or.inr ⟨hu1, hg.next_rank block b1 hb hroot hnx⟩⟩
      · have := hg.inst_lt block b1 hb hip
        exact ⟨this, hg.rank_lt _ this, Or.inr ⟨hu1, hg.inst_rank block b1 hb hip⟩⟩
    by_cases hv : block ∈ s.visited
    · have hu : u = false := by
        cases u with
        | false => rfl
        | true => exact absurd ⟨hv, rfl⟩ himm
      rw [if_pos ⟨hv, hu⟩] at hdepth
      refine getVisibleFunctions_succ_avoids prog visibleFunctionMap call depth name block s u
        Outcome.depthExceeded (fun _ h => Outcome.noConfusion h)
        (fun s1 => unvisited n s1.visited ≤ unvisited n s.visited)
        (fun h => Outcome.noConfusion h) (fun h => Outcome.noConfusion h)
        (fun h => Outcome.noConfusion h) (fun _ => le_refl _) (fun h => absurd hv h) ?_
      intro name1 b1 s1 u1 hs1 hal
      obtain ⟨hb1, hr1, hcase⟩ := hallowed b1 u1 hal
      refine ⟨ih name1 b1 s1 u1 hb1 ?_, fun s2 h => hmono name1 b1 s1 s2 u1 _ hs1 h⟩
      have hmul : unvisited n s1.visited * (r + 2) ≤ unvisited n s.visited * (r + 2) :=
        Nat.mul_le_mul_right _ hs1
      rcases hcase with h | ⟨_, h⟩
      · rw [if_neg (by simp [h])]; omega
      · split_ifs <;> omega
    · rw [if_neg (fun h => hv h.1)] at hdepth
      have hlt := unvisited_cons_lt n s.visited block hb hv
      refine getVisibleFunctions_succ_avoids prog visibleFunctionMap call depth name block s u
        Outcome.depthExceeded (fun _ h => Outcome.noConfusion h)
        (fun s1 => unvisited n s1.visited + 1 ≤ unvisited n s.visited)
        (fun h => Outcome.noConfusion h) (fun h => Outcome.noConfusion h)
        (fun h => Outcome.noConfusion h) (fun h => absurd h hv) (fun _ _ => hlt) ?_
      intro name1 b1 s1 u1 hs1 hal
      obtain ⟨hb1, hr1, _⟩ := hallowed b1 u1 hal
      refine ⟨ih name1 b1 s1 u1 hb1 ?_, fun s2 h => ?_⟩
      · have hmul : (unvisited n s1.visited + 1) * (r + 2) ≤ unvisited n s.visited * (r + 2) :=
          Nat.mul_le_mul_right _ hs1
        rw [Nat.add_mul, Nat.one_mul] at hmul
        split_ifs <;> omega
      · have := unvisited_mono n _ _ (getVisibleFunctions_visited _ _ _ _ _ _ _ _ _ h).1
        omega

/-- On a well-formed graph no assertion of `getVisibleFunctions` fails. -/
theorem getVisibleFunctions_no_abort (prog : Program)
    (visibleFunctionMap : BlockStmt → Option VisibleFunctionBlock)
    (call : CallExpr) (n : Nat)
    (hg : ClosedGraph prog n) (hw : WellFormedGraph prog n) (depth : Nat) :
    ∀ (name : String) (block : BlockStmt) (s : SearchState) (u : Bool), block < n →
      getVisibleFunctions prog visibleFunctionMap call depth name block s u ≠
        Outcome.aborted := by
  induction depth with
  | zero =>
    intro name block s u _
    rw [getVisibleFunctions]
    exact fun h => Outcome.noConfusion h
  | succ depth ih =>
    intro name block s u hb
    refine getVisibleFunctions_succ_avoids prog visibleFunctionMap call depth name block s u
      Outcome.aborted (fun _ h => Outcome.noConfusion h) (fun _ => True)
      (fun _ => hw.inst_some block hb) (fun _ hroot => hw.next_some block hb hroot)
      (fun _ e he => hw.use_ok block e hb he) (fun _ => trivial) (fun _ _ => trivial) ?_
    intro name1 b1 s1 u1 _ hal
    refine ⟨ih name1 b1 s1 u1 ?_, fun _ _ => trivial⟩
    rcases hal with ⟨_, stmt, mod, hmem, hsrc, rfl⟩ | ⟨_, hroot, hnx⟩ | ⟨_, hip⟩
    · exact hg.use_lt block stmt mod hb hmem hsrc
    · exact hg.next_lt block b1 hb hroot hnx
    · exact hg.inst_lt block b1 hb hip

/-- On a ranked, well-formed graph of `n` blocks with ranks below `r`, a call
of `getVisibleFunctions` with depth `(n + 1) * (r + 2)` or more returns. -/
theorem getVisibleFunctions_returns (prog : Program)
    (visibleFunctionMap : BlockStmt → Option VisibleFunctionBlock)
    (call : CallExpr) (n r : Nat) (rank : BlockStmt → Nat)
    (hg : RankedGraph prog n r rank) (hw : WellFormedGraph prog n) (depth : Nat)
    (hdepth : (n + 1) * (r + 2) ≤ depth)
    (name : String) (block : BlockStmt) (s : SearchState) (u : Bool) (hb : block < n) :
    ∃ s1, getVisibleFunctions prog visibleFunctionMap call depth name block s u =
      Outcome.returned s1 := by
  have h1 := getVisibleFunctions_no_abort prog visibleFunctionMap call n hg.toClosedGraph hw
    depth name block s u hb
  have h2 := getVisibleFunctions_terminates prog visibleFunctionMap call n r rank hg depth
    name block s u hb (by
      have hr := hg.rank_lt block hb
      have hm : unvisited n s.visited * (r + 2) ≤ n * (r + 2) :=
        Nat.mul_le_mul_right _ (unvisited_le n s.visited)
      rw [Nat.add_mul, Nat.one_mul] at hdepth
      split_ifs <;> omega)
  cases h : getVisibleFunctions prog visibleFunctionMap call depth name block s u with
  | returned s1 => exact ⟨s1, rfl⟩
  | aborted => exact absurd h h1
  | depthExceeded => exact absurd h h2

/-! ### The visibility search: what the result holds -/

theorem addFns_mem (prog : Program) (call : CallExpr) (fns : List FnSymbol)
    (privacyChecked privateOkay : Bool) (visibleFns : List FnSymbol) (f : FnSymbol)
    (h : f ∈ getVisibleFunctions.addFns prog call fns privacyChecked privateOkay visibleFns) :
    f ∈ visibleFns ∨ f ∈ fns := by
  induction fns generalizing privacyChecked privateOkay visibleFns with
  | nil => exact Or.inl (by simpa [getVisibleFunctions.addFns] using h)
  | cons fn fns ih =>
    unfold getVisibleFunctions.addFns at h
    split_ifs at h
    all_goals
      rcases ih _ _ _ h with h1 | h1
      · first
        | exact Or.inl h1
        | (rcases List.mem_append.mp h1 with h2 | h2
           · exact Or.inl h2
           · exact Or.inr (by simp at h2; simp [h2]))
      · exact Or.inr (List.mem_cons_of_mem _ h1)

theorem addFns_public (prog : Program) (call : CallExpr) (fns : List FnSymbol)
    (privacyChecked privateOkay : Bool) (visibleFns : List FnSymbol) (f : FnSymbol)
    (h : f ∈ visibleFns ∨ (f ∈ fns ∧ f.flagPrivate = false)) :
    f ∈ getVisibleFunctions.addFns prog call fns privacyChecked privateOkay visibleFns := by
  induction fns generalizing privacyChecked privateOkay visibleFns with
  | nil =>
    rcases h with h | ⟨h, _⟩
    · simpa [getVisibleFunctions.addFns] using h
    · simp at h
  | cons fn fns ih =>
    have key : ∀ acc : List FnSymbol, (f ∈ visibleFns → f ∈ acc) →
        (fn.flagPrivate = false → fn ∈ acc) →
        f ∈ acc ∨ (f ∈ fns ∧ f.flagPrivate = false) := by
      intro acc hacc hfn
      rcases h with h | ⟨h, hp⟩
      · exact Or.inl (hacc h)
      · rcases List.mem_cons.mp h with h | h
        · subst h; exact Or.inl (hfn hp)
        · exact Or.inr ⟨h, hp⟩
    unfold getVisibleFunctions.addFns
    split_ifs with h1 h2 h3 h4
    · exact ih _ _ _ (key _ (fun h => List.mem_append_left _ h) (fun _ => by simp))
    · exact ih _ _ _ (key _ (fun h => h) (fun hp => by rw [hp] at h1; exact absurd h1 (by simp)))
    · exact ih _ _ _ (key _ (fun h => List.mem_append_left _ h) (fun _ => by simp))
    · exact ih _ _ _ (key _ (fun h => h) (fun hp => by rw [hp] at h1; exact absurd h1 (by simp)))
    · exact ih _ _ _ (key _ (fun h => List.mem_append_left _ h) (fun _ => by simp))

/-- The steps of the search keep a name that no statement renames. -/
theorem searchStep_name (prog : Program) (call : CallExpr) (name : String)
    (hnr : notRenamed prog name) (start : BlockStmt) (u : Bool)
    (x : String × BlockStmt × Bool)
    (h : Relation.ReflTransGen (SearchStep prog call) (name, start, u) x) : x.1 = name := by
  induction h with
  | refl => rfl
  | tail _ hstep ih =>
    cases hstep with
    | enclosing => exact ih
    | instantiation => exact ih
    | useOrImport name1 block u1 stmt mod hmem =>
      simp only at ih
      subst ih
      simp [hnr block stmt hmem]

/-- The result of a search from the empty state: every function of the
result comes from the index of a block that the steps of the search reach,
under the name with which they reach it; and when no statement renames
`name`, every function of `name` that is not private in the index of a
visited block is in the result. -/
theorem getVisibleFunctions_result (prog : Program)
    (visibleFunctionMap : BlockStmt → Option VisibleFunctionBlock)
    (call : CallExpr) (depth : Nat) (name : String) (block : BlockStmt) (s1 : SearchState)
    (h : getVisibleFunctions prog visibleFunctionMap call depth name block
      { visited := [], visibleFns := [] } false = Outcome.returned s1) :
    (∀ f ∈ s1.visibleFns, ∃ (name1 : String) (b : BlockStmt) (u : Bool),
      Relation.ReflTransGen (SearchStep prog call) (name, block, false) (name1, b, u) ∧
      f ∈ visibleFunctionsIn visibleFunctionMap b name1) ∧
    (notRenamed prog name → ∀ c ∈ s1.visited,
      ∀ f ∈ visibleFunctionsIn visibleFunctionMap c name, f.flagPrivate = false →
        f ∈ s1.visibleFns) := by
  obtain ⟨⟨trace, ⟨hv, hf, _, _⟩, hreach⟩, _⟩ :=
    getVisibleFunctions_grows prog visibleFunctionMap call (name, block, false) depth
      name block _ s1 false Relation.ReflTransGen.refl h
  simp only [List.append_nil, List.nil_append] at hv hf
  constructor
  · intro f hfmem
    rw [hf] at hfmem
    obtain ⟨e, he, hfe⟩ := List.mem_flatMap.mp hfmem
    obtain ⟨u, hu⟩ := hreach e he
    refine ⟨e.1, e.2, u, hu, ?_⟩
    rcases addFns_mem _ _ _ _ _ _ _ hfe with h1 | h1
    · simp at h1
    · exact h1
  · intro hnr c hc f hfc hpub
    rw [hv] at hc
    obtain ⟨e, he, hec⟩ := List.mem_map.mp (List.mem_reverse.mp hc)
    obtain ⟨u, hu⟩ := hreach e he
    have hname : e.1 = name := searchStep_name prog call name hnr block false _ hu
    rw [hf]
    refine List.mem_flatMap.mpr ⟨e, he, ?_⟩
    unfold blockContribution
    rw [hec, hname]
    exact addFns_public _ _ _ _ _ _ _ (Or.inr ⟨hfc, hpub⟩)

/-! ### The visibility search: private statements inside a use chain -/

theorem for_actuals_congr {σ : Type} (step1 step2 : σ → UseListExpr → Outcome σ)
    (l : List UseListExpr) (h : ∀ e ∈ l, ∀ s, step1 s e = step2 s e) (s : σ) :
    for_actuals step1 l s = for_actuals step2 l s := by
  induction l generalizing s with
  | nil => rfl
  | cons e rest ih =>
    simp only [for_actuals]
    rw [h e (List.mem_cons_self e rest) s]
    congr 1
    funext s1
    exact ih (fun e1 he1 => h e1 (List.mem_cons_of_mem e he1)) s1

/-- Inside a use chain the loop over a use list passes over the private
statements. -/
theorem for_actuals_filter_private (prog : Program) (call : CallExpr)
    (recur : String → BlockStmt → SearchState → Bool → Outcome SearchState) (name : String)
    (l : List UseListExpr) (s : SearchState) :
    for_actuals (getVisibleFunctions.useStep prog call recur name true false)
        (l.filter (fun e => !e.isPrivate)) s =
      for_actuals (getVisibleFunctions.useStep prog call recur name true false) l s := by
  induction l generalizing s with
  | nil => rfl
  | cons e rest ih =>
    by_cases hp : e.isPrivate = true
    · rw [List.filter_cons_of_neg (by simp [hp])]
      have hstep : getVisibleFunctions.useStep prog call recur name true false s e =
          Outcome.returned s := by
        cases e with
        | other => simp [UseListExpr.isPrivate] at hp
        | useStmt use =>
          simp only [UseListExpr.isPrivate] at hp
          simp [getVisibleFunctions.useStep, hp]
        | importStmt imp =>
          simp only [UseListExpr.isPrivate] at hp
          simp [getVisibleFunctions.useStep, hp]
      rw [ih]
      simp only [for_actuals, hstep, Outcome.bind]
    · rw [List.filter_cons_of_pos (by simpa using hp)]
      simp only [for_actuals]
      congr 1
      funext s1
      exact ih s1

theorem useStep_congr_recur (prog : Program) (call : CallExpr)
    (recur1 recur2 : String → BlockStmt → SearchState → Bool → Outcome SearchState)
    (h : ∀ name block s, recur1 name block s true = recur2 name block s true)
    (name : String) (inUseChain revisit : Bool) (s : SearchState) (e : UseListExpr) :
    getVisibleFunctions.useStep prog call recur1 name inUseChain revisit s e =
      getVisibleFunctions.useStep prog call recur2 name inUseChain revisit s e := by
  unfold getVisibleFunctions.useStep getVisibleFunctions.traverse
  simp only [h]

theorem addFns_withoutPrivateStmts (prog : Program) (call : CallExpr) (fns : List FnSymbol)
    (privacyChecked privateOkay : Bool) (visibleFns : List FnSymbol) :
    getVisibleFunctions.addFns prog.withoutPrivateStmts call fns privacyChecked privateOkay
        visibleFns =
      getVisibleFunctions.addFns prog call fns privacyChecked privateOkay visibleFns := by
  induction fns generalizing privacyChecked privateOkay visibleFns with
  | nil => rfl
  | cons fn fns ih =>
    unfold getVisibleFunctions.addFns
    have hvis : prog.withoutPrivateStmts.fnIsVisible fn call = prog.fnIsVisible fn call := rfl
    rw [hvis]
    simp only [ih]

/-- A call of `getVisibleFunctions` inside a use chain gives what it gives on
the program without its private use and import statements. -/
theorem getVisibleFunctions_inUseChain_ignores_private (prog : Program)
    (visibleFunctionMap : BlockStmt → Option VisibleFunctionBlock)
    (call : CallExpr) (depth : Nat) :
    ∀ (name : String) (block : BlockStmt) (s : SearchState),
      getVisibleFunctions prog.withoutPrivateStmts visibleFunctionMap call depth name block s
          true =
        getVisibleFunctions prog visibleFunctionMap call depth name block s true := by
  induction depth with
  | zero => intro name block s; rfl
  | succ depth ih =>
    intro name block s
    have hloop : ∀ s0 : SearchState,
        for_actuals (getVisibleFunctions.useStep prog.withoutPrivateStmts call
          (getVisibleFunctions prog.withoutPrivateStmts visibleFunctionMap call depth)
          name true false) ((prog.withoutPrivateStmts.useList block).getD []) s0 =
        for_actuals (getVisibleFunctions.useStep prog call
          (getVisibleFunctions prog visibleFunctionMap call depth)
          name true false) ((prog.useList block).getD []) s0 := by
      intro s0
      have hlist : (prog.withoutPrivateStmts.useList block).getD [] =
          ((prog.useList block).getD []).filter (fun e => !e.isPrivate) := by
        simp only [Program.withoutPrivateStmts]
        cases prog.useList block <;> rfl
      rw [hlist]
      refine Eq.trans (for_actuals_congr _
        (getVisibleFunctions.useStep prog call
          (getVisibleFunctions prog visibleFunctionMap call depth) name true false) _
        (fun e _ s1 => ?_) s0) (for_actuals_filter_private prog call _ name _ s0)
      exact Eq.trans rfl (useStep_congr_recur prog call _ _ ih name true false s1 e)
    rw [getVisibleFunctions, getVisibleFunctions]
    by_cases hv : block ∉ s.visited
    · rw [if_pos hv, if_pos hv]
      have hip : instantiationPt prog.withoutPrivateStmts block = instantiationPt prog block :=
        rfl
      have hnx : nextScope prog.withoutPrivateStmts block = nextScope prog block := rfl
      have hroot : prog.withoutPrivateStmts.rootModule = prog.rootModule := rfl
      rw [hip, hnx, hroot]
      cases instantiationPt prog block with
      | none => rfl
      | some ip =>
        simp only
        rw [hloop, addFns_withoutPrivateStmts]
        congr 1
        funext s2
        simp only [ih]
    · rw [if_neg hv, if_neg hv, if_neg (by simp), if_neg (by simp)]

/-! ### The visibility search on the sample programs -/

open Sample in
theorem loopProgram_root (visibleFunctionMap : BlockStmt → Option VisibleFunctionBlock)
    (call : CallExpr) (name : String) (depth : Nat) (s : SearchState) (h0 : 0 ∈ s.visited) :
    getVisibleFunctions loopProgram visibleFunctionMap call (depth + 1) name 0 s false =
      Outcome.returned s := by
  rw [getVisibleFunctions, if_neg (not_not.mpr h0), if_pos (by simp)]
  rfl

open Sample in
theorem loopProgram_revisit (visibleFunctionMap : BlockStmt → Option VisibleFunctionBlock)
    (call : CallExpr) (name : String) (depth : Nat) :
    ∀ s : SearchState, 0 ∈ s.visited → 1 ∈ s.visited →
      getVisibleFunctions loopProgram visibleFunctionMap call depth name 1 s false =
        Outcome.depthExceeded := by
  induction depth with
  | zero => intro s _ _; rfl
  | succ depth ih =>
    intro s h0 h1
    rw [getVisibleFunctions, if_neg (not_not.mpr h1), if_pos (by simp)]
    have hip : instantiationPt loopProgram 1 = some (some 1) := by decide
    have hnx : nextScope loopProgram 1 = some 0 := by decide
    have hul : (loopProgram.useList 1).getD [] = [] := rfl
    have hroot : (1 : BlockStmt) ≠ loopProgram.rootModule.block := by decide
    rw [hip, hul]
    simp only [for_actuals, Outcome.bind, if_pos hroot, hnx]
    cases depth with
    | zero => rfl
    | succ d =>
      rw [loopProgram_root visibleFunctionMap call name d s h0]
      exact ih s h0 h1

open Sample in
/-- The search from the body of `h` in the program in which the instantiation
point of `h` is its own body exceeds every depth. -/
theorem loopProgram_diverges (visibleFunctionMap : BlockStmt → Option VisibleFunctionBlock)
    (call : CallExpr) (name : String) (depth : Nat) :
    getVisibleFunctions loopProgram visibleFunctionMap call depth name 1
      { visited := [], visibleFns := [] } false = Outcome.depthExceeded := by
  cases depth with
  | zero => rfl
  | succ depth =>
    rw [getVisibleFunctions, if_pos (by simp)]
    have hip : instantiationPt loopProgram 1 = some (some 1) := by decide
    have hnx : nextScope loopProgram 1 = some 0 := by decide
    have hul : (loopProgram.useList 1).getD [] = [] := rfl
    have hroot : (1 : BlockStmt) ≠ loopProgram.rootModule.block := by decide
    rw [hip, hul]
    simp only [for_actuals, Outcome.bind, if_pos hroot, hnx]
    cases depth with
    | zero => rfl
    | succ d =>
      have h0 : ∀ s : SearchState, 0 ∉ s.visited →
          getVisibleFunctions loopProgram visibleFunctionMap call (d + 1) name 0 s false =
            Outcome.returned
              { visited := 0 :: s.visited,
                visibleFns := getVisibleFunctions.addFns loopProgram call
                  (visibleFunctionsIn visibleFunctionMap 0 name) false false s.visibleFns } := by
        intro s hs
        rw [getVisibleFunctions, if_pos hs]
        rfl
      rw [h0 _ (by simp)]
      exact loopProgram_revisit visibleFunctionMap call name (d + 1) _ (by simp) (by simp)

open Sample in
/-- The use and import statements of the sample program, block by block. -/
theorem program_useList_cases (block : BlockStmt) (e : UseListExpr)
    (h : e ∈ (program.useList block).getD []) :
    (block = 3 ∧ e = UseListExpr.useStmt (plainUse (moduleOf 5) true)) ∨
    (block = 5 ∧ (e = UseListExpr.useStmt (plainUse (moduleOf 7) false) ∨
      e = UseListExpr.useStmt (plainUse (moduleOf 8) true) ∨
      e = UseListExpr.useStmt (plainUse hiddenModule false))) ∨
    (block = 7 ∧ e = UseListExpr.importStmt (plainUse (moduleOf 5) false)) ∨
    (block = 9 ∧ e = UseListExpr.useStmt (plainUse (moduleOf 7) true)) ∨
    (block = 12 ∧ e = UseListExpr.useStmt renamingUse) ∨
    (block = 13 ∧ e = UseListExpr.useStmt (plainUse (moduleOf 6) false)) := by
  simp only [program] at h
  split_ifs at h with h3 h5 h7 h9 h12 h13
  · simp only [Option.getD_some, List.mem_singleton] at h
    exact Or.inl ⟨h3, h⟩
  · simp only [Option.getD_some, List.mem_cons, List.mem_singleton, List.not_mem_nil,
      or_false] at h
    exact Or.inr (Or.inl ⟨h5, h⟩)
  · simp only [Option.getD_some, List.mem_singleton] at h
    exact Or.inr (Or.inr (Or.inl ⟨h7, h⟩))
  · simp only [Option.getD_some, List.mem_singleton] at h
    exact Or.inr (Or.inr (Or.inr (Or.inl ⟨h9, h⟩)))
  · simp only [Option.getD_some, List.mem_singleton] at h
    exact Or.inr (Or.inr (Or.inr (Or.inr (Or.inl ⟨h12, h⟩))))
  · simp only [Option.getD_some, List.mem_singleton] at h
    exact Or.inr (Or.inr (Or.inr (Or.inr (Or.inr ⟨h13, h⟩))))
  · simp at h

open Sample in
/-- The statements of the sample program name modules whose blocks are below
15, and none renames a symbol to `f`. -/
theorem program_stmt_cases (block : BlockStmt) (stmt : VisibilityStmt)
    (h : UseListExpr.useStmt stmt ∈ (program.useList block).getD [] ∨
      UseListExpr.importStmt stmt ∈ (program.useList block).getD []) :
    stmt = plainUse (moduleOf 5) true ∨ stmt = plainUse (moduleOf 7) false ∨
    stmt = plainUse (moduleOf 8) true ∨ stmt = plainUse hiddenModule false ∨
    stmt = plainUse (moduleOf 5) false ∨ stmt = plainUse (moduleOf 7) true ∨
    stmt = renamingUse ∨ stmt = plainUse (moduleOf 6) false := by
  rcases h with h | h
  · rcases program_useList_cases block _ h with ⟨_, h⟩ | ⟨_, h | h | h⟩ | ⟨_, h⟩ | ⟨_, h⟩ |
      ⟨_, h⟩ | ⟨_, h⟩
    all_goals (cases h <;> simp)
  · rcases program_useList_cases block _ h with ⟨_, h⟩ | ⟨_, h | h | h⟩ | ⟨_, h⟩ | ⟨_, h⟩ |
      ⟨_, h⟩ | ⟨_, h⟩
    all_goals (cases h <;> simp)

open Sample in
theorem program_closed : ClosedGraph program 15 where
  next_lt := by
    intro b nx hb hroot hnx
    have key : ∀ b < 15, b ≠ 0 → ∃ nx < 15, nextScope program b = some nx := by decide
    obtain ⟨nx1, h1, h2⟩ := key b hb hroot
    rw [h2] at hnx
    cases hnx
    exact h1
  inst_lt := by
    intro b pt hb hip
    have key : ∀ b < 15, instantiationPt program b = some none ∨
        ∃ pt < 15, instantiationPt program b = some (some pt) := by
      decide
    rcases key b hb with h | ⟨pt1, h1, h2⟩
    · rw [h] at hip; cases hip
    · rw [h2] at hip
      cases hip
      exact h1
  use_lt := by
    intro b stmt mod _ hmem hsrc
    rcases program_stmt_cases b stmt hmem with h | h | h | h | h | h | h | h <;>
      (subst h; cases hsrc; decide)

open Sample in
theorem program_ranked : RankedGraph program 15 4 rank where
  toClosedGraph := program_closed
  next_rank := by
    intro b nx hb hroot hnx
    have key : ∀ b < 15, b ≠ 0 → ∃ nx < 15, nextScope program b = some nx ∧ rank nx < rank b := by
      decide
    obtain ⟨nx1, _, h2, h3⟩ := key b hb hroot
    rw [h2] at hnx
    cases hnx
    exact h3
  inst_rank := by
    intro b pt hb hip
    have key : ∀ b < 15, instantiationPt program b = some none ∨
        ∃ pt < 15, instantiationPt program b = some (some pt) ∧ rank pt < rank b := by
      decide
    rcases key b hb with h | ⟨pt1, _, h2, h3⟩
    · rw [h] at hip; cases hip
    · rw [h2] at hip
      cases hip
      exact h3
  rank_lt := by decide

open Sample in
theorem program_wellFormed : WellFormedGraph program 15 where
  next_some := by
    intro b hb hroot
    have key : ∀ b < 15, b ≠ 0 → nextScope program b ≠ none := by decide
    exact key b hb hroot
  inst_some := by decide
  use_ok := by
    intro b e _ he
    rcases program_useList_cases b e he with ⟨_, h⟩ | ⟨_, h | h | h⟩ | ⟨_, h⟩ | ⟨_, h⟩ |
      ⟨_, h⟩ | ⟨_, h⟩
    all_goals first
      | exact Or.inl ⟨_, _, h, rfl⟩
      | exact Or.inr ⟨_, _, h, rfl⟩

open Sample in
theorem program_notRenamed_f : notRenamed program "f" := by
  intro block stmt hmem
  rcases program_stmt_cases block stmt hmem with h | h | h | h | h | h | h | h <;>
    (subst h; decide)

/-! ### The search for methods -/

theorem methodsGrow_refl (prog : Program)
    (visibleFunctionMap : BlockStmt → Option VisibleFunctionBlock) (name : String)
    (call : CallExpr) (s : MethodSearchState)
    (hc : cacheAgrees prog call s.scopeIsVisForMethods) :
    methodsGrow prog visibleFunctionMap name call s s :=
  ⟨hc, [], ⟨by simp, by simp, by simp, by simp⟩, by simp⟩

theorem methodsGrow_visited (prog : Program)
    (visibleFunctionMap : BlockStmt → Option VisibleFunctionBlock) (name : String)
    (call : CallExpr) (a b : MethodSearchState)
    (h : methodsGrow prog visibleFunctionMap name call a b) (x : BlockStmt)
    (hx : x ∈ a.visited) : x ∈ b.visited := by
  obtain ⟨_, blocks, ⟨hv, _, _, _⟩, _⟩ := h
  rw [hv]
  exact List.mem_append_right _ hx

theorem methodsGrow_trans (prog : Program)
    (visibleFunctionMap : BlockStmt → Option VisibleFunctionBlock) (name : String)
    (call : CallExpr) (a b c : MethodSearchState)
    (hab : methodsGrow prog visibleFunctionMap name call a b)
    (hbc : methodsGrow prog visibleFunctionMap name call b c) :
    methodsGrow prog visibleFunctionMap name call a c := by
  obtain ⟨hcb, t1, ⟨hv1, hf1, hn1, hfresh1⟩, hcl1⟩ := hab
  obtain ⟨hcc, t2, ⟨hv2, hf2, hn2, hfresh2⟩, hcl2⟩ := hbc
  refine ⟨hcc, t1 ++ t2, ⟨?_, ?_, ?_, ?_⟩, ?_⟩
  · rw [hv2, hv1]; simp
  · rw [hf2, hf1]; simp
  · rw [List.nodup_append]
    refine ⟨hn1, hn2, ?_⟩
    intro x hx1 hx2
    apply hfresh2 x hx2
    rw [hv1]
    exact List.mem_append_left _ (List.mem_reverse.mpr hx1)
  · intro e he
    rcases List.mem_append.mp he with h | h
    · exact hfresh1 e h
    · intro hmem
      apply hfresh2 e h
      rw [hv1]
      exact List.mem_append_right _ hmem
  · intro e he x hstep
    rcases List.mem_append.mp he with h | h
    · have := hcl1 e h x hstep
      rw [hv2]
      exact List.mem_append_right _ this
    · exact hcl2 e h x hstep

theorem cacheAgrees_cons (prog : Program) (call : CallExpr) (hvb : visibilityByBlock prog call)
    (cache : List ((BlockStmt × BlockStmt) × Bool)) (scope : BlockStmt) (mod : ModuleSymbol)
    (h : cacheAgrees prog call cache) :
    cacheAgrees prog call (((scope, mod.block), prog.modIsVisible mod call) :: cache) := by
  intro scope1 mod1 v hs hl
  rw [List.lookup_cons] at hl
  by_cases heq : ((scope1, mod1.block) == (scope, mod.block)) = true
  · rw [heq] at hl
    simp only [Option.some.injEq] at hl
    have hb : mod1.block = mod.block := by
      have := beq_iff_eq.mp heq
      exact (Prod.mk.inj this).2
    rw [← hl]
    exact hvb mod mod1 hb.symm
  · have heq1 : ((scope1, mod1.block) == (scope, mod.block)) = false := by
      simpa using heq
    rw [heq1] at hl
    exact h scope1 mod1 v hs hl

/-- A step of the loop over the use list in `getVisibleMethods`: the state
grows, and the block of the module that the statement names is visited
afterwards, when the module is not flagged private or is visible. -/
theorem methods_useStep_grows (prog : Program)
    (visibleFunctionMap : BlockStmt → Option VisibleFunctionBlock) (name : String)
    (call : CallExpr) (hvb : visibilityByBlock prog call)
    (recur : BlockStmt → MethodSearchState → Outcome MethodSearchState)
    (hrec : methodCallGrows prog visibleFunctionMap name call recur)
    (s s1 : MethodSearchState) (e : UseListExpr)
    (hc : cacheAgrees prog call s.scopeIsVisForMethods)
    (h : getVisibleMethods.useStep prog call recur s e = Outcome.returned s1) :
    methodsGrow prog visibleFunctionMap name call s s1 ∧
    ∀ (stmt : VisibilityStmt) (mod : ModuleSymbol),
      (UseListExpr.useStmt stmt = e ∨ UseListExpr.importStmt stmt = e) →
      stmt.src = some (Symbol.moduleSymbol mod) →
      (mod.flagPrivate = false ∨ prog.modIsVisible mod call = true) →
      mod.block ∈ s1.visited := by
  unfold getVisibleMethods.useStep at h
  have hsrc_of : ∀ (stmt : VisibilityStmt),
      (UseListExpr.useStmt stmt = e ∨ UseListExpr.importStmt stmt = e) →
      getVisibleMethods.se e = some stmt.src := by
    intro stmt hs
    rcases hs with hs | hs <;> (subst hs; rfl)
  cases hm : getVisibleMethods.se e with
  | none => rw [hm] at h; exact Outcome.noConfusion h
  | some src =>
    rw [hm] at h
    cases src with
    | none => exact Outcome.noConfusion h
    | some sym =>
      cases sym with
      | otherSymbol =>
        simp only [Outcome.returned.injEq] at h
        subst h
        refine ⟨methodsGrow_refl _ _ _ _ _ hc, fun stmt mod hs hsrc _ => ?_⟩
        have := hsrc_of stmt hs
        rw [hm, hsrc] at this
        simp at this
      | moduleSymbol mod0 =>
        simp only at h
        have hmod : ∀ (stmt : VisibilityStmt) (mod : ModuleSymbol),
            (UseListExpr.useStmt stmt = e ∨ UseListExpr.importStmt stmt = e) →
            stmt.src = some (Symbol.moduleSymbol mod) → mod = mod0 := by
          intro stmt mod hs hsrc
          have := hsrc_of stmt hs
          rw [hm, hsrc] at this
          simp only [Option.some.injEq, Symbol.moduleSymbol.injEq] at this
          exact this.symm
        by_cases hp : mod0.flagPrivate = true
        · rw [if_pos hp] at h
          cases hscope : call.visibilityScope with
          | none => rw [hscope] at h; exact Outcome.noConfusion h
          | some scope =>
            rw [hscope] at h
            simp only at h
            cases hl : s.scopeIsVisForMethods.lookup (scope, mod0.block) with
            | none =>
              rw [hl] at h
              simp only at h
              have hc0 := cacheAgrees_cons prog call hvb _ scope mod0 hc
              have g0 : methodsGrow prog visibleFunctionMap name call s
                  { s with scopeIsVisForMethods :=
                    ((scope, mod0.block), prog.modIsVisible mod0 call) ::
                      s.scopeIsVisForMethods } :=
                ⟨hc0, [], ⟨by simp, by simp, by simp, by simp⟩, by simp⟩
              by_cases hvis : prog.modIsVisible mod0 call = true
              · rw [if_pos hvis] at h
                obtain ⟨g1, hin⟩ := hrec _ _ _ hc0 h
                refine ⟨methodsGrow_trans _ _ _ _ _ _ _ g0 g1, fun stmt mod hs hsrc _ => ?_⟩
                rw [hmod stmt mod hs hsrc]; exact hin
              · rw [if_neg hvis] at h
                simp only [Outcome.returned.injEq] at h
                subst h
                refine ⟨g0, fun stmt mod hs hsrc hcond => ?_⟩
                rw [hmod stmt mod hs hsrc] at hcond
                rcases hcond with hc1 | hc1
                · rw [hp] at hc1; exact Bool.noConfusion hc1
                · exact absurd hc1 hvis
            | some v =>
              rw [hl] at h
              simp only at h
              by_cases hv : v = true
              · rw [if_pos hv] at h
                obtain ⟨g1, hin⟩ := hrec _ _ _ hc h
                refine ⟨g1, fun stmt mod hs hsrc _ => ?_⟩
                rw [hmod stmt mod hs hsrc]; exact hin
              · rw [if_neg hv] at h
                simp only [Outcome.returned.injEq] at h
                subst h
                refine ⟨methodsGrow_refl _ _ _ _ _ hc, fun stmt mod hs hsrc hcond => ?_⟩
                rw [hmod stmt mod hs hsrc] at hcond
                have hagree := hc scope mod0 v hscope hl
                rcases hcond with hc1 | hc1
                · rw [hp] at hc1; exact Bool.noConfusion hc1
                · rw [← hagree] at hc1; exact absurd hc1 hv
        · rw [if_neg hp] at h
          obtain ⟨g1, hin⟩ := hrec _ _ _ hc h
          refine ⟨g1, fun stmt mod hs hsrc _ => ?_⟩
          rw [hmod stmt mod hs hsrc]; exact hin

theorem methods_useLoop_grows (prog : Program)
    (visibleFunctionMap : BlockStmt → Option VisibleFunctionBlock) (name : String)
    (call : CallExpr) (hvb : visibilityByBlock prog call)
    (recur : BlockStmt → MethodSearchState → Outcome MethodSearchState)
    (hrec : methodCallGrows prog visibleFunctionMap name call recur) :
    ∀ (l : List UseListExpr) (s s1 : MethodSearchState),
      cacheAgrees prog call s.scopeIsVisForMethods →
      for_actuals (getVisibleMethods.useStep prog call recur) l s = Outcome.returned s1 →
      methodsGrow prog visibleFunctionMap name call s s1 ∧
      ∀ (stmt : VisibilityStmt) (mod : ModuleSymbol),
        (UseListExpr.useStmt stmt ∈ l ∨ UseListExpr.importStmt stmt ∈ l) →
        stmt.src = some (Symbol.moduleSymbol mod) →
        (mod.flagPrivate = false ∨ prog.modIsVisible mod call = true) →
        mod.block ∈ s1.visited := by
  intro l
  induction l with
  | nil =>
    intro s s1 hc h
    simp only [for_actuals, Outcome.returned.injEq] at h
    subst h
    exact ⟨methodsGrow_refl _ _ _ _ _ hc, fun stmt mod hmem => by simp at hmem⟩
  | cons e rest ih =>
    intro s s1 hc h
    simp only [for_actuals, Outcome.bind_eq_returned] at h
    obtain ⟨s2, hstep, hrest⟩ := h
    obtain ⟨g1, hcov1⟩ := methods_useStep_grows prog visibleFunctionMap name call hvb recur hrec
      s s2 e hc hstep
    obtain ⟨g2, hcov2⟩ := ih s2 s1 g1.1 hrest
    refine ⟨methodsGrow_trans _ _ _ _ _ _ _ g1 g2, ?_⟩
    intro stmt mod hmem hsrc hcond
    have hsplit : (UseListExpr.useStmt stmt = e ∨ UseListExpr.importStmt stmt = e) ∨
        (UseListExpr.useStmt stmt ∈ rest ∨ UseListExpr.importStmt stmt ∈ rest) := by
      rcases hmem with h | h
      · rcases List.mem_cons.mp h with h | h
        · exact Or.inl (Or.inl h)
        · exact Or.inr (Or.inl h)
      · rcases List.mem_cons.mp h with h | h
        · exact Or.inl (Or.inr h)
        · exact Or.inr (Or.inr h)
    rcases hsplit with h | h
    · exact methodsGrow_visited _ _ _ _ _ _ g2 _ (hcov1 stmt mod h hsrc hcond)
    · exact hcov2 stmt mod h hsrc hcond

/-- A run of `getVisibleMethods` that returns has grown the state by first
visits of blocks, has visited every block to which a newly visited block has
a step, and has visited `block`. -/
theorem getVisibleMethods_grows (prog : Program)
    (visibleFunctionMap : BlockStmt → Option VisibleFunctionBlock) (name : String)
    (call : CallExpr) (hvb : visibilityByBlock prog call) (depth : Nat) :
    methodCallGrows prog visibleFunctionMap name call
      (getVisibleMethods prog visibleFunctionMap name call depth) := by
  induction depth with
  | zero =>
    intro block s s1 _ h
    simp only [getVisibleMethods] at h
    exact Outcome.noConfusion h
  | succ depth ih =>
    intro block s s1 hc h
    rw [getVisibleMethods] at h
    by_cases hv : block ∈ s.visited
    · rw [if_pos hv] at h
      simp only [Outcome.returned.injEq] at h
      subst h
      exact ⟨methodsGrow_refl _ _ _ _ _ hc, hv⟩
    · rw [if_neg hv] at h
      cases hip : instantiationPt prog block with
      | none => rw [hip] at h; exact Outcome.noConfusion h
      | some ip =>
        rw [hip] at h
        simp only [Outcome.bind_eq_returned] at h
        obtain ⟨s2, hloop, hrest⟩ := h
        obtain ⟨g1, hcov1⟩ := methods_useLoop_grows prog visibleFunctionMap name call hvb _ ih
          _ { s with
              visited := block :: s.visited,
              visibleFns := s.visibleFns ++ visibleFunctionsIn visibleFunctionMap block name }
          s2 hc hloop
        have hc2 := g1.1
        -- the calls on the enclosing block and on the instantiation point
        have htail : methodsGrow prog visibleFunctionMap name call s2 s1 ∧
            ∀ c, (block ≠ prog.rootModule.block ∧
                (nextScope prog block = some c ∨ ip = some c)) → c ∈ s1.visited := by
          by_cases hroot : block ≠ prog.rootModule.block
          · rw [if_pos hroot] at hrest
            cases hnext : nextScope prog block with
            | none => rw [hnext] at hrest; exact Outcome.noConfusion hrest
            | some next =>
              rw [hnext] at hrest
              simp only [Outcome.bind_eq_returned] at hrest
              obtain ⟨s3, hcall, hinst⟩ := hrest
              obtain ⟨g2, hin2⟩ := ih next s2 s3 hc2 hcall
              cases ip with
              | none =>
                simp only [Outcome.returned.injEq] at hinst
                subst hinst
                refine ⟨g2, fun c hcc => ?_⟩
                rcases hcc.2 with h | h
                · cases h; exact hin2
                · cases h
              | some pt =>
                simp only at hinst
                obtain ⟨g3, hin3⟩ := ih pt s3 s1 g2.1 hinst
                refine ⟨methodsGrow_trans _ _ _ _ _ _ _ g2 g3, fun c hcc => ?_⟩
                rcases hcc.2 with h | h
                · cases h
                  exact methodsGrow_visited _ _ _ _ _ _ g3 _ hin2
                · cases h; exact hin3
          · rw [if_neg hroot] at hrest
            simp only [Outcome.returned.injEq] at hrest
            subst hrest
            exact ⟨methodsGrow_refl _ _ _ _ _ hc2, fun c hcc => absurd hcc.1 hroot⟩
        obtain ⟨g2, hcov2⟩ := htail
        have g12 := methodsGrow_trans _ _ _ _ _ _ _ g1 g2
        obtain ⟨hcc, blocks, ⟨hvis, hfns, hnd, hfresh⟩, hclosed⟩ := g12
        refine ⟨⟨hcc, block :: blocks, ⟨?_, ?_, ?_, ?_⟩, ?_⟩, ?_⟩
        · rw [hvis]; simp
        · rw [hfns]; simp
        · rw [List.nodup_cons]
          exact ⟨fun hmem => hfresh block hmem (List.mem_cons_self _ _), hnd⟩
        · intro b hbm
          rcases List.mem_cons.mp hbm with h | h
          · subst h; exact hv
          · exact fun hbs => hfresh b h (List.mem_cons_of_mem _ hbs)
        · intro b hbm c hstep
          rcases List.mem_cons.mp hbm with h | h
          · subst h
            cases hstep with
            | enclosing _ hroot hnx => exact hcov2 c ⟨hroot, Or.inl hnx⟩
            | instantiation _ hroot hpt =>
              rw [hip] at hpt
              simp only [Option.some.injEq] at hpt
              exact hcov2 c ⟨hroot, Or.inr hpt⟩
            | useOrImport stmt mod hmem hsrc hcond =>
              exact methodsGrow_visited _ _ _ _ _ _ g2 _ (hcov1 stmt mod hmem hsrc hcond)
          · exact hclosed b h c hstep
        · rw [hvis]
          exact List.mem_append_right _ (List.mem_cons_self _ _)

/-- The result of a search for methods from the empty set `visited`: every
block that the steps of the search reach from `block` is visited, the blocks
are visited once each, and the result holds the functions of `name` of the
visited blocks, block by block in the order of the visits. -/
theorem getVisibleMethods_result (prog : Program)
    (visibleFunctionMap : BlockStmt → Option VisibleFunctionBlock) (name : String)
    (call : CallExpr) (hvb : visibilityByBlock prog call) (depth : Nat) (block : BlockStmt)
    (visibleFns : List FnSymbol) (cache : List ((BlockStmt × BlockStmt) × Bool))
    (hc : cacheAgrees prog call cache) (s1 : MethodSearchState)
    (h : getVisibleMethods prog visibleFunctionMap name call depth block
      { visited := [], visibleFns := visibleFns, scopeIsVisForMethods := cache } =
        Outcome.returned s1) :
    s1.visited.Nodup ∧
    s1.visibleFns = visibleFns ++
      s1.visited.reverse.flatMap (fun b => visibleFunctionsIn visibleFunctionMap b name) ∧
    ∀ c, Relation.ReflTransGen (MethodStep prog call) block c → c ∈ s1.visited := by
  obtain ⟨⟨_, blocks, ⟨hv, hf, hnd, _⟩, hclosed⟩, hin⟩ :=
    getVisibleMethods_grows prog visibleFunctionMap name call hvb depth block _ s1 hc h
  simp only [List.append_nil] at hv
  refine ⟨?_, ?_, ?_⟩
  · rw [hv]; exact List.nodup_reverse.mpr hnd
  · rw [hf, hv, List.reverse_reverse]
  · intro c hreach
    induction hreach with
    | refl => exact hin
    | tail _ hstep ih =>
      rw [hv] at ih
      exact hclosed _ (List.mem_reverse.mp ih) _ hstep

/-- A step of the loop over the use list of `getVisibleMethods` avoids the
outcome `bad` and keeps the invariant `Inv`, which does not depend on the
cache, when the recursive calls on the blocks of modules do. -/
theorem methods_useStep_avoids (prog : Program) (call : CallExpr)
    (recur : BlockStmt → MethodSearchState → Outcome MethodSearchState)
    (bad : Outcome MethodSearchState) (hbad : ∀ s, Outcome.returned s ≠ bad)
    (Inv : MethodSearchState → Prop)
    (hcache : ∀ (s : MethodSearchState) (c : List ((BlockStmt × BlockStmt) × Bool)),
      Inv s → Inv { s with scopeIsVisForMethods := c })
    (expr : UseListExpr)
    (hab : bad = Outcome.aborted →
      call.visibilityScope ≠ none ∧
      ((∃ use sym, expr = UseListExpr.useStmt use ∧ use.src = some sym) ∨
      (∃ imp mod, expr = UseListExpr.importStmt imp ∧
        imp.src = some (Symbol.moduleSymbol mod))))
    (s : MethodSearchState) (hs : Inv s)
    (hrec : ∀ (stmt : VisibilityStmt) (mod : ModuleSymbol) (s0 : MethodSearchState),
      (expr = UseListExpr.useStmt stmt ∨ expr = UseListExpr.importStmt stmt) →
      stmt.src = some (Symbol.moduleSymbol mod) → Inv s0 →
      recur mod.block s0 ≠ bad ∧ ∀ s1, recur mod.block s0 = Outcome.returned s1 → Inv s1) :
    getVisibleMethods.useStep prog call recur s expr ≠ bad ∧
    ∀ s1, getVisibleMethods.useStep prog call recur s expr = Outcome.returned s1 → Inv s1 := by
  have hret : ∀ s0, Inv s0 → Outcome.returned s0 ≠ bad ∧
      ∀ s1, Outcome.returned s0 = Outcome.returned s1 → Inv s1 :=
    fun s0 h0 => ⟨hbad s0, fun s1 h => by cases h; exact h0⟩
  have hse : ∀ (stmt : VisibilityStmt),
      (expr = UseListExpr.useStmt stmt ∨ expr = UseListExpr.importStmt stmt) →
      getVisibleMethods.se expr = some stmt.src := by
    intro stmt hs
    rcases hs with hs | hs <;> (subst hs; rfl)
  have hstmt : getVisibleMethods.se expr = none ∨
      ∃ stmt, (expr = UseListExpr.useStmt stmt ∨ expr = UseListExpr.importStmt stmt) := by
    cases expr with
    | other => exact Or.inl rfl
    | useStmt use => exact Or.inr ⟨use, Or.inl rfl⟩
    | importStmt imp => exact Or.inr ⟨imp, Or.inr rfl⟩
  unfold getVisibleMethods.useStep
  rcases hstmt with hnone | ⟨stmt, hst⟩
  · rw [hnone]
    refine ⟨fun h => ?_, fun s1 h => Outcome.noConfusion h⟩
    rcases (hab h.symm).2 with ⟨use, _, h1, _⟩ | ⟨imp, _, h1, _⟩
    · rw [h1] at hnone; cases hnone
    · rw [h1] at hnone; cases hnone
  · rw [hse stmt hst]
    cases hsrc : stmt.src with
    | none =>
      refine ⟨fun h => ?_, fun s1 h => Outcome.noConfusion h⟩
      rcases (hab h.symm).2 with ⟨use, sym, h1, h2⟩ | ⟨imp, mod, h1, h2⟩
      · rcases hst with h3 | h3
        · rw [h1] at h3; cases h3; rw [hsrc] at h2; cases h2
        · rw [h1] at h3; cases h3
      · rcases hst with h3 | h3
        · rw [h1] at h3; cases h3
        · rw [h1] at h3; cases h3; rw [hsrc] at h2; cases h2
    | some sym =>
      cases sym with
      | otherSymbol => exact hret s hs
      | moduleSymbol mod =>
        simp only
        by_cases hp : mod.flagPrivate = true
        · rw [if_pos hp]
          cases hscope : call.visibilityScope with
          | none =>
            exact ⟨fun h => (hab h.symm).1 hscope, fun s1 h => Outcome.noConfusion h⟩
          | some scope =>
            simp only
            cases hl : s.scopeIsVisForMethods.lookup (scope, mod.block) with
            | none =>
              simp only
              split_ifs
              · exact hrec stmt mod _ hst hsrc (hcache s _ hs)
              · exact hret _ (hcache s _ hs)
            | some v =>
              simp only
              split_ifs
              · exact hrec stmt mod _ hst hsrc hs
              · exact hret _ hs
        · rw [if_neg hp]
          exact hrec stmt mod _ hst hsrc hs

/-- One level of `getVisibleMethods` on a block that is not visited avoids
the outcome `bad`, which is not a return, when the recursive calls that it
makes do, from states that satisfy the invariant `Inv`. -/
theorem getVisibleMethods_succ_avoids (prog : Program)
    (visibleFunctionMap : BlockStmt → Option VisibleFunctionBlock) (name : String)
    (call : CallExpr) (depth : Nat) (block : BlockStmt) (s : MethodSearchState)
    (bad : Outcome MethodSearchState) (hbad : ∀ s, Outcome.returned s ≠ bad)
    (Inv : MethodSearchState → Prop)
    (hcache : ∀ (s : MethodSearchState) (c : List ((BlockStmt × BlockStmt) × Bool)),
      Inv s → Inv { s with scopeIsVisForMethods := c })
    (hscope : bad = Outcome.aborted → call.visibilityScope ≠ none)
    (hinst : bad = Outcome.aborted → instantiationPt prog block ≠ none)
    (hnext : bad = Outcome.aborted → block ≠ prog.rootModule.block →
      nextScope prog block ≠ none)
    (huse : bad = Outcome.aborted → ∀ e ∈ (prog.useList block).getD [],
      (∃ use sym, e = UseListExpr.useStmt use ∧ use.src = some sym) ∨
      (∃ imp mod, e = UseListExpr.importStmt imp ∧
        imp.src = some (Symbol.moduleSymbol mod)))
    (hs1 : block ∉ s.visited → ∀ fns,
      Inv { s with visited := block :: s.visited, visibleFns := fns })
    (hcallee : ∀ (b1 : BlockStmt) (s1 : MethodSearchState), Inv s1 →
      ((∃ stmt mod,
          (UseListExpr.useStmt stmt ∈ (prog.useList block).getD [] ∨
            UseListExpr.importStmt stmt ∈ (prog.useList block).getD []) ∧
          stmt.src = some (Symbol.moduleSymbol mod) ∧ b1 = mod.block) ∨
        (block ≠ prog.rootModule.block ∧ nextScope prog block = some b1) ∨
        instantiationPt prog block = some (some b1)) →
      getVisibleMethods prog visibleFunctionMap name call depth b1 s1 ≠ bad ∧
      ∀ s2, getVisibleMethods prog visibleFunctionMap name call depth b1 s1 =
        Outcome.returned s2 → Inv s2) :
    getVisibleMethods prog visibleFunctionMap name call (depth + 1) block s ≠ bad := by
  rw [getVisibleMethods]
  by_cases hv : block ∈ s.visited
  · rw [if_pos hv]; exact hbad s
  · rw [if_neg hv]
    cases hip : instantiationPt prog block with
    | none => exact fun h => hinst h.symm hip
    | some ip =>
      simp only
      obtain ⟨hl1, hl2⟩ := for_actuals_avoids
        (getVisibleMethods.useStep prog call
          (getVisibleMethods prog visibleFunctionMap name call depth)) bad hbad Inv
        ((prog.useList block).getD [])
        (fun e he s2 hs2 =>
          methods_useStep_avoids prog call _ bad hbad Inv hcache e
            (fun h => ⟨hscope h, huse h e he⟩) s2 hs2
            (fun stmt mod s0 hexpr hsrc hs0 =>
              hcallee mod.block s0 hs0 (Or.inl ⟨stmt, mod, by
                rcases hexpr with h | h
                · exact Or.inl (h ▸ he)
                · exact Or.inr (h ▸ he), hsrc, rfl⟩)))
        { s with
          visited := block :: s.visited,
          visibleFns := s.visibleFns ++ visibleFunctionsIn visibleFunctionMap block name }
        (hs1 hv _)
      refine Outcome.bind_ne bad _ _ ?_ (fun h hb => hl1 (h.trans hb.symm))
        (fun h hb => hl1 (h.trans hb.symm))
      intro s2 hs2
      have hi2 := hl2 s2 hs2
      by_cases hroot : block ≠ prog.rootModule.block
      · rw [if_pos hroot]
        cases hnx : nextScope prog block with
        | none => exact fun h => hnext h.symm hroot hnx
        | some next =>
          simp only
          obtain ⟨hc1, hc2⟩ := hcallee next s2 hi2 (Or.inr (Or.inl ⟨hroot, hnx⟩))
          refine Outcome.bind_ne bad _ _ ?_ (fun h hb => hc1 (h.trans hb.symm))
            (fun h hb => hc1 (h.trans hb.symm))
          intro s3 hs3
          cases ip with
          | none => exact hbad s3
          | some pt => exact (hcallee pt s3 (hc2 s3 hs3) (Or.inr (Or.inr hip))).1
      · rw [if_neg hroot]; exact hbad s2

theorem methods_useStep_visited (prog : Program) (call : CallExpr)
    (recur : BlockStmt → MethodSearchState → Outcome MethodSearchState)
    (hrec : ∀ (b : BlockStmt) (s s1 : MethodSearchState), recur b s = Outcome.returned s1 →
      ∀ x ∈ s.visited, x ∈ s1.visited)
    (s s1 : MethodSearchState) (e : UseListExpr)
    (h : getVisibleMethods.useStep prog call recur s e = Outcome.returned s1) :
    ∀ x ∈ s.visited, x ∈ s1.visited := by
  unfold getVisibleMethods.useStep at h
  cases hm : getVisibleMethods.se e with
  | none => rw [hm] at h; exact Outcome.noConfusion h
  | some src =>
    rw [hm] at h
    cases src with
    | none => exact Outcome.noConfusion h
    | some sym =>
      cases sym with
      | otherSymbol =>
        simp only [Outcome.returned.injEq] at h
        subst h
        exact fun _ hx => hx
      | moduleSymbol mod0 =>
        simp only at h
        by_cases hp : mod0.flagPrivate = true
        · rw [if_pos hp] at h
          cases hscope : call.visibilityScope with
          | none => rw [hscope] at h; exact Outcome.noConfusion h
          | some scope =>
            rw [hscope] at h
            simp only at h
            cases hl : s.scopeIsVisForMethods.lookup (scope, mod0.block) with
            | none =>
              rw [hl] at h
              simp only at h
              by_cases hvis : prog.modIsVisible mod0 call = true
              · rw [if_pos hvis] at h
                exact fun x hx => hrec _ _ _ h x hx
              · rw [if_neg hvis] at h
                cases h; exact fun _ hx => hx
            | some v =>
              rw [hl] at h
              simp only at h
              by_cases hv : v = true
              · rw [if_pos hv] at h
                exact hrec _ _ _ h
              · rw [if_neg hv] at h
                cases h; exact fun _ hx => hx
        · rw [if_neg hp] at h
          exact hrec _ _ _ h

/-- A run of `getVisibleMethods` that returns keeps the visited blocks
visited. -/
theorem getVisibleMethods_visited (prog : Program)
    (visibleFunctionMap : BlockStmt → Option VisibleFunctionBlock) (name : String)
    (call : CallExpr) (depth : Nat) :
    ∀ (block : BlockStmt) (s s1 : MethodSearchState),
      getVisibleMethods prog visibleFunctionMap name call depth block s = Outcome.returned s1 →
      ∀ x ∈ s.visited, x ∈ s1.visited := by
  induction depth with
  | zero =>
    intro block s s1 h
    simp only [getVisibleMethods] at h
    exact Outcome.noConfusion h
  | succ depth ih =>
    intro block s s1 h
    rw [getVisibleMethods] at h
    by_cases hv : block ∈ s.visited
    · rw [if_pos hv] at h
      cases h; exact fun _ hx => hx
    · rw [if_neg hv] at h
      cases hip : instantiationPt prog block with
      | none => rw [hip] at h; exact Outcome.noConfusion h
      | some ip =>
        rw [hip] at h
        simp only [Outcome.bind_eq_returned] at h
        obtain ⟨s2, hloop, hrest⟩ := h
        have h1 := for_actuals_returned _
          (fun a b : MethodSearchState => ∀ x ∈ a.visited, x ∈ b.visited)
          (fun _ _ hx => hx) (fun a b c hab hbc x hx => hbc x (hab x hx)) _
          (fun e _ a b hab => methods_useStep_visited prog call _ ih a b e hab) _ _ hloop
        have h2 : ∀ x ∈ s2.visited, x ∈ s1.visited := by
          by_cases hroot : block ≠ prog.rootModule.block
          · rw [if_pos hroot] at hrest
            cases hnext : nextScope prog block with
            | none => rw [hnext] at hrest; exact Outcome.noConfusion hrest
            | some next =>
              rw [hnext] at hrest
              simp only [Outcome.bind_eq_returned] at hrest
              obtain ⟨s3, hcall, hinst⟩ := hrest
              have h3 := ih _ _ _ hcall
              cases ip with
              | none =>
                simp only [Outcome.returned.injEq] at hinst
                subst hinst
                exact h3
              | some pt =>
                simp only at hinst
                exact fun x hx => ih _ _ _ hinst x (h3 x hx)
          · rw [if_neg hroot] at hrest
            cases hrest; exact fun _ hx => hx
        exact fun x hx => h2 x (h1 x (List.mem_cons_of_mem _ hx))

/-- On a closed graph of `n` blocks `getVisibleMethods` does not exceed the
depth `unvisited + 1`. -/
theorem getVisibleMethods_terminates (prog : Program)
    (visibleFunctionMap : BlockStmt → Option VisibleFunctionBlock) (name : String)
    (call : CallExpr) (n : Nat) (hg : ClosedGraph prog n) (depth : Nat) :
    ∀ (block : BlockStmt) (s : MethodSearchState), block < n →
      unvisited n s.visited + 1 ≤ depth →
      getVisibleMethods prog visibleFunctionMap name call depth block s ≠
        Outcome.depthExceeded := by
  induction depth with
  | zero => intro block s _ h; omega
  | succ depth ih =>
    intro block s hb hdepth
    refine getVisibleMethods_succ_avoids prog visibleFunctionMap name call depth block s
      Outcome.depthExceeded (fun _ h => Outcome.noConfusion h)
      (fun s1 => unvisited n s1.visited + 1 ≤ unvisited n s.visited)
      (fun _ _ h => h) (fun h => Outcome.noConfusion h) (fun h => Outcome.noConfusion h)
      (fun h => Outcome.noConfusion h) (fun h => Outcome.noConfusion h)
      (fun hv _ => unvisited_cons_lt n s.visited block hb hv) ?_
    intro b1 s1 hs1 hal
    have hb1 : b1 < n := by
      rcases hal with ⟨stmt, mod, hmem, hsrc, rfl⟩ | ⟨hroot, hnx⟩ | hip
      · exact hg.use_lt block stmt mod hb hmem hsrc
      · exact hg.next_lt block b1 hb hroot hnx
      · exact hg.inst_lt block b1 hb hip
    refine ⟨ih b1 s1 hb1 (by omega), fun s2 h => ?_⟩
    have := unvisited_mono n _ _ (getVisibleMethods_visited _ _ _ _ _ _ _ _ h)
    omega

/-- On a well-formed graph no assertion of `getVisibleMethods` fails, when
the call has a visibility scope. -/
theorem getVisibleMethods_no_abort (prog : Program)
    (visibleFunctionMap : BlockStmt → Option VisibleFunctionBlock) (name : String)
    (call : CallExpr) (n : Nat) (hg : ClosedGraph prog n) (hw : WellFormedGraph prog n)
    (hscope : call.visibilityScope ≠ none) (depth : Nat) :
    ∀ (block : BlockStmt) (s : MethodSearchState), block < n →
      getVisibleMethods prog visibleFunctionMap name call depth block s ≠ Outcome.aborted := by
  induction depth with
  | zero =>
    intro block s _
    rw [getVisibleMethods]
    exact fun h => Outcome.noConfusion h
  | succ depth ih =>
    intro block s hb
    refine getVisibleMethods_succ_avoids prog visibleFunctionMap name call depth block s
      Outcome.aborted (fun _ h => Outcome.noConfusion h) (fun _ => True)
      (fun _ _ _ => trivial) (fun _ => hscope)
      (fun _ => hw.inst_some block hb) (fun _ hroot => hw.next_some block hb hroot)
      (fun _ e he => hw.use_ok block e hb he) (fun _ _ => trivial) ?_
    intro b1 s1 _ hal
    refine ⟨ih b1 s1 ?_, fun _ _ => trivial⟩
    rcases hal with ⟨stmt, mod, hmem, hsrc, rfl⟩ | ⟨hroot, hnx⟩ | hip
    · exact hg.use_lt block stmt mod hb hmem hsrc
    · exact hg.next_lt block b1 hb hroot hnx
    · exact hg.inst_lt block b1 hb hip

/-- On a closed, well-formed graph of `n` blocks a call of
`getVisibleMethods` with depth `n + 1` or more returns. -/
theorem getVisibleMethods_returns (prog : Program)
    (visibleFunctionMap : BlockStmt → Option VisibleFunctionBlock) (name : String)
    (call : CallExpr) (n : Nat) (hg : ClosedGraph prog n) (hw : WellFormedGraph prog n)
    (hscope : call.visibilityScope ≠ none) (depth : Nat) (hdepth : n + 1 ≤ depth)
    (block : BlockStmt) (s : MethodSearchState) (hb : block < n) :
    ∃ s1, getVisibleMethods prog visibleFunctionMap name call depth block s =
      Outcome.returned s1 := by
  have h1 := getVisibleMethods_no_abort prog visibleFunctionMap name call n hg hw hscope depth
    block s hb
  have h2 := getVisibleMethods_terminates prog visibleFunctionMap name call n hg depth
    block s hb (by have := unvisited_le n s.visited; omega)
  cases h : getVisibleMethods prog visibleFunctionMap name call depth block s with
  | returned s1 => exact ⟨s1, rfl⟩
  | aborted => exact absurd h h1
  | depthExceeded => exact absurd h h2

/-! ### The index of the visible functions -/

theorem buildVisibleFunctionMap_step_lookup (prog : Program)
    (visibleFunctionMap : BlockStmt → Option VisibleFunctionBlock) (fn : FnSymbol)
    (b : BlockStmt) (n : String) :
    visibleFunctionsIn (buildVisibleFunctionMap.step prog visibleFunctionMap fn) b n =
      visibleFunctionsIn visibleFunctionMap b n ++
        (if eligible fn = true ∧ indexBlock prog fn = b ∧ fn.name = n then [fn] else []) := by
  unfold buildVisibleFunctionMap.step
  by_cases he : ¬ fn.flagInvisibleFn = true ∧ fn.inTree = true ∧ ¬ fn.defPointInArgSymbol = true
  · have hel : eligible fn = true := by
      unfold eligible
      obtain ⟨h1, h2, h3⟩ := he
      simp [h1, h2, h3]
    rw [if_pos he]
    simp only [hel, true_and]
    have hib : (if fn.flagAutoII = true then prog.theProgram.block else fn.defPointScope) =
        indexBlock prog fn := rfl
    rw [hib]
    by_cases hb : indexBlock prog fn = b
    · subst hb
      unfold visibleFunctionsIn
      simp only [Function.update_same]
      by_cases hn : fn.name = n
      · subst hn
        simp only [Function.update_same, and_self, if_true]
        cases hm : visibleFunctionMap (indexBlock prog fn) with
        | none => simp
        | some vfb => cases hv : vfb.visibleFunctions fn.name <;> simp [hv]
      · have hn1 : n ≠ fn.name := fun h => hn h.symm
        simp only [Function.update_noteq hn1, hn, and_false, if_false, List.append_nil]
        cases hm : visibleFunctionMap (indexBlock prog fn) with
        | none => simp
        | some vfb => simp
    · have hb1 : b ≠ indexBlock prog fn := fun h => hb h.symm
      unfold visibleFunctionsIn
      simp only [Function.update_noteq hb1, hb, false_and, if_false, List.append_nil]
  · have hel : ¬ eligible fn = true := by
      unfold eligible
      intro h
      apply he
      simp only [Bool.and_eq_true, Bool.not_eq_true'] at h
      obtain ⟨⟨h1, h2⟩, h3⟩ := h
      simp [h1, h2, h3]
    rw [if_neg he]
    simp [hel]

theorem buildVisibleFunctionMap_foldl_lookup (prog : Program) (fns : List FnSymbol)
    (visibleFunctionMap : BlockStmt → Option VisibleFunctionBlock) (b : BlockStmt)
    (n : String) :
    visibleFunctionsIn (fns.foldl (buildVisibleFunctionMap.step prog) visibleFunctionMap) b n =
      visibleFunctionsIn visibleFunctionMap b n ++
        fns.filter (fun fn => eligible fn && decide (indexBlock prog fn = b) &&
          decide (fn.name = n)) := by
  induction fns generalizing visibleFunctionMap with
  | nil => simp
  | cons fn fns ih =>
    rw [List.foldl_cons, ih, buildVisibleFunctionMap_step_lookup, List.append_assoc]
    congr 1
    by_cases hp : eligible fn = true ∧ indexBlock prog fn = b ∧ fn.name = n
    · rw [if_pos hp, List.filter_cons_of_pos (by simp [hp.1, hp.2.1, hp.2.2])]
      rfl
    · rw [if_neg hp, List.filter_cons_of_neg]
      · rfl
      · intro h
        apply hp
        simp only [Bool.and_eq_true, decide_eq_true_eq] at h
        exact ⟨h.1.1, h.1.2, h.2⟩

/-- The update step on the index of a rebuild for the list `old`, after an
extension of the list by `new`, gives the index of a rebuild from scratch. -/
theorem update_after_rebuild (prog : Program) (old new : List FnSymbol) (g : Globals) :
    findVisibleFunctions.update (prog.withFnSymbols (old ++ new))
        (buildVisibleFunctionMap (prog.withFnSymbols old) g.cleared) =
      buildVisibleFunctionMap (prog.withFnSymbols (old ++ new)) g.cleared := by
  unfold findVisibleFunctions.update
  by_cases h : (prog.withFnSymbols (old ++ new)).gFnSymbols.length ≠
      (buildVisibleFunctionMap (prog.withFnSymbols old) g.cleared).nVisibleFunctions
  · rw [if_pos h]
    simp only [buildVisibleFunctionMap, Program.withFnSymbols, Globals.cleared,
      List.drop_zero, List.foldl_append, List.drop_left]
    rfl
  · rw [if_neg h]
    have hl : new = [] := by
      have : (old ++ new).length = old.length := by
        simpa [Program.withFnSymbols, buildVisibleFunctionMap] using h
      rw [List.length_append] at this
      exact List.length_eq_zero.mp (by omega)
    subst hl
    simp only [List.append_nil]

/-- The update step from the empty index gives the index of a rebuild. -/
theorem update_from_cleared (prog : Program) (old : List FnSymbol) (g : Globals) :
    findVisibleFunctions.update (prog.withFnSymbols old) g.cleared =
      buildVisibleFunctionMap (prog.withFnSymbols old) g.cleared := by
  unfold findVisibleFunctions.update
  by_cases h : (prog.withFnSymbols old).gFnSymbols.length ≠ g.cleared.nVisibleFunctions
  · rw [if_pos h]
  · rw [if_neg h]
    have hl : old = [] := by
      have : old.length = 0 := by simpa [Program.withFnSymbols, Globals.cleared] using h
      exact List.length_eq_zero.mp this
    subst hl
    rfl

/-! ### The search for methods: each block once -/

theorem methods_useStep_grownBy (prog : Program)
    (visibleFunctionMap : BlockStmt → Option VisibleFunctionBlock) (name : String)
    (call : CallExpr) (recur : BlockStmt → MethodSearchState → Outcome MethodSearchState)
    (hrec : ∀ (b : BlockStmt) (s s1 : MethodSearchState), recur b s = Outcome.returned s1 →
      ∃ blocks, methodsGrownBy visibleFunctionMap name s s1 blocks)
    (s s1 : MethodSearchState) (e : UseListExpr)
    (h : getVisibleMethods.useStep prog call recur s e = Outcome.returned s1) :
    ∃ blocks, methodsGrownBy visibleFunctionMap name s s1 blocks := by
  have hrefl : ∀ s0 : MethodSearchState, ∃ blocks,
      methodsGrownBy visibleFunctionMap name s0 s0 blocks :=
    fun s0 => ⟨[], by simp [methodsGrownBy]⟩
  unfold getVisibleMethods.useStep at h
  cases hm : getVisibleMethods.se e with
  | none => rw [hm] at h; exact Outcome.noConfusion h
  | some src =>
    rw [hm] at h
    cases src with
    | none => exact Outcome.noConfusion h
    | some sym =>
      cases sym with
      | otherSymbol =>
        simp only [Outcome.returned.injEq] at h
        subst h
        exact hrefl s
      | moduleSymbol mod0 =>
        simp only at h
        by_cases hp : mod0.flagPrivate = true
        · rw [if_pos hp] at h
          cases hscope : call.visibilityScope with
          | none => rw [hscope] at h; exact Outcome.noConfusion h
          | some scope =>
            rw [hscope] at h
            simp only at h
            cases hl : s.scopeIsVisForMethods.lookup (scope, mod0.block) with
            | none =>
              rw [hl] at h
              simp only at h
              by_cases hvis : prog.modIsVisible mod0 call = true
              · rw [if_pos hvis] at h
                obtain ⟨blocks, hb⟩ := hrec _ _ _ h
                exact ⟨blocks, hb⟩
              · rw [if_neg hvis] at h
                cases h
                exact ⟨[], by simp [methodsGrownBy]⟩
            | some v =>
              rw [hl] at h
              simp only at h
              by_cases hv : v = true
              · rw [if_pos hv] at h
                exact hrec _ _ _ h
              · rw [if_neg hv] at h
                cases h; exact hrefl s
        · rw [if_neg hp] at h
          exact hrec _ _ _ h

theorem methodsGrownBy_append (visibleFunctionMap : BlockStmt → Option VisibleFunctionBlock)
    (name : String) (a b c : MethodSearchState) (t1 t2 : List BlockStmt)
    (hab : methodsGrownBy visibleFunctionMap name a b t1)
    (hbc : methodsGrownBy visibleFunctionMap name b c t2) :
    methodsGrownBy visibleFunctionMap name a c (t1 ++ t2) := by
  obtain ⟨hv1, hf1, hn1, hfresh1⟩ := hab
  obtain ⟨hv2, hf2, hn2, hfresh2⟩ := hbc
  refine ⟨?_, ?_, ?_, ?_⟩
  · rw [hv2, hv1]; simp
  · rw [hf2, hf1]; simp
  · rw [List.nodup_append]
    refine ⟨hn1, hn2, ?_⟩
    intro x hx1 hx2
    apply hfresh2 x hx2
    rw [hv1]
    exact List.mem_append_left _ (List.mem_reverse.mpr hx1)
  · intro e he
    rcases List.mem_append.mp he with h | h
    · exact hfresh1 e h
    · intro hmem
      apply hfresh2 e h
      rw [hv1]
      exact List.mem_append_right _ hmem

/-- A run of `getVisibleMethods` that returns has grown the state by first
visits of blocks, whatever the cache holds. -/
theorem getVisibleMethods_grownBy (prog : Program)
    (visibleFunctionMap : BlockStmt → Option VisibleFunctionBlock) (name : String)
    (call : CallExpr) (depth : Nat) :
    ∀ (block : BlockStmt) (s s1 : MethodSearchState),
      getVisibleMethods prog visibleFunctionMap name call depth block s = Outcome.returned s1 →
      ∃ blocks, methodsGrownBy visibleFunctionMap name s s1 blocks := by
  have htrans : ∀ a b c : MethodSearchState,
      (∃ blocks, methodsGrownBy visibleFunctionMap name a b blocks) →
      (∃ blocks, methodsGrownBy visibleFunctionMap name b c blocks) →
      ∃ blocks, methodsGrownBy visibleFunctionMap name a c blocks :=
    fun a b c ⟨t1, h1⟩ ⟨t2, h2⟩ => ⟨t1 ++ t2, methodsGrownBy_append _ _ _ _ _ _ _ h1 h2⟩
  have hrefl : ∀ s0 : MethodSearchState, ∃ blocks,
      methodsGrownBy visibleFunctionMap name s0 s0 blocks :=
    fun s0 => ⟨[], by simp [methodsGrownBy]⟩
  induction depth with
  | zero =>
    intro block s s1 h
    simp only [getVisibleMethods] at h
    exact Outcome.noConfusion h
  | succ depth ih =>
    intro block s s1 h
    rw [getVisibleMethods] at h
    by_cases hv : block ∈ s.visited
    · rw [if_pos hv] at h
      cases h; exact hrefl s
    · rw [if_neg hv] at h
      cases hip : instantiationPt prog block with
      | none => rw [hip] at h; exact Outcome.noConfusion h
      | some ip =>
        rw [hip] at h
        simp only [Outcome.bind_eq_returned] at h
        obtain ⟨s2, hloop, hrest⟩ := h
        have h1 := for_actuals_returned _
          (fun a b : MethodSearchState =>
            ∃ blocks, methodsGrownBy visibleFunctionMap name a b blocks)
          hrefl htrans _
          (fun e _ a b hab =>
            methods_useStep_grownBy prog visibleFunctionMap name call _ ih a b e hab)
          _ _ hloop
        have h2 : ∃ blocks, methodsGrownBy visibleFunctionMap name s2 s1 blocks := by
          by_cases hroot : block ≠ prog.rootModule.block
          · rw [if_pos hroot] at hrest
            cases hnext : nextScope prog block with
            | none => rw [hnext] at hrest; exact Outcome.noConfusion hrest
            | some next =>
              rw [hnext] at hrest
              simp only [Outcome.bind_eq_returned] at hrest
              obtain ⟨s3, hcall, hinst⟩ := hrest
              have h3 := ih _ _ _ hcall
              cases ip with
              | none =>
                simp only [Outcome.returned.injEq] at hinst
                subst hinst
                exact h3
              | some pt =>
                simp only at hinst
                exact htrans _ _ _ h3 (ih _ _ _ hinst)
          · rw [if_neg hroot] at hrest
            cases hrest; exact hrefl _
        obtain ⟨blocks, hvis, hfns, hnd, hfresh⟩ := htrans _ _ _ h1 h2
        refine ⟨block :: blocks, ?_, ?_, ?_, ?_⟩
        · rw [hvis]; simp
        · rw [hfns]; simp
        · rw [List.nodup_cons]
          exact ⟨fun hmem => hfresh block hmem (List.mem_cons_self _ _), hnd⟩
        · intro b hbm
          rcases List.mem_cons.mp hbm with h | h
          · subst h; exact hv
          · exact fun hbs => hfresh b h (List.mem_cons_of_mem _ hbs)

/-! ### The claims about the visibility search -/

open Sample in
/-- C22: Cycle guard.  Every run of the recursive `getVisibleFunctions` that
returns, from any state and with any flag `inUseChain`, has changed the state
by first visits of a list `trace` of blocks only: each block of `trace` was
not in `visited` before, is entered in `visited`, occurs once in `trace`, and
the result grows by the functions that the visit of the block takes from the
index of the block (under the name with which the block is reached), once
per block, in the order of the visits.  The same holds for
`getVisibleMethods`, whatever the cache holds.  For the overloads that start
from the call, `visited` is empty at the start, so the result is the
concatenation of the contributions of pairwise different blocks.  In the
sample program the modules `N` (block 5) and `P` (block 7) use each other:
the search for `f` from block 4 returns, visits each block once and reports
each function once. -/
theorem each_block_consulted_once :
    (∀ (prog : Program) (visibleFunctionMap : BlockStmt → Option VisibleFunctionBlock)
        (call : CallExpr) (depth : Nat) (name : String) (block : BlockStmt)
        (s s1 : SearchState) (inUseChain : Bool),
      getVisibleFunctions prog visibleFunctionMap call depth name block s inUseChain =
        Outcome.returned s1 →
      ∃ trace : List (String × BlockStmt),
        grownBy (blockContribution prog visibleFunctionMap call) s s1 trace) ∧
    (∀ (prog : Program) (visibleFunctionMap : BlockStmt → Option VisibleFunctionBlock)
        (name : String) (call : CallExpr) (depth : Nat) (block : BlockStmt)
        (s s1 : MethodSearchState),
      getVisibleMethods prog visibleFunctionMap name call depth block s = Outcome.returned s1 →
      ∃ blocks : List BlockStmt, methodsGrownBy visibleFunctionMap name s s1 blocks) ∧
    (∀ (prog : Program) (visibleFunctionMap : BlockStmt → Option VisibleFunctionBlock)
        (call : CallExpr) (depth : Nat) (name : String) (visibleFns : List FnSymbol)
        (s1 : SearchState),
      getVisibleFunctionsForCall prog visibleFunctionMap call depth name visibleFns =
        Outcome.returned s1 →
      ∃ trace : List (String × BlockStmt),
        (trace.map Prod.snd).Nodup ∧ s1.visited = (trace.map Prod.snd).reverse ∧
        s1.visibleFns =
          visibleFns ++ trace.flatMap (blockContribution prog visibleFunctionMap call)) ∧
    (∀ (prog : Program) (visibleFunctionMap : BlockStmt → Option VisibleFunctionBlock)
        (name : String) (call : CallExpr) (depth : Nat) (visibleFns : List FnSymbol)
        (cache : List ((BlockStmt × BlockStmt) × Bool)) (s1 : MethodSearchState),
      getVisibleMethodsForCall prog visibleFunctionMap name call depth visibleFns cache =
        Outcome.returned s1 →
      s1.visited.Nodup ∧
      s1.visibleFns = visibleFns ++
        s1.visited.reverse.flatMap (fun b => visibleFunctionsIn visibleFunctionMap b name)) ∧
    getVisibleFunctionsForCall program index (callIn 4) 100 "f" [] =
      Outcome.returned
        { visited := [6, 0, 1, 7, 5, 3, 4],
          visibleFns := [fnIn 1 "f" 3, fnIn 2 "f" 5, fnIn 3 "f" 7, fnIn 7 "f" 0,
            fnIn 5 "f" 6] } ∧
    (getVisibleMethodsForCall program index "f" (methodCallIn 4) 100 [] []).map
        (fun s => (s.visited, s.visibleFns.map FnSymbol.id)) =
      Outcome.returned ([6, 8, 0, 1, 7, 5, 3, 4], [1, 2, 6, 3, 7, 4, 5]) := by
  refine ⟨?_, ?_, ?_, ?_, by decide, by decide⟩
  · intro prog visibleFunctionMap call depth name block s s1 u h
    obtain ⟨⟨trace, hg, _⟩, _⟩ := getVisibleFunctions_grows prog visibleFunctionMap call
      (name, block, u) depth name block s s1 u Relation.ReflTransGen.refl h
    exact ⟨trace, hg⟩
  · intro prog visibleFunctionMap name call depth block s s1 h
    exact getVisibleMethods_grownBy prog visibleFunctionMap name call depth block s s1 h
  · intro prog visibleFunctionMap call depth name visibleFns s1 h
    unfold getVisibleFunctionsForCall at h
    cases hs : call.visibilityScope with
    | none => rw [hs] at h; exact Outcome.noConfusion h
    | some block =>
      rw [hs] at h
      obtain ⟨⟨trace, ⟨hv, hf, hnd, _⟩, _⟩, _⟩ := getVisibleFunctions_grows prog
        visibleFunctionMap call (name, block, false) depth name block _ s1 false
        Relation.ReflTransGen.refl h
      exact ⟨trace, hnd, by simpa using hv, hf⟩
  · intro prog visibleFunctionMap name call depth visibleFns cache s1 h
    unfold getVisibleMethodsForCall at h
    cases hs : call.visibilityScope with
    | none => rw [hs] at h; exact Outcome.noConfusion h
    | some block =>
      rw [hs] at h
      obtain ⟨blocks, hv, hf, hnd, _⟩ := getVisibleMethods_grownBy prog visibleFunctionMap
        name call depth block _ s1 h
      simp only [List.append_nil] at hv
      refine ⟨?_, ?_⟩
      · rw [hv]; exact List.nodup_reverse.mpr hnd
      · rw [hf, hv, List.reverse_reverse]

/-- C23 (amended): Termination.  On a graph of `n` blocks in which the
enclosing block and the instantiation point in which the search recurses
have a smaller rank than the block (ranks below `r`), the recursive
`getVisibleFunctions` called on a block of the graph, from any state, with
any flag `inUseChain` and for arbitrary (also cyclic) use and import edges,
does not recurse deeper than `(n + 1) * (r + 2)`: with that bound on the depth
or a larger one the run ends, by a return or by a failed assertion. -/
theorem search_ends_on_ranked_graph (prog : Program)
    (visibleFunctionMap : BlockStmt → Option VisibleFunctionBlock) (call : CallExpr)
    (n r : Nat) (rank : BlockStmt → Nat) (hg : RankedGraph prog n r rank)
    (depth : Nat) (hdepth : (n + 1) * (r + 2) ≤ depth)
    (name : String) (block : BlockStmt) (s : SearchState) (inUseChain : Bool)
    (hb : block < n) :
    getVisibleFunctions prog visibleFunctionMap call depth name block s inUseChain ≠
      Outcome.depthExceeded := by
  refine getVisibleFunctions_terminates prog visibleFunctionMap call n r rank hg depth
    name block s inUseChain hb ?_
  have hr := hg.rank_lt block hb
  have hm : unvisited n s.visited * (r + 2) ≤ n * (r + 2) :=
    Nat.mul_le_mul_right _ (unvisited_le n s.visited)
  rw [Nat.add_mul, Nat.one_mul] at hdepth
  split_ifs <;> omega

open Sample in
/-- The sample program, with the cyclic uses of `N` and `P`, is a ranked graph
of 15 blocks: the search from the visited block 3 outside a use chain ends. -/
theorem search_ends_on_ranked_graph_witness :
    (RankedGraph program 15 4 rank ∧ (15 + 1) * (4 + 2) ≤ 96 ∧ (3 : BlockStmt) < 15) ∧
    getVisibleFunctions program index (callIn 4) 96 "f" 3
      { visited := [3, 5, 7], visibleFns := [] } false ≠ Outcome.depthExceeded :=
  ⟨⟨program_ranked, by decide, by decide⟩,
    search_ends_on_ranked_graph program index (callIn 4) 15 4 rank
      program_ranked 96 (by decide) "f" 3 { visited := [3, 5, 7], visibleFns := [] } false
      (by decide)⟩

open Sample in
/-- C23 (counterexample): in the program of two blocks in which the
instantiation point of the function `h` is recorded as its own body (block
1), the enclosing block of block 1 is the root block and no block has a use
list, yet the search from block 1 exceeds every depth: after the first visit
of block 1 the call on the instantiation point finds block 1 visited outside
a use chain, goes up to the root block and calls itself on the instantiation
point again. -/
theorem instantiation_point_cycle_never_ends :
    nextScope loopProgram 1 = some loopProgram.rootModule.block ∧
    instantiationPt loopProgram 1 = some (some 1) ∧
    (∀ block : BlockStmt, loopProgram.useList block = none) ∧
    ¬ ∃ depth : Nat,
      getVisibleFunctions loopProgram (fun _ => none) (callIn 1) depth "f" 1
        { visited := [], visibleFns := [] } false ≠ Outcome.depthExceeded := by
  refine ⟨by decide, by decide, fun _ => rfl, ?_⟩
  rintro ⟨depth, h⟩
  exact h (loopProgram_diverges _ _ _ depth)

/-- What the state holds with which the search from the call returns: every
function of the result comes from the index of a block that the steps of the
search reach; when no statement renames `name`, the result holds the
functions of `name` that are not private of every visited block; and the
blocks of the walk from the scope of the call are covered. -/
theorem getVisibleFunctionsForCall_spec (prog : Program)
    (visibleFunctionMap : BlockStmt → Option VisibleFunctionBlock) (call : CallExpr)
    (depth : Nat) (name : String) (block : BlockStmt)
    (hscope : call.visibilityScope = some block) (s1 : SearchState)
    (h : getVisibleFunctionsForCall prog visibleFunctionMap call depth name [] =
      Outcome.returned s1) :
    (∀ f ∈ s1.visibleFns, ∃ (name1 : String) (b : BlockStmt) (u : Bool),
      Relation.ReflTransGen (SearchStep prog call) (name, block, false) (name1, b, u) ∧
      f ∈ visibleFunctionsIn visibleFunctionMap b name1) ∧
    (notRenamed prog name → ∀ c ∈ s1.visited,
      ∀ f ∈ visibleFunctionsIn visibleFunctionMap c name, f.flagPrivate = false →
        f ∈ s1.visibleFns) ∧
    ∀ c, Relation.ReflTransGen (walkStep prog) block c →
      coveredAt prog call name s1.visited c := by
  unfold getVisibleFunctionsForCall at h
  rw [hscope] at h
  exact ⟨(getVisibleFunctions_result prog visibleFunctionMap call depth name block s1 h).1,
    (getVisibleFunctions_result prog visibleFunctionMap call depth name block s1 h).2,
    getVisibleFunctions_covers prog visibleFunctionMap call name depth block _ s1 h⟩

/-- The search from the call on a ranked, well-formed graph returns. -/
theorem getVisibleFunctionsForCall_returns (prog : Program)
    (visibleFunctionMap : BlockStmt → Option VisibleFunctionBlock) (call : CallExpr)
    (n r : Nat) (rank : BlockStmt → Nat) (hg : RankedGraph prog n r rank)
    (hw : WellFormedGraph prog n) (depth : Nat) (hdepth : (n + 1) * (r + 2) ≤ depth)
    (name : String) (block : BlockStmt) (hscope : call.visibilityScope = some block)
    (hb : block < n) :
    ∃ s1, getVisibleFunctionsForCall prog visibleFunctionMap call depth name [] =
      Outcome.returned s1 := by
  obtain ⟨s1, hs1⟩ := getVisibleFunctions_returns prog visibleFunctionMap call n r rank hg hw
    depth hdepth name block { visited := [], visibleFns := [] } false hb
  refine ⟨s1, ?_⟩
  unfold getVisibleFunctionsForCall
  rw [hscope]
  exact hs1

/-- C24 (amended): Private use and import statements are traversed only
outside a use chain.  A call of the recursive `getVisibleFunctions` with
`inUseChain` true gives what it gives on the program without its private use
and import statements.  Whenever the search from the call returns, every
function of the result comes from the index of a block that the steps of the
search reach from the scope of the call, where a step along a private
statement is taken only with `inUseChain` false, that is before any other use
or import edge; and when no statement renames `name`, the result holds every
function of `name` that is not private in the block of a module that a
private use or import statement names in a block of the walk from the scope
of the call (by steps to the enclosing block in which the search recurses and
to the instantiation point), when the statement does not skip `name` and the
module is visible from the call.  On a ranked, well-formed graph the search
returns. -/
theorem private_stmts_traversed_outside_use_chain (prog : Program)
    (visibleFunctionMap : BlockStmt → Option VisibleFunctionBlock) (call : CallExpr)
    (n r : Nat) (rank : BlockStmt → Nat) (hg : RankedGraph prog n r rank)
    (hw : WellFormedGraph prog n) (depth : Nat) (hdepth : (n + 1) * (r + 2) ≤ depth)
    (name : String) (hnr : notRenamed prog name) (block : BlockStmt)
    (hscope : call.visibilityScope = some block) (hb : block < n) :
    (∀ (depth1 : Nat) (name1 : String) (b : BlockStmt) (s : SearchState),
      getVisibleFunctions prog.withoutPrivateStmts visibleFunctionMap call depth1 name1 b s
          true =
        getVisibleFunctions prog visibleFunctionMap call depth1 name1 b s true) ∧
    (∃ s1, getVisibleFunctionsForCall prog visibleFunctionMap call depth name [] =
        Outcome.returned s1) ∧
    ∀ (depth1 : Nat) (s1 : SearchState),
      getVisibleFunctionsForCall prog visibleFunctionMap call depth1 name [] =
        Outcome.returned s1 →
      (∀ f ∈ s1.visibleFns, ∃ (name1 : String) (b : BlockStmt) (u : Bool),
        Relation.ReflTransGen (SearchStep prog call) (name, block, false) (name1, b, u) ∧
        f ∈ visibleFunctionsIn visibleFunctionMap b name1) ∧
      ∀ (c : BlockStmt) (stmt : VisibilityStmt) (mod : ModuleSymbol),
        Relation.ReflTransGen (walkStep prog) block c →
        (UseListExpr.useStmt stmt ∈ (prog.useList c).getD [] ∨
          UseListExpr.importStmt stmt ∈ (prog.useList c).getD []) →
        stmt.isPrivate = true → stmt.skipSymbolSearch name = false →
        stmt.src = some (Symbol.moduleSymbol mod) → prog.modIsVisible mod call = true →
        ∀ f ∈ visibleFunctionsIn visibleFunctionMap mod.block name, f.flagPrivate = false →
          f ∈ s1.visibleFns := by
  refine ⟨fun depth1 name1 b s =>
    getVisibleFunctions_inUseChain_ignores_private prog visibleFunctionMap call depth1 name1 b s,
    getVisibleFunctionsForCall_returns prog visibleFunctionMap call n r rank hg hw depth hdepth
      name block hscope hb, ?_⟩
  intro depth1 s1 hs1
  obtain ⟨hsound, hcomplete, hcov⟩ := getVisibleFunctionsForCall_spec prog
    visibleFunctionMap call depth1 name block hscope s1 hs1
  refine ⟨hsound, ?_⟩
  intro c stmt mod hwalk hmem hpriv hskip hsrc hvis f hf hpub
  exact hcomplete hnr mod.block ((hcov c hwalk).2 stmt mod hmem hpriv hskip hsrc hvis) f hf hpub

open Sample in
/-- The call of `f` in the body of `g` (block 4) of the sample program: the
enclosing block 3 of module `M` has `private use N;`, so the function `f` of
`N` (block 5) is in the result; the function `f` of `Priv` (block 8), which
`N` uses privately, is not. -/
theorem private_stmts_traversed_outside_use_chain_witness :
    (RankedGraph program 15 4 rank ∧ WellFormedGraph program 15 ∧
      (15 + 1) * (4 + 2) ≤ 100 ∧ notRenamed program "f" ∧
      (callIn 4).visibilityScope = some 4 ∧ (4 : BlockStmt) < 15) ∧
    getVisibleFunctionsForCall program index (callIn 4) 100 "f" [] =
      Outcome.returned
        { visited := [6, 0, 1, 7, 5, 3, 4],
          visibleFns := [fnIn 1 "f" 3, fnIn 2 "f" 5, fnIn 3 "f" 7, fnIn 7 "f" 0,
            fnIn 5 "f" 6] } ∧
    program.useList 5 =
      some [UseListExpr.useStmt (plainUse (moduleOf 7) false),
        UseListExpr.useStmt (plainUse (moduleOf 8) true),
        UseListExpr.useStmt (plainUse hiddenModule false)] ∧
    visibleFunctionsIn index 8 "f" = [fnIn 4 "f" 8] ∧
    ((∀ (depth1 : Nat) (name1 : String) (b : BlockStmt) (s : SearchState),
      getVisibleFunctions program.withoutPrivateStmts index (callIn 4) depth1 name1 b s true =
        getVisibleFunctions program index (callIn 4) depth1 name1 b s true) ∧
    (∃ s1, getVisibleFunctionsForCall program index (callIn 4) 100 "f" [] =
        Outcome.returned s1) ∧
    ∀ (depth1 : Nat) (s1 : SearchState),
      getVisibleFunctionsForCall program index (callIn 4) depth1 "f" [] =
        Outcome.returned s1 →
      (∀ f ∈ s1.visibleFns, ∃ (name1 : String) (b : BlockStmt) (u : Bool),
        Relation.ReflTransGen (SearchStep program (callIn 4)) ("f", 4, false) (name1, b, u) ∧
        f ∈ visibleFunctionsIn index b name1) ∧
      ∀ (c : BlockStmt) (stmt : VisibilityStmt) (mod : ModuleSymbol),
        Relation.ReflTransGen (walkStep program) 4 c →
        (UseListExpr.useStmt stmt ∈ (program.useList c).getD [] ∨
          UseListExpr.importStmt stmt ∈ (program.useList c).getD []) →
        stmt.isPrivate = true → stmt.skipSymbolSearch "f" = false →
        stmt.src = some (Symbol.moduleSymbol mod) →
        program.modIsVisible mod (callIn 4) = true →
        ∀ f ∈ visibleFunctionsIn index mod.block "f", f.flagPrivate = false →
          f ∈ s1.visibleFns) :=
  ⟨⟨program_ranked, program_wellFormed, by decide, program_notRenamed_f, rfl, by decide⟩,
    by decide, rfl, by decide,
    private_stmts_traversed_outside_use_chain program index (callIn 4) 15 4 rank
      program_ranked program_wellFormed 100 (by decide) "f" program_notRenamed_f 4 rfl
      (by decide)⟩

open Sample in
/-- C24 (counterexample): the call of `f` in the module `Inner` (block 10) of
the sample program.  The block 9 of the module `Outer` encloses `Inner`
lexically (`getVisibilityScope` of block 10 is block 9) and has `private use
P;`, `P` is visible and declares the public function `f` in its block 7, and
the search from the call returns without that function: from the block of a
module nested in `Outer` the search recurses in the block of the standard
module, not in block 9. -/
theorem private_use_of_enclosing_module_not_traversed :
    program.getVisibilityScope 10 = some 9 ∧
    nextScope program 10 = some program.standardModule.block ∧
    program.useList 9 = some [UseListExpr.useStmt (plainUse (moduleOf 7) true)] ∧
    program.modIsVisible (moduleOf 7) (callIn 10) = true ∧
    visibleFunctionsIn index 7 "f" = [fnIn 3 "f" 7] ∧
    getVisibleFunctionsForCall program index (callIn 10) 100 "f" [] =
      Outcome.returned { visited := [0, 1, 2, 10], visibleFns := [fnIn 7 "f" 0] } ∧
    fnIn 3 "f" 7 ∉ [fnIn 7 "f" 0] := by
  refine ⟨by decide, by decide, rfl, by decide, by decide, by decide, by decide⟩

theorem enclosingStep_walkStep (prog : Program) (block c : BlockStmt)
    (h : Relation.ReflTransGen (enclosingStep prog) block c) :
    Relation.ReflTransGen (walkStep prog) block c :=
  Relation.ReflTransGen.mono (fun _ _ hab => ⟨hab.1, Or.inl hab.2⟩) h

/-- C26 (amended): Lexical visibility along the walk of the search.  For a
name that no use or import statement renames, whenever the search from the
call returns, the result holds every function of `name` that is not private
in the index of the scope of the call or of a block that the walk reaches
from it by the steps of the search to the enclosing block: from a block other
than the root block to `getVisibilityScope` of the block, or to the block of
the standard module when that scope lies in another module than the block,
other than the program and the root module.  On a ranked, well-formed graph
the search returns. -/
theorem functions_of_enclosing_walk_visible (prog : Program)
    (visibleFunctionMap : BlockStmt → Option VisibleFunctionBlock) (call : CallExpr)
    (n r : Nat) (rank : BlockStmt → Nat) (hg : RankedGraph prog n r rank)
    (hw : WellFormedGraph prog n) (depth : Nat) (hdepth : (n + 1) * (r + 2) ≤ depth)
    (name : String) (hnr : notRenamed prog name) (block : BlockStmt)
    (hscope : call.visibilityScope = some block) (hb : block < n) :
    (∃ s1, getVisibleFunctionsForCall prog visibleFunctionMap call depth name [] =
        Outcome.returned s1) ∧
    ∀ (depth1 : Nat) (s1 : SearchState),
      getVisibleFunctionsForCall prog visibleFunctionMap call depth1 name [] =
        Outcome.returned s1 →
      ∀ c, Relation.ReflTransGen (enclosingStep prog) block c →
        ∀ f ∈ visibleFunctionsIn visibleFunctionMap c name, f.flagPrivate = false →
          f ∈ s1.visibleFns := by
  refine ⟨getVisibleFunctionsForCall_returns prog visibleFunctionMap call n r rank hg hw depth
    hdepth name block hscope hb, ?_⟩
  intro depth1 s1 hs1 c hwalk f hf hpub
  obtain ⟨_, hcomplete, hcov⟩ := getVisibleFunctionsForCall_spec prog
    visibleFunctionMap call depth1 name block hscope s1 hs1
  exact hcomplete hnr c (hcov c (enclosingStep_walkStep prog block c hwalk)).1 f hf hpub

open Sample in
/-- The call of `f` in the body of `g` (block 4) of the sample program: the
walk goes to block 3 of module `M`, to the block 1 of the program and to the
root block 0; the functions `f` of block 3 and of block 0 are in the
result. -/
theorem functions_of_enclosing_walk_visible_witness :
    (RankedGraph program 15 4 rank ∧ WellFormedGraph program 15 ∧
      (15 + 1) * (4 + 2) ≤ 100 ∧ notRenamed program "f" ∧
      (callIn 4).visibilityScope = some 4 ∧ (4 : BlockStmt) < 15) ∧
    nextScope program 4 = some 3 ∧ nextScope program 3 = some 1 ∧
    nextScope program 1 = some 0 ∧
    visibleFunctionsIn index 3 "f" = [fnIn 1 "f" 3] ∧
    visibleFunctionsIn index 0 "f" = [fnIn 7 "f" 0] ∧
    ((∃ s1, getVisibleFunctionsForCall program index (callIn 4) 100 "f" [] =
        Outcome.returned s1) ∧
    ∀ (depth1 : Nat) (s1 : SearchState),
      getVisibleFunctionsForCall program index (callIn 4) depth1 "f" [] =
        Outcome.returned s1 →
      ∀ c, Relation.ReflTransGen (enclosingStep program) 4 c →
        ∀ f ∈ visibleFunctionsIn index c "f", f.flagPrivate = false →
          f ∈ s1.visibleFns) :=
  ⟨⟨program_ranked, program_wellFormed, by decide, program_notRenamed_f, rfl, by decide⟩,
    by decide, by decide, by decide, by decide, by decide,
    functions_of_enclosing_walk_visible program index (callIn 4) 15 4 rank
      program_ranked program_wellFormed 100 (by decide) "f" program_notRenamed_f 4 rfl
      (by decide)⟩

open Sample in
/-- C26 (counterexample): the call of `f` in the module `Inner` (block 10) of
the sample program, nested in the module `Outer`, whose block 9 encloses
block 10 lexically and declares the public function `f` with id 8.  The
search returns without that function: it recurses from block 10 in the block
2 of the standard module. -/
theorem function_of_enclosing_module_not_visible :
    program.getVisibilityScope 10 = some 9 ∧
    program.getModule 10 = some (moduleOf 10) ∧ program.getModule 9 = some (moduleOf 9) ∧
    nextScope program 10 = some 2 ∧
    visibleFunctionsIn index 9 "f" = [fnIn 8 "f" 9] ∧
    (fnIn 8 "f" 9).flagPrivate = false ∧
    getVisibleFunctionsForCall program index (callIn 10) 100 "f" [] =
      Outcome.returned { visited := [0, 1, 2, 10], visibleFns := [fnIn 7 "f" 0] } ∧
    fnIn 8 "f" 9 ∉ [fnIn 7 "f" 0] := by
  refine ⟨by decide, by decide, by decide, by decide, by decide, by decide, by decide,
    by decide⟩

open Sample in
/-- C27 (the claim without renaming, and the failing input): for a name that
no use or import statement renames, when the scope of the call is not the
root block and has the instantiation point `pt`, the result of the search
from the call, whenever it returns, holds every function of `name` that is
not private in the index of `pt`, and on a ranked, well-formed graph the
search returns; so it does in the sample program for the call of `f` in the
body of `g` (block 4), instantiated in block 6.  With a renaming the claim
fails: the body of `g2` (block 12), also instantiated in block 6, has `use N2
only foo as bar;` and `N2` has `public use Q;` where `Q` is the module of
block 6.  The search for `bar` from block
12 first follows the use statement under the name `foo` and visits block 6
for `foo`; when it comes to the instantiation point it finds block 6 visited
and does not look for `bar` in it.  The public function `bar` of block 6 is
not in the result. -/
theorem instantiation_point_functions_visible_unless_renamed :
    (∀ (prog : Program) (visibleFunctionMap : BlockStmt → Option VisibleFunctionBlock)
        (call : CallExpr) (n r : Nat) (rank : BlockStmt → Nat) (depth : Nat) (name : String)
        (block pt : BlockStmt),
      notRenamed prog name → call.visibilityScope = some block →
      block ≠ prog.rootModule.block → instantiationPt prog block = some (some pt) →
      (∀ s1, getVisibleFunctionsForCall prog visibleFunctionMap call depth name [] =
          Outcome.returned s1 →
        ∀ f ∈ visibleFunctionsIn visibleFunctionMap pt name, f.flagPrivate = false →
          f ∈ s1.visibleFns) ∧
      (RankedGraph prog n r rank → WellFormedGraph prog n → (n + 1) * (r + 2) ≤ depth →
        block < n →
        ∃ s1, getVisibleFunctionsForCall prog visibleFunctionMap call depth name [] =
          Outcome.returned s1)) ∧
    (instantiationPt program 4 = some (some 6) ∧
      visibleFunctionsIn index 6 "f" = [fnIn 5 "f" 6] ∧
      (getVisibleFunctionsForCall program index (callIn 4) 100 "f" []).map
          (fun s => decide (fnIn 5 "f" 6 ∈ s.visibleFns)) = Outcome.returned true) ∧
    (RankedGraph program 15 4 rank ∧ WellFormedGraph program 15 ∧
      (12 : BlockStmt) ≠ program.rootModule.block ∧
      instantiationPt program 12 = some (some 6) ∧
      program.useList 12 = some [UseListExpr.useStmt renamingUse] ∧
      renamingUse.isARenamedSym "bar" = true ∧ renamingUse.getRenamedSym "bar" = "foo" ∧
      visibleFunctionsIn index 6 "bar" = [fnIn 10 "bar" 6] ∧
      (fnIn 10 "bar" 6).flagPrivate = false ∧
      getVisibleFunctionsForCall program index (callIn 12) 100 "bar" [] =
        Outcome.returned
          { visited := [11, 0, 1, 6, 13, 12], visibleFns := [fnIn 9 "foo" 13] } ∧
      fnIn 10 "bar" 6 ∉ [fnIn 9 "foo" 13]) := by
  refine ⟨?_, ⟨by decide, by decide, by decide⟩,
    ⟨program_ranked, program_wellFormed, by decide, by decide, rfl, by decide, by decide,
      by decide, by decide, by decide, by decide⟩⟩
  intro prog visibleFunctionMap call n r rank depth name block pt hnr hscope hroot hip
  refine ⟨?_, fun hg hw hdepth hb => getVisibleFunctionsForCall_returns prog
    visibleFunctionMap call n r rank hg hw depth hdepth name block hscope hb⟩
  intro s1 hs1 f hf hpub
  obtain ⟨_, hcomplete, hcov⟩ := getVisibleFunctionsForCall_spec prog
    visibleFunctionMap call depth name block hscope s1 hs1
  exact hcomplete hnr pt
    (hcov pt (Relation.ReflTransGen.single ⟨hroot, Or.inr hip⟩)).1 f hf hpub

/-- C25 (amended): The search for methods and type helpers ignores the
privacy and the limitations of use and import statements, not the privacy of
modules.  For a call whose first actual is the method token (with two actuals
or more), or for one of the type-helper names (entered in `typeHelperNames` by
this call or before), made without an explicit scope, on a closed,
well-formed graph of `n` blocks, `findVisibleFunctions` returns, and the
result holds every function that the index, once brought up
to date, holds for the name in the scope of the call or in a block that the
steps of the search reach from it: from a block other than the root block to
the enclosing block in which the search recurses and to the instantiation
point, and along every use or import statement, private or not, whatever its
`only`, `except` and renaming, to the block of the module that it names,
provided the module is not flagged private or is visible from the call.  The
cache of the answers of `isVisible` is taken to agree with `isVisible` for
this call at the start (as the empty cache does), and a block to be the block
of one module. -/
theorem methods_search_ignores_statement_privacy (prog : Program) (n : Nat)
    (hg : ClosedGraph prog n) (hw : WellFormedGraph prog n) (depth : Nat)
    (hdepth : n + 1 ≤ depth) (info : CallInfo) (visibleFns : List FnSymbol) (g : Globals)
    (hvb : visibilityByBlock prog info.call)
    (hcache : cacheAgrees prog info.call g.scopeIsVisForMethods)
    (hresolved : info.call.isResolved = false) (hnoscope : info.scope = none)
    (hkind : (info.call.numActuals ≥ 2 ∧ info.call.firstActualIsMethodToken = true) ∨
      (info.name ∈ typeHelperNamesOf prog ∧ g.builtTypeHelperNames = false) ∨
      info.name ∈ g.typeHelperNames)
    (block : BlockStmt) (hscope : info.call.visibilityScope = some block) (hb : block < n) :
    ∃ (fns : List FnSymbol) (g1 : Globals),
      findVisibleFunctions prog depth info visibleFns g = Outcome.returned (fns, g1) ∧
      ∀ c, Relation.ReflTransGen (MethodStep prog info.call) block c →
        ∀ f ∈ visibleFunctionsIn g1.visibleFunctionMap c info.name, f ∈ fns := by
  -- the globals after the two updates
  have hg2 : ∃ g2 : Globals,
      findVisibleFunctions.update prog
        (if ¬ g.builtTypeHelperNames = true then
          { g with
            typeHelperNames := g.typeHelperNames ++ typeHelperNamesOf prog,
            builtTypeHelperNames := true }
        else g) = g2 ∧
      g2.scopeIsVisForMethods = g.scopeIsVisForMethods ∧
      ((info.name ∈ typeHelperNamesOf prog ∧ g.builtTypeHelperNames = false) ∨
          info.name ∈ g.typeHelperNames →
        info.name ∈ g2.typeHelperNames) := by
    refine ⟨_, rfl, ?_, ?_⟩
    · unfold findVisibleFunctions.update buildVisibleFunctionMap
      split_ifs <;> rfl
    · rintro (⟨hname, hbuilt⟩ | hname)
      · unfold findVisibleFunctions.update buildVisibleFunctionMap
        simp only [hbuilt, Bool.false_eq_true, not_false_eq_true, if_true]
        split_ifs <;> exact List.mem_append_right _ hname
      · unfold findVisibleFunctions.update buildVisibleFunctionMap
        split_ifs <;> first
          | exact hname
          | exact List.mem_append_left _ hname
  obtain ⟨g2, hg2eq, hg2cache, hg2names⟩ := hg2
  obtain ⟨s1, hs1⟩ := getVisibleMethods_returns prog g2.visibleFunctionMap info.name info.call
    n hg hw (by rw [hscope]; exact fun h => Option.noConfusion h) depth hdepth block
    { visited := [], visibleFns := visibleFns,
      scopeIsVisForMethods := g2.scopeIsVisForMethods } hb
  obtain ⟨_, hfns, hreach⟩ := getVisibleMethods_result prog g2.visibleFunctionMap info.name
    info.call hvb depth block visibleFns g2.scopeIsVisForMethods (hg2cache ▸ hcache) s1 hs1
  have hcall : getVisibleMethodsForCall prog g2.visibleFunctionMap info.name info.call depth
      visibleFns g2.scopeIsVisForMethods = Outcome.returned s1 := by
    unfold getVisibleMethodsForCall
    rw [hscope]
    exact hs1
  refine ⟨s1.visibleFns, { g2 with scopeIsVisForMethods := s1.scopeIsVisForMethods }, ?_, ?_⟩
  · unfold findVisibleFunctions
    simp only [hg2eq, hresolved, ne_eq, not_true_eq_false, if_false, hnoscope]
    by_cases hm : info.call.numActuals ≥ 2 ∧ info.call.firstActualIsMethodToken = true
    · rw [if_pos hm, hcall]
      rfl
    · rw [if_neg hm]
      rcases hkind with hk | hk
      · exact absurd hk hm
      · rw [if_pos (hg2names hk), hcall]
        rfl
  · intro c hc f hf
    rw [hfns]
    refine List.mem_append_right _ (List.mem_flatMap.mpr ⟨c, ?_, hf⟩)
    exact List.mem_reverse.mpr (hreach c hc)

open Sample in
/-- The method call of `f` in the body of `g` (block 4) of the sample
program: the result holds the private function `f` of `N` and the function
`f` of `Priv` (block 8), which `N` uses privately. -/
theorem methods_search_ignores_statement_privacy_witness :
    (ClosedGraph program 15 ∧ WellFormedGraph program 15 ∧ 15 + 1 ≤ 100 ∧
      visibilityByBlock program (methodCallIn 4) ∧
      cacheAgrees program (methodCallIn 4) Globals.initial.scopeIsVisForMethods ∧
      (methodCallIn 4).isResolved = false ∧
      ((methodCallIn 4).numActuals ≥ 2 ∧ (methodCallIn 4).firstActualIsMethodToken = true) ∧
      (methodCallIn 4).visibilityScope = some 4 ∧ (4 : BlockStmt) < 15) ∧
    ((findVisibleFunctions program 100 { call := methodCallIn 4, scope := none, name := "f" }
        [] Globals.initial).map Prod.fst).map (List.map FnSymbol.id) =
      Outcome.returned [1, 2, 6, 3, 7, 4, 5] ∧
    ∃ (fns : List FnSymbol) (g1 : Globals),
      findVisibleFunctions program 100 { call := methodCallIn 4, scope := none, name := "f" }
        [] Globals.initial = Outcome.returned (fns, g1) ∧
      ∀ c, Relation.ReflTransGen (MethodStep program (methodCallIn 4)) 4 c →
        ∀ f ∈ visibleFunctionsIn g1.visibleFunctionMap c "f", f ∈ fns :=
  ⟨⟨program_closed, program_wellFormed, by decide, fun _ _ h => by simp [program, h],
      fun _ _ _ _ h => by simp [Globals.initial] at h, rfl, ⟨by decide, rfl⟩, rfl, by decide⟩,
    by decide,
    methods_search_ignores_statement_privacy program 15 program_closed program_wellFormed 100
      (by decide) { call := methodCallIn 4, scope := none, name := "f" } [] Globals.initial
      (fun _ _ h => by simp [program, h])
      (fun _ _ _ _ h => by simp [Globals.initial] at h) rfl rfl
      (Or.inl ⟨by decide, rfl⟩) 4 rfl (by decide)⟩

open Sample in
/-- C25 (counterexample): the method call of `f` in the body of `g` (block 4)
of the sample program.  The module `N` (block 5), reached from the scope of
the call through the enclosing block 3 and its use of `N`, has `public use
Hidden;`.  The module `Hidden` (block 14) is flagged private and is not
visible from the call; it holds the function `f` with id 11.  The search for
methods returns without that function, and records the answer of `isVisible`
in the cache. -/
theorem private_module_not_entered_by_methods_search :
    nextScope program 4 = some 3 ∧
    program.useList 3 = some [UseListExpr.useStmt (plainUse (moduleOf 5) true)] ∧
    program.useList 5 =
      some [UseListExpr.useStmt (plainUse (moduleOf 7) false),
        UseListExpr.useStmt (plainUse (moduleOf 8) true),
        UseListExpr.useStmt (plainUse hiddenModule false)] ∧
    hiddenModule.flagPrivate = true ∧
    program.modIsVisible hiddenModule (methodCallIn 4) = false ∧
    visibleFunctionsIn index 14 "f" = [fnIn 11 "f" 14] ∧
    (findVisibleFunctions program 100 { call := methodCallIn 4, scope := none, name := "f" }
        [] Globals.initial).map (fun r => (r.1.map FnSymbol.id, r.2.scopeIsVisForMethods)) =
      Outcome.returned ([1, 2, 6, 3, 7, 4, 5], [((4, 14), false)]) ∧
    (fnIn 11 "f" 14).id ∉ [1, 2, 6, 3, 7, 4, 5] := by
  refine ⟨by decide, rfl, rfl, rfl, by decide, by decide, by decide, by decide⟩

open Sample in
/-- C28: Index freshness.  Take any program and any list `old ++ new` of its
functions.  From globals with an empty index and the count 0, the update step
of `findVisibleFunctions` for the list `old` gives the globals of a rebuild
for `old`, and from these the update step for the list `old ++ new` gives the
globals that a rebuild from scratch for `old ++ new` gives: the incremental
update equals the rebuild.  The recorded
count is then the length of the list, and for every block and name the index
holds, in the order of the list, the functions of the list that are eligible
(not flagged invisible, in the tree, not defined in an argument symbol) and
whose visibility block (the block of the program for a function flagged
`FLAG_AUTO_II`) and name these are: a function is entered under its block and
name as often as it occurs in the list, once when the list names it once, and
under no other block or name.  In the sample program block 3 declares the
eligible function `f` with id 1 and three functions `f` that are not
eligible, and the function `these` flagged `FLAG_AUTO_II`, which the index
holds under the block 1 of the program. -/
theorem index_fresh_after_update :
    (∀ (prog : Program) (old new : List FnSymbol) (g : Globals),
      findVisibleFunctions.update (prog.withFnSymbols old) g.cleared =
        buildVisibleFunctionMap (prog.withFnSymbols old) g.cleared ∧
      findVisibleFunctions.update (prog.withFnSymbols (old ++ new))
          (buildVisibleFunctionMap (prog.withFnSymbols old) g.cleared) =
        buildVisibleFunctionMap (prog.withFnSymbols (old ++ new)) g.cleared) ∧
    (∀ (prog : Program) (fns : List FnSymbol) (g : Globals),
      (buildVisibleFunctionMap (prog.withFnSymbols fns) g.cleared).nVisibleFunctions =
        fns.length ∧
      (∀ (block : BlockStmt) (name : String),
        visibleFunctionsIn
            (buildVisibleFunctionMap (prog.withFnSymbols fns) g.cleared).visibleFunctionMap
            block name =
          fns.filter (fun fn => eligible fn && decide (indexBlock prog fn = block) &&
            decide (fn.name = name))) ∧
      (∀ (fn : FnSymbol) (block : BlockStmt) (name : String),
        (visibleFunctionsIn
            (buildVisibleFunctionMap (prog.withFnSymbols fns) g.cleared).visibleFunctionMap
            block name).count fn =
          if eligible fn = true ∧ indexBlock prog fn = block ∧ fn.name = name then
            fns.count fn
          else 0)) ∧
    (visibleFunctionsIn index 3 "f" = [fnIn 1 "f" 3] ∧
      visibleFunctionsIn index 1 "these" = [{ fnIn 33 "these" 3 with flagAutoII := true }] ∧
      visibleFunctionsIn index 3 "these" = [] ∧
      (buildVisibleFunctionMap program Globals.initial).nVisibleFunctions = 17) := by
  refine ⟨fun prog old new g =>
    ⟨update_from_cleared prog old g, update_after_rebuild prog old new g⟩, ?_,
    ⟨by decide, by decide, by decide, by decide⟩⟩
  intro prog fns g
  have hlookup : ∀ (block : BlockStmt) (name : String),
      visibleFunctionsIn
          (buildVisibleFunctionMap (prog.withFnSymbols fns) g.cleared).visibleFunctionMap
          block name =
        fns.filter (fun fn => eligible fn && decide (indexBlock prog fn = block) &&
          decide (fn.name = name)) := by
    intro block name
    have := buildVisibleFunctionMap_foldl_lookup (prog.withFnSymbols fns) fns
      (fun _ => none) block name
    simp only [buildVisibleFunctionMap, Program.withFnSymbols, Globals.cleared,
      List.drop_zero]
    rw [show (List.foldl (buildVisibleFunctionMap.step (prog.withFnSymbols fns))
        (fun _ => none) fns) = List.foldl (buildVisibleFunctionMap.step
          { prog with gFnSymbols := fns }) (fun _ => none) fns from rfl] at this
    rw [this]
    simp only [visibleFunctionsIn, List.nil_append]
    rfl
  refine ⟨rfl, hlookup, ?_⟩
  intro fn block name
  rw [hlookup]
  by_cases hp : eligible fn = true ∧ indexBlock prog fn = block ∧ fn.name = name
  · rw [if_pos hp]
    exact List.count_filter (by simp [hp.1, hp.2.1, hp.2.2])
  · rw [if_neg hp]
    apply List.count_eq_zero.mpr
    intro hmem
    have h := (List.mem_filter.mp hmem).2
    simp only [Bool.and_eq_true, decide_eq_true_eq] at h
    exact hp ⟨h.1.1, h.1.2, h.2⟩

end Compiler

/-! ### The point-of-instantiation fallback -/

theorem moreVisiblePoiLoop_of_found (context : Context) (callName : UniqueString)
    (fn1Id fn2Id : ID) (poi : PoiScope) (result : MoreVisibleResult)
    (h : result ≠ MoreVisibleResult.FOUND_NEITHER) :
    moreVisiblePoiLoop context callName fn1Id fn2Id poi result = result := by
  cases poi with
  | nil => rfl
  | cons inScope inFnPoi =>
    unfold moreVisiblePoiLoop
    rw [if_pos h]

open Sample in
/-- C31: The point-of-instantiation fallback of `moreVisibleQuery`.  When the
walk from the scope of the call (`computeIsMoreVisible`) finds either
function, its answer is the result, whatever the chain of points of
instantiation holds.  When it finds neither, the result is the answer of the
walk from the first scope of the chain, taken from the innermost, whose walk
finds either function (the walks from the scopes before it find neither), and
`FOUND_NEITHER` when no scope of the chain finds one.  In the sample the
functions 30 and 31 are not found from the body of the generic function; the
innermost point of instantiation finds 31 in its enclosing scope, so the
answer is that of this scope although the next one finds 30; function 32 is
found from the body, and then the chain is not consulted. -/
theorem moreVisibleQuery_poi_fallback :
    (∀ (context : Context) (callName : UniqueString) (callInScope : Scope)
        (callInPoiScope : PoiScope) (fn1Id fn2Id : ID),
      computeIsMoreVisible context callName callInScope fn1Id fn2Id ≠
          MoreVisibleResult.FOUND_NEITHER →
      moreVisibleQuery context callName callInScope callInPoiScope fn1Id fn2Id =
        computeIsMoreVisible context callName callInScope fn1Id fn2Id) ∧
    (∀ (context : Context) (callName : UniqueString) (callInScope : Scope)
        (before after : PoiScope) (inScope : Scope) (fn1Id fn2Id : ID),
      computeIsMoreVisible context callName callInScope fn1Id fn2Id =
          MoreVisibleResult.FOUND_NEITHER →
      (∀ s ∈ before, computeIsMoreVisible context callName s fn1Id fn2Id =
          MoreVisibleResult.FOUND_NEITHER) →
      computeIsMoreVisible context callName inScope fn1Id fn2Id ≠
          MoreVisibleResult.FOUND_NEITHER →
      moreVisibleQuery context callName callInScope (before ++ inScope :: after)
          fn1Id fn2Id =
        computeIsMoreVisible context callName inScope fn1Id fn2Id) ∧
    (∀ (context : Context) (callName : UniqueString) (callInScope : Scope)
        (callInPoiScope : PoiScope) (fn1Id fn2Id : ID),
      computeIsMoreVisible context callName callInScope fn1Id fn2Id =
          MoreVisibleResult.FOUND_NEITHER →
      (∀ s ∈ callInPoiScope, computeIsMoreVisible context callName s fn1Id fn2Id =
          MoreVisibleResult.FOUND_NEITHER) →
      moreVisibleQuery context callName callInScope callInPoiScope fn1Id fn2Id =
        MoreVisibleResult.FOUND_NEITHER) ∧
    computeIsMoreVisible poiContext "f" genericBodyScope 30 31 =
      MoreVisibleResult.FOUND_NEITHER ∧
    poiChain.map (fun s => computeIsMoreVisible poiContext "f" s 30 31) =
      [MoreVisibleResult.FOUND_F2_FIRST, MoreVisibleResult.FOUND_F1_FIRST] ∧
    moreVisibleQuery poiContext "f" genericBodyScope poiChain 30 31 =
      MoreVisibleResult.FOUND_F2_FIRST ∧
    moreVisibleQuery poiContext "f" genericBodyScope poiChain.tail 30 31 =
      MoreVisibleResult.FOUND_F1_FIRST ∧
    moreVisibleQuery poiContext "f" genericBodyScope poiChain 30 33 =
      MoreVisibleResult.FOUND_F1_FIRST ∧
    moreVisibleQuery poiContext "f" genericBodyScope poiChain 34 33 =
      MoreVisibleResult.FOUND_NEITHER ∧
    computeIsMoreVisible poiContext "f" genericBodyScope 32 31 =
      MoreVisibleResult.FOUND_F1_FIRST ∧
    moreVisibleQuery poiContext "f" genericBodyScope poiChain 32 31 =
      MoreVisibleResult.FOUND_F1_FIRST := by
  refine ⟨?_, ?_, ?_, by decide, by decide, by decide, by decide, by decide, by decide,
    by decide, by decide⟩
  · intro context callName callInScope callInPoiScope fn1Id fn2Id h
    unfold moreVisibleQuery
    exact moreVisiblePoiLoop_of_found _ _ _ _ _ _ h
  · intro context callName callInScope before after inScope fn1Id fn2Id h hbefore hfound
    unfold moreVisibleQuery
    rw [h]
    induction before with
    | nil =>
      simp only [List.nil_append]
      unfold moreVisiblePoiLoop
      simp only [ne_eq, not_true_eq_false, if_false]
      exact moreVisiblePoiLoop_of_found _ _ _ _ _ _ hfound
    | cons s before ih =>
      simp only [List.cons_append]
      unfold moreVisiblePoiLoop
      simp only [ne_eq, not_true_eq_false, if_false]
      rw [hbefore s (List.mem_cons_self _ _)]
      exact ih (fun t ht => hbefore t (List.mem_cons_of_mem _ ht))
  · intro context callName callInScope callInPoiScope fn1Id fn2Id h hall
    unfold moreVisibleQuery
    rw [h]
    induction callInPoiScope with
    | nil => rfl
    | cons s rest ih =>
      unfold moreVisiblePoiLoop
      simp only [ne_eq, not_true_eq_false, if_false]
      rw [hall s (List.mem_cons_self _ _)]
      exact ih (fun t ht => hall t (List.mem_cons_of_mem _ ht))

/-! ### The two orders of `prefersConvToOtherNumeric` -/

open numeric_type_t in
/-- When `prefersConvToOtherNumeric` answers true, one of its six rules
applies. -/
theorem prefersConvToOtherNumeric_rules (a f1 f2 : Ty) (ka k1 k2 : Kind)
    (pa p1 p2 : Option Int)
    (h : prefersConvToOtherNumeric { kind := ka, type := some a, param := pa }
        { kind := k1, type := some f1, param := p1 }
        { kind := k2, type := some f2, param := p2 } = some true) :
    (classifyNumericType a = classifyNumericType f1 ∧
        classifyNumericType a ≠ classifyNumericType f2) ∨
    ((classifyNumericType a = NUMERIC_TYPE_BOOL ∨ classifyNumericType a = NUMERIC_TYPE_ENUM) ∧
      ((f1.isIntType = true ∧ f2.isUintType = true) ∨
        ((isDefaultInt f1 = true ∨ isDefaultUint f1 = true) ∧
          classifyNumericType f2 = NUMERIC_TYPE_INT_UINT ∧
          ¬ (isDefaultInt f2 = true ∨ isDefaultUint f2 = true)))) ∨
    (((classifyNumericType a = NUMERIC_TYPE_BOOL ∨ classifyNumericType a = NUMERIC_TYPE_ENUM) ∨
        classifyNumericType a = NUMERIC_TYPE_INT_UINT) ∧
      ((isDefaultReal f1 = true ∧
          (classifyNumericType f2 = NUMERIC_TYPE_REAL ∨
            classifyNumericType f2 = NUMERIC_TYPE_COMPLEX) ∧ ¬ isDefaultReal f2 = true) ∨
        (isDefaultComplex f1 = true ∧ classifyNumericType f2 = NUMERIC_TYPE_COMPLEX ∧
          ¬ isDefaultComplex f2 = true))) ∨
    ((classifyNumericType a = NUMERIC_TYPE_REAL ∨ classifyNumericType a = NUMERIC_TYPE_IMAG) ∧
      classifyNumericType f1 = NUMERIC_TYPE_COMPLEX ∧
      classifyNumericType f2 = NUMERIC_TYPE_COMPLEX ∧
      bitwidth a * 2 = bitwidth f1 ∧ bitwidth a * 2 ≠ bitwidth f2) := by
  unfold prefersConvToOtherNumeric at h
  simp only at h
  split_ifs at h with hg h1 h2 h3 h4 h5 h6
  · exact Or.inl h1
  · simp only [Bool.decide_or, Bool.or_eq_true, decide_eq_true_eq] at h2
    exact Or.inr (Or.inl ⟨h2.1, Or.inl h2.2⟩)
  · simp only [Bool.decide_or, Bool.or_eq_true, decide_eq_true_eq] at h3
    exact Or.inr (Or.inl ⟨h3.1, Or.inr h3.2⟩)
  · simp only [Bool.decide_or, Bool.or_eq_true, decide_eq_true_eq] at h4
    exact Or.inr (Or.inr (Or.inl ⟨h4.1, Or.inl h4.2⟩))
  · simp only [Bool.decide_or, Bool.or_eq_true, decide_eq_true_eq] at h5
    exact Or.inr (Or.inr (Or.inl ⟨h5.1, Or.inr h5.2⟩))
  · exact Or.inr (Or.inr (Or.inr h6))
  · exact absurd h (by simp)
  · exact absurd h (by simp)

/-- The answer of `prefersConvToOtherNumeric` is true in both orders of the
two formals exactly for a `bool` or enum actual with an `int` formal of
non-default width and a `uint` formal of default width: the rule "bool/enum to
int over uint" holds in one order and the rule "bool/enum to a default-sized
int/uint over another size" in the other. -/
theorem prefersConvToOtherNumeric_mutual_on_types (a f1 f2 : Ty) (ka k1 k2 : Kind)
    (pa p1 p2 : Option Int) :
    (prefersConvToOtherNumeric { kind := ka, type := some a, param := pa }
        { kind := k1, type := some f1, param := p1 }
        { kind := k2, type := some f2, param := p2 } = some true ∧
      prefersConvToOtherNumeric { kind := ka, type := some a, param := pa }
        { kind := k2, type := some f2, param := p2 }
        { kind := k1, type := some f1, param := p1 } = some true) ↔
    ((a.isBoolType = true ∨ a.isEnumType = true) ∧
      ((f1.isIntType = true ∧ f1.defaultWidth = false ∧ isDefaultUint f2 = true) ∨
        (f2.isIntType = true ∧ f2.defaultWidth = false ∧ isDefaultUint f1 = true))) := by
  constructor
  · rintro ⟨h1, h2⟩
    have r1 := prefersConvToOtherNumeric_rules a f1 f2 ka k1 k2 pa p1 p2 h1
    have r2 := prefersConvToOtherNumeric_rules a f2 f1 ka k2 k1 pa p2 p1 h2
    clear h1 h2
    obtain ⟨ta, wa, da, ua⟩ := a
    obtain ⟨t1, w1, d1, u1⟩ := f1
    obtain ⟨t2, w2, d2, u2⟩ := f2
    cases ta <;>
      simp [classifyNumericType, Ty.isBoolType, Ty.isEnumType,
        Ty.isIntType, Ty.isUintType, Ty.isRealType, Ty.isImagType, Ty.isComplexType,
        isDefaultInt, isDefaultUint, isDefaultReal, isDefaultComplex, bitwidth,
        Ty.isPrimitiveType] at r1 r2 ⊢ <;>
      cases t1 <;> simp at r1 r2 ⊢ <;>
      cases t2 <;> simp at r1 r2 ⊢ <;>
      first
        | omega
        | (cases d1 <;> cases d2 <;> simp at r1 r2 ⊢)
  · rintro ⟨ha, hf⟩
    obtain ⟨ta, wa, da, ua⟩ := a
    obtain ⟨t1, w1, d1, u1⟩ := f1
    obtain ⟨t2, w2, d2, u2⟩ := f2
    simp only [Ty.isBoolType, Ty.isEnumType, Ty.isIntType, Ty.isUintType, isDefaultUint,
      beq_iff_eq, Bool.if_false_right, Bool.and_eq_true, decide_eq_true_eq] at ha hf
    rcases ha with ha | ha <;>
      rcases hf with ⟨h1, h2, h3, h4⟩ | ⟨h1, h2, h3, h4⟩ <;>
      (subst ha; subst h1; subst h2; subst h3; subst h4
       simp [prefersConvToOtherNumeric, classifyNumericType, Ty.isBoolType, Ty.isEnumType,
          Ty.isIntType, Ty.isUintType, isDefaultInt, isDefaultUint])

open Sample in
/-- C36 (what the code does, and the failing input): the answers of
`prefersConvToOtherNumeric(actual, f1, f2)` and
`prefersConvToOtherNumeric(actual, f2, f1)` are both true exactly when the
actual is of a `bool` or enum type and one formal is an `int` of non-default
width and the other a `uint` of default width; for every other triple of types
at most one of the two is true.  For the enum actual of the call `g(myColor)`
with the formals `int(16)` and `uint` both are true, and the state-updating
`testArgMapping` records its weaker preference for the candidate that is
listed first, in either order of the two candidates. -/
theorem prefersConvToOtherNumeric_both_orders :
    (∀ (actualQt f1Qt f2Qt : QualifiedType),
      (prefersConvToOtherNumeric actualQt f1Qt f2Qt = some true ∧
        prefersConvToOtherNumeric actualQt f2Qt f1Qt = some true) ↔
      ∃ a f1 f2, actualQt.type = some a ∧ f1Qt.type = some f1 ∧ f2Qt.type = some f2 ∧
        (a.isBoolType = true ∨ a.isEnumType = true) ∧
        ((f1.isIntType = true ∧ f1.defaultWidth = false ∧ isDefaultUint f2 = true) ∨
          (f2.isIntType = true ∧ f2.defaultWidth = false ∧ isDefaultUint f1 = true))) ∧
    prefersConvToOtherNumeric colorVarActual
        { kind := Kind.CONST_IN, type := some int16Ty, param := none }
        { kind := Kind.CONST_IN, type := some uintTy, param := none } = some true ∧
    prefersConvToOtherNumeric colorVarActual
        { kind := Kind.CONST_IN, type := some uintTy, param := none }
        { kind := Kind.CONST_IN, type := some int16Ty, param := none } = some true ∧
    testArgMappingVoid boolDctx candColorInt16 candColorUint 0 {} =
      some { fn1WeakerPreferred := true } ∧
    testArgMappingVoid boolDctx candColorUint candColorInt16 0 {} =
      some { fn1WeakerPreferred := true } := by
  refine ⟨?_, by decide, by decide, by decide, by decide⟩
  intro actualQt f1Qt f2Qt
  obtain ⟨ka, ta, pa⟩ := actualQt
  obtain ⟨k1, t1, p1⟩ := f1Qt
  obtain ⟨k2, t2, p2⟩ := f2Qt
  cases ta with
  | none =>
    cases t1 <;> cases t2 <;> simp [prefersConvToOtherNumeric]
  | some a =>
    cases t1 with
    | none => cases t2 <;> simp [prefersConvToOtherNumeric]
    | some f1 =>
      cases t2 with
      | none => simp [prefersConvToOtherNumeric]
      | some f2 =>
        rw [prefersConvToOtherNumeric_mutual_on_types]
        simp

/-! ### The call sites of `testOpArgMapping` -/

/-- No call of `testOpArgMapping` returns: with an entry absent the third
assertion reads through a null pointer, with both present an assertion on the
kinds or the assertion `fa2 == nullptr` fails. -/
theorem testOpArgMapping_eq_none (dctx : DisambiguationContext)
    (candidate1 candidate2 : DisambiguationCandidate) (actualIdx : Nat)
    (ds : DisambiguationState) :
    testOpArgMapping dctx candidate1 candidate2 actualIdx ds = none := by
  unfold testOpArgMapping
  simp only
  split_ifs
  · rfl
  · rfl
  · split <;> simp

/-- C38 (what the code does instead): at an actual index `k` of the loop
where an entry of either candidate is absent and exactly one of the two
functions is an operator, both call sites of `testOpArgMapping` abort: the
int-returning `testArgMapping` and the step of `compareSpecificity` (argument
filter) at `k`, and with it the whole comparison.  The two assertions on the
operator kinds can hold there; the third,
`CHPL_ASSERT(fa1->actualType() == fa2->actualType())`, reads a field of the
absent entry. -/
theorem testOpArgMapping_call_sites_abort (dctx : DisambiguationContext)
    (candidate1 candidate2 : DisambiguationCandidate) (i j : Nat) (forGenericInit : Bool)
    (k : Nat) (hk : k < dctx.call.numActuals) (hstart : forGenericInit = false ∨ 2 ≤ k)
    (habsent : candidate1.formalActualMap.byActualIdx k = none ∨
      candidate2.formalActualMap.byActualIdx k = none)
    (hone : (candidate1.fn.untyped.kind = FunctionKind.OPERATOR ∧
        candidate2.fn.untyped.kind ≠ FunctionKind.OPERATOR) ∨
      (candidate1.fn.untyped.kind ≠ FunctionKind.OPERATOR ∧
        candidate2.fn.untyped.kind = FunctionKind.OPERATOR)) :
    (∀ ds : DisambiguationState,
      testOpArgMapping dctx candidate1 candidate2 k ds = none ∧
      testArgMapping dctx candidate1 candidate2 k ds = none) ∧
    (∀ st : DisambiguationState × Nat,
      compareSpecificityForArgs.step dctx candidate1 candidate2 st k = none) ∧
    compareSpecificityForArgs dctx candidate1 candidate2 i j forGenericInit = none := by
  have hnotboth : ¬ (candidate1.fn.untyped.kind = FunctionKind.OPERATOR ∧
      candidate2.fn.untyped.kind = FunctionKind.OPERATOR) := by
    rintro ⟨h1, h2⟩
    rcases hone with ⟨_, h⟩ | ⟨h, _⟩
    · exact h h2
    · exact h h1
  have hstep : ∀ st : DisambiguationState × Nat,
      compareSpecificityForArgs.step dctx candidate1 candidate2 st k = none := by
    intro st
    unfold compareSpecificityForArgs.step
    rcases habsent with h | h
    · rw [h]
      simp only [if_neg hnotboth, testOpArgMapping_eq_none]
    · rw [h]
      cases candidate1.formalActualMap.byActualIdx k <;>
        simp only [if_neg hnotboth, testOpArgMapping_eq_none]
  refine ⟨fun ds => ⟨testOpArgMapping_eq_none _ _ _ _ _, ?_⟩, hstep, ?_⟩
  · unfold testArgMapping
    rcases habsent with h | h
    · rw [h]
      exact testOpArgMapping_eq_none _ _ _ _ _
    · rw [h]
      cases candidate1.formalActualMap.byActualIdx k <;>
        exact testOpArgMapping_eq_none _ _ _ _ _
  · unfold compareSpecificityForArgs
    have hmem : k ∈ (List.range dctx.call.numActuals).drop
        (if forGenericInit = false then 0 else 2) := by
      rcases hstart with h | h
      · rw [if_pos h, List.drop_zero]
        exact List.mem_range.mpr hk
      · by_cases hg : forGenericInit = false
        · rw [if_pos hg, List.drop_zero]
          exact List.mem_range.mpr hk
        · rw [if_neg hg]
          rw [List.mem_iff_getElem]
          refine ⟨k - 2, ?_, ?_⟩
          · simp only [List.length_drop, List.length_range]
            omega
          · simp only [List.getElem_drop, List.getElem_range]
            omega
    simp only
    rw [foldlM_option_abort _ k hstep _ _ hmem]

open Sample in
/-- The call `x + y` with the operator function `operator +(rhs: R)`, which
has no formal for the receiver actual 0 and is an operator, and the method
`proc R.+(rhs: R)`, which is none: the call site in the argument filter
aborts at actual 0, and so does the filter pipeline on the two candidates. -/
theorem testOpArgMapping_call_sites_abort_witness :
    (0 < operatorDctx.call.numActuals ∧
      candOperatorPlus.formalActualMap.byActualIdx 0 = none ∧
      candOperatorPlus.fn.untyped.kind = FunctionKind.OPERATOR ∧
      candMethodPlus.fn.untyped.kind ≠ FunctionKind.OPERATOR) ∧
    discardWorseArgs operatorDctx [candOperatorPlus, candMethodPlus] [false, false] = none ∧
    ((∀ ds : DisambiguationState,
      testOpArgMapping operatorDctx candOperatorPlus candMethodPlus 0 ds = none ∧
      testArgMapping operatorDctx candOperatorPlus candMethodPlus 0 ds = none) ∧
    (∀ st : DisambiguationState × Nat,
      compareSpecificityForArgs.step operatorDctx candOperatorPlus candMethodPlus st 0 =
        none) ∧
    compareSpecificityForArgs operatorDctx candOperatorPlus candMethodPlus 0 1 false =
      none) :=
  ⟨⟨by decide, by decide, by decide, by decide⟩, by decide,
    testOpArgMapping_call_sites_abort operatorDctx candOperatorPlus candMethodPlus 0 1 false
      0 (by decide) (Or.inl rfl) (Or.inl (by decide)) (Or.inl ⟨by decide, by decide⟩)⟩

/-! ### The search for the best candidate when ties are not transitive -/

/-- Three candidates of which the second is more specific than the first and
ties with the third, and the third ties with the first: the search returns no
best candidate and leaves the second alone as possibly best. -/
theorem findMostSpecificIgnoringReturnWith_lone_tie
    (cmp : DisambiguationCandidate → DisambiguationCandidate → Option Int)
    (a b c : DisambiguationCandidate) (amb : CandidatesVec) (x y : Int)
    (hab : cmp a b = some x) (hx : 0 < x) (hba : cmp b a = some y) (hy : y < 0)
    (hbc : cmp b c = some 0) (hca : cmp c a = some 0) :
    findMostSpecificIgnoringReturnWith cmp [a, b, c] amb = some (none, amb ++ [b]) := by
  have hx2 : ¬ x < 0 := by omega
  simp [findMostSpecificIgnoringReturnWith, findMostSpecificIgnoringReturn.outerLoop,
    findMostSpecificIgnoringReturn.innerLoop, List.range_succ, hab, hx, hx2, hba, hy, hbc,
    hca]

open Sample in
/-- C37 (what holds, and the failing input): for two candidates and an
antisymmetric comparison the search of `findMostSpecificIgnoringReturn`
yields a best candidate or both candidates as possibly best.  For three
candidates it can yield no best candidate and a single possibly-best one: so
it does whenever the second candidate is more specific than the first and
ties with the third, and the third ties with the first.  The call
`f(x, y, z)` on three `int` variables with the overloads
`f(a: real, b: real, c: int)`, `f(a: int, b: real, c: int) param` and
`f(a: real, b: int, c: real)` gives these comparisons, with and without the
where clauses: both runs of the search return no best candidate and leave
only the second overload, which returns a param, so
`computeMostSpecificCandidates` takes the branch for param- and
type-returning candidates and reaches `getOnly(best->...)` with `best` null. -/
theorem second_search_can_return_null_best :
    (∀ (cmp : DisambiguationCandidate → DisambiguationCandidate → Option Int)
        (a b : DisambiguationCandidate) (amb : CandidatesVec) (x y : Int),
      cmp a b = some x → cmp b a = some y → (x < 0 ↔ 0 < y) → (0 < x ↔ y < 0) →
      findMostSpecificIgnoringReturnWith cmp [a, b] amb = some (some a, amb) ∨
      findMostSpecificIgnoringReturnWith cmp [a, b] amb = some (some b, amb) ∨
      findMostSpecificIgnoringReturnWith cmp [a, b] amb = some (none, amb ++ [a, b])) ∧
    (∀ (cmp : DisambiguationCandidate → DisambiguationCandidate → Option Int)
        (a b c : DisambiguationCandidate) (amb : CandidatesVec) (x y : Int),
      cmp a b = some x → 0 < x → cmp b a = some y → y < 0 →
      cmp b c = some 0 → cmp c b = some 0 → cmp c a = some 0 → cmp a c = some 0 →
      findMostSpecificIgnoringReturnWith cmp [a, b, c] amb = some (none, amb ++ [b])) ∧
    (compareSpecificity tripleDctx (candTriple 60 0) (candTriple 61 1) false = some 1 ∧
      compareSpecificity tripleDctx (candTriple 61 1) (candTriple 60 0) false = some (-1) ∧
      compareSpecificity tripleDctx (candTriple 61 1) (candTriple 62 2) false = some 0 ∧
      compareSpecificity tripleDctx (candTriple 62 2) (candTriple 61 1) false = some 0 ∧
      compareSpecificity tripleDctx (candTriple 62 2) (candTriple 60 0) false = some 0 ∧
      compareSpecificity tripleDctx (candTriple 60 0) (candTriple 62 2) false = some 0) ∧
    findMostSpecificIgnoringReturn tripleDctx
        [candTriple 60 0, candTriple 61 1, candTriple 62 2] true [] =
      some (none, [candTriple 61 1]) ∧
    countByReturnIntent tripleDctx [candTriple 61 1] (0, 0, 0, 0) = (0, 0, 0, 1) ∧
    findMostSpecificIgnoringReturn tripleDctx
        [candTriple 60 0, candTriple 61 1, candTriple 62 2] false [] =
      some (none, [candTriple 61 1]) ∧
    computeMostSpecificCandidates tripleContext tripleDctx
        [candTriple 60 0, candTriple 61 1, candTriple 62 2] = none ∧
    findMostSpecificCandidates tripleContext [fnTriple 60, fnTriple 61, fnTriple 62] []
        callF3 (Scope.root 0 false) [] = none := by
  refine ⟨?_, ?_, ⟨by decide, by decide, by decide, by decide, by decide, by decide⟩,
    by decide, by decide, by decide, by decide, by decide⟩
  · intro cmp a b amb x y hab hba h1 h2
    rcases lt_trichotomy x 0 with hx | hx | hx
    · exact Or.inl (findMostSpecificIgnoringReturnWith_pair_first cmp a b amb x hab hx)
    · subst hx
      have hy : y = 0 := by omega
      subst hy
      exact Or.inr (Or.inr (findMostSpecificIgnoringReturnWith_pair_tie cmp a b amb hab hba))
    · exact Or.inr (Or.inl (findMostSpecificIgnoringReturnWith_pair_second cmp a b amb x y
        hab hx hba (h2.mp hx)))
  · intro cmp a b c amb x y hab hx hba hy hbc _ hca _
    exact findMostSpecificIgnoringReturnWith_lone_tie cmp a b c amb x y hab hx hba hy hbc hca

namespace Compiler

/-! ### The check of private functions -/

/-- Once the privacy of one function has been checked, the loop adds the
public functions and, when the check allowed it, the private ones. -/
theorem addFns_checked (prog : Program) (call : CallExpr) (fns : List FnSymbol)
    (privateOkay : Bool) (visibleFns : List FnSymbol) :
    getVisibleFunctions.addFns prog call fns true privateOkay visibleFns =
      visibleFns ++ fns.filter (fun fn => !fn.flagPrivate || privateOkay) := by
  induction fns generalizing visibleFns with
  | nil => simp [getVisibleFunctions.addFns]
  | cons fn fns ih =>
    unfold getVisibleFunctions.addFns
    cases hp : fn.flagPrivate <;> cases privateOkay <;> simp [ih, hp]

/-- From the start of the loop, the private functions are added according to
the check of the first private function. -/
theorem addFns_first_private (prog : Program) (call : CallExpr) (fns : List FnSymbol)
    (visibleFns : List FnSymbol) :
    getVisibleFunctions.addFns prog call fns false false visibleFns =
      visibleFns ++
        fns.filter (fun fn => !fn.flagPrivate || firstPrivateVisible prog call fns) := by
  induction fns generalizing visibleFns with
  | nil => simp [getVisibleFunctions.addFns]
  | cons fn fns ih =>
    unfold getVisibleFunctions.addFns
    cases hp : fn.flagPrivate
    · have hfirst : firstPrivateVisible prog call (fn :: fns) =
          firstPrivateVisible prog call fns := by
        simp [firstPrivateVisible, List.find?_cons, hp]
      simp [ih, hp, hfirst]
    · have hfirst : firstPrivateVisible prog call (fn :: fns) = prog.fnIsVisible fn call := by
        simp [firstPrivateVisible, List.find?_cons, hp]
      cases hv : prog.fnIsVisible fn call <;>
        simp [addFns_checked, hp, hfirst, hv]

open Sample in
/-- C33: The check of private functions in `getVisibleFunctions`.  Of the
functions that the index holds for the name in a block, the loop of a first
visit adds, in the order of the list, every public function and, all or none,
the private ones: all when `isVisible(call)` holds for the first private
function of the list, none when it does not; this is the contribution of the
block to the result.  When `isVisible(call)` has one value for all private
functions of the list, the result is the list filtered by "public, or
private and visible from the call", each function by its own
`isVisible(call)`.  With answers that differ the two do not agree: of two
private functions of block 5, the first visible and the second not, both are
added, and none when the second comes first. -/
theorem private_functions_all_or_none :
    (∀ (prog : Program) (call : CallExpr) (fns visibleFns : List FnSymbol),
      getVisibleFunctions.addFns prog call fns false false visibleFns =
        visibleFns ++
          fns.filter (fun fn => !fn.flagPrivate || firstPrivateVisible prog call fns)) ∧
    (∀ (prog : Program) (visibleFunctionMap : BlockStmt → Option VisibleFunctionBlock)
        (call : CallExpr) (name : String) (block : BlockStmt),
      blockContribution prog visibleFunctionMap call (name, block) =
        (visibleFunctionsIn visibleFunctionMap block name).filter
          (fun fn => !fn.flagPrivate ||
            firstPrivateVisible prog call (visibleFunctionsIn visibleFunctionMap block name))) ∧
    (∀ (prog : Program) (call : CallExpr) (fns visibleFns : List FnSymbol),
      (∀ f ∈ fns, ∀ g ∈ fns, f.flagPrivate = true → g.flagPrivate = true →
        prog.fnIsVisible f call = prog.fnIsVisible g call) →
      getVisibleFunctions.addFns prog call fns false false visibleFns =
        visibleFns ++
          fns.filter (fun fn => !fn.flagPrivate || prog.fnIsVisible fn call)) ∧
    visibleFunctionsIn index 5 "f" = [fnIn 2 "f" 5, { fnIn 6 "f" 5 with flagPrivate := true }] ∧
    blockContribution program index (callIn 4) ("f", 5) = [fnIn 2 "f" 5] ∧
    getVisibleFunctions.addFns unevenProgram (callIn 4)
        [fnIn 2 "f" 5, privateFn 40, fnIn 3 "f" 5, privateFn 41] false false [] =
      [fnIn 2 "f" 5, privateFn 40, fnIn 3 "f" 5, privateFn 41] ∧
    getVisibleFunctions.addFns unevenProgram (callIn 4)
        [fnIn 2 "f" 5, privateFn 41, fnIn 3 "f" 5, privateFn 40] false false [] =
      [fnIn 2 "f" 5, fnIn 3 "f" 5] ∧
    [fnIn 2 "f" 5, privateFn 40, fnIn 3 "f" 5, privateFn 41].filter
        (fun fn => !fn.flagPrivate || unevenProgram.fnIsVisible fn (callIn 4)) =
      [fnIn 2 "f" 5, privateFn 40, fnIn 3 "f" 5] := by
  refine ⟨addFns_first_private, ?_, ?_, by decide, by decide, by decide, by decide,
    by decide⟩
  · intro prog visibleFunctionMap call name block
    unfold blockContribution
    rw [addFns_first_private]
    rfl
  · intro prog call fns visibleFns hsame
    rw [addFns_first_private]
    congr 1
    apply List.filter_congr
    intro f hf
    cases hp : f.flagPrivate
    · rfl
    · simp only [Bool.not_true, Bool.false_or]
      unfold firstPrivateVisible
      cases hfind : fns.find? (fun fn => fn.flagPrivate) with
      | none =>
        have := List.find?_eq_none.mp hfind f hf
        simp [hp] at this
      | some g =>
        exact hsame g (List.mem_of_find?_eq_some hfind) f hf
          (by simpa using List.find?_some hfind) hp

end Compiler

/-! ### Out-intent formals in the argument filter -/

theorem compareSpecificityForArgs_eq_over (dctx : DisambiguationContext)
    (candidate1 candidate2 : DisambiguationCandidate) (i j : Nat) (forGenericInit : Bool) :
    compareSpecificityForArgs dctx candidate1 candidate2 i j forGenericInit =
      compareSpecificityForArgs.over dctx candidate1 candidate2
        (compareSpecificityForArgs.indices dctx forGenericInit) := rfl

theorem discardWorseArgs_eq_with (dctx : DisambiguationContext) (candidates : CandidatesVec)
    (discarded : List Bool) :
    discardWorseArgs dctx candidates discarded =
      discardWorseArgsWith (discardWorseArgs.cmp dctx candidates) candidates.length
        discarded := rfl

/-- At an index where a formal has out intent the step of the loop counts one
more incomparable argument and leaves the preferences as they are, or aborts
when the two entries hold different actual types. -/
theorem compareSpecificityForArgs_step_out (dctx : DisambiguationContext)
    (candidate1 candidate2 : DisambiguationCandidate) (st : DisambiguationState × Nat)
    (k : Nat) (hout : hasOutFormal candidate1 candidate2 k = true) :
    compareSpecificityForArgs.step dctx candidate1 candidate2 st k = some (st.1, st.2 + 1) ∨
    compareSpecificityForArgs.step dctx candidate1 candidate2 st k = none := by
  unfold hasOutFormal at hout
  unfold compareSpecificityForArgs.step testArgMapping
  cases h1 : candidate1.formalActualMap.byActualIdx k with
  | none => rw [h1] at hout; exact absurd hout (by simp)
  | some fa1 =>
    cases h2 : candidate2.formalActualMap.byActualIdx k with
    | none => rw [h1, h2] at hout; exact absurd hout (by simp)
    | some fa2 =>
      rw [h1, h2] at hout
      simp only [decide_eq_true_eq] at hout
      simp only
      by_cases hact : fa1.actualType ≠ fa2.actualType
      · right
        simp only [if_pos hact]
      · left
        simp only [if_neg hact, if_pos hout]
        by_cases hp : fa1.actualType.isParam = true <;> simp [hp]

/-- The step of the loop adds to the count of incomparable arguments whatever
the count is. -/
theorem compareSpecificityForArgs_step_count (dctx : DisambiguationContext)
    (candidate1 candidate2 : DisambiguationCandidate) (ds : DisambiguationState) (c : Nat)
    (k : Nat) :
    compareSpecificityForArgs.step dctx candidate1 candidate2 (ds, c) k =
      (compareSpecificityForArgs.step dctx candidate1 candidate2 (ds, 0) k).map
        (fun r => (r.1, c + r.2)) := by
  unfold compareSpecificityForArgs.step
  cases candidate1.formalActualMap.byActualIdx k with
  | none =>
    simp only
    split_ifs
    · simp
    · cases testOpArgMapping dctx candidate1 candidate2 k ds with
      | none => rfl
      | some p => simp only; split_ifs <;> simp
  | some fa1 =>
    cases candidate2.formalActualMap.byActualIdx k with
    | none =>
      simp only
      split_ifs
      · simp
      · cases testOpArgMapping dctx candidate1 candidate2 k ds with
        | none => rfl
        | some p => simp only; split_ifs <;> simp
    | some fa2 =>
      simp only
      cases testArgMapping dctx candidate1 candidate2 k ds with
      | none => rfl
      | some p => simp only; split_ifs <;> simp

/-- The loop adds to the count of incomparable arguments whatever the count
is at its start. -/
theorem compareSpecificityForArgs_fold_count (dctx : DisambiguationContext)
    (candidate1 candidate2 : DisambiguationCandidate) (ks : List Nat)
    (ds : DisambiguationState) (c : Nat) :
    ks.foldlM (compareSpecificityForArgs.step dctx candidate1 candidate2) (ds, c) =
      (ks.foldlM (compareSpecificityForArgs.step dctx candidate1 candidate2) (ds, 0)).map
        (fun r => (r.1, c + r.2)) := by
  induction ks generalizing ds c with
  | nil => simp
  | cons k ks ih =>
    rw [List.foldlM_cons, List.foldlM_cons, compareSpecificityForArgs_step_count]
    cases hs : compareSpecificityForArgs.step dctx candidate1 candidate2 (ds, 0) k with
    | none => rfl
    | some r =>
      obtain ⟨d1, c1⟩ := r
      simp only [Option.map_some', Option.bind_eq_bind, Option.some_bind]
      rw [ih d1 (c + c1), ih d1 c1]
      cases ks.foldlM (compareSpecificityForArgs.step dctx candidate1 candidate2) (d1, 0) with
      | none => rfl
      | some r2 => simp [Nat.add_assoc]

/-- When the loop over `ks` returns, so does the loop over `ks` without the
indices of out-intent formals, with the same preferences and with as many
incomparable arguments fewer as indices were left out. -/
theorem compareSpecificityForArgs_fold_without_out (dctx : DisambiguationContext)
    (candidate1 candidate2 : DisambiguationCandidate) (ks : List Nat)
    (ds : DisambiguationState) (c : Nat) (r : DisambiguationState × Nat)
    (h : ks.foldlM (compareSpecificityForArgs.step dctx candidate1 candidate2) (ds, c) =
      some r) :
    ∃ m, (ks.filter (fun k => !hasOutFormal candidate1 candidate2 k)).foldlM
        (compareSpecificityForArgs.step dctx candidate1 candidate2) (ds, c) = some (r.1, m) ∧
      r.2 = m + (ks.filter (fun k => hasOutFormal candidate1 candidate2 k)).length := by
  induction ks generalizing ds c r with
  | nil =>
    simp only [List.foldlM_nil, Option.pure_def, Option.some.injEq] at h
    subst h
    exact ⟨c, rfl, rfl⟩
  | cons k ks ih =>
    rw [List.foldlM_cons] at h
    by_cases hout : hasOutFormal candidate1 candidate2 k = true
    · rcases compareSpecificityForArgs_step_out dctx candidate1 candidate2 (ds, c) k hout
        with hs | hs
      · rw [hs] at h
        simp only [Option.bind_eq_bind, Option.some_bind] at h
        rw [compareSpecificityForArgs_fold_count] at h
        cases h0 : ks.foldlM (compareSpecificityForArgs.step dctx candidate1 candidate2)
            (ds, 0) with
        | none => rw [h0] at h; exact Option.noConfusion h
        | some r0 =>
          rw [h0] at h
          simp only [Option.map_some', Option.some.injEq] at h
          have h1 : ks.foldlM (compareSpecificityForArgs.step dctx candidate1 candidate2)
              (ds, c) = some (r0.1, c + r0.2) := by
            rw [compareSpecificityForArgs_fold_count, h0]
            rfl
          obtain ⟨m, hm, hcount⟩ := ih ds c _ h1
          refine ⟨m, ?_, ?_⟩
          · simp only [List.filter_cons, hout, Bool.not_true, Bool.false_eq_true, if_false]
            rw [← h]
            exact hm
          · simp only [List.filter_cons, hout, if_true, List.length_cons]
            rw [← h]
            simp only at hcount ⊢
            omega
      · rw [hs] at h
        exact Option.noConfusion h
    · cases hs : compareSpecificityForArgs.step dctx candidate1 candidate2 (ds, c) k with
      | none => rw [hs] at h; exact Option.noConfusion h
      | some r1 =>
        rw [hs] at h
        simp only [Option.bind_eq_bind, Option.some_bind] at h
        obtain ⟨d1, c1⟩ := r1
        obtain ⟨m, hm, hcount⟩ := ih d1 c1 r h
        refine ⟨m, ?_, ?_⟩
        · simp only [List.filter_cons, hout, Bool.not_false, if_true]
          rw [List.foldlM_cons, hs]
          exact hm
        · simp only [List.filter_cons, hout, Bool.false_eq_true, if_false]
          exact hcount

/-- The verdict over a list of indices and the verdict with the out-intent
indices left out: the same, except that "equally specific" becomes
"incomparable" when an index was left out. -/
theorem compareSpecificityForArgs_over_without_out (dctx : DisambiguationContext)
    (candidate1 candidate2 : DisambiguationCandidate) (ks : List Nat) (v : Int)
    (h : compareSpecificityForArgs.over dctx candidate1 candidate2 ks = some v) :
    ∃ v1, compareSpecificityForArgs.over dctx candidate1 candidate2
        (ks.filter (fun k => !hasOutFormal candidate1 candidate2 k)) = some v1 ∧
      (v1 = v ∨ (v1 = 0 ∧ v = -1 ∧
        0 < (ks.filter (fun k => hasOutFormal candidate1 candidate2 k)).length)) := by
  unfold compareSpecificityForArgs.over at h ⊢
  cases hf : ks.foldlM (compareSpecificityForArgs.step dctx candidate1 candidate2)
      (({} : DisambiguationState), 0) with
  | none => rw [hf] at h; exact Option.noConfusion h
  | some r =>
    obtain ⟨m, hm, hcount⟩ := compareSpecificityForArgs_fold_without_out dctx candidate1
      candidate2 ks _ _ r hf
    rw [hf] at h
    rw [hm]
    obtain ⟨ds, n⟩ := r
    simp only at h hcount ⊢
    by_cases hp1 : (if ds.fn1NonParamArgsPreferred ≠ ds.fn2NonParamArgsPreferred then
          (ds.fn1NonParamArgsPreferred, ds.fn2NonParamArgsPreferred)
        else if ds.fn1ParamArgsPreferred ≠ ds.fn2ParamArgsPreferred then
          (ds.fn1ParamArgsPreferred, ds.fn2ParamArgsPreferred)
        else (false, false)).1 = true
    · rw [if_pos hp1] at h ⊢
      exact ⟨1, rfl, Or.inl (Option.some.inj h)⟩
    · rw [if_neg hp1] at h ⊢
      by_cases hp2 : (if ds.fn1NonParamArgsPreferred ≠ ds.fn2NonParamArgsPreferred then
            (ds.fn1NonParamArgsPreferred, ds.fn2NonParamArgsPreferred)
          else if ds.fn1ParamArgsPreferred ≠ ds.fn2ParamArgsPreferred then
            (ds.fn1ParamArgsPreferred, ds.fn2ParamArgsPreferred)
          else (false, false)).2 = true
      · rw [if_pos hp2] at h ⊢
        exact ⟨2, rfl, Or.inl (Option.some.inj h)⟩
      · rw [if_neg hp2] at h ⊢
        by_cases hflags : (ds.fn1NonParamArgsPreferred = true ∧
            ds.fn2NonParamArgsPreferred = true) ∨
            (ds.fn1ParamArgsPreferred = true ∧ ds.fn2ParamArgsPreferred = true)
        · rw [if_pos (Or.inr hflags)] at h ⊢
          exact ⟨-1, rfl, Or.inl (Option.some.inj h)⟩
        · by_cases hm0 : m > 0
          · rw [if_pos (Or.inl hm0)]
            rw [if_pos (Or.inl (by omega))] at h
            exact ⟨-1, rfl, Or.inl (Option.some.inj h)⟩
          · rw [if_neg (by rintro (h1 | h1); exact hm0 h1; exact hflags h1)]
            by_cases hn0 : n > 0
            · rw [if_pos (Or.inl hn0)] at h
              exact ⟨0, rfl, Or.inr ⟨rfl, (Option.some.inj h).symm, by omega⟩⟩
            · rw [if_neg (by rintro (h1 | h1); exact hn0 h1; exact hflags h1)] at h
              exact ⟨0, rfl, Or.inl (Option.some.inj h)⟩
/-! ### The argument filter under verdicts that follow a relation -/

theorem discardWorseArgs_innerLoop_follows (cmp : Nat → Nat → Option Int)
    (le : Nat → Nat → Bool) (n : Nat) (discarded : List Bool)
    (htrans : ∀ i j k, le i j = true → le j k = true → le i k = true)
    (hcmp : verdictsFollow cmp le n)
    (i : Nat) (hi : isActive n discarded i) (js : List Nat) (hjs : ∀ j ∈ js, j < n)
    (notBest : Nat → Bool)
    (hinv : ∀ k, notBest k = true → isActive n discarded k ∧ isDominated le n discarded k) :
    ∃ notBest1, discardWorseArgs.innerLoop cmp discarded i js notBest = some notBest1 ∧
      (∀ k, notBest1 k = true → isActive n discarded k ∧ isDominated le n discarded k) ∧
      (∀ k, notBest k = true → notBest1 k = true) ∧
      ((∀ k, isActive n discarded k → ¬ strictlyBelow le i k) →
        ∀ j ∈ js, isActive n discarded j → strictlyBelow le j i → notBest1 j = true) := by
  induction js generalizing notBest with
  | nil => exact ⟨notBest, rfl, hinv, fun _ h => h, fun _ j hj => by simp at hj⟩
  | cons j js ih =>
    have hjn : j < n := hjs j (List.mem_cons_self _ _)
    have hjs1 : ∀ j ∈ js, j < n := fun k hk => hjs k (List.mem_cons_of_mem _ hk)
    unfold discardWorseArgs.innerLoop
    by_cases hij : i = j
    · obtain ⟨nb1, h1, h2, h3, h4⟩ := ih hjs1 notBest hinv
      refine ⟨nb1, by simp only [hij, if_true] at h1 ⊢; exact h1, h2, h3, ?_⟩
      intro hmax k hk hka hlt
      rcases List.mem_cons.mp hk with rfl | hk
      · rw [← hij] at hlt
        exact absurd (hlt.1.symm.trans hlt.2) (by simp)
      · exact h4 hmax k hk hka hlt
    · by_cases hdj : discarded.getD j false = true
      · obtain ⟨nb1, h1, h2, h3, h4⟩ := ih hjs1 notBest hinv
        refine ⟨nb1, by simp only [hij, if_false, hdj, if_true]; exact h1, h2, h3, ?_⟩
        intro hmax k hk hka hlt
        rcases List.mem_cons.mp hk with rfl | hk
        · exact absurd hka.2 (by rw [hdj]; simp)
        · exact h4 hmax k hk hka hlt
      · have hja : isActive n discarded j := ⟨hjn, by simpa using hdj⟩
        obtain ⟨v, hv, hone, htwo, hzero⟩ := hcmp i j hi.1 hjn hij
        simp only [hij, if_false, hdj, hv]
        by_cases hv1 : v = 1
        · have hlt : strictlyBelow le j i := hone.mp hv1
          have hinv1 : ∀ k, Function.update notBest j true k = true →
              isActive n discarded k ∧ isDominated le n discarded k := by
            intro k hk
            by_cases hkj : k = j
            · subst hkj
              exact ⟨hja, i, hi, hlt⟩
            · rw [Function.update_noteq hkj] at hk
              exact hinv k hk
          obtain ⟨nb1, h1, h2, h3, h4⟩ := ih hjs1 _ hinv1
          refine ⟨nb1, by simp only [hv1, if_true]; exact h1, h2, ?_, ?_⟩
          · intro k hk
            apply h3
            by_cases hkj : k = j
            · subst hkj; simp
            · rw [Function.update_noteq hkj]; exact hk
          · intro hmax k hk hka hltk
            rcases List.mem_cons.mp hk with rfl | hk
            · exact h3 _ (by simp)
            · exact h4 hmax k hk hka hltk
        · by_cases hv2 : v = 2
          · have hlt : strictlyBelow le i j := htwo.mp hv2
            refine ⟨Function.update notBest i true, by simp [hv2], ?_, ?_, ?_⟩
            · intro k hk
              by_cases hki : k = i
              · subst hki
                exact ⟨hi, j, hja, hlt⟩
              · rw [Function.update_noteq hki] at hk
                exact hinv k hk
            · intro k hk
              by_cases hki : k = i
              · subst hki; simp
              · rw [Function.update_noteq hki]; exact hk
            · intro hmax
              exact absurd hlt (hmax j hja)
          · by_cases hv0 : v = 0 ∧ notBest j = true
            · obtain ⟨hjact, m, hm, hjm⟩ := hinv j hv0.2
              have heq := hzero hv0.1
              have hlt : strictlyBelow le i m :=
                strictlyBelow_trans_equiv le htrans i j m heq.1 hjm
              refine ⟨Function.update notBest i true, by simp [hv0], ?_, ?_, ?_⟩
              · intro k hk
                by_cases hki : k = i
                · subst hki
                  exact ⟨hi, m, hm, hlt⟩
                · rw [Function.update_noteq hki] at hk
                  exact hinv k hk
              · intro k hk
                by_cases hki : k = i
                · subst hki; simp
                · rw [Function.update_noteq hki]; exact hk
              · intro hmax
                exact absurd hlt (hmax m hm)
            · obtain ⟨nb1, h1, h2, h3, h4⟩ := ih hjs1 notBest hinv
              refine ⟨nb1, by simp only [hv1, hv2, hv0, if_false]; exact h1, h2, h3, ?_⟩
              intro hmax k hk hka hltk
              rcases List.mem_cons.mp hk with hkj | hk
              · rw [hkj] at hltk
                exact absurd (hone.mpr hltk) hv1
              · exact h4 hmax k hk hka hltk

theorem discardWorseArgs_outerLoop_follows (cmp : Nat → Nat → Option Int)
    (le : Nat → Nat → Bool) (n : Nat) (discarded : List Bool)
    (htrans : ∀ i j k, le i j = true → le j k = true → le i k = true)
    (hcmp : verdictsFollow cmp le n)
    (is : List Nat) (his : ∀ i ∈ is, i < n) (notBest : Nat → Bool)
    (hinv : ∀ k, notBest k = true → isActive n discarded k ∧ isDominated le n discarded k) :
    ∃ notBest1, discardWorseArgs.outerLoop cmp discarded n is notBest = some notBest1 ∧
      (∀ k, notBest1 k = true → isActive n discarded k ∧ isDominated le n discarded k) ∧
      (∀ k, notBest k = true → notBest1 k = true) ∧
      (∀ i ∈ is, isActive n discarded i →
        (∀ k, isActive n discarded k → ¬ strictlyBelow le i k) →
        ∀ j, isActive n discarded j → strictlyBelow le j i → notBest1 j = true) := by
  induction is generalizing notBest with
  | nil => exact ⟨notBest, rfl, hinv, fun _ h => h, fun _ hi => by simp at hi⟩
  | cons i is ih =>
    have hin : i < n := his i (List.mem_cons_self _ _)
    have his1 : ∀ k ∈ is, k < n := fun k hk => his k (List.mem_cons_of_mem _ hk)
    unfold discardWorseArgs.outerLoop
    by_cases hdi : discarded.getD i false = true
    · obtain ⟨nb1, h1, h2, h3, h4⟩ := ih his1 notBest hinv
      refine ⟨nb1, by simp only [hdi, if_true]; exact h1, h2, h3, ?_⟩
      intro i' hi' hact hmax j hj hlt
      rcases List.mem_cons.mp hi' with rfl | hi'
      · exact absurd hact.2 (by rw [hdi]; simp)
      · exact h4 i' hi' hact hmax j hj hlt
    · have hia : isActive n discarded i := ⟨hin, by simpa using hdi⟩
      by_cases hnb : notBest i = true
      · obtain ⟨nb1, h1, h2, h3, h4⟩ := ih his1 notBest hinv
        refine ⟨nb1, by simp only [hdi, hnb, if_true, if_false]; exact h1, h2, h3, ?_⟩
        intro i' hi' hact hmax j hj hlt
        rcases List.mem_cons.mp hi' with rfl | hi'
        · obtain ⟨_, m, hm, hlt'⟩ := hinv _ hnb
          exact absurd hlt' (hmax m hm)
        · exact h4 i' hi' hact hmax j hj hlt
      · obtain ⟨nb0, g1, g2, g3, g4⟩ := discardWorseArgs_innerLoop_follows cmp le n discarded
          htrans hcmp i hia (List.range n) (fun j hj => List.mem_range.mp hj) notBest hinv
        obtain ⟨nb1, h1, h2, h3, h4⟩ := ih his1 nb0 g2
        refine ⟨nb1, by simp only [hdi, hnb, if_false, g1]; exact h1, h2,
          fun k hk => h3 k (g3 k hk), ?_⟩
        intro i' hi' hact hmax j hj hlt
        rcases List.mem_cons.mp hi' with rfl | hi'
        · exact h3 j (g4 hmax j (List.mem_range.mpr hj.1) hj hlt)
        · exact h4 i' hi' hact hmax j hj hlt


theorem list_bool_eq_of_getD {l1 l2 : List Bool} (hlen : l1.length = l2.length)
    (h : ∀ i, l1.getD i false = l2.getD i false) : l1 = l2 := by
  apply List.ext_getElem hlen
  intro i h1 h2
  have := h i
  rw [List.getD_eq_getElem _ _ h1, List.getD_eq_getElem _ _ h2] at this
  exact this

/-- Under verdicts that follow a transitive relation, the body of
`discardWorseArgs` returns the mask in which the candidates discarded before
and the strictly dominated ones are discarded. -/
theorem discardWorseArgsWith_follows (cmp : Nat → Nat → Option Int) (le : Nat → Nat → Bool)
    (n : Nat) (discarded : List Bool) (hlen : discarded.length = n)
    (htrans : ∀ i j k, le i j = true → le j k = true → le i k = true)
    (hcmp : verdictsFollow cmp le n) :
    ∃ out, discardWorseArgsWith cmp n discarded = some out ∧
      out.length = discarded.length ∧
      ∀ i, out.getD i false = true ↔
        (discarded.getD i false = true ∨
          (isActive n discarded i ∧ isDominated le n discarded i)) := by
  unfold discardWorseArgsWith
  obtain ⟨nb, h1, h2, _, h4⟩ := discardWorseArgs_outerLoop_follows cmp le n discarded htrans
    hcmp (List.range n) (fun i hi => List.mem_range.mp hi) (fun _ => false)
    (fun k hk => by simp at hk)
  refine ⟨_, by rw [h1], (discardWorseArgs_mark_getD nb discarded 0 0).1, ?_⟩
  intro i
  rw [(discardWorseArgs_mark_getD nb discarded 0 i).2, Nat.zero_add]
  by_cases hlt : i < discarded.length
  · rw [if_pos hlt, Bool.or_eq_true]
    constructor
    · rintro (hnb | hd)
      · exact Or.inr (h2 i hnb)
      · exact Or.inl hd
    · rintro (hd | ⟨hact, j, hj, hltj⟩)
      · exact Or.inr hd
      · left
        obtain ⟨m, hm, hjm, hmax⟩ := exists_maximal_above le n discarded htrans j hj
        have hlt2 : strictlyBelow le i m := by
          rcases hjm with rfl | hjm
          · exact hltj
          · exact strictlyBelow_trans le htrans i j m hltj hjm
        exact h4 m (List.mem_range.mpr hm.1) hm hmax i hact hlt2
  · rw [if_neg hlt, List.getD_eq_default _ _ (by omega)]
    constructor
    · intro h
      exact Bool.noConfusion h
    · rintro (hd | ⟨hact, _⟩)
      · exact hd
      · exact absurd hact.1 (by omega)

/-- Two comparisons whose verdicts follow one transitive relation make the
body of `discardWorseArgs` return the same mask. -/
theorem discardWorseArgsWith_same_mask (cmp1 cmp2 : Nat → Nat → Option Int)
    (le : Nat → Nat → Bool) (n : Nat) (discarded : List Bool) (hlen : discarded.length = n)
    (htrans : ∀ i j k, le i j = true → le j k = true → le i k = true)
    (h1 : verdictsFollow cmp1 le n) (h2 : verdictsFollow cmp2 le n) :
    discardWorseArgsWith cmp1 n discarded = discardWorseArgsWith cmp2 n discarded ∧
    (discardWorseArgsWith cmp1 n discarded).isSome = true := by
  obtain ⟨out1, e1, l1, g1⟩ := discardWorseArgsWith_follows cmp1 le n discarded hlen htrans h1
  obtain ⟨out2, e2, l2, g2⟩ := discardWorseArgsWith_follows cmp2 le n discarded hlen htrans h2
  rw [e1, e2]
  refine ⟨?_, rfl⟩
  congr 1
  exact list_bool_eq_of_getD (l1.trans l2.symm)
    (fun i => Bool.eq_iff_iff.mpr ((g1 i).trans (g2 i).symm))

open Sample in
/-- C32 (amended): Out-intent formals and the argument filter.  Whenever
`compareSpecificity` (i, j, forGenericInit overload) returns a verdict, the
verdict computed with every actual index at which either formal has out
intent left out of the loop exists and is the same, except that "equally
specific" (0) without those indices is "incomparable" (-1) with them: which
of the two candidates is preferred (1 or 2) does not depend on them.  The
candidates that `discardWorseArgs` discards do not depend on them either when
the comparisons return and the verdicts without those indices are those of a
transitive relation on the candidates.  For the call `h(A)` with the
overloads `h(out x: [1..3] int)` and `h(x: int)` the verdict is -1 with the
out-intent index and 0 without (the verdict of the relation in which the two
are equivalent), and the mask is the same. -/
theorem out_formals_leave_preference_unchanged :
    (∀ (dctx : DisambiguationContext) (candidate1 candidate2 : DisambiguationCandidate)
        (i j : Nat) (forGenericInit : Bool) (v : Int),
      compareSpecificityForArgs dctx candidate1 candidate2 i j forGenericInit = some v →
      ∃ v1, compareSpecificityForArgs.withoutOut dctx candidate1 candidate2 forGenericInit =
          some v1 ∧
        (v1 = v ∨ (v1 = 0 ∧ v = -1 ∧
          ∃ k ∈ compareSpecificityForArgs.indices dctx forGenericInit,
            hasOutFormal candidate1 candidate2 k = true))) ∧
    (∀ (dctx : DisambiguationContext) (candidates : CandidatesVec) (discarded : List Bool)
        (le : Nat → Nat → Bool),
      discarded.length = candidates.length →
      (∀ i j k, le i j = true → le j k = true → le i k = true) →
      (∀ i j, i < candidates.length → j < candidates.length → i ≠ j →
        discardWorseArgs.cmpWithoutOut dctx candidates i j = some (preorderVerdict le i j)) →
      (∀ i j, i < candidates.length → j < candidates.length → i ≠ j →
        (discardWorseArgs.cmp dctx candidates i j).isSome = true) →
      discardWorseArgs dctx candidates discarded =
        discardWorseArgsWith (discardWorseArgs.cmpWithoutOut dctx candidates)
          candidates.length discarded ∧
      (discardWorseArgs dctx candidates discarded).isSome = true) ∧
    (hasOutFormal candOutArray candPromotedInt 0 = true ∧
      compareSpecificityForArgs promotionDctx candOutArray candPromotedInt 0 1 false =
        some (-1) ∧
      compareSpecificityForArgs.withoutOut promotionDctx candOutArray candPromotedInt false =
        some 0 ∧
      discardWorseArgs promotionDctx [candOutArray, candPromotedInt] [false, false] =
        some [false, false] ∧
      discardWorseArgsWith
          (discardWorseArgs.cmpWithoutOut promotionDctx [candOutArray, candPromotedInt]) 2
          [false, false] = some [false, false] ∧
      discardWorseArgs.cmpWithoutOut promotionDctx [candOutArray, candPromotedInt] 0 1 =
        some (preorderVerdict (fun _ _ => true) 0 1) ∧
      discardWorseArgs.cmpWithoutOut promotionDctx [candOutArray, candPromotedInt] 1 0 =
        some (preorderVerdict (fun _ _ => true) 1 0)) := by
  refine ⟨?_, ?_, ⟨by decide, by decide, by decide, by decide, by decide, by decide,
    by decide⟩⟩
  · intro dctx candidate1 candidate2 i j forGenericInit v h
    rw [compareSpecificityForArgs_eq_over] at h
    obtain ⟨v1, hv1, hrel⟩ := compareSpecificityForArgs_over_without_out dctx candidate1
      candidate2 _ v h
    refine ⟨v1, hv1, ?_⟩
    rcases hrel with h | ⟨h1, h2, h3⟩
    · exact Or.inl h
    · refine Or.inr ⟨h1, h2, ?_⟩
      obtain ⟨k, hk⟩ := List.exists_mem_of_length_pos h3
      exact ⟨k, (List.mem_filter.mp hk).1, (List.mem_filter.mp hk).2⟩
  · intro dctx candidates discarded le hlen htrans hwithout hreturns
    rw [discardWorseArgs_eq_with]
    have hfollow2 : verdictsFollow (discardWorseArgs.cmpWithoutOut dctx candidates) le
        candidates.length := by
      intro i j hi hj hij
      exact ⟨_, hwithout i j hi hj hij, preorderVerdict_eq_one le i j,
        preorderVerdict_eq_two le i j, (preorderVerdict_eq_zero le i j).mp⟩
    have hfollow1 : verdictsFollow (discardWorseArgs.cmp dctx candidates) le
        candidates.length := by
      intro i j hi hj hij
      have hw := hwithout i j hi hj hij
      have hr := hreturns i j hi hj hij
      unfold discardWorseArgs.cmp at hr ⊢
      unfold discardWorseArgs.cmpWithoutOut at hw
      simp only [List.getElem?_eq_getElem hi, List.getElem?_eq_getElem hj] at hr hw ⊢
      obtain ⟨v, hv⟩ := Option.isSome_iff_exists.mp hr
      rw [compareSpecificityForArgs_eq_over] at hv
      obtain ⟨v1, hv1, hrel⟩ := compareSpecificityForArgs_over_without_out dctx _ _ _ v hv
      unfold compareSpecificityForArgs.withoutOut at hw
      rw [hv1] at hw
      have hv1eq : v1 = preorderVerdict le i j := Option.some.inj hw
      rw [compareSpecificityForArgs_eq_over]
      refine ⟨v, hv, ?_, ?_, ?_⟩
      · rw [← preorderVerdict_eq_one le i j, ← hv1eq]
        rcases hrel with h | ⟨h1, h2, _⟩
        · rw [h]
        · rw [h1, h2]; simp
      · rw [← preorderVerdict_eq_two le i j, ← hv1eq]
        rcases hrel with h | ⟨h1, h2, _⟩
        · rw [h]
        · rw [h1, h2]; simp
      · intro hv0
        rw [← preorderVerdict_eq_zero le i j, ← hv1eq]
        rcases hrel with h | ⟨h1, h2, _⟩
        · rw [h]; exact hv0
        · exact h1
    exact discardWorseArgsWith_same_mask _ _ le candidates.length discarded hlen htrans
      hfollow1 hfollow2

open Sample in
/-- C32 (counterexample): the call `h(A)` with the overloads
`h(out x: [1..3] int)` and `h(x: int)`.  The only actual index has a formal
with out intent; left out of the loop, the two candidates are equally
specific (verdict 0); `compareSpecificity` returns -1, incomparable, in
either order of the candidates. -/
theorem out_formal_turns_equal_into_incomparable :
    callH.numActuals = 1 ∧
    hasOutFormal candOutArray candPromotedInt 0 = true ∧
    compareSpecificityForArgs.withoutOut promotionDctx candOutArray candPromotedInt false =
      some 0 ∧
    compareSpecificityForArgs promotionDctx candOutArray candPromotedInt 0 1 false =
      some (-1) ∧
    compareSpecificityForArgs.withoutOut promotionDctx candPromotedInt candOutArray false =
      some 0 ∧
    compareSpecificityForArgs promotionDctx candPromotedInt candOutArray 1 0 false =
      some (-1) := by
  refine ⟨by decide, by decide, by decide, by decide, by decide, by decide⟩

namespace Inference

open ReturnTypeInferrer

/-! ### Return reachability: the discipline of the stack of frames -/

theorem subFramesGrow_refl (a : List (ReturnInferenceSubFrame ReturnInferenceFrame)) :
    subFramesGrow a a := by
  unfold subFramesGrow
  induction a with
  | nil => exact List.Forall₂.nil
  | cons x a ih => exact List.Forall₂.cons ⟨rfl, rfl, fun _ => rfl⟩ ih

theorem subFramesGrow_trans {a b c : List (ReturnInferenceSubFrame ReturnInferenceFrame)}
    (hab : subFramesGrow a b) (hbc : subFramesGrow b c) : subFramesGrow a c := by
  unfold subFramesGrow at *
  induction hab generalizing c with
  | nil => cases hbc; exact List.Forall₂.nil
  | cons h _ ih =>
    cases hbc with
    | cons h2 t2 =>
      refine List.Forall₂.cons ⟨h2.1.trans h.1, h2.2.1.trans h.2.1, fun hx => ?_⟩ (ih t2)
      rw [h2.2.2 (h.1.trans hx), h.2.2 hx]

theorem frameGrows_refl (t : ReturnInferenceFrame) : frameGrows t t :=
  ⟨rfl, fun h => h, subFramesGrow_refl _⟩

theorem frameGrows_trans {a b c : ReturnInferenceFrame} (hab : frameGrows a b)
    (hbc : frameGrows b c) : frameGrows a c :=
  ⟨hbc.1.trans hab.1, fun h => hbc.2.1 (hab.2.1 h), subFramesGrow_trans hab.2.2 hbc.2.2⟩

theorem stackGrows_refl (fs : List ReturnInferenceFrame) : stackGrows fs fs := by
  cases fs with
  | nil => exact True.intro
  | cons t rest => exact ⟨frameGrows_refl t, rfl⟩

theorem stackGrows_trans {a b c : List ReturnInferenceFrame} (hab : stackGrows a b)
    (hbc : stackGrows b c) : stackGrows a c := by
  cases a with
  | nil =>
    cases b with
    | nil => exact hbc
    | cons _ _ => exact False.elim hab
  | cons t rest =>
    cases b with
    | nil => exact False.elim hab
    | cons t1 rest1 =>
      cases c with
      | nil => exact False.elim hbc
      | cons t2 rest2 =>
        exact ⟨frameGrows_trans hab.1 hbc.1, hbc.2.trans hab.2⟩

/-- A stack that has grown from a stack with a top frame has a top frame that
has grown from it, over the same frames. -/
theorem stackGrows_cons {t : ReturnInferenceFrame} {rest fs1 : List ReturnInferenceFrame}
    (h : stackGrows (t :: rest) fs1) : ∃ t1, fs1 = t1 :: rest ∧ frameGrows t t1 := by
  cases fs1 with
  | nil => exact False.elim h
  | cons t1 rest1 =>
    obtain ⟨hg, hr⟩ := h
    exact ⟨t1, by rw [hr], hg⟩

/-- The loop that saves the popped frame keeps the nodes and the skip marks
of the sub-frames, and the frame of a sub-frame without a node. -/
theorem exitScope_store_grows (node : AstNode)
    (subFrames : List (ReturnInferenceSubFrame ReturnInferenceFrame))
    (poppingFrame : Option ReturnInferenceFrame) (stored : Bool) :
    subFramesGrow subFrames (exitScope.store node subFrames poppingFrame stored).1 := by
  unfold subFramesGrow
  induction subFrames generalizing poppingFrame stored with
  | nil => exact List.Forall₂.nil
  | cons x rest ih =>
    unfold exitScope.store
    split_ifs with hm
    · refine List.Forall₂.cons ⟨rfl, rfl, fun hx => ?_⟩ (ih none true)
      rw [hx] at hm
      exact absurd hm (by simp)
    · exact List.Forall₂.cons ⟨rfl, rfl, fun _ => rfl⟩ (ih poppingFrame stored)

/-- Without a sub-frame for `node` the loop changes nothing. -/
theorem exitScope_store_of_not_has (node : AstNode)
    (subFrames : List (ReturnInferenceSubFrame ReturnInferenceFrame))
    (poppingFrame : Option ReturnInferenceFrame) (stored : Bool)
    (h : ¬ hasSubFrameFor node subFrames) :
    exitScope.store node subFrames poppingFrame stored = (subFrames, poppingFrame, stored) := by
  induction subFrames with
  | nil => rfl
  | cons x rest ih =>
    unfold exitScope.store
    have hx : ¬ (match x.astNode with
        | some astNode => astNode.samePointer node
        | none => false) = true := by
      intro hm
      apply h
      cases hn : x.astNode with
      | none => rw [hn] at hm; exact absurd hm (by simp)
      | some a =>
        rw [hn] at hm
        exact ⟨x, List.mem_cons_self _ _, a, hn, hm⟩
    rw [if_neg hx]
    rw [ih (fun ⟨sf, hsf, a, ha, hp⟩ => h ⟨sf, List.mem_cons_of_mem _ hsf, a, ha, hp⟩)]

/-- What `exitScope` does to a stack with a frame for `node` on top: the
frame is popped and the stack below has grown. -/
theorem exitScope_pop (rv : RV) (node : AstNode) (s s1 : ReturnTypeInferrer)
    (hcs : rv.createsScope node.tag = true) (f : ReturnInferenceFrame)
    (fs : List ReturnInferenceFrame) (hs : s.returnFrames = f :: fs)
    (h : exitScope rv node s = some s1) : stackGrows fs s1.returnFrames := by
  unfold exitScope at h
  rw [hcs, hs] at h
  simp only [Bool.not_true, Bool.false_eq_true, if_false] at h
  split_ifs at h with hp
  cases fs with
  | nil =>
    simp only [Option.some.injEq] at h
    rw [← h]
    exact True.intro
  | cons p rest =>
    simp only [Option.some.injEq] at h
    rw [← h]
    refine ⟨⟨?_, ?_, ?_⟩, rfl⟩
    · split_ifs <;> rfl
    · intro hflag
      split_ifs
      · simp only [hflag, Bool.true_or]
      · exact hflag
    · split_ifs <;> exact exitScope_store_grows node p.subFrames _ _

theorem enterScope_frames (rv : RV) (node : AstNode) (s : ReturnTypeInferrer)
    (hcs : rv.createsScope node.tag = true) :
    (enterScope rv node s).returnFrames = enterScope.newFrame node :: s.returnFrames := by
  unfold enterScope
  rw [hcs]
  rfl

theorem enterScope_of_not (rv : RV) (node : AstNode) (s : ReturnTypeInferrer)
    (hcs : rv.createsScope node.tag = false) : enterScope rv node s = s := by
  unfold enterScope
  rw [hcs]
  rfl

theorem exitScope_of_not (rv : RV) (node : AstNode) (s : ReturnTypeInferrer)
    (hcs : rv.createsScope node.tag = false) : exitScope rv node s = some s := by
  unfold exitScope
  rw [hcs]
  rfl

theorem markReturnOrThrow_grows (s : ReturnTypeInferrer) :
    stackGrows s.returnFrames (markReturnOrThrow s).2.returnFrames := by
  unfold markReturnOrThrow
  cases hs : s.returnFrames with
  | nil => simp only; rw [hs]; exact True.intro
  | cons t rest =>
    exact ⟨⟨rfl, fun _ => rfl, subFramesGrow_refl _⟩, rfl⟩

end Inference
namespace Inference

open ReturnTypeInferrer

/-- The assignment of a skip mark changes the top frame only. -/
theorem setSkip_frames (idx : Nat) (s s1 : ReturnTypeInferrer) (h : setSkip idx s = some s1) :
    ∃ top rest subFrame, s.returnFrames = top :: rest ∧ top.subFrames[idx]? = some subFrame ∧
      s1.returnFrames =
        { top with subFrames := top.subFrames.set idx { subFrame with skip := true } } :: rest ∧
      s1.returnedTypes = s.returnedTypes := by
  unfold setSkip at h
  cases hs : s.returnFrames with
  | nil => rw [hs] at h; exact Option.noConfusion h
  | cons top rest =>
    rw [hs] at h
    simp only at h
    split_ifs at h
    cases hsub : top.subFrames[idx]? with
    | none => rw [hsub] at h; exact Option.noConfusion h
    | some subFrame =>
      rw [hsub] at h
      simp only [Option.some.injEq] at h
      exact ⟨top, rest, subFrame, rfl, hsub, by rw [← h], by rw [← h]⟩

/-- A traversal between `enterScope` and `exitScope` of a node, which lets
the stack grow, lets the stack grow. -/
theorem scope_bracket_grows (rv : RV) (node : AstNode) (s s2 s3 : ReturnTypeInferrer)
    (hbody : stackGrows (enterScope rv node s).returnFrames s2.returnFrames)
    (hexit : exitScope rv node s2 = some s3) :
    stackGrows s.returnFrames s3.returnFrames := by
  cases hcs : rv.createsScope node.tag with
  | true =>
    rw [enterScope_frames rv node s hcs] at hbody
    obtain ⟨t1, ht1, _⟩ := stackGrows_cons hbody
    exact exitScope_pop rv node s2 s3 hcs t1 _ ht1 hexit
  | false =>
    rw [enterScope_of_not rv node s hcs] at hbody
    rw [exitScope_of_not rv node s2 hcs] at hexit
    cases hexit
    exact hbody

/-- The traversal of a conditional whose condition is the param `true`: the
then block is traversed from inside `enter`, the else sub-frame is marked as
skipped, and the children are not visited. -/
theorem traverse_conditional_paramTrue (rv : RV) (id : ID) (condition thenBlock : AstNode)
    (elseBlock : Option AstNode) (s : ReturnTypeInferrer)
    (hpt : rv.isParamTrue condition.id = true) :
    ReturnTypeInferrer.traverse rv (AstNode.Conditional id condition thenBlock elseBlock) s =
      ((ReturnTypeInferrer.traverse rv thenBlock
          (enterScope rv (AstNode.Conditional id condition thenBlock elseBlock) s)).bind
        (setSkip 1)).bind
        (exitScope rv (AstNode.Conditional id condition thenBlock elseBlock)) := by
  conv_lhs => rw [ReturnTypeInferrer.traverse]
  unfold enterConditional exitConditional
  simp only [hpt, if_true]
  cases ReturnTypeInferrer.traverse rv thenBlock
      (enterScope rv (AstNode.Conditional id condition thenBlock elseBlock) s) with
  | none => rfl
  | some s2 =>
    simp only [Option.some_bind]
    cases setSkip 1 s2 with
    | none => rfl
    | some s3 => simp

/-- The traversal of a conditional whose condition is the param `false`: the
else block, if there is one, is traversed from inside `enter`, and the then
sub-frame is marked as skipped. -/
theorem traverse_conditional_paramFalse (rv : RV) (id : ID) (condition thenBlock : AstNode)
    (elseBlock : Option AstNode) (s : ReturnTypeInferrer)
    (hpt : rv.isParamTrue condition.id = false) (hpf : rv.isParamFalse condition.id = true) :
    ReturnTypeInferrer.traverse rv (AstNode.Conditional id condition thenBlock elseBlock) s =
      ((traverseOption rv elseBlock
          (enterScope rv (AstNode.Conditional id condition thenBlock elseBlock) s)).bind
        (setSkip 0)).bind
        (exitScope rv (AstNode.Conditional id condition thenBlock elseBlock)) := by
  conv_lhs => rw [ReturnTypeInferrer.traverse]
  unfold enterConditional exitConditional
  simp only [hpt, hpf, if_true, Bool.false_eq_true, if_false]
  have helse : (if elseBlock.isSome = true then
      traverseOption rv elseBlock
        (enterScope rv (AstNode.Conditional id condition thenBlock elseBlock) s)
      else some (enterScope rv (AstNode.Conditional id condition thenBlock elseBlock) s)) =
      traverseOption rv elseBlock
        (enterScope rv (AstNode.Conditional id condition thenBlock elseBlock) s) := by
    cases elseBlock with
    | none => simp [traverseOption]
    | some e => simp
  rw [helse]
  cases traverseOption rv elseBlock
      (enterScope rv (AstNode.Conditional id condition thenBlock elseBlock) s) with
  | none => rfl
  | some s2 =>
    simp only [Option.some_bind]
    cases setSkip 0 s2 with
    | none => rfl
    | some s3 => simp

/-- The traversal of a conditional whose condition is not a param: the
condition, the then block and the else block are visited as children. -/
theorem traverse_conditional_unknown (rv : RV) (id : ID) (condition thenBlock : AstNode)
    (elseBlock : Option AstNode) (s : ReturnTypeInferrer)
    (hpt : rv.isParamTrue condition.id = false) (hpf : rv.isParamFalse condition.id = false) :
    ReturnTypeInferrer.traverse rv (AstNode.Conditional id condition thenBlock elseBlock) s =
      ((((ReturnTypeInferrer.traverse rv condition
          (enterScope rv (AstNode.Conditional id condition thenBlock elseBlock) s)).bind
        (ReturnTypeInferrer.traverse rv thenBlock)).bind
        (traverseOption rv elseBlock))).bind
        (exitScope rv (AstNode.Conditional id condition thenBlock elseBlock)) := by
  conv_lhs => rw [ReturnTypeInferrer.traverse]
  unfold enterConditional exitConditional
  simp only [hpt, hpf, if_true, Bool.false_eq_true, if_false]
  cases ReturnTypeInferrer.traverse rv condition
      (enterScope rv (AstNode.Conditional id condition thenBlock elseBlock) s) with
  | none => rfl
  | some s2 =>
    simp only [Option.some_bind]
    cases ReturnTypeInferrer.traverse rv thenBlock s2 with
    | none => rfl
    | some s3 =>
      simp only [Option.some_bind]
      cases traverseOption rv elseBlock s3 with
      | none => rfl
      | some s4 => rfl

/-- The traversal of a node without an overload of its own. -/
theorem traverse_plain (rv : RV) (id : ID) (tag : PlainTag) (children : List AstNode)
    (s : ReturnTypeInferrer) :
    ReturnTypeInferrer.traverse rv (AstNode.plain id tag children) s =
      (traverseList rv children (enterScope rv (AstNode.plain id tag children) s)).bind
        (exitScope rv (AstNode.plain id tag children)) := by
  conv_lhs => rw [ReturnTypeInferrer.traverse]
  unfold enterAstNode exitAstNode
  simp only
  cases traverseList rv children (enterScope rv (AstNode.plain id tag children) s) <;> rfl

/-- The traversal of a try. -/
theorem traverse_try (rv : RV) (id : ID) (stmts handlers : List AstNode)
    (s : ReturnTypeInferrer) :
    ReturnTypeInferrer.traverse rv (AstNode.Try id stmts handlers) s =
      ((traverseList rv stmts (enterScope rv (AstNode.Try id stmts handlers) s)).bind
        (traverseList rv handlers)).bind
        (exitScope rv (AstNode.Try id stmts handlers)) := by
  conv_lhs => rw [ReturnTypeInferrer.traverse]
  unfold enterAstNode exitAstNode
  simp only
  cases traverseList rv stmts (enterScope rv (AstNode.Try id stmts handlers) s) with
  | none => rfl
  | some s2 =>
    simp only [Option.some_bind]
    cases traverseList rv handlers s2 <;> rfl

theorem traverseList_cons (rv : RV) (child : AstNode) (rest : List AstNode)
    (s : ReturnTypeInferrer) :
    traverseList rv (child :: rest) s =
      (ReturnTypeInferrer.traverse rv child s).bind (traverseList rv rest) := by
  rw [traverseList]
  cases ReturnTypeInferrer.traverse rv child s <;> rfl

mutual

/-- The traversal of a node lets the stack of frames grow: the frames below
the top one are left as they are, and the top frame keeps its node, its mark
and the nodes and skip marks of its sub-frames. -/
theorem traverse_stack_grows (rv : RV) (hcond : rv.createsScope AstTag.Conditional = true) :
    ∀ (n : AstNode) (s s1 : ReturnTypeInferrer),
      ReturnTypeInferrer.traverse rv n s = some s1 →
      stackGrows s.returnFrames s1.returnFrames
  | AstNode.Conditional id condition thenBlock elseBlock, s, s1, h => by
    have hpush : (enterScope rv (AstNode.Conditional id condition thenBlock elseBlock)
        s).returnFrames =
        enterScope.newFrame (AstNode.Conditional id condition thenBlock elseBlock) ::
          s.returnFrames :=
      enterScope_frames rv _ s hcond
    cases hpt : rv.isParamTrue condition.id with
    | true =>
      rw [traverse_conditional_paramTrue rv id condition thenBlock elseBlock s hpt] at h
      obtain ⟨s3, h23, hexit⟩ := Option.bind_eq_some.mp h
      obtain ⟨s2, hthen, hskip⟩ := Option.bind_eq_some.mp h23
      have g2 := traverse_stack_grows rv hcond thenBlock _ s2 hthen
      rw [hpush] at g2
      obtain ⟨t2, ht2, _⟩ := stackGrows_cons g2
      obtain ⟨top, rest, sf, hs2, _, hs3, _⟩ := setSkip_frames 1 s2 s3 hskip
      rw [ht2] at hs2
      cases hs2
      exact exitScope_pop rv (AstNode.Conditional id condition thenBlock elseBlock) s3 s1
              hcond _ _ hs3 hexit
    | false =>
      cases hpf : rv.isParamFalse condition.id with
      | true =>
        rw [traverse_conditional_paramFalse rv id condition thenBlock elseBlock s hpt hpf] at h
        obtain ⟨s3, h23, hexit⟩ := Option.bind_eq_some.mp h
        obtain ⟨s2, helse, hskip⟩ := Option.bind_eq_some.mp h23
        have g2 := traverseOption_stack_grows rv hcond elseBlock _ s2 helse
        rw [hpush] at g2
        obtain ⟨t2, ht2, _⟩ := stackGrows_cons g2
        obtain ⟨top, rest, sf, hs2, _, hs3, _⟩ := setSkip_frames 0 s2 s3 hskip
        rw [ht2] at hs2
        cases hs2
        exact exitScope_pop rv (AstNode.Conditional id condition thenBlock elseBlock) s3 s1
              hcond _ _ hs3 hexit
      | false =>
        rw [traverse_conditional_unknown rv id condition thenBlock elseBlock s hpt hpf] at h
        obtain ⟨s4, h34, hexit⟩ := Option.bind_eq_some.mp h
        obtain ⟨s3, h23, he⟩ := Option.bind_eq_some.mp h34
        obtain ⟨s2, hc, ht⟩ := Option.bind_eq_some.mp h23
        have g := stackGrows_trans
          (stackGrows_trans (traverse_stack_grows rv hcond condition _ s2 hc)
            (traverse_stack_grows rv hcond thenBlock s2 s3 ht))
          (traverseOption_stack_grows rv hcond elseBlock s3 s4 he)
        exact scope_bracket_grows rv _ s s4 s1 g hexit
  | AstNode.Try id stmts handlers, s, s1, h => by
    rw [traverse_try] at h
    obtain ⟨s3, h23, hexit⟩ := Option.bind_eq_some.mp h
    obtain ⟨s2, h1, h2⟩ := Option.bind_eq_some.mp h23
    exact scope_bracket_grows rv _ s s3 s1
      (stackGrows_trans (traverseList_stack_grows rv hcond stmts _ s2 h1)
        (traverseList_stack_grows rv hcond handlers s2 s3 h2)) hexit
  | AstNode.Return _ value, s, s1, h => by
    unfold ReturnTypeInferrer.traverse enterReturn at h
    simp only [Option.some.injEq] at h
    rw [← h]
    split_ifs <;> exact markReturnOrThrow_grows s
  | AstNode.Yield _ value, s, s1, h => by
    unfold ReturnTypeInferrer.traverse enterYield at h
    simp only at h
    split_ifs at h
    · simp only [Option.map_some', Option.some.injEq] at h
      rw [← h]
      exact markReturnOrThrow_grows s
    · cases value with
      | none => exact Option.noConfusion h
      | some expr =>
        simp only [Option.map_some', Option.some.injEq] at h
        rw [← h]
        exact markReturnOrThrow_grows s
  | AstNode.Function _ _, s, s1, h => by
    unfold ReturnTypeInferrer.traverse enterFunction at h
    simp only [Option.some.injEq] at h
    rw [← h]
    exact stackGrows_refl _
  | AstNode.plain id tag children, s, s1, h => by
    rw [traverse_plain] at h
    obtain ⟨s2, h1, hexit⟩ := Option.bind_eq_some.mp h
    exact scope_bracket_grows rv _ s s2 s1 (traverseList_stack_grows rv hcond children _ s2 h1)
      hexit

theorem traverseList_stack_grows (rv : RV) (hcond : rv.createsScope AstTag.Conditional = true) :
    ∀ (l : List AstNode) (s s1 : ReturnTypeInferrer), traverseList rv l s = some s1 →
      stackGrows s.returnFrames s1.returnFrames
  | [], s, s1, h => by
    unfold traverseList at h
    cases h
    exact stackGrows_refl _
  | child :: rest, s, s1, h => by
    rw [traverseList_cons] at h
    obtain ⟨s2, h1, h2⟩ := Option.bind_eq_some.mp h
    exact stackGrows_trans (traverse_stack_grows rv hcond child s s2 h1)
      (traverseList_stack_grows rv hcond rest s2 s1 h2)

theorem traverseOption_stack_grows (rv : RV) (hcond : rv.createsScope AstTag.Conditional = true) :
    ∀ (o : Option AstNode) (s s1 : ReturnTypeInferrer), traverseOption rv o s = some s1 →
      stackGrows s.returnFrames s1.returnFrames
  | none, s, s1, h => by
    unfold traverseOption at h
    cases h
    exact stackGrows_refl _
  | some child, s, s1, h => by
    unfold traverseOption at h
    exact traverse_stack_grows rv hcond child s s1 h

end

end Inference
namespace Inference

open ReturnTypeInferrer

/-! ### Return reachability: what a popped frame contributes -/

/-- The loop over the sub-frames answers true exactly when every sub-frame
that is not skipped holds a frame marked as returning. -/
theorem allReturnOrThrow_iff
    (subFrames : List (ReturnInferenceSubFrame ReturnInferenceFrame)) :
    exitScope.allReturnOrThrow subFrames = true ↔
      ∀ subFrame ∈ subFrames, subFrame.skip = false →
        ∃ frame, subFrame.frame = some frame ∧ frame.returnsOrThrows = true := by
  induction subFrames with
  | nil =>
    unfold exitScope.allReturnOrThrow
    simp
  | cons x rest ih =>
    unfold exitScope.allReturnOrThrow
    cases hskip : x.skip with
    | true =>
      simp only [if_true]
      rw [ih]
      constructor
      · intro h sf hsf hns
        rcases List.mem_cons.mp hsf with hx | hr
        · rw [hx, hskip] at hns
          exact Bool.noConfusion hns
        · exact h sf hr hns
      · intro h sf hsf hns
        exact h sf (List.mem_cons_of_mem _ hsf) hns
    | false =>
      simp only [Bool.false_eq_true, if_false]
      cases hframe : x.frame with
      | none =>
        simp only
        constructor
        · intro h
          exact Bool.noConfusion h
        · intro h
          obtain ⟨f, hf, _⟩ := h x (List.mem_cons_self _ _) hskip
          rw [hframe] at hf
          exact Option.noConfusion hf
      | some frame =>
        simp only
        cases hflag : frame.returnsOrThrows with
        | false =>
          simp only [Bool.not_false, if_true]
          constructor
          · intro h
            exact Bool.noConfusion h
          · intro h
            obtain ⟨f, hf, hft⟩ := h x (List.mem_cons_self _ _) hskip
            rw [hframe] at hf
            cases hf
            rw [hflag] at hft
            exact Bool.noConfusion hft
        | true =>
          simp only [Bool.not_true, Bool.false_eq_true, if_false]
          rw [ih]
          constructor
          · intro h sf hsf hns
            rcases List.mem_cons.mp hsf with hx | hr
            · rw [hx]
              exact ⟨frame, hframe, hflag⟩
            · exact h sf hr hns
          · intro h sf hsf hns
            exact h sf (List.mem_cons_of_mem _ hsf) hns

/-- What `exitScope` does with a frame for `node` on top of a parent frame
that has no sub-frame for `node`: the frame is popped and its contribution is
added to the mark of the parent. -/
theorem exitScope_contributes (rv : RV) (node : AstNode) (s : ReturnTypeInferrer)
    (hcs : rv.createsScope node.tag = true) (poppingFrame parentFrame : ReturnInferenceFrame)
    (rest : List ReturnInferenceFrame)
    (hs : s.returnFrames = poppingFrame :: parentFrame :: rest)
    (hp : poppingFrame.scopeAst.samePointer node = true)
    (hnot : ¬ hasSubFrameFor node parentFrame.subFrames) :
    exitScope rv node s =
      some { s with
        returnFrames :=
          { parentFrame with
            returnsOrThrows :=
              parentFrame.returnsOrThrows ||
                exitScope.parentReturnsOrThrows poppingFrame } :: rest } := by
  unfold exitScope
  rw [hcs, hs]
  simp only [Bool.not_true, Bool.false_eq_true, if_false, hp]
  rw [exitScope_store_of_not_has node parentFrame.subFrames _ _ hnot]
  simp

/-- When the parent frame has a sub-frame for `node`, the popped frame is
saved and the mark of the parent is left as it is. -/
theorem exitScope_saves (rv : RV) (node : AstNode) (s s1 : ReturnTypeInferrer)
    (hcs : rv.createsScope node.tag = true) (poppingFrame parentFrame : ReturnInferenceFrame)
    (rest : List ReturnInferenceFrame)
    (hs : s.returnFrames = poppingFrame :: parentFrame :: rest)
    (h : exitScope rv node s = some s1) :
    ∃ parentFrame1, s1.returnFrames = parentFrame1 :: rest ∧
      parentFrame1.scopeAst = parentFrame.scopeAst ∧
      (hasSubFrameFor node parentFrame.subFrames →
        parentFrame1.returnsOrThrows = parentFrame.returnsOrThrows) := by
  unfold exitScope at h
  rw [hcs, hs] at h
  simp only [Bool.not_true, Bool.false_eq_true, if_false] at h
  split_ifs at h with hp hstored
  · simp only [Option.some.injEq] at h
    rw [← h]
    refine ⟨_, rfl, rfl, ?_⟩
    intro hhas
    exfalso
    have hkey : ∀ (l : List (ReturnInferenceSubFrame ReturnInferenceFrame))
        (p : Option ReturnInferenceFrame) (b : Bool), hasSubFrameFor node l →
        (exitScope.store node l p b).2.2 = true := by
      intro l
      induction l with
      | nil => rintro _ _ ⟨sf, hsf, _⟩; simp at hsf
      | cons x l ih =>
        intro p b hl
        unfold exitScope.store
        split_ifs with hm
        · have hall : ∀ (l2 : List (ReturnInferenceSubFrame ReturnInferenceFrame))
              (p2 : Option ReturnInferenceFrame),
              (exitScope.store node l2 p2 true).2.2 = true := by
            intro l2
            induction l2 with
            | nil => intro p2; rfl
            | cons y l2 ih2 =>
              intro p2
              unfold exitScope.store
              split_ifs
              · exact ih2 none
              · exact ih2 p2
          exact hall l none
        · obtain ⟨sf, hsf, a, ha, hpt⟩ := hl
          rcases List.mem_cons.mp hsf with hx | hr
          · rw [hx] at ha
            rw [ha] at hm
            exact absurd hpt hm
          · exact ih p b ⟨sf, hr, a, ha, hpt⟩
    have := hkey parentFrame.subFrames (some poppingFrame) false hhas
    simp only [Bool.not_eq_true'] at hstored
    rw [this] at hstored
    exact Bool.noConfusion hstored
  · simp only [Option.some.injEq] at h
    rw [← h]
    exact ⟨_, rfl, rfl, fun _ => rfl⟩

end Inference
namespace Inference

open ReturnTypeInferrer

/-! ### Return reachability: conditionals -/

/-- The contribution of the frame of a conditional is the answer of the loop
over its sub-frames, whatever its own mark. -/
theorem parentReturnsOrThrows_conditional (frame : ReturnInferenceFrame)
    (hc : frame.scopeAst.isConditional = true) (hsub : frame.subFrames ≠ []) :
    exitScope.parentReturnsOrThrows frame = exitScope.allReturnOrThrow frame.subFrames := by
  unfold exitScope.parentReturnsOrThrows
  have hlen : frame.subFrames.length > 0 := List.length_pos.mpr hsub
  have htry : frame.scopeAst.isTry = false := by
    unfold AstNode.isConditional at hc
    unfold AstNode.isTry
    rw [beq_iff_eq] at hc
    rw [hc]
    rfl
  simp only [hlen, if_true, htry, Bool.false_eq_true, if_false]

/-- The mark of the parent frame after `exitScope`: left as it is when the
popped frame is saved, and joined with the contribution of the popped frame
otherwise. -/
theorem exitScope_parent_mark (rv : RV) (node : AstNode) (s s1 : ReturnTypeInferrer)
    (hcs : rv.createsScope node.tag = true) (poppingFrame parentFrame : ReturnInferenceFrame)
    (rest : List ReturnInferenceFrame)
    (hs : s.returnFrames = poppingFrame :: parentFrame :: rest)
    (h : exitScope rv node s = some s1) :
    ∃ parentFrame1, s1.returnFrames = parentFrame1 :: rest ∧
      parentFrame1.scopeAst = parentFrame.scopeAst ∧
      (parentFrame1.returnsOrThrows = parentFrame.returnsOrThrows ∨
        parentFrame1.returnsOrThrows =
          (parentFrame.returnsOrThrows || exitScope.parentReturnsOrThrows poppingFrame)) := by
  unfold exitScope at h
  rw [hcs, hs] at h
  simp only [Bool.not_true, Bool.false_eq_true, if_false] at h
  split_ifs at h with hp hstored
  · simp only [Option.some.injEq] at h
    rw [← h]
    exact ⟨_, rfl, rfl, Or.inr rfl⟩
  · simp only [Option.some.injEq] at h
    rw [← h]
    exact ⟨_, rfl, rfl, Or.inl rfl⟩

/-- The frame of a conditional without else block whose else sub-frame is not
skipped contributes false. -/
theorem no_else_contributes_false (frame : ReturnInferenceFrame)
    (x y : ReturnInferenceSubFrame ReturnInferenceFrame)
    (hc : frame.scopeAst.isConditional = true) (hsub : frame.subFrames = [x, y])
    (hskip : y.skip = false) (hframe : y.frame = none) :
    exitScope.parentReturnsOrThrows frame = false := by
  rw [parentReturnsOrThrows_conditional frame hc (by rw [hsub]; simp)]
  cases hall : exitScope.allReturnOrThrow frame.subFrames with
  | false => rfl
  | true =>
    obtain ⟨f, hf, _⟩ := (allReturnOrThrow_iff _).mp hall y (by rw [hsub]; simp) hskip
    rw [hframe] at hf
    exact Option.noConfusion hf

/-- The sub-frames of the frame of a conditional without else block, later
in the traversal: the else sub-frame is still without node, frame and skip
mark. -/
theorem no_else_subFrames (id : ID) (condition thenBlock : AstNode)
    (top : ReturnInferenceFrame)
    (hg : frameGrows (enterScope.newFrame (AstNode.Conditional id condition thenBlock none))
      top) :
    top.scopeAst.isConditional = true ∧
    ∃ x y, top.subFrames = [x, y] ∧ x.skip = false ∧ y.skip = false ∧ y.frame = none := by
  obtain ⟨hscope, _, hsub⟩ := hg
  refine ⟨by rw [hscope]; rfl, ?_⟩
  unfold subFramesGrow at hsub
  have hnew : (enterScope.newFrame (AstNode.Conditional id condition thenBlock none)).subFrames =
      [ReturnInferenceSubFrame.new (some thenBlock), ReturnInferenceSubFrame.new none] := rfl
  rw [hnew] at hsub
  generalize top.subFrames = l at hsub
  cases hsub with
  | cons hx hrest =>
    cases hrest with
    | cons hy hnil =>
      cases hnil
      exact ⟨_, _, rfl, hx.2.1, hy.2.1, hy.2.2 rfl⟩

/-- A conditional without else block whose condition is not the param `true`
leaves the mark of the frame it is traversed in as it is. -/
theorem traverse_no_else_parent (rv : RV) (hcond : rv.createsScope AstTag.Conditional = true)
    (id : ID) (condition thenBlock : AstNode) (s s1 : ReturnTypeInferrer)
    (parentFrame : ReturnInferenceFrame) (rest : List ReturnInferenceFrame)
    (hpt : rv.isParamTrue condition.id = false)
    (hs : s.returnFrames = parentFrame :: rest)
    (h : ReturnTypeInferrer.traverse rv (AstNode.Conditional id condition thenBlock none) s =
      some s1) :
    ∃ parentFrame1, s1.returnFrames = parentFrame1 :: rest ∧
      parentFrame1.scopeAst = parentFrame.scopeAst ∧
      parentFrame1.returnsOrThrows = parentFrame.returnsOrThrows := by
  have hpush : (enterScope rv (AstNode.Conditional id condition thenBlock none)
      s).returnFrames =
      enterScope.newFrame (AstNode.Conditional id condition thenBlock none) ::
        parentFrame :: rest := by
    rw [enterScope_frames rv (AstNode.Conditional id condition thenBlock none) s hcond, hs]
  have hfinish : ∀ (s4 : ReturnTypeInferrer) (top : ReturnInferenceFrame),
      s4.returnFrames = top :: parentFrame :: rest →
      exitScope.parentReturnsOrThrows top = false →
      exitScope rv (AstNode.Conditional id condition thenBlock none) s4 = some s1 →
      ∃ parentFrame1, s1.returnFrames = parentFrame1 :: rest ∧
        parentFrame1.scopeAst = parentFrame.scopeAst ∧
        parentFrame1.returnsOrThrows = parentFrame.returnsOrThrows := by
    intro s4 top hs4 hfalse hexit
    obtain ⟨p1, hp1, hscope, hmark⟩ := exitScope_parent_mark rv
      (AstNode.Conditional id condition thenBlock none) s4 s1 hcond top parentFrame
      rest hs4 hexit
    refine ⟨p1, hp1, hscope, ?_⟩
    rcases hmark with hm | hm
    · exact hm
    · rw [hm, hfalse, Bool.or_false]
  cases hpf : rv.isParamFalse condition.id with
  | true =>
    rw [traverse_conditional_paramFalse rv id condition thenBlock none s hpt hpf] at h
    obtain ⟨s3, h23, hexit⟩ := Option.bind_eq_some.mp h
    obtain ⟨s2, helse, hskip⟩ := Option.bind_eq_some.mp h23
    unfold traverseOption at helse
    cases helse
    obtain ⟨top, rest1, sf, hs2, hsf, hs3, _⟩ := setSkip_frames 0 _ s3 hskip
    rw [hpush] at hs2
    cases hs2
    have hsf1 : sf = ReturnInferenceSubFrame.new (some thenBlock) := by
      have hget : (enterScope.newFrame
          (AstNode.Conditional id condition thenBlock none)).subFrames[0]? =
          some (ReturnInferenceSubFrame.new (some thenBlock)) := rfl
      rw [hget] at hsf
      exact (Option.some.inj hsf).symm
    subst hsf1
    refine hfinish s3 _ hs3 ?_ hexit
    exact no_else_contributes_false _
      { ReturnInferenceSubFrame.new (some thenBlock) with skip := true }
      (ReturnInferenceSubFrame.new none) rfl rfl rfl rfl
  | false =>
    rw [traverse_conditional_unknown rv id condition thenBlock none s hpt hpf] at h
    obtain ⟨s4, h34, hexit⟩ := Option.bind_eq_some.mp h
    obtain ⟨s3, h23, he⟩ := Option.bind_eq_some.mp h34
    obtain ⟨s2, hc, ht⟩ := Option.bind_eq_some.mp h23
    have g := stackGrows_trans
      (stackGrows_trans (traverse_stack_grows rv hcond condition _ s2 hc)
        (traverse_stack_grows rv hcond thenBlock s2 s3 ht))
      (traverseOption_stack_grows rv hcond none s3 s4 he)
    rw [hpush] at g
    obtain ⟨top, htop, hgrow⟩ := stackGrows_cons g
    obtain ⟨hcnd, x, y, hsub, _, hy1, hy2⟩ := no_else_subFrames id condition thenBlock top hgrow
    exact hfinish s4 top htop (no_else_contributes_false top x y hcnd hsub hy1 hy2) hexit

end Inference
namespace Inference

open ReturnTypeInferrer

/-! ### Return reachability: conditionals with a param condition -/

theorem samePointer_self (node : AstNode) : node.samePointer node = true := by
  unfold AstNode.samePointer
  exact beq_self_eq_true _

/-- The result of `exitScope` for a frame for `node` on top of a parent
frame. -/
theorem exitScope_eq (rv : RV) (node : AstNode) (s : ReturnTypeInferrer)
    (hcs : rv.createsScope node.tag = true) (poppingFrame parentFrame : ReturnInferenceFrame)
    (rest : List ReturnInferenceFrame)
    (hs : s.returnFrames = poppingFrame :: parentFrame :: rest)
    (hp : poppingFrame.scopeAst.samePointer node = true) :
    exitScope rv node s =
      some { s with
        returnFrames :=
          (if !(exitScope.store node parentFrame.subFrames (some poppingFrame) false).2.2 then
            { scopeAst := parentFrame.scopeAst,
              returnsOrThrows :=
                parentFrame.returnsOrThrows || exitScope.parentReturnsOrThrows poppingFrame,
              subFrames :=
                (exitScope.store node parentFrame.subFrames (some poppingFrame) false).1 }
          else
            { scopeAst := parentFrame.scopeAst,
              returnsOrThrows := parentFrame.returnsOrThrows,
              subFrames :=
                (exitScope.store node parentFrame.subFrames (some poppingFrame) false).1 })
          :: rest } := by
  unfold exitScope
  rw [hcs, hs]
  simp only [Bool.not_true, Bool.false_eq_true, if_false, hp]

/-- The popped frame of the then block is saved in the first sub-frame of the
frame of its conditional. -/
theorem exitScope_store_then (thenBlock : AstNode) (elseBlock : Option AstNode)
    (frame : ReturnInferenceFrame) :
    exitScope.store thenBlock
      [ReturnInferenceSubFrame.new (some thenBlock), ReturnInferenceSubFrame.new elseBlock]
      (some frame) false =
      ([{ astNode := some thenBlock, frame := some frame, skip := false },
        ReturnInferenceSubFrame.new elseBlock], none, true) := by
  unfold exitScope.store
  simp only [ReturnInferenceSubFrame.new, samePointer_self, if_true]
  unfold exitScope.store
  split_ifs <;> rfl

/-- The popped frame of the else block is saved in the second sub-frame of
the frame of its conditional, when the else block is another node than the
then block. -/
theorem exitScope_store_else (thenBlock elseBlock : AstNode)
    (hne : thenBlock.id ≠ elseBlock.id) (frame : ReturnInferenceFrame) :
    exitScope.store elseBlock
      [ReturnInferenceSubFrame.new (some thenBlock),
        ReturnInferenceSubFrame.new (some elseBlock)]
      (some frame) false =
      ([ReturnInferenceSubFrame.new (some thenBlock),
        { astNode := some elseBlock, frame := some frame, skip := false }], none, true) := by
  have hno : thenBlock.samePointer elseBlock = false := by
    unfold AstNode.samePointer
    exact beq_false_of_ne hne
  unfold exitScope.store
  simp only [ReturnInferenceSubFrame.new, hno, Bool.false_eq_true, if_false]
  unfold exitScope.store
  simp only [samePointer_self, if_true]
  rfl

/-- The traversal of a node without an overload of its own that creates a
scope: its children are traversed with its frame on top of the stack, and
that frame is popped. -/
theorem traverse_scope_body (rv : RV) (hcond : rv.createsScope AstTag.Conditional = true)
    (id : ID) (tag : PlainTag) (children : List AstNode)
    (hcs : rv.createsScope tag.toAstTag = true) (s s2 : ReturnTypeInferrer)
    (h : ReturnTypeInferrer.traverse rv (AstNode.plain id tag children) s = some s2) :
    ∃ body frame, traverseList rv children (enterScope rv (AstNode.plain id tag children) s) =
        some body ∧
      body.returnFrames = frame :: s.returnFrames ∧
      frame.scopeAst = AstNode.plain id tag children ∧
      exitScope rv (AstNode.plain id tag children) body = some s2 := by
  rw [traverse_plain] at h
  obtain ⟨body, hbody, hexit⟩ := Option.bind_eq_some.mp h
  have g := traverseList_stack_grows rv hcond children _ body hbody
  rw [enterScope_frames rv (AstNode.plain id tag children) s hcs] at g
  obtain ⟨frame, hframe, hgrow⟩ := stackGrows_cons g
  exact ⟨body, frame, hbody, hframe, hgrow.1, hexit⟩

/-- A conditional whose condition is the param `true`, traversed in a frame
that has no sub-frame for it: the mark of that frame is joined with the mark
that the frame of the then block has when it is popped. -/
theorem traverse_paramTrue_parent (rv : RV)
    (hcond : rv.createsScope AstTag.Conditional = true)
    (id : ID) (condition : AstNode) (bid : ID) (btag : PlainTag) (stmts : List AstNode)
    (elseBlock : Option AstNode) (hcb : rv.createsScope btag.toAstTag = true)
    (s s1 : ReturnTypeInferrer) (parentFrame : ReturnInferenceFrame)
    (rest : List ReturnInferenceFrame)
    (hpt : rv.isParamTrue condition.id = true)
    (hs : s.returnFrames = parentFrame :: rest)
    (hnot : ¬ hasSubFrameFor
      (AstNode.Conditional id condition (AstNode.plain bid btag stmts) elseBlock)
      parentFrame.subFrames)
    (h : ReturnTypeInferrer.traverse rv
      (AstNode.Conditional id condition (AstNode.plain bid btag stmts) elseBlock) s = some s1) :
    ∃ body blockFrame,
      traverseList rv stmts
        (enterScope rv (AstNode.plain bid btag stmts)
          (enterScope rv
            (AstNode.Conditional id condition (AstNode.plain bid btag stmts) elseBlock) s)) =
        some body ∧
      body.returnFrames =
        blockFrame ::
          enterScope.newFrame
            (AstNode.Conditional id condition (AstNode.plain bid btag stmts) elseBlock) ::
          parentFrame :: rest ∧
      s1.returnFrames =
        { parentFrame with
          returnsOrThrows := parentFrame.returnsOrThrows || blockFrame.returnsOrThrows } ::
          rest := by
  rw [traverse_conditional_paramTrue rv id condition _ elseBlock s hpt] at h
  obtain ⟨s3, h23, hexit⟩ := Option.bind_eq_some.mp h
  obtain ⟨s2, hthen, hskip⟩ := Option.bind_eq_some.mp h23
  obtain ⟨body, blockFrame, hbody, hframes, hscope, hexitB⟩ :=
    traverse_scope_body rv hcond bid btag stmts hcb _ s2 hthen
  rw [enterScope_frames rv
    (AstNode.Conditional id condition (AstNode.plain bid btag stmts) elseBlock) s hcond,
    hs] at hframes
  refine ⟨body, blockFrame, hbody, hframes, ?_⟩
  rw [exitScope_eq rv (AstNode.plain bid btag stmts) body hcb blockFrame _ _ hframes
    (by rw [hscope]; exact samePointer_self _)] at hexitB
  have hnew : (enterScope.newFrame
      (AstNode.Conditional id condition (AstNode.plain bid btag stmts) elseBlock)).subFrames =
      [ReturnInferenceSubFrame.new (some (AstNode.plain bid btag stmts)),
        ReturnInferenceSubFrame.new elseBlock] := rfl
  rw [hnew, exitScope_store_then] at hexitB
  simp only [Bool.not_true, Bool.false_eq_true, if_false, Option.some.injEq] at hexitB
  subst hexitB
  unfold setSkip at hskip
  simp only [enterScope.newFrame, ReturnInferenceFrame.new, AstNode.isConditional, AstNode.tag,
    beq_self_eq_true, Bool.not_true, Bool.false_eq_true, if_false, List.getElem?_cons_succ,
    List.getElem?_cons_zero, Option.some.injEq, List.set_cons_succ, List.set_cons_zero] at hskip
  subst hskip
  rw [exitScope_contributes rv
    (AstNode.Conditional id condition (AstNode.plain bid btag stmts) elseBlock) _ hcond _
    parentFrame rest rfl (samePointer_self _) hnot] at hexit
  simp only [Option.some.injEq] at hexit
  rw [← hexit]
  simp only [exitScope.parentReturnsOrThrows, exitScope.allReturnOrThrow, AstNode.isLoop,
    AstNode.isTry, AstNode.tag, ReturnInferenceSubFrame.new, List.length_cons,
    List.length_nil]
  cases blockFrame.returnsOrThrows <;> simp

/-- A conditional with an else block whose condition is the param `false`,
traversed in a frame that has no sub-frame for it: the mark of that frame is
joined with the mark that the frame of the else block has when it is
popped. -/
theorem traverse_paramFalse_parent (rv : RV)
    (hcond : rv.createsScope AstTag.Conditional = true)
    (id : ID) (condition thenBlock : AstNode) (bid : ID) (btag : PlainTag)
    (stmts : List AstNode) (hcb : rv.createsScope btag.toAstTag = true)
    (s s1 : ReturnTypeInferrer) (parentFrame : ReturnInferenceFrame)
    (rest : List ReturnInferenceFrame)
    (hne : thenBlock.id ≠ bid)
    (hpt : rv.isParamTrue condition.id = false) (hpf : rv.isParamFalse condition.id = true)
    (hs : s.returnFrames = parentFrame :: rest)
    (hnot : ¬ hasSubFrameFor
      (AstNode.Conditional id condition thenBlock (some (AstNode.plain bid btag stmts)))
      parentFrame.subFrames)
    (h : ReturnTypeInferrer.traverse rv
      (AstNode.Conditional id condition thenBlock (some (AstNode.plain bid btag stmts))) s =
        some s1) :
    ∃ body blockFrame,
      traverseList rv stmts
        (enterScope rv (AstNode.plain bid btag stmts)
          (enterScope rv
            (AstNode.Conditional id condition thenBlock (some (AstNode.plain bid btag stmts)))
            s)) =
        some body ∧
      body.returnFrames =
        blockFrame ::
          enterScope.newFrame
            (AstNode.Conditional id condition thenBlock (some (AstNode.plain bid btag stmts))) ::
          parentFrame :: rest ∧
      s1.returnFrames =
        { parentFrame with
          returnsOrThrows := parentFrame.returnsOrThrows || blockFrame.returnsOrThrows } ::
          rest := by
  rw [traverse_conditional_paramFalse rv id condition thenBlock _ s hpt hpf] at h
  obtain ⟨s3, h23, hexit⟩ := Option.bind_eq_some.mp h
  obtain ⟨s2, helse, hskip⟩ := Option.bind_eq_some.mp h23
  rw [traverseOption] at helse
  obtain ⟨body, blockFrame, hbody, hframes, hscope, hexitB⟩ :=
    traverse_scope_body rv hcond bid btag stmts hcb _ s2 helse
  rw [enterScope_frames rv
    (AstNode.Conditional id condition thenBlock (some (AstNode.plain bid btag stmts))) s hcond,
    hs] at hframes
  refine ⟨body, blockFrame, hbody, hframes, ?_⟩
  rw [exitScope_eq rv (AstNode.plain bid btag stmts) body hcb blockFrame _ _ hframes
    (by rw [hscope]; exact samePointer_self _)] at hexitB
  have hnew : (enterScope.newFrame
      (AstNode.Conditional id condition thenBlock
        (some (AstNode.plain bid btag stmts)))).subFrames =
      [ReturnInferenceSubFrame.new (some thenBlock),
        ReturnInferenceSubFrame.new (some (AstNode.plain bid btag stmts))] := rfl
  rw [hnew, exitScope_store_else thenBlock (AstNode.plain bid btag stmts) hne] at hexitB
  simp only [Bool.not_true, Bool.false_eq_true, if_false, Option.some.injEq] at hexitB
  subst hexitB
  unfold setSkip at hskip
  simp only [enterScope.newFrame, ReturnInferenceFrame.new, AstNode.isConditional, AstNode.tag,
    beq_self_eq_true, Bool.not_true, Bool.false_eq_true, if_false, List.getElem?_cons_succ,
    List.getElem?_cons_zero, Option.some.injEq, List.set_cons_succ, List.set_cons_zero] at hskip
  subst hskip
  rw [exitScope_contributes rv
    (AstNode.Conditional id condition thenBlock (some (AstNode.plain bid btag stmts))) _ hcond _
    parentFrame rest rfl (samePointer_self _) hnot] at hexit
  simp only [Option.some.injEq] at hexit
  rw [← hexit]
  simp only [exitScope.parentReturnsOrThrows, exitScope.allReturnOrThrow, AstNode.isLoop,
    AstNode.isTry, AstNode.tag, ReturnInferenceSubFrame.new, List.length_cons,
    List.length_nil]
  cases blockFrame.returnsOrThrows <;> simp

end Inference
namespace Inference

open ReturnTypeInferrer

/-! ### Return reachability: loops and try statements -/

/-- The contribution of the frame of a try: its own mark and the answer of
the loop over its sub-frames. -/
theorem parentReturnsOrThrows_try (frame : ReturnInferenceFrame)
    (ht : frame.scopeAst.isTry = true) :
    exitScope.parentReturnsOrThrows frame =
      (frame.returnsOrThrows && exitScope.allReturnOrThrow frame.subFrames) := by
  have hloop : frame.scopeAst.isLoop = false := by
    unfold AstNode.isTry at ht
    unfold AstNode.isLoop
    rw [beq_iff_eq] at ht
    rw [ht]
    rfl
  unfold exitScope.parentReturnsOrThrows
  simp only [hloop, ht, Bool.false_eq_true, if_false, if_true]
  cases hsub : frame.subFrames with
  | nil => simp [exitScope.allReturnOrThrow]
  | cons x rest => simp

/-- The contribution of the frame of a loop without sub-frames. -/
theorem parentReturnsOrThrows_loop (frame : ReturnInferenceFrame)
    (hl : frame.scopeAst.isLoop = true) (hsub : frame.subFrames = []) :
    exitScope.parentReturnsOrThrows frame = false := by
  unfold exitScope.parentReturnsOrThrows
  simp [hl, hsub]

/-- A loop leaves the mark of the frame it is traversed in as it is. -/
theorem traverse_loop_parent (rv : RV) (hcond : rv.createsScope AstTag.Conditional = true)
    (hloop : rv.createsScope AstTag.Loop = true)
    (id : ID) (children : List AstNode) (s s1 : ReturnTypeInferrer)
    (parentFrame : ReturnInferenceFrame) (rest : List ReturnInferenceFrame)
    (hs : s.returnFrames = parentFrame :: rest)
    (h : ReturnTypeInferrer.traverse rv (AstNode.plain id PlainTag.Loop children) s = some s1) :
    ∃ parentFrame1, s1.returnFrames = parentFrame1 :: rest ∧
      parentFrame1.scopeAst = parentFrame.scopeAst ∧
      parentFrame1.returnsOrThrows = parentFrame.returnsOrThrows := by
  rw [traverse_plain] at h
  obtain ⟨body, hbody, hexit⟩ := Option.bind_eq_some.mp h
  have g := traverseList_stack_grows rv hcond children _ body hbody
  rw [enterScope_frames rv (AstNode.plain id PlainTag.Loop children) s hloop, hs] at g
  obtain ⟨frame, hframe, hscope, _, hsub⟩ := stackGrows_cons g
  have hnil : frame.subFrames = [] := by
    unfold subFramesGrow at hsub
    have hnew : (enterScope.newFrame (AstNode.plain id PlainTag.Loop children)).subFrames =
        [] := rfl
    rw [hnew] at hsub
    generalize frame.subFrames = l at hsub
    cases hsub
    rfl
  obtain ⟨p1, hp1, hsc, hmark⟩ := exitScope_parent_mark rv
    (AstNode.plain id PlainTag.Loop children) body s1 hloop frame parentFrame rest hframe hexit
  refine ⟨p1, hp1, hsc, ?_⟩
  rcases hmark with hm | hm
  · exact hm
  · rw [hm, parentReturnsOrThrows_loop frame (by rw [hscope]; rfl) hnil, Bool.or_false]

/-- The stack after `setSkip` is the stack before it, grown. -/
theorem setSkip_grows (idx : Nat) (s s1 : ReturnTypeInferrer) (h : setSkip idx s = some s1) :
    ∃ top top1 rest, s.returnFrames = top :: rest ∧ s1.returnFrames = top1 :: rest ∧
      top1.scopeAst = top.scopeAst ∧ top1.returnsOrThrows = top.returnsOrThrows := by
  obtain ⟨top, rest, sf, hs, _, hs1, _⟩ := setSkip_frames idx s s1 h
  exact ⟨top, _, rest, hs, hs1, rfl, rfl⟩

end Inference
namespace Inference

open ReturnTypeInferrer

/-! ### The claims about return reachability -/

/-- C34: when `exitScope` pops the frame of a conditional on top of a parent
frame that does not save it, the mark `returnsOrThrows` of the parent is
joined with a value that is true exactly when every sub-frame (then, else)
that is not marked as skipped holds a recorded frame whose `returnsOrThrows`
is true.  With a `createsScope` that answers true for conditionals: a
conditional without else block whose condition is not the param `true`
leaves the mark of the frame it is traversed in as it is; a conditional on
the param `true` joins that mark with the mark of the frame of its then
block, and a conditional on the param `false` with the mark of the frame of
its else block (the blocks creating scopes, the else block being another node
than the then block).  The sample bodies show each case, by the marks left
after the conditional and by the returns noted for the whole body. -/
theorem conditional_return_reachability :
    (∀ (rv : RV) (node : AstNode) (s : ReturnTypeInferrer)
        (poppingFrame parentFrame : ReturnInferenceFrame) (rest : List ReturnInferenceFrame),
        rv.createsScope node.tag = true →
        s.returnFrames = poppingFrame :: parentFrame :: rest →
        poppingFrame.scopeAst.samePointer node = true →
        poppingFrame.scopeAst.isConditional = true →
        poppingFrame.subFrames ≠ [] →
        ¬ hasSubFrameFor node parentFrame.subFrames →
        exitScope rv node s =
          some { s with
            returnFrames :=
              { parentFrame with
                returnsOrThrows :=
                  parentFrame.returnsOrThrows ||
                    exitScope.parentReturnsOrThrows poppingFrame } :: rest } ∧
        (exitScope.parentReturnsOrThrows poppingFrame = true ↔
          ∀ subFrame ∈ poppingFrame.subFrames, subFrame.skip = false →
            ∃ frame, subFrame.frame = some frame ∧ frame.returnsOrThrows = true)) ∧
    (∀ (rv : RV) (id : ID) (condition thenBlock : AstNode) (s s1 : ReturnTypeInferrer)
        (parentFrame : ReturnInferenceFrame) (rest : List ReturnInferenceFrame),
        rv.createsScope AstTag.Conditional = true →
        rv.isParamTrue condition.id = false →
        s.returnFrames = parentFrame :: rest →
        ReturnTypeInferrer.traverse rv (AstNode.Conditional id condition thenBlock none) s =
          some s1 →
        ∃ parentFrame1, s1.returnFrames = parentFrame1 :: rest ∧
          parentFrame1.scopeAst = parentFrame.scopeAst ∧
          parentFrame1.returnsOrThrows = parentFrame.returnsOrThrows) ∧
    (∀ (rv : RV) (id : ID) (condition : AstNode) (bid : ID) (btag : PlainTag)
        (stmts : List AstNode) (elseBlock : Option AstNode) (s s1 : ReturnTypeInferrer)
        (parentFrame : ReturnInferenceFrame) (rest : List ReturnInferenceFrame),
        rv.createsScope AstTag.Conditional = true →
        rv.createsScope btag.toAstTag = true →
        rv.isParamTrue condition.id = true →
        s.returnFrames = parentFrame :: rest →
        ¬ hasSubFrameFor
          (AstNode.Conditional id condition (AstNode.plain bid btag stmts) elseBlock)
          parentFrame.subFrames →
        ReturnTypeInferrer.traverse rv
          (AstNode.Conditional id condition (AstNode.plain bid btag stmts) elseBlock) s =
          some s1 →
        ∃ body blockFrame,
          traverseList rv stmts
            (enterScope rv (AstNode.plain bid btag stmts)
              (enterScope rv
                (AstNode.Conditional id condition (AstNode.plain bid btag stmts) elseBlock)
                s)) = some body ∧
          body.returnFrames =
            blockFrame ::
              enterScope.newFrame
                (AstNode.Conditional id condition (AstNode.plain bid btag stmts) elseBlock) ::
              parentFrame :: rest ∧
          s1.returnFrames =
            { parentFrame with
              returnsOrThrows :=
                parentFrame.returnsOrThrows || blockFrame.returnsOrThrows } :: rest) ∧
    (∀ (rv : RV) (id : ID) (condition thenBlock : AstNode) (bid : ID) (btag : PlainTag)
        (stmts : List AstNode) (s s1 : ReturnTypeInferrer)
        (parentFrame : ReturnInferenceFrame) (rest : List ReturnInferenceFrame),
        rv.createsScope AstTag.Conditional = true →
        rv.createsScope btag.toAstTag = true →
        thenBlock.id ≠ bid →
        rv.isParamTrue condition.id = false →
        rv.isParamFalse condition.id = true →
        s.returnFrames = parentFrame :: rest →
        ¬ hasSubFrameFor
          (AstNode.Conditional id condition thenBlock (some (AstNode.plain bid btag stmts)))
          parentFrame.subFrames →
        ReturnTypeInferrer.traverse rv
          (AstNode.Conditional id condition thenBlock (some (AstNode.plain bid btag stmts)))
          s = some s1 →
        ∃ body blockFrame,
          traverseList rv stmts
            (enterScope rv (AstNode.plain bid btag stmts)
              (enterScope rv
                (AstNode.Conditional id condition thenBlock
                  (some (AstNode.plain bid btag stmts))) s)) = some body ∧
          body.returnFrames =
            blockFrame ::
              enterScope.newFrame
                (AstNode.Conditional id condition thenBlock
                  (some (AstNode.plain bid btag stmts))) ::
              parentFrame :: rest ∧
          s1.returnFrames =
            { parentFrame with
              returnsOrThrows :=
                parentFrame.returnsOrThrows || blockFrame.returnsOrThrows } :: rest) ∧
    marks (firstStatement Sample.sampleRV (Sample.bodyIfNoElse 50)) = some [false] ∧
    marks (firstStatement Sample.sampleRV (Sample.bodyIfNoElse 101)) = some [false] ∧
    marks (firstStatement Sample.sampleRV (Sample.bodyIfNoElse 100)) = some [true] ∧
    marks (firstStatement Sample.sampleRV (Sample.bodyIfElse 50)) = some [true] ∧
    marks (firstStatement Sample.sampleRV (Sample.bodyIfEmptyElse 50)) = some [false] ∧
    marks (firstStatement Sample.sampleRV (Sample.bodyIfEmptyElse 100)) = some [true] ∧
    marks (firstStatement Sample.sampleRV (Sample.bodyIfEmptyThen 100)) = some [false] ∧
    marks (firstStatement Sample.sampleRV (Sample.bodyIfEmptyElse 101)) = some [false] ∧
    marks (firstStatement Sample.sampleRV (Sample.bodyIfEmptyThen 101)) = some [true] ∧
    notedReturns (process Sample.sampleRV (Sample.bodyIfNoElse 50)) =
      some [some 11, some 12] ∧
    notedReturns (process Sample.sampleRV (Sample.bodyIfNoElse 101)) = some [some 12] ∧
    notedReturns (process Sample.sampleRV (Sample.bodyIfElse 50)) =
      some [some 11, some 13] ∧
    notedReturns (process Sample.sampleRV (Sample.bodyIfEmptyElse 100)) = some [some 11] ∧
    notedReturns (process Sample.sampleRV (Sample.bodyIfEmptyThen 100)) = some [some 12] ∧
    notedReturns (process Sample.sampleRV (Sample.bodyIfEmptyThen 101)) = some [some 13] := by
  refine ⟨?_, ?_, ?_, ?_, by decide, by decide, by decide, by decide, by decide, by decide,
    by decide, by decide, by decide, by decide, by decide, by decide, by decide, by decide,
    by decide⟩
  · intro rv node s poppingFrame parentFrame rest hcs hs hp hc hsub hnot
    refine ⟨exitScope_contributes rv node s hcs poppingFrame parentFrame rest hs hp hnot, ?_⟩
    rw [parentReturnsOrThrows_conditional poppingFrame hc hsub]
    exact allReturnOrThrow_iff _
  · intro rv id condition thenBlock s s1 parentFrame rest hcond hpt hs h
    exact traverse_no_else_parent rv hcond id condition thenBlock s s1 parentFrame rest hpt hs h
  · intro rv id condition bid btag stmts elseBlock s s1 parentFrame rest hcond hcb hpt hs hnot h
    exact traverse_paramTrue_parent rv hcond id condition bid btag stmts elseBlock hcb s s1
      parentFrame rest hpt hs hnot h
  · intro rv id condition thenBlock bid btag stmts s s1 parentFrame rest hcond hcb hne hpt hpf
      hs hnot h
    exact traverse_paramFalse_parent rv hcond id condition thenBlock bid btag stmts hcb s s1
      parentFrame rest hne hpt hpf hs hnot h

/-- C35: when `exitScope` pops the frame of a try on top of a parent frame
that does not save it, the mark `returnsOrThrows` of the parent is joined
with a value that is true exactly when the frame of the try is marked and
every sub-frame (one for each catch handler) that is not skipped holds a
recorded frame that is marked; without handlers that value is the mark of the
frame of the try.  The frame of a loop contributes false, and a loop leaves
the mark of the frame it is traversed in as it is, whatever its body.  No
operation resets a mark: `markReturnOrThrow`, `setSkip`, `exitScope` and the
traversal of a node let the stack grow, and `enterScope` leaves the frames
below the one it pushes as they are.  The sample bodies show each case. -/
theorem try_and_loop_return_reachability :
    (∀ (rv : RV) (node : AstNode) (s : ReturnTypeInferrer)
        (poppingFrame parentFrame : ReturnInferenceFrame) (rest : List ReturnInferenceFrame),
        rv.createsScope node.tag = true →
        s.returnFrames = poppingFrame :: parentFrame :: rest →
        poppingFrame.scopeAst.samePointer node = true →
        poppingFrame.scopeAst.isTry = true →
        ¬ hasSubFrameFor node parentFrame.subFrames →
        exitScope rv node s =
          some { s with
            returnFrames :=
              { parentFrame with
                returnsOrThrows :=
                  parentFrame.returnsOrThrows ||
                    exitScope.parentReturnsOrThrows poppingFrame } :: rest } ∧
        (exitScope.parentReturnsOrThrows poppingFrame = true ↔
          poppingFrame.returnsOrThrows = true ∧
          ∀ subFrame ∈ poppingFrame.subFrames, subFrame.skip = false →
            ∃ frame, subFrame.frame = some frame ∧ frame.returnsOrThrows = true) ∧
        (poppingFrame.subFrames = [] →
          exitScope.parentReturnsOrThrows poppingFrame = poppingFrame.returnsOrThrows)) ∧
    (∀ (frame : ReturnInferenceFrame), frame.scopeAst.isLoop = true → frame.subFrames = [] →
        exitScope.parentReturnsOrThrows frame = false) ∧
    (∀ (rv : RV) (id : ID) (children : List AstNode) (s s1 : ReturnTypeInferrer)
        (parentFrame : ReturnInferenceFrame) (rest : List ReturnInferenceFrame),
        rv.createsScope AstTag.Conditional = true →
        rv.createsScope AstTag.Loop = true →
        s.returnFrames = parentFrame :: rest →
        ReturnTypeInferrer.traverse rv (AstNode.plain id PlainTag.Loop children) s = some s1 →
        ∃ parentFrame1, s1.returnFrames = parentFrame1 :: rest ∧
          parentFrame1.scopeAst = parentFrame.scopeAst ∧
          parentFrame1.returnsOrThrows = parentFrame.returnsOrThrows) ∧
    (∀ (s : ReturnTypeInferrer),
        stackGrows s.returnFrames (markReturnOrThrow s).2.returnFrames) ∧
    (∀ (idx : Nat) (s s1 : ReturnTypeInferrer), setSkip idx s = some s1 →
        ∃ top top1 rest, s.returnFrames = top :: rest ∧ s1.returnFrames = top1 :: rest ∧
          top1.scopeAst = top.scopeAst ∧ top1.returnsOrThrows = top.returnsOrThrows) ∧
    (∀ (rv : RV) (node : AstNode) (s : ReturnTypeInferrer),
        (enterScope rv node s).returnFrames = s.returnFrames ∨
        (enterScope rv node s).returnFrames = enterScope.newFrame node :: s.returnFrames) ∧
    (∀ (rv : RV) (node : AstNode) (s s1 : ReturnTypeInferrer) (frame : ReturnInferenceFrame)
        (frames : List ReturnInferenceFrame),
        rv.createsScope node.tag = true → s.returnFrames = frame :: frames →
        exitScope rv node s = some s1 → stackGrows frames s1.returnFrames) ∧
    (∀ (rv : RV) (node : AstNode) (s s1 : ReturnTypeInferrer),
        rv.createsScope AstTag.Conditional = true →
        ReturnTypeInferrer.traverse rv node s = some s1 →
        stackGrows s.returnFrames s1.returnFrames) ∧
    marks (firstStatement Sample.sampleRV (Sample.bodyTry [Sample.ret 4 11] [])) =
      some [true] ∧
    marks (firstStatement Sample.sampleRV
      (Sample.bodyTry [Sample.ret 4 11] [Sample.catchClause 20 [Sample.ret 22 13]])) =
      some [true] ∧
    marks (firstStatement Sample.sampleRV
      (Sample.bodyTry [Sample.ret 4 11] [Sample.catchClause 20 []])) = some [false] ∧
    marks (firstStatement Sample.sampleRV
      (Sample.bodyTry [] [Sample.catchClause 20 [Sample.ret 22 13]])) = some [false] ∧
    marks (firstStatement Sample.sampleRV Sample.bodyLoop) = some [false] ∧
    notedReturns (process Sample.sampleRV (Sample.bodyTry [Sample.ret 4 11] [])) =
      some [some 11] ∧
    notedReturns (process Sample.sampleRV
      (Sample.bodyTry [Sample.ret 4 11] [Sample.catchClause 20 [Sample.ret 22 13]])) =
      some [some 11, some 13] ∧
    notedReturns (process Sample.sampleRV
      (Sample.bodyTry [Sample.ret 4 11] [Sample.catchClause 20 []])) =
      some [some 11, some 12] ∧
    notedReturns (process Sample.sampleRV
      (Sample.bodyTry [] [Sample.catchClause 20 [Sample.ret 22 13]])) =
      some [some 13, some 12] ∧
    notedReturns (process Sample.sampleRV Sample.bodyLoop) = some [some 11, some 12] := by
  refine ⟨?_, ?_, ?_, ?_, ?_, ?_, ?_, ?_, by decide, by decide, by decide, by decide,
    by decide, by decide, by decide, by decide, by decide, by decide⟩
  · intro rv node s poppingFrame parentFrame rest hcs hs hp ht hnot
    refine ⟨exitScope_contributes rv node s hcs poppingFrame parentFrame rest hs hp hnot,
      ?_, ?_⟩
    · rw [parentReturnsOrThrows_try poppingFrame ht, Bool.and_eq_true, allReturnOrThrow_iff]
    · intro hnil
      rw [parentReturnsOrThrows_try poppingFrame ht, hnil]
      simp [exitScope.allReturnOrThrow]
  · intro frame hl hsub
    exact parentReturnsOrThrows_loop frame hl hsub
  · intro rv id children s s1 parentFrame rest hcond hloop hs h
    exact traverse_loop_parent rv hcond hloop id children s s1 parentFrame rest hs h
  · intro s
    exact markReturnOrThrow_grows s
  · intro idx s s1 h
    exact setSkip_grows idx s s1 h
  · intro rv node s
    cases hcs : rv.createsScope node.tag with
    | false => exact Or.inl (by rw [enterScope_of_not rv node s hcs])
    | true => exact Or.inr (enterScope_frames rv node s hcs)
  · intro rv node s s1 frame frames hcs hs h
    exact exitScope_pop rv node s s1 hcs frame frames hs h
  · intro rv node s s1 hcond h
    exact traverse_stack_grows rv hcond node s s1 h

end Inference

namespace Symscope

open SymScope

/-! ### The scopes of the symbol table: what `define` and `undefine` write -/

theorem addVisibleFunction_fields (p : Program) (scope : SymScope) (fn : Symbol) (h : Heap) :
    (addVisibleFunction p scope fn h).table = h.table ∧
    (addVisibleFunction p scope fn h).overloadNext = h.overloadNext ∧
    (addVisibleFunction p scope fn h).overloadPrev = h.overloadPrev := by
  unfold addVisibleFunction
  split_ifs <;> exact ⟨rfl, rfl, rfl⟩

theorem removeVisibleFunction_fields (p : Program) (scope : SymScope) (fn : Symbol)
    (h : Heap) :
    (removeVisibleFunction p scope fn h).table = h.table ∧
    (removeVisibleFunction p scope fn h).overloadNext = h.overloadNext ∧
    (removeVisibleFunction p scope fn h).overloadPrev = h.overloadPrev := by
  unfold removeVisibleFunction
  split_ifs
  · exact ⟨rfl, rfl, rfl⟩
  · cases h.visibleFunctions scope (p.name fn) <;> exact ⟨rfl, rfl, rfl⟩

theorem define_visible_fields (p : Program) (this : SymScope) (sym : Symbol) (h : Heap) :
    (define.visible p this sym h).table = h.table ∧
    (define.visible p this sym h).overloadNext = h.overloadNext ∧
    (define.visible p this sym h).overloadPrev = h.overloadPrev := by
  unfold define.visible
  split_ifs
  · exact addVisibleFunction_fields p _ sym h
  · exact addVisibleFunction_fields p _ sym h
  · exact ⟨rfl, rfl, rfl⟩

theorem undefine_visible_fields (p : Program) (this : SymScope) (sym : Symbol) (h : Heap) :
    (undefine.visible p this sym h).table = h.table ∧
    (undefine.visible p this sym h).overloadNext = h.overloadNext ∧
    (undefine.visible p this sym h).overloadPrev = h.overloadPrev := by
  unfold undefine.visible
  split_ifs
  · have h1 := removeVisibleFunction_fields p p.programScope sym h
    have h2 := removeVisibleFunction_fields p this sym
      (removeVisibleFunction p p.programScope sym h)
    exact ⟨h2.1.trans h1.1, h2.2.1.trans h1.2.1, h2.2.2.trans h1.2.2⟩
  · exact ⟨rfl, rfl, rfl⟩

/-- The rest of `define` leaves the visible functions as they are. -/
theorem define_link_visibleFunctions (p : Program) (this : SymScope) (sym : Symbol)
    (h : Heap) : (define.link p this sym h).visibleFunctions = h.visibleFunctions := by
  unfold define.link
  split
  · simp only
    split <;> rfl
  · rfl

/-- The rest of `undefine` leaves the visible functions as they are. -/
theorem undefine_unlink_visibleFunctions (p : Program) (this : SymScope) (sym : Symbol)
    (h h2 : Heap) (hu : undefine.unlink p this sym h = some h2) :
    h2.visibleFunctions = h.visibleFunctions := by
  unfold undefine.unlink at hu
  simp only [Option.map_eq_some'] at hu
  obtain ⟨h3, hu3, hh2⟩ := hu
  rw [← hh2]
  split_ifs at hu3
  · split at hu3 <;> (simp only [Option.some.injEq] at hu3; rw [← hu3]; rfl)
  · split at hu3
    · exact Option.noConfusion hu3
    · split at hu3 <;> (simp only [Option.some.injEq] at hu3; rw [← hu3]; rfl)

/-- What the rest of `define` writes for a name without entry in the table:
the symbol becomes the entry, without links. -/
theorem define_link_of_none (p : Program) (this : SymScope) (sym : Symbol) (h : Heap)
    (hnone : h.table this (p.name sym) = none) :
    (define.link p this sym h).table =
      (fun s n => if s = this ∧ n = p.name sym then some sym else h.table s n) ∧
    (define.link p this sym h).overloadNext sym = none := by
  unfold define.link
  rw [hnone]
  simp only [Heap.setParentScope, Heap.setOverloadPrev, Heap.setOverloadNext, Heap.putTable,
    if_true, and_self]

/-- What the rest of `define` writes for a name with an entry in the table:
the table is left as it is and the symbol has a symbol before it. -/
theorem define_link_of_some (p : Program) (this : SymScope) (sym tmp : Symbol) (h : Heap)
    (hsome : h.table this (p.name sym) = some tmp) :
    (define.link p this sym h).table = h.table ∧
    (define.link p this sym h).overloadPrev sym ≠ none := by
  unfold define.link
  rw [hsome]
  simp only
  refine ⟨?_, ?_⟩
  · split <;> rfl
  · split
    · rename_i next hnext
      simp only [Heap.setParentScope, Heap.setOverloadPrev, Heap.setOverloadNext]
      split_ifs <;> simp
    · simp only [Heap.setParentScope, Heap.setOverloadPrev, Heap.setOverloadNext, if_true]
      simp

/-- The symbol table after `define` and `undefine` of a symbol that is not
the entry of its name in the table of the scope: `undefine` returns and the
tables are as before. -/
theorem define_undefine_table (p : Program) (this : SymScope) (sym : Symbol) (h : Heap)
    (hfresh : h.table this (p.name sym) ≠ some sym) :
    ∃ h2, undefine p this sym (define p this sym h) = some h2 ∧ h2.table = h.table := by
  have hdv := define_visible_fields p this sym h
  have huv := undefine_visible_fields p this sym (define p this sym h)
  unfold undefine
  generalize hU : undefine.visible p this sym (define p this sym h) = U at huv
  unfold define at huv
  generalize hD : define.visible p this sym h = D at hdv huv
  cases hentry : h.table this (p.name sym) with
  | none =>
    have hl := define_link_of_none p this sym D (by rw [hdv.1]; exact hentry)
    have hUt : U.table this (p.name sym) = some sym := by
      rw [huv.1, hl.1]
      simp
    have hUn : U.overloadNext sym = none := by
      rw [huv.2.1]
      exact hl.2
    unfold undefine.unlink
    simp only [hUt, if_true, hUn, Option.map_some', Option.some.injEq, exists_eq_left']
    simp only [Heap.setOverloadPrev, Heap.setOverloadNext, Heap.putTable, huv.1, hl.1, hdv.1]
    funext s n
    by_cases hsn : s = this ∧ n = p.name sym
    · simp only [hsn, and_self, if_true]
      exact hentry.symm
    · simp only [hsn, if_false]
  | some tmp =>
    have hl := define_link_of_some p this sym tmp D (by rw [hdv.1]; exact hentry)
    have hUt : U.table this (p.name sym) ≠ some sym := by
      rw [huv.1, hl.1, hdv.1]
      exact hfresh
    have hUp : U.overloadPrev sym ≠ none := by
      rw [huv.2.2]
      exact hl.2
    unfold undefine.unlink
    simp only [hUt, if_false]
    cases hprev : U.overloadPrev sym with
    | none => exact absurd hprev hUp
    | some prev =>
      simp only
      split <;>
        (simp only [Option.map_some', Option.some.injEq, exists_eq_left']
         simp only [Heap.setOverloadPrev, Heap.setOverloadNext, huv.1, hl.1, hdv.1])

end Symscope
namespace Symscope

open SymScope

/-! ### The scopes of the symbol table: the visible functions after `define` and `undefine` -/

theorem addVisibleFunction_visibleFunctions (p : Program) (scope : SymScope) (fn : Symbol)
    (h : Heap) :
    (addVisibleFunction p scope fn h).visibleFunctions =
      fun s n =>
        if p.visible fn = true ∧ s = scope ∧ n = p.name fn then
          some ((h.visibleFunctions s n).getD [] ++ [some fn])
        else h.visibleFunctions s n := by
  unfold addVisibleFunction
  cases hv : p.visible fn with
  | false => simp
  | true =>
    simp only [Bool.not_true, Bool.false_eq_true, if_false, Heap.putVisibleFunctions, true_and]
    funext s n
    by_cases hsn : s = scope ∧ n = p.name fn
    · simp only [hsn, and_self, if_true]
    · simp only [hsn, if_false]

theorem removeVisibleFunction_visibleFunctions (p : Program) (scope : SymScope) (fn : Symbol)
    (h : Heap) :
    (removeVisibleFunction p scope fn h).visibleFunctions =
      fun s n =>
        if p.visible fn = true ∧ s = scope ∧ n = p.name fn then
          (h.visibleFunctions s n).map
            (List.map (fun entry => if entry = some fn then none else entry))
        else h.visibleFunctions s n := by
  unfold removeVisibleFunction
  cases hv : p.visible fn with
  | false => simp
  | true =>
    simp only [Bool.not_true, Bool.false_eq_true, if_false, true_and]
    cases hfs : h.visibleFunctions scope (p.name fn) with
    | none =>
      funext s n
      by_cases hsn : s = scope ∧ n = p.name fn
      · simp only [hsn, and_self, if_true, hfs, Option.map_none']
      · simp only [hsn, if_false]
    | some fs =>
      simp only [Heap.putVisibleFunctions]
      funext s n
      by_cases hsn : s = scope ∧ n = p.name fn
      · simp only [hsn, and_self, if_true, hfs, Option.map_some']
      · simp only [hsn, if_false]

/-- Clearing the entries for `fn` of a vector without such an entry. -/
theorem clear_entries_fresh (fn : Symbol) (fs : List (Option Symbol))
    (hfresh : some fn ∉ fs) :
    fs.map (fun entry => if entry = some fn then none else entry) = fs := by
  induction fs with
  | nil => rfl
  | cons x rest ih =>
    have hx : x ≠ some fn := fun hx => hfresh (by rw [hx]; exact List.mem_cons_self _ _)
    have hrest : some fn ∉ rest := fun hr => hfresh (List.mem_cons_of_mem _ hr)
    simp only [List.map_cons, hx, if_false, ih hrest]

/-- The visible functions after `define` and `undefine` of a function that is
in the vector of its name neither in the scope nor in the scope of the
program: a visible function has left a null entry at the end of the vector
that it was added to, and nothing else has changed. -/
theorem define_undefine_visibleFunctions (p : Program) (this : SymScope) (fn : Symbol)
    (h h2 : Heap) (hfn : p.isFnSymbol fn = true)
    (hthis : some fn ∉ (h.visibleFunctions this (p.name fn)).getD [])
    (hprogram : some fn ∉ (h.visibleFunctions p.programScope (p.name fn)).getD [])
    (hu : undefine p this fn (define p this fn h) = some h2) :
    h2.visibleFunctions =
      fun s n =>
        if p.visible fn = true ∧ s = (if p.global fn then p.programScope else this) ∧
            n = p.name fn then
          some ((h.visibleFunctions s n).getD [] ++ [none])
        else h.visibleFunctions s n := by
  unfold undefine at hu
  rw [undefine_unlink_visibleFunctions p this fn _ h2 hu]
  unfold undefine.visible
  rw [if_pos hfn, removeVisibleFunction_visibleFunctions,
    removeVisibleFunction_visibleFunctions]
  unfold define
  rw [define_link_visibleFunctions]
  unfold define.visible
  rw [if_pos hfn]
  have hadd : (if p.global fn = true then addVisibleFunction p p.programScope fn h
      else addVisibleFunction p this fn h) =
      addVisibleFunction p (if p.global fn then p.programScope else this) fn h := by
    split_ifs <;> rfl
  rw [hadd, addVisibleFunction_visibleFunctions]
  generalize htarget : (if p.global fn = true then p.programScope else this) = target
  have htgt : target = p.programScope ∨ target = this := by
    rw [← htarget]
    split_ifs
    · exact Or.inl rfl
    · exact Or.inr rfl
  have hfreshT : some fn ∉ (h.visibleFunctions target (p.name fn)).getD [] := by
    rcases htgt with ht | ht <;> rw [ht] <;> assumption
  have hclear : ∀ (scope : SymScope),
      some fn ∉ (h.visibleFunctions scope (p.name fn)).getD [] →
      (h.visibleFunctions scope (p.name fn)).map
        (List.map (fun entry => if entry = some fn then none else entry)) =
        h.visibleFunctions scope (p.name fn) := by
    intro scope hsc
    cases hv : h.visibleFunctions scope (p.name fn) with
    | none => rfl
    | some fs =>
      rw [hv] at hsc
      simp only [Option.map_some', Option.some.injEq]
      exact clear_entries_fresh fn fs hsc
  have hclearT :
      List.map (fun entry => if entry = some fn then none else entry)
        ((h.visibleFunctions target (p.name fn)).getD [] ++ [some fn]) =
      (h.visibleFunctions target (p.name fn)).getD [] ++ [none] := by
    rw [List.map_append, clear_entries_fresh fn _ hfreshT]
    simp
  have hfreshN : some fn ∉ (h.visibleFunctions target (p.name fn)).getD [] ++ [none] := by
    intro hmem
    rcases List.mem_append.mp hmem with hm | hm
    · exact hfreshT hm
    · simp at hm
  funext s n
  cases hv : p.visible fn with
  | false => simp
  | true =>
    simp only [true_and]
    by_cases hn : n = p.name fn
    · subst hn
      simp only [and_true]
      have hfs1 : s = this → some fn ∉ (h.visibleFunctions s (p.name fn)).getD [] := by
        intro hs
        rw [hs]
        exact hthis
      have hfs2 : s = p.programScope →
          some fn ∉ (h.visibleFunctions s (p.name fn)).getD [] := by
        intro hs
        rw [hs]
        exact hprogram
      by_cases hsT : s = target
      · simp only [if_pos hsT]
        rw [hsT]
        by_cases hs1 : target = this <;> by_cases hs2 : target = p.programScope
        · rw [if_pos hs1, if_pos hs2]
          simp only [Option.map_some', hclearT, clear_entries_fresh fn _ hfreshN]
        · rw [if_pos hs1, if_neg hs2]
          simp only [Option.map_some', hclearT]
        · rw [if_neg hs1, if_pos hs2]
          simp only [Option.map_some', hclearT]
        · rcases htgt with ht | ht
          · exact absurd ht hs2
          · exact absurd ht hs1
      · simp only [if_neg hsT]
        by_cases hs1 : s = this <;> by_cases hs2 : s = p.programScope
        · rw [if_pos hs1, if_pos hs2, hclear s (hfs1 hs1), hclear s (hfs1 hs1)]
        · rw [if_pos hs1, if_neg hs2, hclear s (hfs1 hs1)]
        · rw [if_neg hs1, if_pos hs2, hclear s (hfs2 hs2)]
        · rw [if_neg hs1, if_neg hs2]
    · simp [hn]

end Symscope
namespace Symscope

open SymScope

/-! ### The scopes of the symbol table: what the lookups read -/

/-- The functions `lookupLocal` and `lookup` read the tables only: two heaps
with the same tables give the same answers. -/
theorem lookup_congr (p : Program) (h h2 : Heap) (htable : h2.table = h.table)
    (name : String) ( returnModules : Bool) :
    ∀ (depth : Nat),
      (∀ (this : SymScope) (alreadyVisited : Option (List SymScope)),
        lookupLocal p h2 name returnModules depth this alreadyVisited =
          lookupLocal p h name returnModules depth this alreadyVisited) ∧
      (∀ (this : SymScope) (alreadyVisited : Option (List SymScope)),
        lookup p h2 name returnModules depth this alreadyVisited =
          lookup p h name returnModules depth this alreadyVisited) := by
  intro depth
  induction depth with
  | zero =>
    constructor <;> intro this alreadyVisited
    · simp only [lookupLocal]
    · simp only [lookup]
  | succ depth ih =>
    obtain ⟨ihLocal, ihLookup⟩ := ih
    constructor <;> intro this alreadyVisited
    · cases alreadyVisited with
      | none =>
        simp only [lookupLocal]
        exact ihLocal this (some [])
      | some visited => simp only [lookupLocal, htable, ihLocal, ihLookup]
    · cases alreadyVisited with
      | none =>
        simp only [lookup]
        exact ihLookup this (some [])
      | some visited => simp only [lookup, ihLocal, ihLookup]

/-- The function `getVisibleFunctions` reads the vectors of the name only
through `append`: two heaps whose vectors add the same elements give the same
answers. -/
theorem getVisibleFunctions_congr (p : Program) (h h2 : Heap) (name : String)
    (hown : ∀ (scope : SymScope) (all : List (Option Symbol)),
      getVisibleFunctions.own p h2 scope name all = getVisibleFunctions.own p h scope name all) :
    ∀ (depth : Nat) (this : SymScope) (recursed : Bool)
      (st : List SymScope × List (Option Symbol)),
      getVisibleFunctions p h2 name depth this recursed st =
        getVisibleFunctions p h name depth this recursed st := by
  intro depth
  induction depth with
  | zero =>
    intro this recursed st
    simp only [getVisibleFunctions]
  | succ depth ih =>
    intro this recursed st
    obtain ⟨visited0, all⟩ := st
    simp only [getVisibleFunctions, hown, ih]

end Symscope
namespace Symscope

open SymScope

/-! ### The scopes of the symbol table: `getVisibleFunctions` returns -/

/-- Visiting one more scope below `n` leaves fewer scopes below `n` to
visit. -/
theorem unvisited_scopes_cons_lt (n : Nat) (this : SymScope) (visited : List SymScope)
    (hlt : this < n) (hnot : this ∉ visited) :
    ((Finset.range n).filter (fun s => s ∉ this :: visited)).card <
      ((Finset.range n).filter (fun s => s ∉ visited)).card := by
  apply Finset.card_lt_card
  rw [Finset.ssubset_iff_of_subset]
  · refine ⟨this, ?_, ?_⟩
    · simp only [Finset.mem_filter, Finset.mem_range]
      exact ⟨hlt, hnot⟩
    · simp only [Finset.mem_filter, Finset.mem_range, List.mem_cons, true_or, not_true_eq_false,
        and_false, not_false_eq_true]
  · intro s hs
    simp only [Finset.mem_filter, Finset.mem_range, List.mem_cons, not_or] at hs ⊢
    exact ⟨hs.1, hs.2.2⟩

theorem unvisited_scopes_mono (n : Nat) (visited visited1 : List SymScope)
    (hsub : visited ⊆ visited1) :
    ((Finset.range n).filter (fun s => s ∉ visited1)).card ≤
      ((Finset.range n).filter (fun s => s ∉ visited)).card := by
  apply Finset.card_le_card
  intro s hs
  simp only [Finset.mem_filter, Finset.mem_range] at hs ⊢
  exact ⟨hs.1, fun hmem => hs.2 (hsub hmem)⟩

/-- The loop over the used modules returns when each call does, and keeps
what the calls keep. -/
theorem getVisibleFunctions_uses_returns {σ : Type} (visit : SymScope → σ → Option σ)
    (good : σ → Prop) (n : Nat)
    (hvisit : ∀ sc, sc < n → ∀ st, good st → ∃ st1, visit sc st = some st1 ∧ good st1) :
    ∀ (modUses : List SymScope), (∀ m ∈ modUses, m < n) → ∀ st, good st →
      ∃ st1, getVisibleFunctions.uses visit modUses st = some st1 ∧ good st1 := by
  intro modUses
  induction modUses with
  | nil =>
    intro _ st hst
    exact ⟨st, rfl, hst⟩
  | cons m rest ih =>
    intro hlt st hst
    obtain ⟨st1, h1, hg1⟩ := hvisit m (hlt m (List.mem_cons_self _ _)) st hst
    obtain ⟨st2, h2, hg2⟩ := ih (fun x hx => hlt x (List.mem_cons_of_mem _ hx)) st1 hg1
    refine ⟨st2, ?_, hg2⟩
    unfold getVisibleFunctions.uses
    rw [h1]
    exact h2

theorem getVisibleFunctions_on_returns {σ : Type} (visit : SymScope → σ → Option σ)
    (good : σ → Prop) (n : Nat)
    (hvisit : ∀ sc, sc < n → ∀ st, good st → ∃ st1, visit sc st = some st1 ∧ good st1)
    (scope : Option SymScope) (hlt : ∀ sc, scope = some sc → sc < n) (st : σ)
    (hst : good st) :
    ∃ st1, getVisibleFunctions.on visit scope st = some st1 ∧ good st1 := by
  unfold getVisibleFunctions.on
  cases scope with
  | none => exact ⟨st, rfl, hst⟩
  | some sc => exact hvisit sc (hlt sc rfl) st hst

/-- A recursive call of `getVisibleFunctions` on a scope of a program with at
most `n` scopes returns when the bound on the depth of the recursion is
above the number of scopes not yet visited, and the visited scopes are still
visited after it. -/
theorem getVisibleFunctions_returns_recursed (p : Program) (h : Heap) (name : String)
    (n : Nat) (hclosed : p.closedBelow n) :
    ∀ (depth : Nat) (this : SymScope) (st : List SymScope × List (Option Symbol)),
      this < n →
      ((Finset.range n).filter (fun s => s ∉ st.1)).card < depth →
      ∃ st1, getVisibleFunctions p h name depth this true st = some st1 ∧ st.1 ⊆ st1.1 := by
  intro depth
  induction depth with
  | zero =>
    intro this st _ hcard
    exact absurd hcard (Nat.not_lt_zero _)
  | succ depth ih =>
    intro this st hthis hcard
    obtain ⟨visited, all⟩ := st
    obtain ⟨hparent, hpoint, hinit, huses⟩ := hclosed
    simp only [getVisibleFunctions, Bool.not_true, Bool.false_eq_true, if_false]
    by_cases hin : visited.contains this = true
    · rw [if_pos hin]
      exact ⟨_, rfl, List.Subset.refl _⟩
    · rw [if_neg hin]
      have hnot : this ∉ visited := by
        intro hmem
        exact hin (by simpa using hmem)
      have hless := unvisited_scopes_cons_lt n this visited hthis hnot
      have hvisit : ∀ sc, sc < n → ∀ (st : List SymScope × List (Option Symbol)),
          this :: visited ⊆ st.1 →
          ∃ st1, getVisibleFunctions p h name depth sc true st = some st1 ∧
            this :: visited ⊆ st1.1 := by
        intro sc hsc st hst
        have hle := unvisited_scopes_mono n (this :: visited) st.1 hst
        obtain ⟨st1, h1, hsub⟩ := ih sc st hsc (by simp only at hcard; omega)
        exact ⟨st1, h1, List.Subset.trans hst hsub⟩
      have h1 : ∃ st1, (match p.moduleUses this with
          | some modUses =>
            getVisibleFunctions.uses
              (fun module st1 => getVisibleFunctions p h name depth module true st1) modUses
              (this :: visited, getVisibleFunctions.own p h this name all)
          | none => some (this :: visited, getVisibleFunctions.own p h this name all)) =
            some st1 ∧ this :: visited ⊆ st1.1 := by
        cases hu : p.moduleUses this with
        | none => exact ⟨_, rfl, List.Subset.refl _⟩
        | some modUses =>
          exact getVisibleFunctions_uses_returns
            (fun module st1 => getVisibleFunctions p h name depth module true st1)
            (fun (st : List SymScope × List (Option Symbol)) => this :: visited ⊆ st.1) n
            hvisit modUses (huses this hthis modUses hu) _ (List.Subset.refl _)
      obtain ⟨st1, he1, hg1⟩ := h1
      obtain ⟨st2, he2, hg2⟩ := getVisibleFunctions_on_returns
        (fun scope st1 => getVisibleFunctions p h name depth scope true st1)
        (fun (st : List SymScope × List (Option Symbol)) => this :: visited ⊆ st.1) n hvisit (p.visiblePointScope this)
        (hpoint this hthis) st1 hg1
      obtain ⟨st3, he3, hg3⟩ := getVisibleFunctions_on_returns
        (fun scope st1 => getVisibleFunctions p h name depth scope true st1)
        (fun (st : List SymScope × List (Option Symbol)) => this :: visited ⊆ st.1) n hvisit (p.moduleInitScope this)
        (hinit this hthis) st2 hg2
      obtain ⟨st4, he4, hg4⟩ := getVisibleFunctions_on_returns
        (fun scope st1 => getVisibleFunctions p h name depth scope true st1)
        (fun (st : List SymScope × List (Option Symbol)) => this :: visited ⊆ st.1) n hvisit (p.parent this)
        (hparent this hthis) st3 hg3
      refine ⟨st4, ?_, fun x hx => hg4 (List.mem_cons_of_mem _ hx)⟩
      rw [he1, Option.some_bind, he2, Option.some_bind, he3, Option.some_bind, he4]

/-- A call of `getVisibleFunctions` from outside on a scope of a program with
at most `n` scopes returns when the bound on the depth of the recursion is
above `n`. -/
theorem scope_getVisibleFunctions_returns (p : Program) (h : Heap) (name : String)
    (n : Nat) (hclosed : p.closedBelow n) (depth : Nat) (hdepth : n < depth)
    (this : SymScope) (hthis : this < n) (st : List SymScope × List (Option Symbol)) :
    ∃ st1, getVisibleFunctions p h name depth this false st = some st1 := by
  have hsame : getVisibleFunctions p h name depth this false st =
      getVisibleFunctions p h name depth this true ([], st.2) := by
    cases depth with
    | zero => simp only [getVisibleFunctions]
    | succ d =>
      obtain ⟨visited, all⟩ := st
      simp only [getVisibleFunctions, Bool.not_false, if_true, Bool.not_true,
        Bool.false_eq_true, if_false]
  rw [hsame]
  obtain ⟨st1, h1, _⟩ := getVisibleFunctions_returns_recursed p h name n hclosed depth this
    ([], st.2) hthis (by
      simp only [List.not_mem_nil, not_false_eq_true, Finset.filter_True, Finset.card_range]
      exact hdepth)
  exact ⟨st1, h1⟩

end Symscope
namespace Symscope

open SymScope

/-! ### The scopes of the symbol table: the lookups return -/

/-- The loop of `lookupLocal` over the used modules returns when each call
does, with the visited scopes still visited. -/
theorem lookupLocal_uses_returns (p : Program) ( returnModules : Bool)
    (visit : SymScope → List SymScope → Option (Option Symbol × List SymScope))
    (n : Nat) (base : List SymScope)
    (hvisit : ∀ sc, sc < n → ∀ visited, base ⊆ visited →
      ∃ r, visit sc visited = some r ∧ base ⊆ r.2) :
    ∀ (modUses : List SymScope), (∀ m ∈ modUses, m < n) → ∀ visited, base ⊆ visited →
      ∃ r, lookupLocal.uses p returnModules visit modUses visited = some r ∧ base ⊆ r.2 := by
  intro modUses
  induction modUses with
  | nil =>
    intro _ visited hv
    exact ⟨(none, visited), rfl, hv⟩
  | cons m rest ih =>
    intro hlt visited hv
    obtain ⟨⟨sym, visited1⟩, h1, hg1⟩ := hvisit m (hlt m (List.mem_cons_self _ _)) visited hv
    unfold lookupLocal.uses
    rw [h1]
    simp only
    split_ifs
    · exact ⟨_, rfl, hg1⟩
    · exact ih (fun x hx => hlt x (List.mem_cons_of_mem _ hx)) visited1 hg1

/-- The functions `lookupLocal` and `lookup` return on the scopes of a forest
of at most `n` scopes when the bound on the depth of the recursion is large
enough for the scopes not yet visited, and the visited scopes are still
visited after the call. -/
theorem lookup_returns_visited (p : Program) (h : Heap) (name : String)
    ( returnModules : Bool) (n maxRank : Nat) (rank : SymScope → Nat)
    (hranked : p.rankedBelow n maxRank rank) :
    ∀ (depth : Nat),
      (∀ (this : SymScope) (visited : List SymScope), this < n →
        ((Finset.range n).filter (fun s => s ∉ visited)).card * (maxRank + 2) + 1 ≤ depth →
        ∃ r, lookupLocal p h name returnModules depth this (some visited) = some r ∧
          visited ⊆ r.2) ∧
      (∀ (this : SymScope) (visited : List SymScope), this < n →
        ((Finset.range n).filter (fun s => s ∉ visited)).card * (maxRank + 2) + rank this + 2 ≤
          depth →
        ∃ r, lookup p h name returnModules depth this (some visited) = some r ∧
          visited ⊆ r.2) := by
  obtain ⟨⟨hparent, _, hinit, huses⟩, hstruct, houter, hmax, hrankParent, hrankOuter⟩ := hranked
  intro depth
  induction depth with
  | zero =>
    constructor
    · intro this visited _ hd
      omega
    · intro this visited _ hd
      omega
  | succ depth ih =>
    obtain ⟨ihLocal, ihLookup⟩ := ih
    constructor
    · intro this visited hthis hd
      simp only [lookupLocal]
      by_cases hin : visited.contains this = true
      · rw [if_pos hin]
        exact ⟨_, rfl, List.Subset.refl _⟩
      · rw [if_neg hin]
        have hnot : this ∉ visited := fun hmem => hin (by simpa using hmem)
        have hless := unvisited_scopes_cons_lt n this visited hthis hnot
        have hbudget : (((Finset.range n).filter (fun s => s ∉ this :: visited)).card + 1) *
            (maxRank + 2) + 1 ≤ depth + 1 := by
          have : ((Finset.range n).filter (fun s => s ∉ this :: visited)).card + 1 ≤
              ((Finset.range n).filter (fun s => s ∉ visited)).card := hless
          have := Nat.mul_le_mul_right (maxRank + 2) this
          omega
        have hsub0 : visited ⊆ this :: visited := fun x hx => List.mem_cons_of_mem _ hx
        have hlocal : ∀ sc, sc < n → ∀ v, this :: visited ⊆ v →
            ∃ r, lookupLocal p h name returnModules depth sc (some v) = some r ∧
              this :: visited ⊆ r.2 := by
          intro sc hsc v hv
          have hle := unvisited_scopes_mono n (this :: visited) v hv
          have := Nat.mul_le_mul_right (maxRank + 2) hle
          obtain ⟨r, hr, hsub⟩ := ihLocal sc v hsc (by
            rw [Nat.add_mul] at hbudget
            omega)
          exact ⟨r, hr, List.Subset.trans hv hsub⟩
        have hlook : ∀ sc, sc < n → ∀ v, this :: visited ⊆ v →
            ∃ r, lookup p h name returnModules depth sc (some v) = some r ∧
              this :: visited ⊆ r.2 := by
          intro sc hsc v hv
          have hle := unvisited_scopes_mono n (this :: visited) v hv
          have := Nat.mul_le_mul_right (maxRank + 2) hle
          have hr1 := hmax sc hsc
          obtain ⟨r, hr, hsub⟩ := ihLookup sc v hsc (by
            rw [Nat.add_mul] at hbudget
            omega)
          exact ⟨r, hr, List.Subset.trans hv hsub⟩
        by_cases hfound : lookup.found p returnModules (h.table this name) = true
        · rw [if_pos hfound]
          exact ⟨_, rfl, hsub0⟩
        · rw [if_neg hfound]
          have hstep : ∃ r, (match p.moduleInitScope this with
              | some initScope =>
                lookupLocal p h name returnModules depth initScope (some (this :: visited))
              | none => some (none, this :: visited)) = some r ∧ this :: visited ⊆ r.2 := by
            cases hi : p.moduleInitScope this with
            | none => exact ⟨_, rfl, List.Subset.refl _⟩
            | some initScope =>
              exact hlocal initScope (hinit this hthis initScope hi) _ (List.Subset.refl _)
          obtain ⟨⟨sym1, visited1⟩, he1, hg1⟩ := hstep
          rw [he1]
          simp only
          by_cases hfound1 : lookup.found p returnModules sym1 = true
          · rw [if_pos hfound1]
            exact ⟨_, rfl, List.Subset.trans hsub0 hg1⟩
          · rw [if_neg hfound1]
            cases hu : p.moduleUses this with
            | none => exact ⟨_, rfl, List.Subset.trans hsub0 hg1⟩
            | some modUses =>
              simp only
              obtain ⟨r, hr, hsub⟩ := lookupLocal_uses_returns p returnModules
                (fun module visited2 =>
                  lookup p h name returnModules depth module (some visited2))
                n (this :: visited) hlook modUses (huses this hthis modUses hu) visited1 hg1
              exact ⟨r, hr, List.Subset.trans hsub0 hsub⟩
    · intro this visited hthis hd
      simp only [lookup]
      have hlocal : ∀ sc, sc < n → ∀ v, visited ⊆ v →
          ∃ r, lookupLocal p h name returnModules depth sc (some v) = some r ∧
            visited ⊆ r.2 := by
        intro sc hsc v hv
        have hle := unvisited_scopes_mono n visited v hv
        have := Nat.mul_le_mul_right (maxRank + 2) hle
        obtain ⟨r, hr, hsub⟩ := ihLocal sc v hsc (by omega)
        exact ⟨r, hr, List.Subset.trans hv hsub⟩
      have hlook : ∀ sc, sc < n → rank sc < rank this → ∀ v, visited ⊆ v →
          ∃ r, lookup p h name returnModules depth sc (some v) = some r ∧
            visited ⊆ r.2 := by
        intro sc hsc hrk v hv
        have hle := unvisited_scopes_mono n visited v hv
        have := Nat.mul_le_mul_right (maxRank + 2) hle
        obtain ⟨r, hr, hsub⟩ := ihLookup sc v hsc (by omega)
        exact ⟨r, hr, List.Subset.trans hv hsub⟩
      obtain ⟨⟨sym, visited1⟩, he1, hg1⟩ := hlocal this hthis visited (List.Subset.refl _)
      rw [he1]
      simp only
      by_cases hfound : lookup.found p returnModules sym = true
      · rw [if_pos hfound]
        exact ⟨_, rfl, hg1⟩
      · rw [if_neg hfound]
        have hparentStep : ∀ v, visited ⊆ v →
            ∃ r, (match p.parent this with
              | some parent => lookup p h name returnModules depth parent (some v)
              | none => some (none, v)) = some r ∧ visited ⊆ r.2 := by
          intro v hv
          cases hp : p.parent this with
          | none => exact ⟨_, rfl, hv⟩
          | some parent =>
            exact hlook parent (hparent this hthis parent hp)
              (hrankParent this hthis parent hp) v hv
        cases hs : p.thisStructScope this with
        | none =>
          simp only
          exact hparentStep visited1 hg1
        | some structScope =>
          simp only
          obtain ⟨⟨sym1, visited2⟩, he2, hg2⟩ :=
            hlocal structScope (hstruct this hthis structScope hs) visited1 hg1
          rw [he2]
          simp only
          by_cases hfound1 : lookup.found p returnModules sym1 = true
          · rw [if_pos hfound1]
            exact ⟨_, rfl, hg2⟩
          · rw [if_neg hfound1]
            cases ho : p.outerStructScope this with
            | none =>
              simp only
              exact hparentStep visited2 hg2
            | some outerScope =>
              simp only
              obtain ⟨⟨sym2, visited3⟩, he3, hg3⟩ :=
                hlook outerScope (houter this hthis outerScope ho)
                  (hrankOuter this hthis outerScope ho) visited2 hg2
              rw [he3]
              simp only
              cases hfound2 : lookup.found p returnModules sym2 with
              | true => exact ⟨_, rfl, hg3⟩
              | false =>
                simp only
                exact hparentStep visited3 hg3

end Symscope
namespace Symscope

open SymScope

/-! ### The claim about the scopes of the symbol table -/

/-- With an `append` that adds the elements that are not null, a vector and
the vector with a null entry more at its end add the same elements. -/
theorem own_after_round_trip (p : Program) (h h2 : Heap) (target : SymScope) (fn : Symbol)
    (happend : ∀ all fs, p.append all fs = all ++ fs.filter (fun entry => entry.isSome))
    (hvf : h2.visibleFunctions =
      fun s n =>
        if p.visible fn = true ∧ s = target ∧ n = p.name fn then
          some ((h.visibleFunctions s n).getD [] ++ [none])
        else h.visibleFunctions s n)
    (name : String) (scope : SymScope) (all : List (Option Symbol)) :
    getVisibleFunctions.own p h2 scope name all = getVisibleFunctions.own p h scope name all := by
  unfold getVisibleFunctions.own
  rw [hvf]
  simp only
  split_ifs
  · cases h.visibleFunctions scope name with
    | none => simp [happend]
    | some fs => simp [happend]
  · rfl

/-- C39: for every heap and every function `fn` that is not the entry of its
name in the table of the scope `this` and is in the vector of its name
neither in `this` nor in the scope of the program, and for a `Vec::append`
that adds the elements that are not null: `undefine(fn)` after `define(fn)`
returns, the tables of all scopes are as before, so that `lookupLocal` and
`lookup` answer as before on every scope and name; the vector that `fn` was
added to has a null entry more at its end and no vector holds `fn`, so that
`getVisibleFunctions` collects the same list as before on every scope and
name.  On a forest of at most `n` scopes the calls of `lookupLocal` and of
`getVisibleFunctions` return, with the same answers before and after. -/
theorem define_undefine_round_trip (p : Program) (h : Heap) (this : SymScope) (fn : Symbol)
    (hfn : p.isFnSymbol fn = true)
    (htable : h.table this (p.name fn) ≠ some fn)
    (hthis : some fn ∉ (h.visibleFunctions this (p.name fn)).getD [])
    (hprogram : some fn ∉ (h.visibleFunctions p.programScope (p.name fn)).getD [])
    (happend : ∀ all fs, p.append all fs = all ++ fs.filter (fun entry => entry.isSome)) :
    ∃ h2, undefine p this fn (define p this fn h) = some h2 ∧
      h2.table = h.table ∧
      (∀ (name : String) ( returnModules : Bool) (depth : Nat) (scope : SymScope)
        (alreadyVisited : Option (List SymScope)),
        lookupLocal p h2 name returnModules depth scope alreadyVisited =
          lookupLocal p h name returnModules depth scope alreadyVisited ∧
        lookup p h2 name returnModules depth scope alreadyVisited =
          lookup p h name returnModules depth scope alreadyVisited) ∧
      (h2.visibleFunctions =
        fun s n =>
          if p.visible fn = true ∧ s = (if p.global fn then p.programScope else this) ∧
              n = p.name fn then
            some ((h.visibleFunctions s n).getD [] ++ [none])
          else h.visibleFunctions s n) ∧
      some fn ∉ (h2.visibleFunctions this (p.name fn)).getD [] ∧
      some fn ∉ (h2.visibleFunctions p.programScope (p.name fn)).getD [] ∧
      (∀ (name : String) (depth : Nat) (scope : SymScope) (recursed : Bool)
        (st : List SymScope × List (Option Symbol)),
        getVisibleFunctions p h2 name depth scope recursed st =
          getVisibleFunctions p h name depth scope recursed st) ∧
      (∀ (n maxRank : Nat) (rank : SymScope → Nat), p.rankedBelow n maxRank rank →
        ∀ (scope : SymScope), scope < n → ∀ (name : String) ( returnModules : Bool),
        ∃ sym visited,
          lookupLocal p h name returnModules (n * (maxRank + 2) + 2) scope none =
            some (sym, visited) ∧
          lookupLocal p h2 name returnModules (n * (maxRank + 2) + 2) scope none =
            some (sym, visited)) ∧
      (∀ (n : Nat), p.closedBelow n → ∀ (scope : SymScope), scope < n →
        ∀ (name : String) (st : List SymScope × List (Option Symbol)),
        ∃ visited all,
          getVisibleFunctions p h name (n + 1) scope false st = some (visited, all) ∧
          getVisibleFunctions p h2 name (n + 1) scope false st = some (visited, all)) := by
  obtain ⟨h2, hu, ht⟩ := define_undefine_table p this fn h htable
  have hvf := define_undefine_visibleFunctions p this fn h h2 hfn hthis hprogram hu
  have hlookup : ∀ (name : String) ( returnModules : Bool) (depth : Nat) (scope : SymScope)
      (alreadyVisited : Option (List SymScope)),
      lookupLocal p h2 name returnModules depth scope alreadyVisited =
        lookupLocal p h name returnModules depth scope alreadyVisited ∧
      lookup p h2 name returnModules depth scope alreadyVisited =
        lookup p h name returnModules depth scope alreadyVisited := by
    intro name returnModules depth scope alreadyVisited
    have hc := lookup_congr p h h2 ht name returnModules depth
    exact ⟨hc.1 scope alreadyVisited, hc.2 scope alreadyVisited⟩
  have hcollect : ∀ (name : String) (depth : Nat) (scope : SymScope) (recursed : Bool)
      (st : List SymScope × List (Option Symbol)),
      getVisibleFunctions p h2 name depth scope recursed st =
        getVisibleFunctions p h name depth scope recursed st := by
    intro name
    exact getVisibleFunctions_congr p h h2 name
      (own_after_round_trip p h h2 _ fn happend hvf name)
  have hgone : ∀ (scope : SymScope),
      some fn ∉ (h.visibleFunctions scope (p.name fn)).getD [] →
      some fn ∉ (h2.visibleFunctions scope (p.name fn)).getD [] := by
    intro scope hsc
    rw [hvf]
    simp only
    by_cases hc : p.visible fn = true ∧
        scope = (if p.global fn = true then p.programScope else this) ∧ True
    · rw [if_pos hc]
      intro hmem
      rcases List.mem_append.mp hmem with hm | hm
      · exact hsc hm
      · simp at hm
    · rw [if_neg hc]
      exact hsc
  refine ⟨h2, hu, ht, hlookup, hvf, hgone this hthis, hgone p.programScope hprogram, hcollect,
    ?_, ?_⟩
  · intro n maxRank rank hranked scope hscope name returnModules
    obtain ⟨⟨sym, visited⟩, hr, _⟩ :=
      (lookup_returns_visited p h name returnModules n maxRank rank hranked
        (n * (maxRank + 2) + 1)).1 scope [] hscope (by
          simp only [List.not_mem_nil, not_false_eq_true, Finset.filter_True,
            Finset.card_range]
          exact Nat.le_refl _)
    have hnone : lookupLocal p h name returnModules (n * (maxRank + 2) + 2) scope none =
        some (sym, visited) := by
      rw [lookupLocal]
      exact hr
    exact ⟨sym, visited, hnone, by rw [(hlookup name returnModules _ scope none).1, hnone]⟩
  · intro n hclosed scope hscope name st
    obtain ⟨⟨visited, all⟩, hr⟩ :=
      scope_getVisibleFunctions_returns p h name n hclosed (n + 1) (Nat.lt_succ_self n) scope hscope st
    exact ⟨visited, all, hr, by rw [hcollect, hr]⟩

end Symscope
namespace Symscope

open SymScope

/-- The sample program is a forest of five scopes. -/
theorem sample_program_ranked : Sample.program.rankedBelow 5 2 Sample.rank := by
  have hparent : ∀ s, s < 5 → ∀ s1 ∈ Sample.program.parent s,
      s1 < 5 ∧ Sample.rank s1 < Sample.rank s := by decide
  have hpoint : ∀ s, s < 5 → ∀ s1 ∈ Sample.program.visiblePointScope s, s1 < 5 := by decide
  have hinit : ∀ s, s < 5 → ∀ s1 ∈ Sample.program.moduleInitScope s, s1 < 5 := by decide
  have huses : ∀ s, s < 5 → ∀ modUses ∈ Sample.program.moduleUses s, ∀ m ∈ modUses, m < 5 := by
    decide
  have hstruct : ∀ s, s < 5 → ∀ s1 ∈ Sample.program.thisStructScope s, s1 < 5 := by decide
  have houter : ∀ s, s < 5 → ∀ s1 ∈ Sample.program.outerStructScope s,
      s1 < 5 ∧ Sample.rank s1 < Sample.rank s := by decide
  have hrank : ∀ s, s < 5 → Sample.rank s ≤ 2 := by decide
  exact ⟨⟨fun s hs s1 h1 => (hparent s hs s1 h1).1, fun s hs s1 h1 => hpoint s hs s1 h1,
      fun s hs s1 h1 => hinit s hs s1 h1, fun s hs modUses h1 => huses s hs modUses h1⟩,
    fun s hs s1 h1 => hstruct s hs s1 h1, fun s hs s1 h1 => (houter s hs s1 h1).1, hrank,
    fun s hs s1 h1 => (hparent s hs s1 h1).2, fun s hs s1 h1 => (houter s hs s1 h1).2⟩

/-- The function 12, named `f`, is defined in the block of the module `M` of
the sample program, where the function 10 of that name is defined already,
and undefined again: the tables and the answers of `lookupLocal` are as
before, the vector of `f` in that block has a null entry more, and
`getVisibleFunctions` collects the functions 10, 15 and 11 before and after.
With an `append` that adds every element the list after has a null entry. -/
theorem define_undefine_round_trip_witness :
    (Sample.program.isFnSymbol 12 = true ∧
      Sample.heap.table 1 (Sample.program.name 12) ≠ some 12 ∧
      some 12 ∉ (Sample.heap.visibleFunctions 1 (Sample.program.name 12)).getD [] ∧
      some 12 ∉
        (Sample.heap.visibleFunctions Sample.program.programScope
          (Sample.program.name 12)).getD [] ∧
      Sample.program.rankedBelow 5 2 Sample.rank) ∧
    (collected (getVisibleFunctions Sample.program Sample.heap "f" 6 1 false ([], [])) =
        some [some 10, some 15, some 11] ∧
      collected ((roundTrip Sample.program 1 12 Sample.heap).bind
        (fun h2 => getVisibleFunctions Sample.program h2 "f" 6 1 false ([], []))) =
        some [some 10, some 15, some 11] ∧
      collected (getVisibleFunctions Sample.program (define Sample.program 1 12 Sample.heap)
        "f" 6 1 false ([], [])) = some [some 10, some 12, some 15, some 11] ∧
      lookedUp (lookupLocal Sample.program Sample.heap "f" false 22 1 none) =
        some (some 10) ∧
      lookedUp ((roundTrip Sample.program 1 12 Sample.heap).bind
        (fun h2 => lookupLocal Sample.program h2 "f" false 22 1 none)) = some (some 10) ∧
      (roundTrip Sample.program 1 12 Sample.heap).map
        (fun h2 => (h2.visibleFunctions 1 "f", h2.visibleFunctions 0 "f")) =
        some (some [some 10, none], some [some 11]) ∧
      (roundTrip Sample.program 1 13 Sample.heap).map
        (fun h2 => (h2.visibleFunctions 1 "f", h2.visibleFunctions 0 "f")) =
        some (some [some 10], some [some 11, none]) ∧
      collected (getVisibleFunctions (Sample.programWith Sample.appendAll) Sample.heap "f" 6
        1 false ([], [])) = some [some 10, some 15, some 11] ∧
      collected ((roundTrip (Sample.programWith Sample.appendAll) 1 12 Sample.heap).bind
        (fun h2 =>
          getVisibleFunctions (Sample.programWith Sample.appendAll) h2 "f" 6 1 false
            ([], []))) = some [some 10, none, some 15, some 11]) ∧
    (∃ h2, undefine Sample.program 1 12 (define Sample.program 1 12 Sample.heap) = some h2 ∧
      h2.table = Sample.heap.table ∧
      (∀ (name : String) ( returnModules : Bool) (depth : Nat) (scope : SymScope)
        (alreadyVisited : Option (List SymScope)),
        lookupLocal Sample.program h2 name returnModules depth scope alreadyVisited =
          lookupLocal Sample.program Sample.heap name returnModules depth scope
            alreadyVisited ∧
        lookup Sample.program h2 name returnModules depth scope alreadyVisited =
          lookup Sample.program Sample.heap name returnModules depth scope alreadyVisited) ∧
      (h2.visibleFunctions =
        fun s n =>
          if Sample.program.visible 12 = true ∧
              s = (if Sample.program.global 12 then Sample.program.programScope else 1) ∧
              n = Sample.program.name 12 then
            some ((Sample.heap.visibleFunctions s n).getD [] ++ [none])
          else Sample.heap.visibleFunctions s n) ∧
      some 12 ∉ (h2.visibleFunctions 1 (Sample.program.name 12)).getD [] ∧
      some 12 ∉
        (h2.visibleFunctions Sample.program.programScope (Sample.program.name 12)).getD [] ∧
      (∀ (name : String) (depth : Nat) (scope : SymScope) (recursed : Bool)
        (st : List SymScope × List (Option Symbol)),
        getVisibleFunctions Sample.program h2 name depth scope recursed st =
          getVisibleFunctions Sample.program Sample.heap name depth scope recursed st) ∧
      (∀ (n maxRank : Nat) (rank : SymScope → Nat),
        Sample.program.rankedBelow n maxRank rank →
        ∀ (scope : SymScope), scope < n → ∀ (name : String) ( returnModules : Bool),
        ∃ sym visited,
          lookupLocal Sample.program Sample.heap name returnModules (n * (maxRank + 2) + 2)
            scope none = some (sym, visited) ∧
          lookupLocal Sample.program h2 name returnModules (n * (maxRank + 2) + 2) scope
            none = some (sym, visited)) ∧
      (∀ (n : Nat), Sample.program.closedBelow n → ∀ (scope : SymScope), scope < n →
        ∀ (name : String) (st : List SymScope × List (Option Symbol)),
        ∃ visited all,
          getVisibleFunctions Sample.program Sample.heap name (n + 1) scope false st =
            some (visited, all) ∧
          getVisibleFunctions Sample.program h2 name (n + 1) scope false st =
            some (visited, all))) :=
  ⟨⟨by decide, by decide, by decide, by decide, sample_program_ranked⟩,
    ⟨by decide, by decide, by decide, by decide, by decide, by decide, by decide, by decide,
      by decide⟩,
    define_undefine_round_trip Sample.program Sample.heap 1 12 (by decide) (by decide)
      (by decide) (by decide) (fun _ _ => rfl)⟩

end Symscope

end Chpl
